import Mathlib

/-!
# quickfind: the in-memory index, the change journal coalescer and the query engine

A shallow embedding of `quickfind_server.c` and `quickfind_ntfs.c`.

Conventions of the embedding.

* Memory is a total function from offsets to values.  `array.elems i` for
  `i < count_allocated` is the content of the heap block; for larger `i` it is
  whatever lies behind the block.  No definition gives the bytes behind a block
  a meaning; statements that read them quantify over all of them.
* `usize`/`u64` quantities are natural numbers.  Where the source narrows a
  value (the `u32` lookup entries, the `u32` tombstone counter, the 32-bit SIMD
  masks) the reduction modulo `2^32` is written out.
* `assert` is the C `assert` of `<assert.h>`; the embedding follows the code
  behind it (the release build), so an `assert(false); return null;` is the
  `return null`.
* A function that can fail returns an `Option`/a flag as the source does.  A
  loop that may not end returns `none` for "does not return".
-/

namespace quickfind

/-! ## Scalars and records (`quickfind_server.h`) -/

/-- `FILE_ATTRIBUTE_NOT_IN_USE (1 << 31)`. -/
def FILE_ATTRIBUTE_NOT_IN_USE : Nat := 2 ^ 31

/-- `FILE_ATTRIBUTE_DIRECTORY` of `winnt.h`. -/
def FILE_ATTRIBUTE_DIRECTORY : Nat := 0x10

/-- The bit-field `record_number : 48` of `record_id`: the low 48 bits of `id64`. -/
def record_number (id64 : Nat) : Nat := id64 % 2 ^ 48

/-- The bit-field `sequence_number : 16` of `record_id`: the high 16 bits of `id64`. -/
def sequence_number (id64 : Nat) : Nat := id64 / 2 ^ 48 % 2 ^ 16

/-- `struct record`; `id` and `parent_id` are the `id64` view of `record_id`. -/
structure record where
  name_offset : Nat
  attributes : Nat
  id : Nat
  parent_id : Nat
deriving DecidableEq, Repr

instance : Inhabited record := ⟨⟨0, 0, 0, 0⟩⟩

/-- `sizeof(record)`: 8 + 4 (+ 4 padding) + 8 + 8. -/
def sizeof_record : Nat := 32

/-- `struct array` (`ARRAY_MEMBERS`): `elems` is the memory at the block. -/
structure array (α : Type) where
  elems : Nat → α
  count : Nat
  count_allocated : Nat
  elem_size : Nat

/-- `struct db`. -/
structure db where
  name_buffer : array Nat
  record_array : array record
  lookup_array : array Nat
  latest_usn : Nat
  latest_journal_id : Nat
  records_not_in_use_count : Nat

/-- `enum change_type`. -/
inductive change_type where
  | CHANGE_TYPE_INSERT
  | CHANGE_TYPE_UPDATE
  | CHANGE_TYPE_DELETE
deriving DecidableEq, Repr

open change_type

/-- `struct change`; `wname` holds the `wname_length` UTF-16 code units.  The
`next`/`prev` links are the order of the list the change sits in. -/
structure change where
  usn : Nat
  type : change_type
  id : Nat
  parent_id : Nat
  wname : List Nat
  attributes : Nat
  ignore : Bool
deriving DecidableEq, Repr

/-! ## Dynamic array -/

/-- `array_void_create`, with the zero-initialised block of `HEAP_ZERO_MEMORY`
(every caller passes `init_to_zero = true`).  The allocation itself is taken to
succeed: the source does not check it. -/
def array_void_create {α : Type} [Inhabited α] (elem_size initial_capacity : Nat) : array α :=
  { elems := fun _ => default
    count := 0
    count_allocated := initial_capacity
    elem_size := elem_size }

/-- `array_void_create_size`. -/
def array_void_create_size {α : Type} [Inhabited α] (elem_size initial_size : Nat) : array α :=
  array_void_create elem_size (initial_size / elem_size)

/-- The loop `while (new_count_allocated < reserve_count) new_count_allocated *= 2;`
of `array_void_reserve`.  The first argument bounds the number of rounds; for a
positive start value `reserve_count` rounds are more than the loop takes
(`array_void_reserve_loop_ge`). -/
def array_void_reserve_loop : Nat → Nat → Nat → Nat
  | 0, new_count_allocated, _ => new_count_allocated
  | rounds + 1, new_count_allocated, reserve_count =>
    if new_count_allocated < reserve_count then
      array_void_reserve_loop rounds (new_count_allocated * 2) reserve_count
    else new_count_allocated

/-- `array_void_reserve`.  `heap size` tells whether `HeapReAlloc` honours a
request of `size` bytes.  The result is `none` when the doubling loop does not
end (`count_allocated = 0`, which the `assert` rules out), otherwise the flag
the source returns and the array.  With `init_to_zero` the added part of the
block is zeroed (`HEAP_ZERO_MEMORY`). -/
def array_void_reserve {α : Type} [Inhabited α] (heap : Nat → Bool) (a : array α)
    (elem_size reserve_count : Nat) (init_to_zero : Bool) : Option (Bool × array α) :=
  if a.count_allocated < reserve_count then
    if a.count_allocated = 0 then none
    else
      let new_count_allocated :=
        array_void_reserve_loop reserve_count a.count_allocated reserve_count
      if heap (new_count_allocated * elem_size) then
        some (true,
          { a with
            elems := fun i =>
              if init_to_zero ∧ a.count_allocated ≤ i ∧ i < new_count_allocated then default
              else a.elems i
            count_allocated := new_count_allocated })
      else some (false, a)
  else some (true, a)

/-- `array_void_push_count`: the offset (in elements) of the pushed range, or
`none` for the null pointer. -/
def array_void_push_count {α : Type} [Inhabited α] (heap : Nat → Bool) (a : array α)
    (elem_size push_count : Nat) (init_to_zero : Bool) : Option (Option Nat × array α) :=
  match array_void_reserve heap a elem_size (a.count + push_count) init_to_zero with
  | none => none
  | some (true, a1) => some (some a1.count, { a1 with count := a1.count + push_count })
  | some (false, a1) => some (none, a1)

/-- `array_void_push`. -/
def array_void_push {α : Type} [Inhabited α] (heap : Nat → Bool) (a : array α)
    (elem_size : Nat) (init_to_zero : Bool) : Option (Option Nat × array α) :=
  array_void_push_count heap a elem_size 1 init_to_zero

/-! ## UTF-16 to UTF-8 (`WideCharToMultiByte`) -/

/-- UTF-8 bytes of one code point. -/
def utf8_encode (cp : Nat) : List Nat :=
  if cp < 0x80 then [cp]
  else if cp < 0x800 then [0xC0 + cp / 64, 0x80 + cp % 64]
  else if cp < 0x10000 then [0xE0 + cp / 4096, 0x80 + cp / 64 % 64, 0x80 + cp % 64]
  else [0xF0 + cp / 262144, 0x80 + cp / 4096 % 64, 0x80 + cp / 64 % 64, 0x80 + cp % 64]

/-- UTF-8 form of a sequence of UTF-16 code units: a surrogate pair is one code
point, a lone surrogate becomes U+FFFD. -/
def utf16_to_utf8 : List Nat → List Nat
  | [] => []
  | [u] => if 0xD800 ≤ u ∧ u < 0xE000 then utf8_encode 0xFFFD else utf8_encode u
  | u :: v :: rest =>
    if 0xD800 ≤ u ∧ u < 0xDC00 ∧ 0xDC00 ≤ v ∧ v < 0xE000 then
      utf8_encode (0x10000 + (u - 0xD800) * 1024 + (v - 0xDC00)) ++ utf16_to_utf8 rest
    else if 0xD800 ≤ u ∧ u < 0xE000 then utf8_encode 0xFFFD ++ utf16_to_utf8 (v :: rest)
    else utf8_encode u ++ utf16_to_utf8 (v :: rest)

/-- The Win32 call `WideCharToMultiByte(CP_UTF8, 0, wstring, wstring_len, buffer,
cbMultiByte, null, null)` as documented: it fails (returns 0) for
`wstring_len = 0` and for a buffer that is too small, returns the required size
and writes nothing for `cbMultiByte = 0`, and otherwise writes the bytes and
returns their number.  The result is (bytes written, return value). -/
def WideCharToMultiByte (wstring : List Nat) (cbMultiByte : Nat) : List Nat × Nat :=
  if wstring.length = 0 then ([], 0)
  else if cbMultiByte = 0 then ([], (utf16_to_utf8 wstring).length)
  else if (utf16_to_utf8 wstring).length ≤ cbMultiByte then
    (utf16_to_utf8 wstring, (utf16_to_utf8 wstring).length)
  else ([], 0)

/-- `length_of_utf16_as_utf8`. -/
def length_of_utf16_as_utf8 (wstring : List Nat) : Nat :=
  (WideCharToMultiByte wstring 0).2

/-- `convert_utf16_to_utf8`: the bytes written to `utf8_buffer` and the flag. -/
def convert_utf16_to_utf8 (wstring : List Nat) (utf8_buffer_size : Nat) : List Nat × Bool :=
  ((WideCharToMultiByte wstring utf8_buffer_size).1,
   decide ((WideCharToMultiByte wstring utf8_buffer_size).2 > 0))

/-- Memory after storing `bytes` at offset `off`. -/
def write_bytes (elems : Nat → Nat) (off : Nat) (bytes : List Nat) : Nat → Nat :=
  fun i => if off ≤ i ∧ i < off + bytes.length then bytes.getD (i - off) 0 else elems i

/-- Memory after storing `v` at index `k`. -/
def write_at {α : Type} (elems : Nat → α) (k : Nat) (v : α) : Nat → α :=
  fun i => if i = k then v else elems i

/-! ## Database -/

/-- `db_create`: three zeroed 64 KiB blocks. -/
def db_create : db :=
  { latest_journal_id := 0
    latest_usn := 0
    records_not_in_use_count := 0
    name_buffer := array_void_create_size 1 (64 * 1024)
    lookup_array := array_void_create_size 4 (64 * 1024)
    record_array := array_void_create_size sizeof_record (64 * 1024) }

/-- `db_get_record_by_id`: the index of the record the lookup names, `none` for
the null pointer. -/
def db_get_record_by_id (d : db) (id : Nat) : Option Nat :=
  if record_number id ≥ d.lookup_array.count_allocated then none
  else
    let index_from_lookup := d.lookup_array.elems (record_number id)
    if index_from_lookup ≥ d.record_array.count then none
    else if index_from_lookup = 0 then none
    else some index_from_lookup

/-- `db_get_record_parent`. -/
def db_get_record_parent (d : db) (r : record) : Option Nat :=
  db_get_record_by_id d r.parent_id

/-- `db_mark_record_not_in_use` on the record at index `idx`. -/
def db_mark_record_not_in_use (d : db) (idx : Nat) : db :=
  let r := d.record_array.elems idx
  if r.attributes &&& FILE_ATTRIBUTE_NOT_IN_USE = 0 then
    { d with
      record_array :=
        { d.record_array with
          elems := write_at d.record_array.elems idx
            { r with attributes := r.attributes ||| FILE_ATTRIBUTE_NOT_IN_USE } }
      records_not_in_use_count := (d.records_not_in_use_count + 1) % 2 ^ 32 }
  else d

/-- `db_refresh_lookup` for the record at index `new_record`. -/
def db_refresh_lookup (heap : Nat → Bool) (d : db) (new_record : Nat) : Option (Bool × db) :=
  let rn := record_number (d.record_array.elems new_record).id
  match array_void_reserve heap d.lookup_array 4 (rn + 1) true with
  | none => none
  | some (false, la) => some (false, { d with lookup_array := la })
  | some (true, la) =>
    let d1 := { d with lookup_array := { la with count := la.count_allocated } }
    let prev_record_index := d1.lookup_array.elems rn
    let d2 :=
      if prev_record_index ≠ 0 then
        if new_record ≠ prev_record_index then db_mark_record_not_in_use d1 prev_record_index
        else d1
      else d1
    let new_record_index := new_record % 2 ^ 32
    some (true,
      { d2 with
        lookup_array :=
          { d2.lookup_array with elems := write_at d2.lookup_array.elems rn new_record_index } })

/-- `db_insert`: the index of the new record (`none` for null) and the index
state it leaves. -/
def db_insert (heap : Nat → Bool) (d : db) (id parent_id attributes : Nat) (wname : List Nat) :
    Option (Option Nat × db) :=
  let name_len := length_of_utf16_as_utf8 wname
  match array_void_push_count heap d.name_buffer 1 (name_len + 1) false with
  | none => none
  | some (none, nb) => some (none, { d with name_buffer := nb })
  | some (some name, nb) =>
    let converted := convert_utf16_to_utf8 wname name_len
    let nb1 := { nb with elems := write_bytes nb.elems name converted.1 }
    if !converted.2 then some (none, { d with name_buffer := nb1 })
    else
      let nb2 := { nb1 with elems := write_at nb1.elems (name + name_len) 0 }
      match array_void_push heap d.record_array sizeof_record false with
      | none => none
      | some (none, ra) => some (none, { d with name_buffer := nb2, record_array := ra })
      | some (some rec_index, ra) =>
        let r : record :=
          { id := id, parent_id := parent_id, attributes := attributes, name_offset := name }
        let d1 :=
          { d with
            name_buffer := nb2
            record_array := { ra with elems := write_at ra.elems rec_index r } }
        match db_refresh_lookup heap d1 rec_index with
        | none => none
        | some (_, d2) => some (some rec_index, d2)

/-- `db_delete`. -/
def db_delete (d : db) (id : Nat) : db :=
  match db_get_record_by_id d id with
  | some idx => db_mark_record_not_in_use d idx
  | none => d

/-- `db_update`. -/
def db_update (heap : Nat → Bool) (d : db) (id parent_id attributes : Nat) (wname : List Nat) :
    Option (Option Nat × db) :=
  db_insert heap (db_delete d id) id parent_id attributes wname

/-- The body of the loop of `db_apply_changes` for one change. -/
def db_apply_change (heap : Nat → Bool) (d : db) (c : change) : Option db :=
  let applied : Option db :=
    if !c.ignore then
      match c.type with
      | CHANGE_TYPE_INSERT =>
        (db_insert heap d c.id c.parent_id c.attributes c.wname).map Prod.snd
      | CHANGE_TYPE_UPDATE =>
        (db_update heap d c.id c.parent_id c.attributes c.wname).map Prod.snd
      | CHANGE_TYPE_DELETE => some (db_delete d c.id)
    else some d
  applied.map fun d1 => { d1 with latest_usn := max d1.latest_usn c.usn }

/-- `db_apply_changes`: the changes from `first` along `next`. -/
def db_apply_changes (heap : Nat → Bool) (d : db) : List change → Option db
  | [] => some d
  | c :: rest =>
    match db_apply_change heap d c with
    | none => none
    | some d1 => db_apply_changes heap d1 rest

/-! ## Sanity checks -/

/-- The loop of `debug_sanity_check_names`: the number of NUL bytes among the
first `n` bytes. -/
def count_nul (elems : Nat → Nat) : Nat → Nat
  | 0 => 0
  | i + 1 => count_nul elems i + (if elems i = 0 then 1 else 0)

/-- `debug_sanity_check_names`. -/
def debug_sanity_check_names (d : db) : Bool :=
  decide (count_nul d.name_buffer.elems d.name_buffer.count = d.record_array.count)

/-! ## Change journal coalescing (`quickfind_ntfs.c`) -/

/-- The assignment `c->ignore = true` on the change at position `k` of the list. -/
def set_ignore : List change → Nat → List change
  | [], _ => []
  | c :: cs, 0 => { c with ignore := true } :: cs
  | c :: cs, k + 1 => c :: set_ignore cs k

/-- The body of the inner loop of `ntfs_usn_mark_ignore` for the changes at
positions `i` and `j`. -/
def mark_ignore_pair (changes : List change) (i j : Nat) : List change :=
  match changes.get? i, changes.get? j with
  | some ci, some cj =>
    if i ≠ j ∧ ci.id = cj.id then
      let s1 :=
        if ci.type = CHANGE_TYPE_DELETE ∧ cj.type = CHANGE_TYPE_INSERT then
          set_ignore (set_ignore changes i) j
        else changes
      let s2 :=
        if ci.type = CHANGE_TYPE_DELETE ∧ cj.type = CHANGE_TYPE_UPDATE then set_ignore s1 j
        else s1
      let s3 :=
        if ci.type = CHANGE_TYPE_DELETE ∧ cj.type = CHANGE_TYPE_DELETE then set_ignore s2 j
        else s2
      if ci.type = CHANGE_TYPE_UPDATE ∧ cj.type = CHANGE_TYPE_INSERT then set_ignore s3 j
      else s3
    else changes
  | _, _ => changes

/-- The inner loop `for (j = changes.first; j; j = j->next)` for a fixed `i`. -/
def mark_ignore_inner (changes : List change) (i : Nat) : List change :=
  (List.range changes.length).foldl (fun cs j => mark_ignore_pair cs i j) changes

/-- `ntfs_usn_mark_ignore`: `i` runs from `last` along `prev`, `j` from `first`
along `next`. -/
def ntfs_usn_mark_ignore (changes : List change) : List change :=
  (List.range changes.length).reverse.foldl (fun cs i => mark_ignore_inner cs i) changes

/-! ## SIMD (`__m256i` as its 32 byte lanes, masks as `u32`) -/

/-- `_mm256_set1_epi8`. -/
def mm256_set1_epi8 (c : Nat) : List Nat := List.replicate 32 (c % 256)

/-- `_mm256_loadu_si256` of the 32 bytes at offset `p`. -/
def mm256_loadu_si256 (mem : Nat → Nat) (p : Nat) : List Nat :=
  (List.range 32).map fun b => mem (p + b)

/-- `_mm256_cmpeq_epi8`. -/
def mm256_cmpeq_epi8 (a b : List Nat) : List Nat :=
  List.zipWith (fun x y => if x = y then 0xFF else 0) a b

/-- `_mm256_and_si256`. -/
def mm256_and_si256 (a b : List Nat) : List Nat := List.zipWith (fun x y => x &&& y) a b

/-- `_mm256_or_si256`. -/
def mm256_or_si256 (a b : List Nat) : List Nat := List.zipWith (fun x y => x ||| y) a b

/-- `_mm256_movemask_epi8`: bit `b` of the result is the top bit of lane `b`. -/
def mm256_movemask_epi8 : List Nat → Nat
  | [] => 0
  | x :: xs => x / 128 % 2 + 2 * mm256_movemask_epi8 xs

/-- Trailing zero bits of `value` among the lowest `width` bits. -/
def tzcnt : Nat → Nat → Nat
  | 0, _ => 0
  | width + 1, value => if value % 2 = 1 then 0 else 1 + tzcnt width (value / 2)

/-- `count_trailing_zeroes` (`_tzcnt_u32`, 32 for the value 0). -/
def count_trailing_zeroes (value : Nat) : Nat := tzcnt 32 value

/-- `clear_leftmost_set`: `value & (value - 1)`; for `value = 0` the `u32`
result is 0, as is the one here. -/
def clear_leftmost_set (value : Nat) : Nat := value &&& (value - 1)

/-- Set bits of `value` among the lowest `width` bits. -/
def popcnt : Nat → Nat → Nat
  | 0, _ => 0
  | width + 1, value => value % 2 + popcnt width (value / 2)

/-- `count_bits_set` (`__popcnt`). -/
def count_bits_set (value : Nat) : Nat := popcnt 32 value

/-- The `u32` expression `mask_zero & ~(0xFFFFFFFF << bitpos)`. -/
def zero_bits_below (mask_zero bitpos : Nat) : Nat :=
  mask_zero &&& (0xFFFFFFFF ^^^ ((0xFFFFFFFF <<< bitpos) % 2 ^ 32))

/-- `tolower` of the C locale on a byte. -/
def tolower (c : Nat) : Nat := if 65 ≤ c ∧ c ≤ 90 then c + 32 else c

/-- `toupper` of the C locale on a byte. -/
def toupper (c : Nat) : Nat := if 97 ≤ c ∧ c ≤ 122 then c - 32 else c

/-- `memcmp(a, b, n) == 0` for `a` in the scanned memory and `b` in the needle. -/
def memcmp_eq (mem : Nat → Nat) (a : Nat) (needle : Nat → Nat) (b n : Nat) : Bool :=
  (List.range n).all fun j => mem (a + j) = needle (b + j)

/-- `_memicmp(a, b, n) == 0` (C locale). -/
def memicmp_eq (mem : Nat → Nat) (a : Nat) (needle : Nat → Nat) (b n : Nat) : Bool :=
  (List.range n).all fun j => tolower (mem (a + j)) = tolower (needle (b + j))

/-- The `usize` difference `a - b`. -/
def usize_sub (a b : Nat) : Nat := (a + 2 ^ 64 - b % 2 ^ 64) % 2 ^ 64

/-- The loop `while (mask_needle != 0)` of `simd_memmem_count_zeroes` and of
`simd_memmem_count_zeroes_nocase` in the block at `p`: the match and the NUL
bits below it, if a candidate is confirmed.  `confirm bitpos` is the test of the
`if` in the loop (`memcmp(...) == 0`, `_memicmp(...) == 0`).  `rounds` bounds the
number of rounds; a `u32` mask is exhausted after 32. -/
def simd_memmem_while (confirm : Nat → Bool) (p mask_zero : Nat) :
    Nat → Nat → Option (Nat × Nat)
  | 0, _ => none
  | rounds + 1, mask_needle =>
    if mask_needle ≠ 0 then
      let bitpos := count_trailing_zeroes mask_needle
      if confirm bitpos then
        some (p + bitpos, count_bits_set (zero_bits_below mask_zero bitpos))
      else simd_memmem_while confirm p mask_zero rounds (clear_leftmost_set mask_needle)
    else none

/-- The loop `for (i = 0; i < n; i += 32)` of `simd_memmem_count_zeroes`, entered
at offset `i` with `blocks` rounds to go. -/
def simd_memmem_count_zeroes_loop (mem : Nat → Nat) (s : Nat) (needle : Nat → Nat) (k : Nat) :
    Nat → Nat → Nat → Option Nat × Nat
  | 0, _, zero_count => (none, zero_count)
  | blocks + 1, i, zero_count =>
    let first := mm256_set1_epi8 (needle 0)
    let last := mm256_set1_epi8 (needle (usize_sub k 1))
    let zero := mm256_set1_epi8 0
    let block_first := mm256_loadu_si256 mem (s + i)
    let block_last := mm256_loadu_si256 mem (s + i + k - 1)
    let eq_first := mm256_cmpeq_epi8 first block_first
    let eq_last := mm256_cmpeq_epi8 last block_last
    let eq_zero := mm256_cmpeq_epi8 zero block_first
    let mask_needle := mm256_movemask_epi8 (mm256_and_si256 eq_first eq_last)
    let mask_zero := mm256_movemask_epi8 eq_zero
    match simd_memmem_while
        (fun bitpos => memcmp_eq mem (s + i + bitpos + 1) needle 1 (usize_sub k 2))
        (s + i) mask_zero 32 mask_needle with
    | some (m, z) => (some m, zero_count + z)
    | none =>
      simd_memmem_count_zeroes_loop mem s needle k blocks (i + 32)
        (zero_count + count_bits_set mask_zero)

/-- `simd_memmem_count_zeroes`: the match (an offset into `mem`, `none` for
null) and `*zero_count`.  The loop runs `ceil(n / 32)` times. -/
def simd_memmem_count_zeroes (mem : Nat → Nat) (s n : Nat) (needle : Nat → Nat) (k : Nat) :
    Option Nat × Nat :=
  simd_memmem_count_zeroes_loop mem s needle k ((n + 31) / 32) 0 0

/-- The `for` loop of `simd_memmem_count_zeroes_nocase`. -/
def simd_memmem_count_zeroes_nocase_loop (mem : Nat → Nat) (s : Nat) (needle : Nat → Nat)
    (k : Nat) : Nat → Nat → Nat → Option Nat × Nat
  | 0, _, zero_count => (none, zero_count)
  | blocks + 1, i, zero_count =>
    let lower_first := mm256_set1_epi8 (tolower (needle 0))
    let lower_last := mm256_set1_epi8 (tolower (needle (usize_sub k 1)))
    let upper_first := mm256_set1_epi8 (toupper (needle 0))
    let upper_last := mm256_set1_epi8 (toupper (needle (usize_sub k 1)))
    let zero := mm256_set1_epi8 0
    let block_first := mm256_loadu_si256 mem (s + i)
    let block_last := mm256_loadu_si256 mem (s + i + k - 1)
    let eq_lower_first := mm256_cmpeq_epi8 lower_first block_first
    let eq_lower_last := mm256_cmpeq_epi8 lower_last block_last
    let eq_upper_first := mm256_cmpeq_epi8 upper_first block_first
    let eq_upper_last := mm256_cmpeq_epi8 upper_last block_last
    let eq_first := mm256_or_si256 eq_lower_first eq_upper_first
    let eq_last := mm256_or_si256 eq_lower_last eq_upper_last
    let eq_zero := mm256_cmpeq_epi8 zero block_first
    let mask_needle := mm256_movemask_epi8 (mm256_and_si256 eq_first eq_last)
    let mask_zero := mm256_movemask_epi8 eq_zero
    match simd_memmem_while
        (fun bitpos => memicmp_eq mem (s + i + bitpos + 1) needle 1 (usize_sub k 2))
        (s + i) mask_zero 32 mask_needle with
    | some (m, z) => (some m, zero_count + z)
    | none =>
      simd_memmem_count_zeroes_nocase_loop mem s needle k blocks (i + 32)
        (zero_count + count_bits_set mask_zero)

/-- `simd_memmem_count_zeroes_nocase`. -/
def simd_memmem_count_zeroes_nocase (mem : Nat → Nat) (s n : Nat) (needle : Nat → Nat)
    (k : Nat) : Option Nat × Nat :=
  simd_memmem_count_zeroes_nocase_loop mem s needle k ((n + 31) / 32) 0 0

/-- The `for` loop of `simd_memchr_count_zeroes`; its `while` returns in the
first round. -/
def simd_memchr_count_zeroes_loop (mem : Nat → Nat) (s c : Nat) :
    Nat → Nat → Nat → Option Nat × Nat
  | 0, _, zero_count => (none, zero_count)
  | blocks + 1, i, zero_count =>
    let first := mm256_set1_epi8 c
    let zero := mm256_set1_epi8 0
    let block := mm256_loadu_si256 mem (s + i)
    let eq := mm256_cmpeq_epi8 first block
    let eq_zero := mm256_cmpeq_epi8 zero block
    let mask_needle := mm256_movemask_epi8 eq
    let mask_zero := mm256_movemask_epi8 eq_zero
    if mask_needle ≠ 0 then
      let bitpos := count_trailing_zeroes mask_needle
      (some (s + i + bitpos), zero_count + count_bits_set (zero_bits_below mask_zero bitpos))
    else
      simd_memchr_count_zeroes_loop mem s c blocks (i + 32)
        (zero_count + count_bits_set mask_zero)

/-- `simd_memchr_count_zeroes`. -/
def simd_memchr_count_zeroes (mem : Nat → Nat) (s n c : Nat) : Option Nat × Nat :=
  simd_memchr_count_zeroes_loop mem s c ((n + 31) / 32) 0 0

/-- The `for` loop of `simd_memchr_count_zeroes_nocase`. -/
def simd_memchr_count_zeroes_nocase_loop (mem : Nat → Nat) (s c : Nat) :
    Nat → Nat → Nat → Option Nat × Nat
  | 0, _, zero_count => (none, zero_count)
  | blocks + 1, i, zero_count =>
    let lower := mm256_set1_epi8 (tolower c)
    let upper := mm256_set1_epi8 (toupper c)
    let zero := mm256_set1_epi8 0
    let block := mm256_loadu_si256 mem (s + i)
    let eq_lower := mm256_cmpeq_epi8 lower block
    let eq_upper := mm256_cmpeq_epi8 upper block
    let eq := mm256_or_si256 eq_lower eq_upper
    let eq_zero := mm256_cmpeq_epi8 zero block
    let mask_needle := mm256_movemask_epi8 eq
    let mask_zero := mm256_movemask_epi8 eq_zero
    if mask_needle ≠ 0 then
      let bitpos := count_trailing_zeroes mask_needle
      (some (s + i + bitpos), zero_count + count_bits_set (zero_bits_below mask_zero bitpos))
    else
      simd_memchr_count_zeroes_nocase_loop mem s c blocks (i + 32)
        (zero_count + count_bits_set mask_zero)

/-- `simd_memchr_count_zeroes_nocase`. -/
def simd_memchr_count_zeroes_nocase (mem : Nat → Nat) (s n c : Nat) : Option Nat × Nat :=
  simd_memchr_count_zeroes_nocase_loop mem s c ((n + 31) / 32) 0 0

/-- The `for` loop of `simd_memchr`. -/
def simd_memchr_loop (mem : Nat → Nat) (s c : Nat) : Nat → Nat → Option Nat
  | 0, _ => none
  | blocks + 1, i =>
    let first := mm256_set1_epi8 c
    let block := mm256_loadu_si256 mem (s + i)
    let eq := mm256_cmpeq_epi8 first block
    let mask_needle := mm256_movemask_epi8 eq
    if mask_needle ≠ 0 then some (s + i + count_trailing_zeroes mask_needle)
    else simd_memchr_loop mem s c blocks (i + 32)

/-- `simd_memchr`. -/
def simd_memchr (mem : Nat → Nat) (s n c : Nat) : Option Nat :=
  simd_memchr_loop mem s c ((n + 31) / 32) 0

/-! ## Fixed sized buffer, query types -/

/-- `struct buffer`; `data` is the memory at the block. -/
structure buffer where
  data : Nat → Nat
  size : Nat
  capacity : Nat

/-- `buffer_append`: the offset of the appended range (`none` for null). -/
def buffer_append (b : buffer) (size : Nat) : Option Nat × buffer :=
  if b.size + size ≤ b.capacity then (some b.size, { b with size := b.size + size })
  else (none, b)

/-- `enum quickfind_error` (`quickfind_client.h`). -/
inductive quickfind_error where
  | QUICKFIND_OK
  | QUICKFIND_ERROR_CANCELLED
  | QUICKFIND_ERROR_INVALID_REQUEST
  | QUICKFIND_ERROR_INVALID_RESPONSE
  | QUICKFIND_ERROR_SERVER_NOT_INITIALIZED
  | QUICKFIND_ERROR_DATABASE_NOT_INITIALIZED
  | QUICKFIND_ERROR_COULD_NOT_CONNECT_TO_SERVER
  | QUICKFIND_ERROR_OUT_OF_MEMORY
  | QUICKFIND_ERROR_WIN32
  | QUICKFIND_ERROR_COULD_NOT_GET_PATH
  | QUICKFIND_ERROR_CONNECTION_TIMEOUT
  | QUICKFIND_ERROR_IO_READ
  | QUICKFIND_ERROR_IO_WRITE
  | QUICKFIND_ERROR_NO_RESULT
deriving DecidableEq, Repr

open quickfind_error

/-- `QUICKFIND_FLAG_CASE_SENSITIVE`. -/
def QUICKFIND_FLAG_CASE_SENSITIVE : Nat := 0x1
/-- `QUICKFIND_FLAG_FULLNAME`. -/
def QUICKFIND_FLAG_FULLNAME : Nat := 0x2
/-- `QUICKFIND_FLAG_ONLY_FILES`. -/
def QUICKFIND_FLAG_ONLY_FILES : Nat := 0x4
/-- `QUICKFIND_FLAG_ONLY_DIRECTORIES`. -/
def QUICKFIND_FLAG_ONLY_DIRECTORIES : Nat := 0x8

/-- `struct quickfind_params`; `text` is the memory at the text pointer. -/
structure quickfind_params where
  text : Nat → Nat
  text_length : Nat
  flags : Nat
  return_count : Nat
  skip_count : Nat
  stop_count : Nat

/-- `struct query_result`. -/
structure query_result where
  error : quickfind_error
  found_count : Nat
  return_count : Nat
deriving DecidableEq, Repr

/-- `sizeof(query_result_item)`: `u64 id; u32 attributes; u32 path_size;`. -/
def sizeof_query_result_item : Nat := 16

/-- The `n` little-endian bytes of `v`. -/
def le_bytes (n v : Nat) : List Nat := (List.range n).map fun i => v / 256 ^ i % 256

/-- The bytes of a `query_result_item` with the given fields, `path` being the
`path_size` bytes copied from the path buffer. -/
def query_result_item_bytes (id attributes path_size : Nat) (path : List Nat) : List Nat :=
  le_bytes 8 id ++ le_bytes 4 attributes ++ le_bytes 4 path_size ++ path

/-! ## Query -/

/-- `db_get_record_name`: the offset of the name in the name buffer. -/
def db_get_record_name (_d : db) (r : record) : Nat := r.name_offset

/-- The C string at offset `p`: the bytes before the first NUL, reading at most
`limit` bytes. -/
def c_string (mem : Nat → Nat) (p : Nat) : Nat → List Nat
  | 0 => []
  | limit + 1 => if mem p = 0 then [] else mem p :: c_string mem (p + 1) limit

/-- `StringCbCatA(dest, cbDest, src)` of `strsafe.h` on the string `dest` held in
a buffer of `cbDest` bytes: the new content and whether the call returned
`S_OK`.  When `src` and the terminator do not fit, the content is truncated and
the call fails. -/
def StringCbCatA (dest : List Nat) (cbDest : Nat) (src : List Nat) : List Nat × Bool :=
  if dest.length + src.length + 1 ≤ cbDest then (dest ++ src, true)
  else (dest ++ src.take (cbDest - dest.length - 1), false)

/-- `walk_ancestors_is_child_of_root` for the record at index `r`; the first
argument is `max_depth`. -/
def walk_ancestors_is_child_of_root (d : db) : Nat → Nat → Bool
  | 0, _ => false
  | max_depth + 1, r =>
    let rec_ := d.record_array.elems r
    if rec_.id = rec_.parent_id then true
    else
      match db_get_record_parent d rec_ with
      | none => false
      | some parent => walk_ancestors_is_child_of_root d max_depth parent

/-- The `while (true)` loop of `walk_ancestors_build_path`: `ancestor_count` and
the ancestor buffer at the `break`, `none` at a `return 0`.  The loop leaves
after at most `ancestor_buffer_count` rounds; `rounds` counts them down. -/
def walk_ancestors_collect (d : db) (ancestor_buffer_count : Nat) :
    Nat → Nat → Nat → (Nat → Nat) → Option (Nat × (Nat → Nat))
  | 0, _, _, _ => none
  | rounds + 1, child, ancestor_count, ancestor_buffer =>
    let ancestor_buffer1 := write_at ancestor_buffer (ancestor_count - 1) child
    let rec_ := d.record_array.elems child
    if rec_.id = rec_.parent_id then some (ancestor_count, ancestor_buffer1)
    else
      match db_get_record_parent d rec_ with
      | none => none
      | some parent =>
        if ancestor_count + 1 > ancestor_buffer_count then none
        else
          walk_ancestors_collect d ancestor_buffer_count rounds parent (ancestor_count + 1)
            ancestor_buffer1

/-- The `for` loop of `walk_ancestors_build_path` with `m = ancestor_index + 1`
entries to go: the path string, `none` at a `return 0`. -/
def walk_ancestors_concat (d : db) (ancestor_buffer : Nat → Nat) (path_buffer_size : Nat) :
    Nat → List Nat → Option (List Nat)
  | 0, path => some path
  | m + 1, path =>
    let name := db_get_record_name d (d.record_array.elems (ancestor_buffer m))
    match StringCbCatA path path_buffer_size [92] with
    | (_, false) => none
    | (path1, true) =>
      match StringCbCatA path1 path_buffer_size
          (c_string d.name_buffer.elems name path_buffer_size) with
      | (_, false) => none
      | (path2, true) => walk_ancestors_concat d ancestor_buffer path_buffer_size m path2

/-- `walk_ancestors_build_path` for the record at index `child`: the returned
count (0 on failure) and the string left in the path buffer. -/
def walk_ancestors_build_path (d : db) (child ancestor_buffer_count path_buffer_size : Nat) :
    Nat × List Nat :=
  match walk_ancestors_collect d ancestor_buffer_count (ancestor_buffer_count + 1) child 1
      (fun _ => 0) with
  | none => (0, [])
  | some (ancestor_count, ancestor_buffer) =>
    match walk_ancestors_concat d ancestor_buffer path_buffer_size (ancestor_count - 1)
        [67, 58] with
    | none => (0, [])
    | some path => (ancestor_count, path)

/-- `matches_query_flags`. -/
def matches_query_flags (r : record) (flags query_len match_len : Nat) : Bool :=
  if r.attributes &&& FILE_ATTRIBUTE_NOT_IN_USE ≠ 0 then false
  else if flags &&& QUICKFIND_FLAG_ONLY_FILES ≠ 0 ∧
      r.attributes &&& FILE_ATTRIBUTE_DIRECTORY ≠ 0 then false
  else if flags &&& QUICKFIND_FLAG_ONLY_DIRECTORIES ≠ 0 ∧
      ¬ (r.attributes &&& FILE_ATTRIBUTE_DIRECTORY ≠ 0) then false
  else if flags &&& QUICKFIND_FLAG_FULLNAME ≠ 0 ∧ query_len ≠ match_len then false
  else true

/-- `find_first_occurrence_and_count_nulls`. -/
def find_first_occurrence_and_count_nulls (mem : Nat → Nat) (buffer buffer_length : Nat)
    (look_for : Nat → Nat) (look_for_length flags : Nat) : Option Nat × Nat :=
  if flags &&& QUICKFIND_FLAG_CASE_SENSITIVE ≠ 0 then
    if look_for_length = 1 then simd_memchr_count_zeroes mem buffer buffer_length (look_for 0)
    else simd_memmem_count_zeroes mem buffer buffer_length look_for look_for_length
  else
    if look_for_length = 1 then
      simd_memchr_count_zeroes_nocase mem buffer buffer_length (look_for 0)
    else simd_memmem_count_zeroes_nocase mem buffer buffer_length look_for look_for_length

/-- The local variables of `run_query` that live across rounds of its loop. -/
structure query_state where
  current_search : Nat
  found_count : Nat
  return_count : Nat
  current_record_index : Nat
  result_buffer : buffer

/-- The first half of the loop body of `run_query`, up to
`found = &record_array.elems[current_record_index]`: the match, the new
`current_search` and the new `current_record_index`, or `none` at a `break`. -/
def run_query_select (params : quickfind_params) (d : db) (st : query_state) :
    Option (Nat × Nat × Nat) :=
  let search_buffer_size := d.name_buffer.count
  match find_first_occurrence_and_count_nulls d.name_buffer.elems st.current_search
      (usize_sub search_buffer_size st.current_search) params.text params.text_length
      params.flags with
  | (none, _) => none
  | (some m, null_count) =>
    if m > d.name_buffer.count then none
    else
      match simd_memchr d.name_buffer.elems m (usize_sub search_buffer_size m) 0 with
      | none => none
      | some current_search =>
        let current_record_index := st.current_record_index + null_count
        if current_record_index ≥ d.record_array.count then none
        else some (m, current_search, current_record_index)

/-- The second half of the loop body of `run_query` for the selected record:
the state for the next round, or the result of a `return`. -/
def run_query_found (params : quickfind_params) (d : db) (st : query_state)
    (current_search current_record_index : Nat) : query_state ⊕ (query_result × buffer) :=
  let found := d.record_array.elems current_record_index
  let name := db_get_record_name d found
  let name_length := usize_sub current_search name
  let st1 : query_state :=
    { st with current_search := current_search, current_record_index := current_record_index }
  if found.attributes &&& FILE_ATTRIBUTE_NOT_IN_USE = 0 then
    if matches_query_flags found params.flags params.text_length name_length then
      if walk_ancestors_is_child_of_root d 256 current_record_index then
        if st.found_count ≥ params.skip_count ∧ st.return_count < params.return_count then
          let built := walk_ancestors_build_path d current_record_index 256 (256 * 256)
          if built.1 ≠ 0 then
            let path_size := (built.2.length + 1) % 2 ^ 32
            let result_size := (sizeof_query_result_item + path_size) % 2 ^ 32
            match buffer_append st.result_buffer result_size with
            | (none, b) => Sum.inr ({ error := QUICKFIND_ERROR_OUT_OF_MEMORY, found_count := 0,
                                      return_count := 0 }, b)
            | (some result, b) =>
              Sum.inl
                { st1 with
                  result_buffer :=
                    { b with
                      data := write_bytes b.data result
                        (query_result_item_bytes found.id found.attributes path_size
                          ((built.2 ++ [0]).take path_size)) }
                  return_count := st.return_count + 1
                  found_count := st.found_count + 1 }
          else Sum.inl { st1 with found_count := st.found_count + 1 }
        else Sum.inl { st1 with found_count := st.found_count + 1 }
      else Sum.inl st1
    else Sum.inl st1
  else Sum.inl st1

/-- The loop body of `run_query`. -/
def run_query_body (params : quickfind_params) (d : db) (st : query_state) :
    query_state ⊕ (query_result × buffer) :=
  match run_query_select params d st with
  | none =>
    Sum.inr ({ error := QUICKFIND_OK, found_count := st.found_count,
               return_count := st.return_count }, st.result_buffer)
  | some (_, current_search, current_record_index) =>
    run_query_found params d st current_search current_record_index

/-- The loop `while (found_count < params.stop_count)` of `run_query` and the
final `return`; `none` when `rounds` rounds do not finish it. -/
def run_query_loop (params : quickfind_params) (d : db) :
    Nat → query_state → Option (query_result × buffer)
  | 0, st =>
    if st.found_count < params.stop_count then none
    else some ({ error := QUICKFIND_OK, found_count := st.found_count,
                 return_count := st.return_count }, st.result_buffer)
  | rounds + 1, st =>
    if st.found_count < params.stop_count then
      match run_query_body params d st with
      | Sum.inl st1 => run_query_loop params d rounds st1
      | Sum.inr r => some r
    else some ({ error := QUICKFIND_OK, found_count := st.found_count,
                 return_count := st.return_count }, st.result_buffer)

/-- The state `run_query` enters its loop with. -/
def run_query_init (result_buffer : buffer) : query_state :=
  { current_search := 0, found_count := 0, return_count := 0, current_record_index := 0,
    result_buffer := result_buffer }

/-- `run_query`, given `rounds` rounds of its loop. -/
def run_query (rounds : Nat) (params : quickfind_params) (result_buffer : buffer) (d : db) :
    Option (query_result × buffer) :=
  run_query_loop params d rounds (run_query_init result_buffer)

/-! ## Call sequences and concrete inputs used in the statements -/

/-- One call of the index store's mutating interface, with the behaviour of the
heap during the call. -/
inductive db_call where
  | insert (heap : Nat → Bool) (id parent_id attributes : Nat) (wname : List Nat)
  | update (heap : Nat → Bool) (id parent_id attributes : Nat) (wname : List Nat)
  | delete (id : Nat)

/-- The index after one call (`none`: the call does not return). -/
def db_run_call (d : db) : db_call → Option db
  | db_call.insert heap id parent_id attributes wname =>
    (db_insert heap d id parent_id attributes wname).map Prod.snd
  | db_call.update heap id parent_id attributes wname =>
    (db_update heap d id parent_id attributes wname).map Prod.snd
  | db_call.delete id => some (db_delete d id)

/-- The index after a sequence of calls. -/
def db_run_calls (d : db) : List db_call → Option db
  | [] => some d
  | c :: rest =>
    match db_run_call d c with
    | none => none
    | some d1 => db_run_calls d1 rest

/-- An index state that some sequence of calls produces from `db_create`. -/
def reachable (d : db) : Prop := ∃ calls, db_run_calls db_create calls = some d

/-- A heap that honours every request. -/
def heap_always : Nat → Bool := fun _ => true

/-- A heap that honours no request. -/
def heap_never : Nat → Bool := fun _ => false

/-- The memory holding the bytes `bytes` (zero behind them). -/
def mem_of (bytes : List Nat) : Nat → Nat := fun i => bytes.getD i 0

/-- Query parameters for the text `bytes`. -/
def params_of (bytes : List Nat) (flags return_count skip_count stop_count : Nat) :
    quickfind_params :=
  { text := mem_of bytes, text_length := bytes.length, flags := flags,
    return_count := return_count, skip_count := skip_count, stop_count := stop_count }

/-- An empty result buffer of 1 MiB (`sizeof(res->body)`). -/
def response_buffer : buffer := { data := fun _ => 0, size := 0, capacity := 1024 * 1024 }

/-- The first `n` bytes of a memory. -/
def bytes_of (mem : Nat → Nat) (n : Nat) : List Nat := (List.range n).map mem


/-! ## Notions used to state what the scans compute -/

/-- The number of `i < n` with `P i`. -/
def count_where (P : Nat → Bool) : Nat → Nat
  | 0 => 0
  | n + 1 => count_where P n + (if P n then 1 else 0)

/-- The byte comparison of the scans: exact with `QUICKFIND_FLAG_CASE_SENSITIVE`,
up to ASCII case without it. -/
def byte_eq (flags x y : Nat) : Bool :=
  if flags &&& QUICKFIND_FLAG_CASE_SENSITIVE ≠ 0 then decide (x = y)
  else decide (tolower x = tolower y)

/-- The `k` bytes of `text` occur at offset `p` of `mem`. -/
def needle_at (flags : Nat) (mem text : Nat → Nat) (k p : Nat) : Bool :=
  (List.range k).all fun j => byte_eq flags (mem (p + j)) (text j)

/-- The byte at offset `i` of the name buffer. -/
def name_byte (d : db) (i : Nat) : Nat := d.name_buffer.elems i

/-- The name/record correspondence: the name buffer holds as many NUL bytes as
there are records and ends with one, and the `name_offset` of record `k` is the
byte after the `(k-1)`-th NUL (0 for `k = 0`), that is, `k` NUL bytes precede it
and it is 0 or follows a NUL. -/
def names_correspond (d : db) : Prop :=
  count_nul d.name_buffer.elems d.name_buffer.count = d.record_array.count ∧
  (0 < d.name_buffer.count → name_byte d (d.name_buffer.count - 1) = 0) ∧
  ∀ k, k < d.record_array.count →
    count_nul d.name_buffer.elems (d.record_array.elems k).name_offset = k ∧
    ((d.record_array.elems k).name_offset = 0 ∨
      name_byte d ((d.record_array.elems k).name_offset - 1) = 0)

instance (d : db) : Decidable (names_correspond d) := by
  unfold names_correspond; infer_instance

/-- The text of a query is `1 <= text_length` bytes, none of them NUL
(`text_length` is a `u32`). -/
def text_nul_free (params : quickfind_params) : Prop :=
  1 ≤ params.text_length ∧ params.text_length < 2 ^ 32 ∧
  ∀ j, j < params.text_length → params.text j ≠ 0 ∧ params.text j < 256

instance (params : quickfind_params) : Decidable (text_nul_free params) := by
  unfold text_nul_free; infer_instance

/-- The state of the loop of `run_query` after `n` rounds, `none` once the loop
has been left. -/
def run_query_state_after (params : quickfind_params) (d : db) (result_buffer : buffer) :
    Nat → Option query_state
  | 0 => some (run_query_init result_buffer)
  | n + 1 =>
    match run_query_state_after params d result_buffer n with
    | none => none
    | some st =>
      if st.found_count < params.stop_count then
        match run_query_body params d st with
        | Sum.inl st1 => some st1
        | Sum.inr _ => none
      else none

/-- What the loop of `run_query` maintains between rounds: `current_search` lies
in the name buffer and `current_record_index` is the number of NUL bytes before
it. -/
def query_state_ok (d : db) (st : query_state) : Prop :=
  st.current_search ≤ d.name_buffer.count ∧
  st.current_record_index = count_nul d.name_buffer.elems st.current_search

/-- The index a sequence of calls makes from `db_create` (`db_create` itself if
a call does not return). -/
def db_of_calls (calls : List db_call) : db := (db_run_calls db_create calls).getD db_create

/-- The index holding "xa" (a root, id 1) and "a" (id 2, child of 1). -/
def two_names_db : db :=
  db_of_calls [db_call.insert heap_always 1 1 0 [120, 97], db_call.insert heap_always 2 1 0 [97]]

/-! ## Notions used to state what a query returns -/

/-- The length of the name of record `k`: the bytes from its `name_offset` to
the next NUL of the name buffer. -/
def record_name_length (d : db) (k : Nat) : Nat :=
  (c_string d.name_buffer.elems (d.record_array.elems k).name_offset
    (d.name_buffer.count - (d.record_array.elems k).name_offset)).length

/-- The name of record `k` contains the text: the `text_length` bytes occur at
some offset of the name and end within it. -/
def name_contains (flags : Nat) (text : Nat → Nat) (text_length : Nat) (d : db) (k : Nat) :
    Bool :=
  (List.range (record_name_length d k)).any fun j =>
    decide (j + text_length ≤ record_name_length d k) &&
      needle_at flags d.name_buffer.elems text text_length
        ((d.record_array.elems k).name_offset + j)

/-- Record `k` is not tombstoned, passes the flag predicates and reaches a root
within the depth cap. -/
def record_passes (flags text_length : Nat) (d : db) (k : Nat) : Bool :=
  decide ((d.record_array.elems k).attributes &&& FILE_ATTRIBUTE_NOT_IN_USE = 0) &&
    (matches_query_flags (d.record_array.elems k) flags text_length (record_name_length d k) &&
      walk_ancestors_is_child_of_root d 256 k)

/-- Record `k` matches the query: its name contains the text, and it is not
tombstoned, passes the flag predicates and reaches a root within the depth
cap. -/
def record_matches (flags : Nat) (text : Nat → Nat) (text_length : Nat) (d : db) (k : Nat) :
    Bool :=
  name_contains flags text text_length d k && record_passes flags text_length d k

/-- The indices of the matching records, in storage order. -/
def matching_records (flags : Nat) (text : Nat → Nat) (text_length : Nat) (d : db) : List Nat :=
  (List.range d.record_array.count).filter (record_matches flags text text_length d)

/-- `walk_ancestors_build_path` succeeds for record `k` with the buffers of
`run_query`. -/
def path_builds (d : db) (k : Nat) : Bool :=
  decide ((walk_ancestors_build_path d k 256 (256 * 256)).1 ≠ 0)

/-- The bytes of the result item of record `k`: its id, its attributes,
`path_size` = path length + 1, and the path with its terminator. -/
def record_item_bytes (d : db) (k : Nat) : List Nat :=
  query_result_item_bytes (d.record_array.elems k).id (d.record_array.elems k).attributes
    ((walk_ancestors_build_path d k 256 (256 * 256)).2.length + 1)
    ((walk_ancestors_build_path d k 256 (256 * 256)).2 ++ [0])

/-- The items of the records `ks`, packed in order. -/
def items_bytes (d : db) : List Nat → List Nat
  | [] => []
  | k :: ks => record_item_bytes d k ++ items_bytes d ks

/-- The records whose items a query writes: among the matching records with
ordinal in `[skip_count, stop_count)`, the first `return_count` whose path can
be built. -/
def written_records (params : quickfind_params) (d : db) : List Nat :=
  ((((matching_records params.flags params.text params.text_length d).take
      params.stop_count).drop params.skip_count).filter (path_builds d)).take
    params.return_count

/-- `found_count`, `return_count` and the bytes appended so far. -/
structure query_progress where
  found : Nat
  ret : Nat
  out : List Nat

/-- The effect of record `k` on the counters and the output. -/
def query_progress_step (params : quickfind_params) (d : db) (k : Nat) (s : query_progress) :
    query_progress :=
  if record_matches params.flags params.text params.text_length d k then
    if s.found ≥ params.skip_count ∧ s.ret < params.return_count then
      if path_builds d k then
        { found := s.found + 1, ret := s.ret + 1, out := s.out ++ record_item_bytes d k }
      else { s with found := s.found + 1 }
    else { s with found := s.found + 1 }
  else s

/-- The effect of the records `ks`, taken in order until `stop_count` is reached. -/
def query_progress_run (params : quickfind_params) (d : db) :
    List Nat → query_progress → query_progress
  | [], s => s
  | k :: ks, s =>
    if s.found < params.stop_count then
      query_progress_run params d ks (query_progress_step params d k s)
    else s

/-- The buffer `b` is `b0` with the bytes `out` appended. -/
def buffer_holds (b0 : buffer) (out : List Nat) (b : buffer) : Prop :=
  b.capacity = b0.capacity ∧ b.size = b0.size + out.length ∧
  bytes_of b.data b.size = bytes_of b0.data b0.size ++ out

/-- The loop of `run_query` has dealt with the records before `next`. -/
def query_state_at (d : db) (st : query_state) (next : Nat) : Prop :=
  query_state_ok d st ∧
  ((next = 0 ∧ st.current_search = 0) ∨
   (0 < next ∧ next ≤ d.record_array.count ∧
     st.current_search
       = (d.record_array.elems (next - 1)).name_offset + record_name_length d (next - 1)))

/-- The records in the window of a query: the matching records with ordinal in
`[skip_count, min(skip_count + return_count, stop_count))`. -/
def window_records (params : quickfind_params) (d : db) : List Nat :=
  ((matching_records params.flags params.text params.text_length d).take
    (min (params.skip_count + params.return_count) params.stop_count)).drop params.skip_count

/-- The index holding "m" (id 0), the root "." (id 5) and its children "ra"
(id 10) and "a" (id 11). -/
def sample_db : db :=
  db_of_calls
    [db_call.insert heap_always 0 0 0 [109], db_call.insert heap_always 5 5 0 [46],
     db_call.insert heap_always 10 5 0 [114, 97], db_call.insert heap_always 11 5 0 [97]]

/-- The index holding the root "." (id 5) alone. -/
def root_only_db : db := db_of_calls [db_call.insert heap_always 5 5 0 [46]]

/-! ## Notions used to state what the index holds -/

/-- The name of record `k`: the C string at its `name_offset` in the name buffer. -/
def record_name (d : db) (k : Nat) : List Nat :=
  c_string d.name_buffer.elems (d.record_array.elems k).name_offset
    (d.name_buffer.count - (d.record_array.elems k).name_offset)

/-- Record `k` does not carry NOT_IN_USE. -/
def record_live (d : db) (k : Nat) : Bool :=
  decide ((d.record_array.elems k).attributes &&& FILE_ATTRIBUTE_NOT_IN_USE = 0)

/-- The id, parent id, attributes and name of record `k`. -/
def record_view (d : db) (k : Nat) : Nat × Nat × Nat × List Nat :=
  ((d.record_array.elems k).id, (d.record_array.elems k).parent_id,
    (d.record_array.elems k).attributes, record_name d k)

/-- The live records of the index, in storage order. -/
def live_records (d : db) : List (Nat × Nat × Nat × List Nat) :=
  ((List.range d.record_array.count).filter (record_live d)).map (record_view d)

/-- Two index states hold the same set of live records. -/
def same_live_records (d1 d2 : db) : Prop :=
  ∀ t, t ∈ live_records d1 ↔ t ∈ live_records d2

/-- What every index state made by `db_create`, `db_insert`, `db_update` and
`db_delete` satisfies: the three blocks are allocated, as long as the record
array holds at most `2^32` records (an index fits the `u32` of a lookup entry)
a lookup entry other than 0 names a record of its record number, and the name of
every record ends inside the name buffer. -/
def db_ok (d : db) : Prop :=
  0 < d.name_buffer.count_allocated ∧ 0 < d.record_array.count_allocated ∧
  0 < d.lookup_array.count_allocated ∧
  (d.record_array.count ≤ 2 ^ 32 →
    ∀ rn, rn < d.lookup_array.count_allocated → d.lookup_array.elems rn ≠ 0 →
      d.lookup_array.elems rn < d.record_array.count ∧
      record_number (d.record_array.elems (d.lookup_array.elems rn)).id = rn) ∧
  (∀ i, i < d.record_array.count →
    ∃ t, (d.record_array.elems i).name_offset ≤ t ∧ t < d.name_buffer.count ∧
      d.name_buffer.elems t = 0)

/-- The live record the lookup names for the record number `rn`, if any. -/
def lookup_live (d : db) (rn : Nat) : Option (Nat × Nat × Nat × List Nat) :=
  if rn < d.lookup_array.count_allocated ∧ d.lookup_array.elems rn ≠ 0 ∧
      d.lookup_array.elems rn < d.record_array.count ∧
      record_live d (d.lookup_array.elems rn) = true then
    some (record_view d (d.lookup_array.elems rn))
  else none

/-- Record `i` is the one the lookup names for its record number. -/
def registered (d : db) (i : Nat) : Prop :=
  i ≠ 0 ∧ record_number (d.record_array.elems i).id < d.lookup_array.count_allocated ∧
  d.lookup_array.elems (record_number (d.record_array.elems i).id) = i

/-- A live record with the view `t` that the lookup does not name. -/
def loose_record (d : db) (t : Nat × Nat × Nat × List Nat) : Prop :=
  ∃ i, i < d.record_array.count ∧ record_live d i = true ∧ ¬ registered d i ∧
    record_view d i = t

/-- The name `db_insert` stores for `wname`, read back as a C string. -/
def stored_name (wname : List Nat) : List Nat :=
  c_string (mem_of (utf16_to_utf8 wname)) 0 ((utf16_to_utf8 wname).length + 1)

/-- The value a change gives to the lookup entry of its record number in an
index that is not empty: `none` when it leaves the entry as it is, `some none`
when it leaves no live record there, `some (some t)` when it leaves the live
record `t` there. -/
def change_effect (c : change) : Option (Option (Nat × Nat × Nat × List Nat)) :=
  if c.ignore then none
  else
    match c.type with
    | CHANGE_TYPE_INSERT =>
      if c.wname = [] then none
      else if c.attributes &&& FILE_ATTRIBUTE_NOT_IN_USE = 0 then
        some (some (c.id, c.parent_id, c.attributes, stored_name c.wname))
      else some none
    | CHANGE_TYPE_UPDATE =>
      if c.wname = [] then some none
      else if c.attributes &&& FILE_ATTRIBUTE_NOT_IN_USE = 0 then
        some (some (c.id, c.parent_id, c.attributes, stored_name c.wname))
      else some none
    | CHANGE_TYPE_DELETE => some none

/-- The value the last change of the list with record number `rn` gives to the
lookup entry `rn`. -/
def last_effect : List change → Nat → Option (Option (Nat × Nat × Nat × List Nat))
  | [], _ => none
  | c :: rest, rn =>
    match last_effect rest rn with
    | some v => some v
    | none => if record_number c.id = rn then change_effect c else none

/-- The change appends a record: it is an unmarked INSERT or UPDATE with a name
of at least one code unit. -/
def change_appends (c : change) : Bool :=
  !c.ignore && (decide (c.type = CHANGE_TYPE_INSERT) || decide (c.type = CHANGE_TYPE_UPDATE)) &&
    decide (c.wname ≠ [])

/-- An UPDATE of id 7 (parent 5) whose name is `n` times the letter a. -/
def long_name_update (n : Nat) : change :=
  { usn := 1, type := CHANGE_TYPE_UPDATE, id := 7, parent_id := 5,
    wname := List.replicate n 97, attributes := 0, ignore := false }

/-! ## Notions used to state what coalescing does -/

/-- The list with `ignore` set at the positions where `f` holds. -/
def with_flags : List change → (Nat → Bool) → List change
  | [], _ => []
  | c :: cs, f => { c with ignore := c.ignore || f 0 } :: with_flags cs (fun p => f (p + 1))

/-- The body of the inner loop of `ntfs_usn_mark_ignore` for the changes at
positions `i` and `j` sets `ignore` at position `p`. -/
def pair_marks (L : List change) (i j p : Nat) : Bool :=
  match L.get? i, L.get? j with
  | some ci, some cj =>
    decide (i ≠ j ∧ ci.id = cj.id) &&
      ((decide (ci.type = CHANGE_TYPE_DELETE ∧ cj.type = CHANGE_TYPE_INSERT) &&
          (decide (p = i) || decide (p = j))) ||
       (decide (ci.type = CHANGE_TYPE_DELETE ∧ cj.type = CHANGE_TYPE_UPDATE) && decide (p = j)) ||
       (decide (ci.type = CHANGE_TYPE_DELETE ∧ cj.type = CHANGE_TYPE_DELETE) && decide (p = j)) ||
       (decide (ci.type = CHANGE_TYPE_UPDATE ∧ cj.type = CHANGE_TYPE_INSERT) && decide (p = j)))
  | _, _ => false

/-- No pair of changes meets a rule of `ntfs_usn_mark_ignore` the wrong way
round: no change follows a DELETE of its id and no INSERT follows an UPDATE of
its id.  These are the pairs `(i, j)` with `i` before `j` that the loop, which
does not compare positions, would mark by. -/
def in_rule_order : List change → Prop
  | [] => True
  | c :: rest =>
    (c.type = CHANGE_TYPE_DELETE → ∀ c1 ∈ rest, c1.id ≠ c.id) ∧
    (c.type = CHANGE_TYPE_UPDATE → ∀ c1 ∈ rest, c1.id = c.id → c1.type ≠ CHANGE_TYPE_INSERT) ∧
    in_rule_order rest

/-- The rules of `ntfs_usn_mark_ignore` for the change `c` of the list `L`: an
INSERT is marked when the list holds an UPDATE or a DELETE of its id, an UPDATE
when it holds a DELETE of its id, a DELETE when it holds an INSERT of its id. -/
def coalesced_ignore (L : List change) (c : change) : Bool :=
  L.any (fun c1 => decide (c1.id = c.id) &&
    ((decide (c.type = CHANGE_TYPE_INSERT) &&
        (decide (c1.type = CHANGE_TYPE_UPDATE) || decide (c1.type = CHANGE_TYPE_DELETE))) ||
     (decide (c.type = CHANGE_TYPE_UPDATE) && decide (c1.type = CHANGE_TYPE_DELETE)) ||
     (decide (c.type = CHANGE_TYPE_DELETE) && decide (c1.type = CHANGE_TYPE_INSERT))))

/-- The changes [INSERT id 20 "t", UPDATE id 20 "u", UPDATE id 10 "s", DELETE
id 11], all with parent 5. -/
def sample_changes : List change :=
  [{ usn := 1, type := CHANGE_TYPE_INSERT, id := 20, parent_id := 5, wname := [116],
     attributes := 0, ignore := false },
   { usn := 2, type := CHANGE_TYPE_UPDATE, id := 20, parent_id := 5, wname := [117],
     attributes := 0, ignore := false },
   { usn := 3, type := CHANGE_TYPE_UPDATE, id := 10, parent_id := 5, wname := [115],
     attributes := 0, ignore := false },
   { usn := 4, type := CHANGE_TYPE_DELETE, id := 11, parent_id := 5, wname := [97],
     attributes := 0, ignore := false }]

/-- The changes [INSERT id 10 "t", DELETE id 10]. -/
def insert_delete_changes : List change :=
  [{ usn := 1, type := CHANGE_TYPE_INSERT, id := 10, parent_id := 5, wname := [116],
     attributes := 0, ignore := false },
   { usn := 2, type := CHANGE_TYPE_DELETE, id := 10, parent_id := 5, wname := [116],
     attributes := 0, ignore := false }]

/-- The changes [DELETE id 10, DELETE id 10]. -/
def delete_delete_changes : List change :=
  [{ usn := 1, type := CHANGE_TYPE_DELETE, id := 10, parent_id := 5, wname := [114, 97],
     attributes := 0, ignore := false },
   { usn := 2, type := CHANGE_TYPE_DELETE, id := 10, parent_id := 5, wname := [114, 97],
     attributes := 0, ignore := false }]

/-! ## File IO and the snapshot file -/

/-- `struct file` with the file behind the handle: while writing, `data` is
what has been written so far; while reading, what has not been read yet. -/
structure file where
  ok : Bool
  data : List Nat

/-- `file_write` of the `size` bytes at `buffer`.  `WriteFile` is asked for
`(u32) size` bytes and is taken to write them all; the comparison
`bytes_written == size` is one of `usize` values. -/
def file_write (f : file) (buffer : Nat → Nat) (size : Nat) : file :=
  if f.ok then
    let bytes_written := size % 2 ^ 32
    if bytes_written = size then { f with data := f.data ++ bytes_of buffer bytes_written }
    else { ok := false, data := f.data ++ bytes_of buffer bytes_written }
  else f

/-- `file_read` of `size` bytes: the file and the bytes that arrived.
`ReadFile` is asked for `(u32) size` bytes and delivers as many of them as the
file still holds. -/
def file_read (f : file) (size : Nat) : file × List Nat :=
  if f.ok then
    let bytes := f.data.take (size % 2 ^ 32)
    if bytes.length = size then ({ f with data := f.data.drop (size % 2 ^ 32) }, bytes)
    else ({ ok := false, data := f.data.drop (size % 2 ^ 32) }, bytes)
  else (f, [])

/-- `file_read_and_allocate`: the file and the block read (`none` for a null
`*buffer`).  `heap size` tells whether `heap_alloc` honours the request. -/
def file_read_and_allocate (heap : Nat → Bool) (f : file) (size : Nat) :
    file × Option (List Nat) :=
  if f.ok then
    if heap size then
      let r := file_read f size
      if r.1.ok then (r.1, some r.2) else (r.1, none)
    else ({ f with ok := false }, none)
  else (f, none)

/-- The number whose little-endian bytes are given. -/
def le_value : List Nat → Nat
  | [] => 0
  | b :: bs => b + 256 * le_value bs

/-- `sizeof(array)`: a pointer and three `usize`. -/
def sizeof_array : Nat := 32

/-- A `struct array` as `file_read_array` leaves it: the four words of the
header as read (`elems_word` is the stale pointer of the writer) and the block
that `elems` points to after the allocation (`none` for null). -/
structure array_image where
  elems_word : Nat
  count : Nat
  count_allocated : Nat
  elem_size : Nat
  block : Option (List Nat)

/-- `file_read_array`.  When the header cannot be read the struct keeps what it
held and nothing is allocated; the image is then of no account, the caller
fails. -/
def file_read_array (heap : Nat → Bool) (f : file) : file × array_image :=
  let r := file_read f sizeof_array
  let img : array_image :=
    { elems_word := le_value (r.2.take 8)
      count := le_value ((r.2.drop 8).take 8)
      count_allocated := le_value ((r.2.drop 16).take 8)
      elem_size := le_value ((r.2.drop 24).take 8)
      block := none }
  let b := file_read_and_allocate heap r.1 (img.count_allocated * img.elem_size % 2 ^ 64)
  (b.1, { img with block := b.2 })

/-- The 32 bytes of a `struct array`: the pointer `elems`, `count`,
`count_allocated`, `elem_size`. -/
def array_bytes (elems_word count count_allocated elem_size : Nat) : List Nat :=
  le_bytes 8 elems_word ++ le_bytes 8 count ++ le_bytes 8 count_allocated ++ le_bytes 8 elem_size

/-- `file_write_array`: the struct (the pointer `elems` has the value
`elems_word`), then the `count_allocated * elem_size` bytes at `elems`, which
`block` gives. -/
def file_write_array {α : Type} (f : file) (a : array α) (elems_word : Nat)
    (block : Nat → Nat) : file :=
  let f1 := file_write f
    (mem_of (array_bytes elems_word a.count a.count_allocated a.elem_size)) sizeof_array
  file_write f1 block (a.count_allocated * a.elem_size % 2 ^ 64)

/-- The 32 bytes of a `struct record`: `name_offset`, `attributes`, four bytes
of padding (taken as 0), `id`, `parent_id`. -/
def record_bytes (r : record) : List Nat :=
  le_bytes 8 r.name_offset ++ le_bytes 4 r.attributes ++ [0, 0, 0, 0] ++ le_bytes 8 r.id
    ++ le_bytes 8 r.parent_id

/-- The block of an `array(record)` as bytes. -/
def record_block (elems : Nat → record) : Nat → Nat :=
  fun i => (record_bytes (elems (i / sizeof_record))).getD (i % sizeof_record) 0

/-- The block of an `array(u32)` as bytes. -/
def u32_block (elems : Nat → Nat) : Nat → Nat :=
  fun i => elems (i / 4) / 256 ^ (i % 4) % 256

/-- The `struct record` at byte offset `off` of a block. -/
def record_at (block : Nat → Nat) (off : Nat) : record :=
  { name_offset := le_value (bytes_of (fun j => block (off + j)) 8)
    attributes := le_value (bytes_of (fun j => block (off + 8 + j)) 4)
    id := le_value (bytes_of (fun j => block (off + 16 + j)) 8)
    parent_id := le_value (bytes_of (fun j => block (off + 24 + j)) 8) }

/-- The `u32` at byte offset `off` of a block. -/
def u32_at (block : Nat → Nat) (off : Nat) : Nat :=
  le_value (bytes_of (fun j => block (off + j)) 4)

/-- `db_write_to_file`: the returned flag and the bytes of the file.  The three
`elems` pointers have the values `names_word`, `records_word`, `lookup_word`.
`file_open` is taken to succeed. -/
def db_write_to_file (d : db) (names_word records_word lookup_word : Nat) : Bool × List Nat :=
  let f0 : file := { ok := true, data := [] }
  let f1 := file_write f0 (mem_of (le_bytes 8 d.latest_journal_id)) 8
  let f2 := file_write f1 (mem_of (le_bytes 8 d.latest_usn)) 8
  let f3 := file_write f2 (mem_of (le_bytes 4 d.records_not_in_use_count)) 4
  let f4 := file_write_array f3 d.name_buffer names_word d.name_buffer.elems
  let f5 := file_write_array f4 d.record_array records_word (record_block d.record_array.elems)
  let f6 := file_write_array f5 d.lookup_array lookup_word (u32_block d.lookup_array.elems)
  (f6.ok, f6.data)

/-- `db_create_from_file` on a file holding `data`: the index read, `none` for
`false`.  `file_open` is taken to succeed. -/
def db_create_from_file (heap : Nat → Bool) (data : List Nat) : Option db :=
  let f0 : file := { ok := true, data := data }
  let r1 := file_read f0 8
  let r2 := file_read r1.1 8
  let r3 := file_read r2.1 4
  let a1 := file_read_array heap r3.1
  let a2 := file_read_array heap a1.1
  let a3 := file_read_array heap a2.1
  if a3.1.ok then
    some
      { latest_journal_id := le_value r1.2
        latest_usn := le_value r2.2
        records_not_in_use_count := le_value r3.2
        name_buffer :=
          { elems := mem_of (a1.2.block.getD [])
            count := a1.2.count, count_allocated := a1.2.count_allocated
            elem_size := a1.2.elem_size }
        record_array :=
          { elems := fun i => record_at (mem_of (a2.2.block.getD [])) (sizeof_record * i)
            count := a2.2.count, count_allocated := a2.2.count_allocated
            elem_size := a2.2.elem_size }
        lookup_array :=
          { elems := fun i => u32_at (mem_of (a3.2.block.getD [])) (4 * i)
            count := a3.2.count, count_allocated := a3.2.count_allocated
            elem_size := a3.2.elem_size } }
  else none

/-- The fields of the record are values of their C types. -/
def record_fits (r : record) : Prop :=
  r.name_offset < 2 ^ 64 ∧ r.attributes < 2 ^ 32 ∧ r.id < 2 ^ 64 ∧ r.parent_id < 2 ^ 64

/-- The index is one a C program can hold: every field is a value of its C
type, `elem_size` is the size of the element type, and the blocks hold bytes,
records and `u32`s. -/
def db_fits (d : db) : Prop :=
  d.latest_journal_id < 2 ^ 64 ∧ d.latest_usn < 2 ^ 64 ∧ d.records_not_in_use_count < 2 ^ 32 ∧
  (d.name_buffer.count < 2 ^ 64 ∧ d.name_buffer.count_allocated < 2 ^ 64 ∧
    d.name_buffer.elem_size = 1) ∧
  (d.record_array.count < 2 ^ 64 ∧ d.record_array.count_allocated < 2 ^ 64 ∧
    d.record_array.elem_size = sizeof_record) ∧
  (d.lookup_array.count < 2 ^ 64 ∧ d.lookup_array.count_allocated < 2 ^ 64 ∧
    d.lookup_array.elem_size = 4) ∧
  (∀ i, i < d.name_buffer.count_allocated → d.name_buffer.elems i < 256) ∧
  (∀ i, i < d.record_array.count_allocated → record_fits (d.record_array.elems i)) ∧
  (∀ i, i < d.lookup_array.count_allocated → d.lookup_array.elems i < 2 ^ 32)

instance (r : record) : Decidable (record_fits r) := by
  unfold record_fits; infer_instance

instance (d : db) : Decidable (db_fits d) := by
  unfold db_fits; infer_instance

/-- An index with the name "a" in a 4-byte name buffer, one record (a root of id
5) in a block for 2 and a lookup of 8 entries. -/
def small_db : db :=
  { name_buffer := { elems := mem_of [97, 0], count := 2, count_allocated := 4, elem_size := 1 }
    record_array :=
      { elems := write_at (fun _ => default) 0 ⟨0, 16, 5, 5⟩
        count := 1, count_allocated := 2, elem_size := sizeof_record }
    lookup_array :=
      { elems := write_at (fun _ => 0) 5 0, count := 8, count_allocated := 8, elem_size := 4 }
    latest_usn := 1000
    latest_journal_id := 77
    records_not_in_use_count := 0 }

/-- The index made by `db_create` with a name buffer of 4 GiB. -/
def large_names_db : db :=
  { db_create with name_buffer := { db_create.name_buffer with count_allocated := 2 ^ 32 } }

/-! ## Notions used to state what a path is -/

/-- The records `chain` are a record, its parent, the parent of that one and so
on up to a root, as `db_get_record_parent` finds them. -/
def parent_chain (d : db) : List Nat → Prop
  | [] => False
  | [c] => (d.record_array.elems c).id = (d.record_array.elems c).parent_id
  | c :: c1 :: rest =>
    (d.record_array.elems c).id ≠ (d.record_array.elems c).parent_id ∧
    db_get_record_parent d (d.record_array.elems c) = some c1 ∧
    parent_chain d (c1 :: rest)

/-- A backslash and the name, for each name in turn. -/
def path_of_names : List (List Nat) → List Nat
  | [] => []
  | n :: ns => 92 :: n ++ path_of_names ns

/-- The path of the first record of `chain`: "C:", then a backslash and the
name of `chain[i]` for `i` from `chain.length - 2` down to 0. -/
def chain_path (d : db) (chain : List Nat) : List Nat :=
  [67, 58] ++ path_of_names
    ((List.range (chain.length - 1)).reverse.map fun i => record_name d (chain.getD i 0))

/-- The index made by inserting {id 10, parent 1, "readme.txt"} and then
{id 1, parent 1, "."}. -/
def readme_db : db :=
  db_of_calls
    [db_call.insert heap_always 10 1 0 [114, 101, 97, 100, 109, 101, 46, 116, 120, 116],
     db_call.insert heap_always 1 1 16 [46]]

/-! ## Ancestor walks on an index with a cycle -/

/-- An index with a root "." (id 5), its child "xa" (id 10), two records "ya"
(id 11) and "za" (id 12) that are each other's parent, and "wa" (id 13) whose
parent 99 is not in the index; "m" (id 0) is stored first. -/
def cycle_db : db :=
  db_of_calls
    [db_call.insert heap_always 0 0 0 [109], db_call.insert heap_always 5 5 16 [46],
     db_call.insert heap_always 10 5 0 [120, 97], db_call.insert heap_always 11 12 0 [121, 97],
     db_call.insert heap_always 12 11 0 [122, 97], db_call.insert heap_always 13 99 0 [119, 97]]

/-! ## An index with files and directories of the same name -/

/-- The index holding the root "." (id 5, a directory) and its children: the
directory "ab" (id 10), the file "ab" (id 11), the file "abc" (id 12) and the
file "AB" (id 13); "m" (id 0) is stored first. -/
def flags_db : db :=
  db_of_calls
    [db_call.insert heap_always 0 0 0 [109], db_call.insert heap_always 5 5 16 [46],
     db_call.insert heap_always 10 5 16 [97, 98], db_call.insert heap_always 11 5 0 [97, 98],
     db_call.insert heap_always 12 5 0 [97, 98, 99], db_call.insert heap_always 13 5 0 [65, 66]]

/-! ## Notions for case folding and for the scan of an empty text -/

/-- The index `d` with the bytes of its name buffer replaced by `elems`. -/
def with_name_bytes (d : db) (elems : Nat → Nat) : db :=
  { d with name_buffer := { d.name_buffer with elems := elems } }

/-- The condition of the `assert` at the head of `simd_memmem_count_zeroes` and
of `simd_memmem_count_zeroes_nocase`. -/
def simd_memmem_assert (k : Nat) : Bool := decide (k > 1)

/-- The index of the needle byte that `simd_memmem_count_zeroes` and
`simd_memmem_count_zeroes_nocase` broadcast into `last`: `needle[k - 1]`, with
`k - 1` a `usize`. -/
def simd_memmem_last_index (k : Nat) : Nat := usize_sub k 1

/-- The length handed to `memcmp` and `_memicmp` in the scans: `k - 2`, a
`usize`. -/
def simd_memmem_compare_length (k : Nat) : Nat := usize_sub k 2

/-! ## Messages, the server's response and the client's exchange -/

/-- `MSG_TYPE_NONE` of `enum msg_type` (`quickfind_shared.h`). -/
def MSG_TYPE_NONE : Nat := 0

/-- `MSG_TYPE_QUERY_REQUEST`. -/
def MSG_TYPE_QUERY_REQUEST : Nat := 1

/-- `MSG_TYPE_QUERY_RESPONSE`. -/
def MSG_TYPE_QUERY_RESPONSE : Nat := 2

/-- The value of an enumerator of `quickfind_error`. -/
def error_value : quickfind_error → Nat
  | QUICKFIND_OK => 0
  | QUICKFIND_ERROR_CANCELLED => 1
  | QUICKFIND_ERROR_INVALID_REQUEST => 2
  | QUICKFIND_ERROR_INVALID_RESPONSE => 3
  | QUICKFIND_ERROR_SERVER_NOT_INITIALIZED => 4
  | QUICKFIND_ERROR_DATABASE_NOT_INITIALIZED => 5
  | QUICKFIND_ERROR_COULD_NOT_CONNECT_TO_SERVER => 6
  | QUICKFIND_ERROR_OUT_OF_MEMORY => 7
  | QUICKFIND_ERROR_WIN32 => 8
  | QUICKFIND_ERROR_COULD_NOT_GET_PATH => 9
  | QUICKFIND_ERROR_CONNECTION_TIMEOUT => 10
  | QUICKFIND_ERROR_IO_READ => 11
  | QUICKFIND_ERROR_IO_WRITE => 12
  | QUICKFIND_ERROR_NO_RESULT => 13

/-- `sizeof(msg.body)`: `MEGABYTES(1)`. -/
def sizeof_msg_body : Nat := 1024 * 1024

/-- `sizeof(msg.head)`: `type` and `error` (4 bytes each), the union (32 bytes,
aligned to 8), `body_size` (4 bytes) and 4 bytes of padding. -/
def sizeof_msg_head : Nat := 48

/-- `struct msg` read through the member `query_request` of the union of its
head; `body` is the memory of the array `body`. -/
structure request_msg where
  type : Nat
  error : quickfind_error
  return_count : Nat
  skip_count : Nat
  stop_count : Nat
  flags : Nat
  body_size : Nat
  body : Nat → Nat

/-- `struct msg` read through the member `query_response` of the union of its
head. -/
structure response_msg where
  type : Nat
  error : quickfind_error
  found_count : Nat
  return_count : Nat
  body_size : Nat
  body : Nat → Nat

/-- The fields of `struct server` that `server_calculate_response` uses. -/
structure server where
  database : db
  database_initialized : Bool
  request : request_msg
  response : response_msg

/-- The local `params` of `server_calculate_response`. -/
def server_params (s : server) : quickfind_params :=
  { text := s.request.body, text_length := s.request.body_size, flags := s.request.flags,
    return_count := s.request.return_count, skip_count := s.request.skip_count,
    stop_count := s.request.stop_count }

/-- The local `result_buffer` of `server_calculate_response`: the body of the
response, empty. -/
def server_result_buffer (s : server) : buffer :=
  { data := s.response.body, size := 0, capacity := sizeof_msg_body }

/-- `server_calculate_response`: the server with its response filled in; `rounds`
is handed to `run_query`.  The head of the response is zeroed first, the body
keeps what it held. -/
def server_calculate_response (rounds : Nat) (s : server) : Option server :=
  let res : response_msg :=
    { type := 0, error := QUICKFIND_OK, found_count := 0, return_count := 0, body_size := 0,
      body := s.response.body }
  if s.request.type = MSG_TYPE_QUERY_REQUEST then
    if s.database_initialized then
      match run_query rounds (server_params s) (server_result_buffer s) s.database with
      | none => none
      | some (query_result, result_buffer) =>
        if query_result.error = QUICKFIND_OK then
          some { s with
            response :=
              { res with
                type := MSG_TYPE_QUERY_RESPONSE
                found_count := query_result.found_count
                return_count := query_result.return_count
                body_size := result_buffer.size % 2 ^ 32
                body := result_buffer.data } }
        else
          some { s with
            response := { res with error := query_result.error, body := result_buffer.data } }
    else some { s with response := { res with error := QUICKFIND_ERROR_DATABASE_NOT_INITIALIZED } }
  else
    some { s with
      response := { res with body_size := error_value QUICKFIND_ERROR_INVALID_REQUEST } }

/-- `pipe_write_msg` (`quickfind_shared.c`), given the outcome of `WriteFile`:
whether it succeeded and `bytes_written`. -/
def pipe_write_msg (WriteFile_ok : Bool) (bytes_written body_size : Nat) : quickfind_error :=
  let msg_size := (sizeof_msg_head + body_size) % 2 ^ 32
  if WriteFile_ok = false then QUICKFIND_ERROR_IO_WRITE
  else if bytes_written ≠ msg_size then QUICKFIND_ERROR_IO_WRITE
  else QUICKFIND_OK

/-- `pipe_read_msg`, given the outcome of `ReadFile` (whether it succeeded and
`bytes_read`) and the `head.body_size` of the message it left in `msg`.  For a
`body_size` above `sizeof(msg->body)` the source writes a line to the log and
goes on to `return QUICKFIND_OK`. -/
def pipe_read_msg (ReadFile_ok : Bool) (bytes_read body_size : Nat) : quickfind_error :=
  if ReadFile_ok = false then QUICKFIND_ERROR_IO_READ
  else if bytes_read < sizeof_msg_head then QUICKFIND_ERROR_IO_READ
  else if body_size > sizeof_msg_body then QUICKFIND_OK
  else QUICKFIND_OK

/-- What `quickfind_open` returns once the pipe is connected: `alloc_ok` tells
whether `quickfind__alloc` returned a block, `write_error` and `read_error` are
what `pipe_write_msg` and `pipe_read_msg` returned, `received` is the message
that `pipe_read_msg` left in `r->msg`. -/
def quickfind_open_connected (alloc_ok : Bool) (write_error read_error : quickfind_error)
    (received : response_msg) : quickfind_error :=
  let error := if alloc_ok then QUICKFIND_OK else QUICKFIND_ERROR_OUT_OF_MEMORY
  let error := if error = QUICKFIND_OK then write_error else error
  let error := if error = QUICKFIND_OK then read_error else error
  let error :=
    if error = QUICKFIND_OK then
      if received.type ≠ MSG_TYPE_QUERY_RESPONSE then QUICKFIND_ERROR_INVALID_RESPONSE
      else error
    else error
  error

/-- A server whose index is `d`, with an empty request of type `type`. -/
def server_of (d : db) (database_initialized : Bool) (type : Nat) : server :=
  { database := d, database_initialized := database_initialized,
    request := { type := type, error := QUICKFIND_OK, return_count := 0, skip_count := 0,
                 stop_count := 0, flags := 0, body_size := 0, body := fun _ => 0 },
    response := { type := 0, error := QUICKFIND_OK, found_count := 0, return_count := 0,
                  body_size := 0, body := fun _ => 0 } }

/-! ## The default stop count and the index of f0 ... f99 -/

/-- The stop count `quickfind_open` sends: when `stop_count` is not specified (0),
`skip_count + return_count` (a `uint64_t`). -/
def quickfind_open_params (params : quickfind_params) : quickfind_params :=
  if params.stop_count = 0 then
    { params with stop_count := (params.skip_count + params.return_count) % 2 ^ 64 }
  else params

/-- The name "f" followed by the decimal digits of `i < 100`. -/
def f_name (i : Nat) : List Nat :=
  if i < 10 then [102, 48 + i] else [102, 48 + i / 10, 48 + i % 10]

/-- The calls that insert the records f0, f1, ... (ids 2, 3, ...), `n` of them,
children of the record with id 1. -/
def f_calls (n : Nat) : List db_call :=
  (List.range n).map fun i => db_call.insert heap_always (2 + i) 1 0 (f_name i)

/-- The index holding the `n` records f0, f1, ... in that order and the root "."
(id 1, a directory), the root stored at index `p`. -/
def f_index (n p : Nat) : db :=
  db_of_calls ((f_calls n).take p ++ db_call.insert heap_always 1 1 16 [46] :: (f_calls n).drop p)

/-- The offsets of the names `names`, stored one after the other from `start`
with a NUL behind each. -/
def name_offsets : Nat → List (List Nat) → List Nat
  | _, [] => []
  | start, name :: rest => start :: name_offsets (start + name.length + 1) rest

/-- The index state that holds the records `recs` (id, parent id, attributes,
name) in this order, as `db_insert` lays them out from `db_create`: the names
packed with their terminators, record `k` with the offset of its name, the
lookup entry of a record number holding the index of the last record with that
number. -/
def index_of_records (recs : List (Nat × Nat × Nat × List Nat)) : db :=
  { name_buffer :=
      { elems := mem_of (recs.flatMap fun r => r.2.2.2 ++ [0])
        count := (recs.flatMap fun r => r.2.2.2 ++ [0]).length
        count_allocated := 64 * 1024
        elem_size := 1 }
    record_array :=
      { elems := fun k =>
          match recs.get? k with
          | some r => ⟨(name_offsets 0 (recs.map fun r => r.2.2.2)).getD k 0, r.2.2.1, r.1, r.2.1⟩
          | none => default
        count := recs.length
        count_allocated := 2048
        elem_size := sizeof_record }
    lookup_array :=
      { elems := fun rn =>
          ((List.range recs.length).filter fun k =>
            decide (record_number (recs.getD k (0, 0, 0, [])).1 = rn)).getLastD 0
        count := 16384
        count_allocated := 16384
        elem_size := 4 }
    latest_usn := 0
    latest_journal_id := 0
    records_not_in_use_count := 0 }

/-- The records f0, f1, ... (ids 2, 3, ...), `n` of them, children of the record
with id 1, and the root "." (id 1, a directory) at position `p` among them. -/
def f_recs (n p : Nat) : List (Nat × Nat × Nat × List Nat) :=
  ((List.range n).map fun i => (2 + i, 1, 0, f_name i)).take p
    ++ (1, 1, 16, [46]) :: ((List.range n).map fun i => (2 + i, 1, 0, f_name i)).drop p

/-! ## Pruning, and the changes of an insert followed by an update -/

/-- `db_prune`: the body in the source is empty, the index is left as it is (the
function has no `return`, its value is not used here). -/
def db_prune (d : db) : db := d

/-- The changes [INSERT id 8 "a", UPDATE id 8 "b"], parent 5. -/
def insert_update_changes : List change :=
  [{ usn := 1, type := CHANGE_TYPE_INSERT, id := 8, parent_id := 5, wname := [97],
     attributes := 0, ignore := false },
   { usn := 2, type := CHANGE_TYPE_UPDATE, id := 8, parent_id := 5, wname := [98],
     attributes := 0, ignore := false }]

/-! ## The server loop for one connection, the client's iteration over the items -/

/-- The `ERROR_PIPE_CONNECTED` case of the loop of `server_run`: `pipe_read_msg`
into `server->request`, then, if it returned no error,
`server_calculate_response` and `pipe_write_msg`.  `request` is the message as
`ReadFile` left it; the flag tells whether a response was calculated and
written. -/
def server_run_connected (rounds : Nat) (s : server) (ReadFile_ok : Bool) (bytes_read : Nat)
    (request : request_msg) : Option (server × Bool) :=
  let s1 := { s with request := request }
  if pipe_read_msg ReadFile_ok bytes_read request.body_size = QUICKFIND_OK then
    (server_calculate_response rounds s1).map fun s2 => (s2, true)
  else some (s1, false)

/-- `InterlockedIncrement` on a `u32`: the new value, which is also returned. -/
def InterlockedIncrement (value : Nat) : Nat := (value + 1) % 2 ^ 32

/-- The test `!query_inc_begin != quickfind_g_query_inc && yield_to_next_thread`
at the head of the connection loop of `quickfind_open`; `!` binds tighter than
`!=`, so the left operand is `!query_inc_begin`, 1 for 0 and 0 otherwise. -/
def quickfind_open_yields (query_inc_begin quickfind_g_query_inc : Nat)
    (yield_to_next_thread : Bool) : Bool :=
  decide ((if query_inc_begin = 0 then 1 else 0) ≠ quickfind_g_query_inc) && yield_to_next_thread

/-- The first round of the connection loop of `quickfind_open` up to
`CreateFileA`: `some QUICKFIND_ERROR_CANCELLED` for the `return`, `none` when the
call goes on to connect.  `counter` is `quickfind_g_query_inc` before the call,
`others` the number of calls of `quickfind_open` that incremented it between the
increment of this call and the test. -/
def quickfind_open_first_test (counter others : Nat) (yield_to_next_thread : Bool) :
    Option quickfind_error :=
  let query_inc_begin := InterlockedIncrement counter
  let quickfind_g_query_inc := (query_inc_begin + others) % 2 ^ 32
  if quickfind_open_yields query_inc_begin quickfind_g_query_inc yield_to_next_thread then
    some QUICKFIND_ERROR_CANCELLED
  else none

/-- `struct quickfind_results`: `current_item` is the offset of the item in the
body of the message (`none` for null), `msg` the response. -/
structure quickfind_results where
  current_item_index : Nat
  current_item : Option Nat
  msg : response_msg

/-- The field `id` of the `query_result_item` at offset `item` of the body. -/
def item_id (body : Nat → Nat) (item : Nat) : Nat :=
  le_value (bytes_of (fun j => body (item + j)) 8)

/-- The field `attributes` of the item at offset `item`. -/
def item_attributes (body : Nat → Nat) (item : Nat) : Nat :=
  le_value (bytes_of (fun j => body (item + 8 + j)) 4)

/-- The field `path_size` of the item at offset `item`. -/
def item_path_size (body : Nat → Nat) (item : Nat) : Nat :=
  le_value (bytes_of (fun j => body (item + 12 + j)) 4)

/-- `quickfind__has_valid_item` for a non-null `results`; `item_end_idx` is the
pointer difference cast to `uint32_t`. -/
def quickfind__has_valid_item (results : quickfind_results) : Bool :=
  match results.current_item with
  | none => false
  | some item =>
    if results.current_item_index = 2 ^ 32 - 1 then false
    else if results.current_item_index ≥ results.msg.return_count then false
    else
      let item_end_idx :=
        (item + sizeof_query_result_item + item_path_size results.msg.body item) % 2 ^ 32
      if item_end_idx > results.msg.body_size then false else true

/-- `quickfind_next` for a non-null `r`: the returned flag and the new state;
`none` where the source dereferences a null `current_item`. -/
def quickfind_next (r : quickfind_results) : Option (Bool × quickfind_results) :=
  if r.msg.return_count = 0 then some (false, r)
  else if r.current_item_index = 2 ^ 32 - 1 then
    some (true, { r with current_item := some 0, current_item_index := 0 })
  else if (r.current_item_index + 1) % 2 ^ 32 < r.msg.return_count then
    match r.current_item with
    | none => none
    | some item =>
      let current_result_size :=
        (sizeof_query_result_item + item_path_size r.msg.body item) % 2 ^ 32
      let next_result := item + current_result_size
      let data_end := r.msg.body_size
      if next_result < data_end then
        let r1 : quickfind_results :=
          { r with current_item := some next_result
                   current_item_index := (r.current_item_index + 1) % 2 ^ 32 }
        some (quickfind__has_valid_item r1, r1)
      else
        some (false, { r with current_item := none, current_item_index := r.msg.return_count })
  else some (false, { r with current_item := none, current_item_index := r.msg.return_count })

/-- `quickfind_get_result_full_path`: the offset of the path in the body, `none`
for the empty string literal. -/
def quickfind_get_result_full_path (results : quickfind_results) : Option Nat :=
  if quickfind__has_valid_item results then
    results.current_item.map fun item => item + sizeof_query_result_item
  else none

/-- `quickfind_get_result_attributes`. -/
def quickfind_get_result_attributes (results : quickfind_results) : Nat :=
  if quickfind__has_valid_item results then
    item_attributes results.msg.body (results.current_item.getD 0)
  else 0

/-- `quickfind_get_result_id`. -/
def quickfind_get_result_id (results : quickfind_results) : Nat :=
  if quickfind__has_valid_item results then
    item_id results.msg.body (results.current_item.getD 0)
  else 0

/-- The state `quickfind_open` leaves on success: `current_item = null`,
`current_item_index = -1`. -/
def quickfind_results_of (msg : response_msg) : quickfind_results :=
  { current_item_index := 2 ^ 32 - 1, current_item := none, msg := msg }

/-- A response of one item whose `path_size` field is 0xFFFFFFF0, in a body of
16 bytes. -/
def wrapping_response : response_msg :=
  { type := MSG_TYPE_QUERY_RESPONSE, error := QUICKFIND_OK, found_count := 1, return_count := 1,
    body_size := 16,
    body := mem_of [7, 0, 0, 0, 0, 0, 0, 0, 0, 0, 0, 0, 0xF0, 0xFF, 0xFF, 0xFF] }

/-- The snapshot `db_write_to_file` writes of `small_db` (216 bytes). -/
def small_snapshot : List Nat := (db_write_to_file small_db 4096 8192 12288).2

/-! ## The client: iterating over the items of a response -/

/-- The bytes of one item (id, attributes, path with its terminator):
`path_size` is the number of path bytes. -/
def item_bytes (it : Nat × Nat × List Nat) : List Nat :=
  query_result_item_bytes it.1 it.2.1 it.2.2.length it.2.2

/-- The bytes of the items, packed one after the other. -/
def packed_items : List (Nat × Nat × List Nat) → List Nat
  | [] => []
  | it :: rest => item_bytes it ++ packed_items rest

/-- The flag and the state after `n` successive calls of `quickfind_next` (for
`n = 0` the state alone counts). -/
def quickfind_next_calls : Nat → quickfind_results → Option (Bool × quickfind_results)
  | 0, r => some (false, r)
  | n + 1, r => (quickfind_next_calls n r).bind fun p => quickfind_next p.2

/-- The offset of item `i` in the packed items. -/
def item_offset (items : List (Nat × Nat × List Nat)) (i : Nat) : Nat :=
  (packed_items (items.take i)).length

/-- The state of the iteration at item `i`. -/
def results_at (msg : response_msg) (items : List (Nat × Nat × List Nat)) (i : Nat) :
    quickfind_results :=
  { current_item_index := i, current_item := some (item_offset items i), msg := msg }

/-- A response with the two items (10, 0, "C:\ra") and (11, 0, "C:\a"). -/
def two_item_response : response_msg :=
  { type := MSG_TYPE_QUERY_RESPONSE, error := QUICKFIND_OK, found_count := 2, return_count := 2,
    body_size := 43,
    body := mem_of (packed_items [(10, 0, [67, 58, 92, 114, 97, 0]), (11, 0, [67, 58, 92, 97, 0])]) }

/-! ## The index store: what the calls keep -/

/-- The existing data of `d` is where and what it was in `d1`: the counts did
not decrease, every record of `d` has its id, parent id and name offset at the
same index and its attributes either as before or with NOT_IN_USE added, and
the bytes of the name buffer of `d` are as before. -/
def existing_data_kept (d d1 : db) : Prop :=
  d.record_array.count ≤ d1.record_array.count ∧
  d.name_buffer.count ≤ d1.name_buffer.count ∧
  (∀ i, i < d.name_buffer.count → d1.name_buffer.elems i = d.name_buffer.elems i) ∧
  (∀ i, i < d.record_array.count →
    (d1.record_array.elems i).id = (d.record_array.elems i).id ∧
    (d1.record_array.elems i).parent_id = (d.record_array.elems i).parent_id ∧
    (d1.record_array.elems i).name_offset = (d.record_array.elems i).name_offset ∧
    ((d1.record_array.elems i).attributes = (d.record_array.elems i).attributes ∨
      (d1.record_array.elems i).attributes
        = (d.record_array.elems i).attributes ||| FILE_ATTRIBUTE_NOT_IN_USE))

/-- The number of records in `record_array` whose attributes have NOT_IN_USE set. -/
def records_marked_not_in_use (d : db) : Nat :=
  count_where
    (fun i => decide ((d.record_array.elems i).attributes &&& FILE_ATTRIBUTE_NOT_IN_USE ≠ 0))
    d.record_array.count

/-- The attributes argument of the call, if it has one, does not carry
NOT_IN_USE. -/
def call_attributes_in_use : db_call → Bool
  | db_call.insert _ _ _ attributes _ => decide (attributes &&& FILE_ATTRIBUTE_NOT_IN_USE = 0)
  | db_call.update _ _ _ attributes _ => decide (attributes &&& FILE_ATTRIBUTE_NOT_IN_USE = 0)
  | db_call.delete _ => true

/-! ## The query: counters of a result -/

/-- The counters `found` and `ret` and the buffer `b` of a query on the buffer
`b0` fit together: `ret` is at most `params.return_count`, it is at most
`found - skip_count` when `found > skip_count` and 0 otherwise, and `b` is `b0`
with the items of `ret` records appended, each with a path that was built. -/
def query_counters_ok (params : quickfind_params) (d : db) (b0 : buffer) (found ret : Nat)
    (b : buffer) : Prop :=
  ret ≤ params.return_count ∧
  ((params.skip_count < found ∧ ret ≤ found - params.skip_count) ∨
    (¬ params.skip_count < found ∧ ret = 0)) ∧
  ∃ ks : List Nat, ks.length = ret ∧ (∀ k ∈ ks, path_builds d k = true) ∧
    buffer_holds b0 (items_bytes d ks) b

/-! ## The scan for a needle, byte by byte -/

/-- The `k` bytes of `needle` stand at offset `q` of `mem`. -/
def needle_occurs (mem needle : Nat → Nat) (k q : Nat) : Bool :=
  (List.range k).all fun j => decide (mem (q + j) = needle j)

/-- A byte-by-byte search over `len` positions from position `p` of the buffer
at `s`: the first position at which the needle stands, and `zero_count` plus the
number of NUL bytes passed strictly before it; without a match, null and the
NULs of all the positions. -/
def memmem_bytewise (mem : Nat → Nat) (s : Nat) (needle : Nat → Nat) (k : Nat) :
    Nat → Nat → Nat → Option Nat × Nat
  | 0, _, zero_count => (none, zero_count)
  | len + 1, p, zero_count =>
    if needle_occurs mem needle k (s + p) then (some (s + p), zero_count)
    else memmem_bytewise mem s needle k len (p + 1)
      (zero_count + (if mem (s + p) = 0 then 1 else 0))

/-- The bytes NUL, "axa", "aba": the candidate at position 1 has the first and
the last byte of the needle "aba" and another interior. -/
def candidate_memory : Nat → Nat := mem_of [0, 97, 120, 97, 98, 97]

/-! ## NTFS: the records of the master file table (quickfind_ntfs.h, quickfind_ntfs.c) -/

/-- `NTFS_MAGIC_NUMBER`: "FILE" in ASCII. -/
def NTFS_MAGIC_NUMBER : Nat := 0x454C4946

/-- `NTFS_FILE_RECORD_SIZE`. -/
def NTFS_FILE_RECORD_SIZE : Nat := 1024

/-- `SEQUENCE_NUMBER_STRIDE`. -/
def SEQUENCE_NUMBER_STRIDE : Nat := 512

/-- `NTFS_ATTRIBUTE_TYPE_ATTRIBUTE_LIST`. -/
def NTFS_ATTRIBUTE_TYPE_ATTRIBUTE_LIST : Nat := 0x20

/-- `NTFS_ATTRIBUTE_TYPE_FILE_NAME`. -/
def NTFS_ATTRIBUTE_TYPE_FILE_NAME : Nat := 0x30

/-- `NTFS_ATTRIBUTE_TYPE_END`. -/
def NTFS_ATTRIBUTE_TYPE_END : Nat := 0xFFFFFFFF

/-- `NTFS_NAMESPACE_DOS`. -/
def NTFS_NAMESPACE_DOS : Nat := 0x2

/-- `sizeof(ntfs_resident_attribute)`: the 16 bytes of `ntfs_attribute` and
`u32 attribute_length; u16 attribute_offset; u8 indexed; u8 unused;`. -/
def sizeof_ntfs_resident_attribute : Nat := 24

/-- `enum ntfs_error`. -/
inductive ntfs_error where
  | NTFS_ERROR_NONE
  | NTFS_ERROR_COULD_NOT_OPEN_VOLUME
  | NTFS_ERROR_COULD_NOT_READ_BOOT_SECTOR
  | NTFS_ERROR_COULD_NOT_READ_MFT_RECORD
  | NTFS_ERROR_DATA_ATTRIBUTE_NON_RESIDENT
  | NTFS_ERROR_COULD_NOT_READ_FROM_VOLUME
  | NTFS_ERROR_PARSE_RECORD_NO_MAGIC_NUMBER
  | NTFS_ERROR_PARSE_RECORD_NOT_IN_USE
  | NTFS_ERROR_PASRE_FILE_NAME_ATTRIBUTE_MISSING
  | NTFS_ERROR_PARSE_FILE_NAME_ATTRIBUTE_NON_RESIDENT
  | NTFS_ERROR_COUNT
deriving DecidableEq, Repr

open ntfs_error

/-- `struct ntfs_parsed_mft_record`; `name` holds the `name_len` UTF-16 code
units the pointer `name` points at. -/
structure ntfs_parsed_mft_record where
  parse_error : ntfs_error
  id : Nat
  parent_id : Nat
  name : List Nat
  name_len : Nat
  attributes : Nat
deriving DecidableEq, Repr

/-- `struct ntfs_parsed_data_run`. -/
structure ntfs_parsed_datarun where
  length : Nat
  offset : Nat
deriving DecidableEq, Repr

instance : Inhabited ntfs_parsed_datarun := ⟨⟨0, 0⟩⟩

/-- The volume behind the `HANDLE`: its bytes, and whether a read of `size`
bytes at an offset delivers them (`SetFilePointer`, `ReadFile` and the
comparison of `bytes_read`). -/
structure ntfs_volume where
  bytes : Nat → Nat
  readable : Nat → Nat → Bool

/-- `struct ntfs_mft_iterator`; `buffer` is the memory at the pointer, the
volume is passed along separately. -/
structure ntfs_mft_iter where
  data_runs : Nat → ntfs_parsed_datarun
  data_run_count : Nat
  buffer : Nat → Nat
  buffer_size : Nat
  bytes_per_sector : Nat
  bytes_per_cluster : Nat
  current_datarun : Nat
  current_offset_in_datarun : Nat

/-- The `u16` at byte offset `off`. -/
def u16_at (block : Nat → Nat) (off : Nat) : Nat :=
  le_value (bytes_of (fun j => block (off + j)) 2)

/-- The `u64` at byte offset `off`. -/
def u64_at (block : Nat → Nat) (off : Nat) : Nat :=
  le_value (bytes_of (fun j => block (off + j)) 8)

/-- The loop of `ntfs_fixup_record`, entered with `i` and `j`; `offset` is the
byte offset of the update sequence array in the record. -/
def ntfs_fixup_record_loop (offset : Nat) : Nat → Nat → Nat → (Nat → Nat) → (Nat → Nat)
  | 0, _, _, record => record
  | rounds + 1, i, j, record =>
    if i ≤ NTFS_FILE_RECORD_SIZE then
      let value := i - 2
      if u16_at record value = u16_at record offset then
        ntfs_fixup_record_loop offset rounds (i + SEQUENCE_NUMBER_STRIDE) (j + 1)
          (write_bytes record value (le_bytes 2 (u16_at record (offset + 2 * j))))
      else if u16_at record (offset + 2 * j) ≠ u16_at record value then record
      else ntfs_fixup_record_loop offset rounds (i + SEQUENCE_NUMBER_STRIDE) (j + 1) record
    else record

/-- `ntfs_fixup_record`: the memory at the record afterwards.  The function
returns nothing; the loop takes the values `i = 512, 1024`. -/
def ntfs_fixup_record (record : Nat → Nat) : Nat → Nat :=
  ntfs_fixup_record_loop (u16_at record 4) 3 SEQUENCE_NUMBER_STRIDE 1 record

/-- `ntfs_read_from_volume`: the flag and the memory at `buffer` afterwards. -/
def ntfs_read_from_volume (volume : ntfs_volume) (buffer : Nat → Nat) (size frm : Nat) :
    Bool × (Nat → Nat) :=
  if volume.readable frm size then
    (true, fun i => if i < size then volume.bytes (frm + i) else buffer i)
  else (false, buffer)

/-- One of the two `for` loops of `ntfs_next_datarun` that add up the bytes of a
field, with `rounds` rounds to go: the new `i` and the new value.  A shift count
is taken modulo 64, as the processor does. -/
def ntfs_next_datarun_field (m : Nat → Nat) (data : Nat) : Nat → Nat → Nat → Nat → Nat × Nat
  | 0, _, i, value => (i, value)
  | rounds + 1, j, i, value =>
    ntfs_next_datarun_field m data rounds (j + 1) (i + 1)
      ((value + (m (data + i) <<< (j * 8 % 64)) % 2 ^ 64) % 2 ^ 64)

/-- The loop `for (j = offset_field_size; j < sizeof(u64); j++)` of
`ntfs_next_datarun`, with `rounds` rounds to go. -/
def ntfs_next_datarun_extend : Nat → Nat → Nat → Nat
  | 0, _, offset_in_clusters => offset_in_clusters
  | rounds + 1, j, offset_in_clusters =>
    ntfs_next_datarun_extend rounds (j + 1) (offset_in_clusters ||| (0xFF <<< (j * 8)))

/-- `ntfs_next_datarun` for the data run at offset `datarun_start` of `m`: the
returned offset, `*length_in_clusters` and `*offset_in_clusters`.  The count of
the shift that makes `sign_mask` is taken modulo 64, as the processor does. -/
def ntfs_next_datarun (m : Nat → Nat) (datarun_start : Nat) : Nat × Nat × Nat :=
  let length_field_size := m datarun_start % 16
  let offset_field_size := m datarun_start / 16 % 16
  let data := datarun_start + 1
  let l := ntfs_next_datarun_field m data length_field_size 0 0 0
  let o := ntfs_next_datarun_field m data offset_field_size 0 l.1 0
  let sign_mask := (0x80 <<< ((offset_field_size * 8 + 56) % 64)) % 2 ^ 64
  let offset_in_clusters :=
    if o.2 &&& sign_mask ≠ 0 then
      ntfs_next_datarun_extend (8 - offset_field_size) offset_field_size o.2
    else o.2
  (datarun_start + o.1 + 1, l.2, offset_in_clusters)

/-- The loop `while ((*data_run_ptr) && (iter->data_run_count < countof(iter->data_runs)))`
of `ntfs_mft_iter_open`, with room for `room` more runs in `data_runs`: the runs
it stores, in order. -/
def ntfs_mft_iter_open_dataruns (m : Nat → Nat) (bytes_per_cluster : Nat) :
    Nat → Nat → Nat → List ntfs_parsed_datarun
  | 0, _, _ => []
  | room + 1, data_run_ptr, cluster =>
    if m data_run_ptr ≠ 0 then
      let r := ntfs_next_datarun m data_run_ptr
      let cluster1 := (cluster + r.2.2) % 2 ^ 64
      { length := r.2.1 * bytes_per_cluster % 2 ^ 64,
        offset := cluster1 * bytes_per_cluster % 2 ^ 64 }
        :: ntfs_mft_iter_open_dataruns m bytes_per_cluster room r.1 cluster1
    else []

/-- `ntfs_next_attribute`: the returned flag and `*attribute` afterwards
(`none` for null); an attribute is its byte offset in the record. -/
def ntfs_next_attribute (record : Nat → Nat) (attr : Option Nat) : Bool × Option Nat :=
  match attr with
  | none => (true, some (u16_at record 20))
  | some current =>
    let next := current + u32_at record (current + 4)
    if next < NTFS_FILE_RECORD_SIZE then
      if u32_at record next ≠ NTFS_ATTRIBUTE_TYPE_END then (true, some next)
      else (false, some current)
    else (false, some current)

/-- The loop of `ntfs_get_absolute_offset_of_record_number`, with `rounds` runs
to go. -/
def ntfs_get_absolute_offset_of_record_number_loop (find_number : Nat)
    (dataruns : Nat → ntfs_parsed_datarun) : Nat → Nat → Nat → Nat
  | 0, _, _ => 0
  | rounds + 1, i, record_sum =>
    let records_in_run := (dataruns i).length / NTFS_FILE_RECORD_SIZE
    let run_start_number := record_sum
    let run_end_number := (record_sum + records_in_run) % 2 ^ 64
    if run_start_number ≤ find_number ∧ run_end_number > find_number then
      let number_offset := find_number - run_start_number
      ((dataruns i).offset + number_offset * NTFS_FILE_RECORD_SIZE % 2 ^ 64) % 2 ^ 64
    else
      ntfs_get_absolute_offset_of_record_number_loop find_number dataruns rounds (i + 1)
        ((record_sum + records_in_run) % 2 ^ 64)

/-- `ntfs_get_absolute_offset_of_record_number`. -/
def ntfs_get_absolute_offset_of_record_number (find_number : Nat)
    (dataruns : Nat → ntfs_parsed_datarun) (datarun_count : Nat) : Nat :=
  ntfs_get_absolute_offset_of_record_number_loop find_number dataruns datarun_count 0 0

/-- The walk `while (ntfs_next_attribute(&other_record, &other_attribute))` of
`ntfs_parse_mft_record`: the attribute found (`some none` when the walk ends
without one, `none` when `fuel` rounds do not end it). -/
def ntfs_parse_other_record (other_record : Nat → Nat) : Nat → Option Nat → Option (Option Nat)
  | 0, _ => none
  | fuel + 1, other_attribute =>
    match ntfs_next_attribute other_record other_attribute with
    | (false, _) => some none
    | (true, next) =>
      let a := next.getD 0
      if u32_at other_record a = NTFS_ATTRIBUTE_TYPE_FILE_NAME ∧ other_record (a + 8) = 0 then
        if other_record (a + 89) ≠ NTFS_NAMESPACE_DOS then some (some a)
        else ntfs_parse_other_record other_record fuel next
      else ntfs_parse_other_record other_record fuel next

/-- The loop over the entries of a resident attribute list at `attribute` in
`ntfs_parse_mft_record`, entered with `list_entry_ptr`: the record and the name
attribute found in it (`some none` when the entries end without one, `none`
when `fuel` rounds do not end a loop). -/
def ntfs_parse_attribute_list (iter : ntfs_mft_iter) (volume : ntfs_volume) (record : Nat → Nat)
    (attr : Nat) : Nat → Nat → Option (Option ((Nat → Nat) × Nat))
  | 0, _ => none
  | fuel + 1, list_entry_ptr =>
    if list_entry_ptr < attr + u32_at record (attr + 4) then
      let entry_record_number := u64_at record (list_entry_ptr + 16) % 2 ^ 48
      let next := list_entry_ptr + u16_at record (list_entry_ptr + 4)
      if entry_record_number ≠ u32_at record 44 ∧
          u32_at record list_entry_ptr = NTFS_ATTRIBUTE_TYPE_FILE_NAME ∧
          u64_at record (list_entry_ptr + 8) = 0 then
        let offset := ntfs_get_absolute_offset_of_record_number entry_record_number
          iter.data_runs iter.data_run_count
        match ntfs_read_from_volume volume (fun _ => 0) NTFS_FILE_RECORD_SIZE offset with
        | (true, other_record) =>
          if u32_at other_record 44 = entry_record_number then
            match ntfs_parse_other_record other_record fuel none with
            | none => none
            | some (some a) => some (some (other_record, a))
            | some none => ntfs_parse_attribute_list iter volume record attr fuel next
          else ntfs_parse_attribute_list iter volume record attr fuel next
        | (false, _) => ntfs_parse_attribute_list iter volume record attr fuel next
      else ntfs_parse_attribute_list iter volume record attr fuel next
    else some none

/-- The walk `while (ntfs_next_attribute(record, &attribute))` of
`ntfs_parse_mft_record` with its `switch`: the parse error of a `return`, or
`name_attribute` at the label `name_attribute_found`, given as the record it
lies in and its offset (`none` for null); `none` when `fuel` rounds do not end
a loop. -/
def ntfs_parse_walk (iter : ntfs_mft_iter) (volume : ntfs_volume) (record : Nat → Nat) :
    Nat → Option Nat → Option (Except ntfs_error (Option ((Nat → Nat) × Nat)))
  | 0, _ => none
  | fuel + 1, attr =>
    match ntfs_next_attribute record attr with
    | (false, _) => some (Except.ok none)
    | (true, next) =>
      let a := next.getD 0
      if u32_at record a = NTFS_ATTRIBUTE_TYPE_FILE_NAME then
        if record (a + 8) = 0 then
          if record (a + 89) ≠ NTFS_NAMESPACE_DOS then some (Except.ok (some (record, a)))
          else ntfs_parse_walk iter volume record fuel next
        else some (Except.error NTFS_ERROR_PARSE_FILE_NAME_ATTRIBUTE_NON_RESIDENT)
      else if u32_at record a = NTFS_ATTRIBUTE_TYPE_ATTRIBUTE_LIST then
        if record (a + 8) = 0 then
          match ntfs_parse_attribute_list iter volume record a fuel
              (a + sizeof_ntfs_resident_attribute) with
          | none => none
          | some (some found) => some (Except.ok (some found))
          | some none => ntfs_parse_walk iter volume record fuel next
        else ntfs_parse_walk iter volume record fuel next
      else ntfs_parse_walk iter volume record fuel next

/-- The `file_name_length` UTF-16 code units of the name of the
`ntfs_file_name_attribute` at `attribute`. -/
def ntfs_file_name (record : Nat → Nat) (attr : Nat) : List Nat :=
  (List.range (record (attr + 88))).map fun j => u16_at record (attr + 90 + 2 * j)

/-- `ntfs_parse_mft_record`: the memory at `record` and `*parsed_record`
afterwards; `none` when `fuel` rounds do not end a loop. -/
def ntfs_parse_mft_record (fuel : Nat) (iter : ntfs_mft_iter) (volume : ntfs_volume)
    (record : Nat → Nat) (parsed_record : ntfs_parsed_mft_record) :
    Option ((Nat → Nat) × ntfs_parsed_mft_record) :=
  if u32_at record 0 = NTFS_MAGIC_NUMBER then
    if u16_at record 22 % 2 = 1 then
      let record1 := ntfs_fixup_record record
      match ntfs_parse_walk iter volume record1 fuel none with
      | none => none
      | some (Except.error e) => some (record1, { parsed_record with parse_error := e })
      | some (Except.ok (some (name_record, name_attribute))) =>
        some (record1,
          { parsed_record with
            id := u32_at record1 44 + 2 ^ 48 * u16_at record1 16
            parent_id := u64_at name_record (name_attribute + 24)
            name := ntfs_file_name name_record name_attribute
            name_len := name_record (name_attribute + 88) })
      | some (Except.ok none) =>
        some (record1,
          { parsed_record with parse_error := NTFS_ERROR_PASRE_FILE_NAME_ATTRIBUTE_MISSING })
    else some (record, { parsed_record with parse_error := NTFS_ERROR_PARSE_RECORD_NOT_IN_USE })
  else
    some (record, { parsed_record with parse_error := NTFS_ERROR_PARSE_RECORD_NO_MAGIC_NUMBER })

/-- `ntfs_mft_iter_advance`: the returned flag, the iterator and
`*parsed_record` afterwards; `none` when the call does not return (`fuel`
rounds do not end a loop of the parser, or `buffer_size` is 0). -/
def ntfs_mft_iter_advance (fuel : Nat) (volume : ntfs_volume) (iter : ntfs_mft_iter) :
    Option (Bool × ntfs_mft_iter × ntfs_parsed_mft_record) :=
  let parsed_record : ntfs_parsed_mft_record :=
    { parse_error := NTFS_ERROR_NONE, id := 0, parent_id := 0, name := [], name_len := 0,
      attributes := 0 }
  if iter.buffer_size = 0 then none
  else
    let chunk :=
      if iter.current_offset_in_datarun % iter.buffer_size = 0 then
        ntfs_read_from_volume volume iter.buffer iter.buffer_size
          (((iter.data_runs iter.current_datarun).offset + iter.current_offset_in_datarun)
            % 2 ^ 64)
      else (true, iter.buffer)
    if chunk.1 = false then
      some (false, { iter with buffer := chunk.2 },
        { parsed_record with parse_error := NTFS_ERROR_COULD_NOT_READ_FROM_VOLUME })
    else
      let record_offset_in_buffer := iter.current_offset_in_datarun % iter.buffer_size
      match ntfs_parse_mft_record fuel iter volume
          (fun j => chunk.2 (record_offset_in_buffer + j)) parsed_record with
      | none => none
      | some (record1, parsed) =>
        let buffer1 : Nat → Nat := fun i =>
          if record_offset_in_buffer ≤ i ∧ i < record_offset_in_buffer + NTFS_FILE_RECORD_SIZE
          then record1 (i - record_offset_in_buffer) else chunk.2 i
        let offset1 := (iter.current_offset_in_datarun + NTFS_FILE_RECORD_SIZE) % 2 ^ 64
        if (iter.data_runs iter.current_datarun).length ≤ offset1 then
          let iter1 : ntfs_mft_iter :=
            { iter with buffer := buffer1, current_datarun := (iter.current_datarun + 1) % 2 ^ 32,
                        current_offset_in_datarun := 0 }
          if iter1.current_datarun = iter1.data_run_count then some (false, iter1, parsed)
          else some (true, iter1, parsed)
        else
          some (true, { iter with buffer := buffer1, current_offset_in_datarun := offset1 },
            parsed)

/-- The loop `while (ntfs_mft_iter_advance(&iterator, &parsed_record))` of
`server_worker_thread_proc` that builds the index: the parsed records the loop
body received, in order, and the index afterwards; `none` when `rounds` rounds
do not end it or a call does not return. -/
def server_build_index (fuel : Nat) (heap : Nat → Bool) (volume : ntfs_volume) :
    Nat → ntfs_mft_iter → db → Option (List ntfs_parsed_mft_record × db)
  | 0, _, _ => none
  | rounds + 1, iterator, database =>
    match ntfs_mft_iter_advance fuel volume iterator with
    | none => none
    | some (false, _, _) => some ([], database)
    | some (true, iterator1, parsed_record) =>
      let inserted : Option db :=
        if parsed_record.parse_error = NTFS_ERROR_NONE then
          (db_insert heap database parsed_record.id parsed_record.parent_id
            parsed_record.attributes parsed_record.name).map Prod.snd
        else some database
      match inserted with
      | none => none
      | some database1 =>
        (server_build_index fuel heap volume rounds iterator1 database1).map
          fun p => (parsed_record :: p.1, p.2)

/-! ## NTFS: notions used in the statements, records and run lists -/

/-- A record with the update sequence array at offset 48: check word 0x0001,
entries 0x1111 and 0x2222; both sub-blocks end in the check word. -/
def fixup_record : Nat → Nat :=
  write_bytes (write_bytes (write_bytes (write_bytes (fun _ => 0) 4 [48, 0]) 48
    [1, 0, 0x11, 0x11, 0x22, 0x22]) 510 [1, 0]) 1022 [1, 0]

/-- The number of records held by the runs before run `i`: the sum of
`length / 1024` over them. -/
def records_before (dataruns : Nat → ntfs_parsed_datarun) : Nat → Nat
  | 0 => 0
  | i + 1 => records_before dataruns i + (dataruns i).length / NTFS_FILE_RECORD_SIZE

/-- A table of two runs: 2 records at offset 4096, 3 records at offset 1048576. -/
def two_runs : Nat → ntfs_parsed_datarun := fun i =>
  if i = 0 then { length := 2048, offset := 4096 }
  else if i = 1 then { length := 3072, offset := 1048576 }
  else { length := 0, offset := 0 }

/-- The length field of the data run at `p`: its `L` bytes (`L` the low nibble
of the header), read as an unsigned little-endian number. -/
def datarun_length_value (m : Nat → Nat) (p : Nat) : Nat :=
  le_value (bytes_of (fun j => m (p + 1 + j)) (m p % 16))

/-- The offset field of the data run at `p`: its `O` bytes (`O` the high nibble
of the header), behind the length field, read as a signed little-endian
number. -/
def datarun_delta (m : Nat → Nat) (p : Nat) : Int :=
  let v := le_value (bytes_of (fun j => m (p + 1 + m p % 16 + j)) (m p / 16 % 16))
  if 2 ^ (8 * (m p / 16 % 16)) ≤ 2 * v then (v : Int) - 2 ^ (8 * (m p / 16 % 16)) else v

/-- The run table as the format describes it, for a list that starts at `p`
with room for `room` runs, `cluster` being the sum of the deltas so far: a run
takes `1 + L + O` bytes, the list ends at a header byte 0, `length` is the
length field times `bytes_per_cluster` and `offset` the sum of the deltas,
modulo 2^64, times `bytes_per_cluster`, both as `u64`. -/
def datarun_table (m : Nat → Nat) (bytes_per_cluster : Nat) :
    Nat → Nat → Int → List ntfs_parsed_datarun
  | 0, _, _ => []
  | room + 1, p, cluster =>
    if m p = 0 then []
    else
      { length := datarun_length_value m p * bytes_per_cluster % 2 ^ 64,
        offset := ((cluster + datarun_delta m p) % 2 ^ 64).toNat * bytes_per_cluster % 2 ^ 64 }
        :: datarun_table m bytes_per_cluster room (p + 1 + m p % 16 + m p / 16 % 16)
            (cluster + datarun_delta m p)

/-- The headers of the first `room` runs of the list at `p` have field sizes of
at most 8 bytes. -/
def datarun_fields_fit (m : Nat → Nat) : Nat → Nat → Bool
  | 0, _ => true
  | room + 1, p =>
    if m p = 0 then true
    else decide (m p % 16 ≤ 8) && decide (m p / 16 % 16 ≤ 8) &&
      datarun_fields_fit m room (p + 1 + m p % 16 + m p / 16 % 16)

/-- A list of two runs: 0x21 0x10 0x00 0x01 (16 clusters at cluster 256), 0x11
0x08 0xF0 (8 clusters, 16 clusters before the first run), then the end. -/
def two_dataruns : Nat → Nat := mem_of [0x21, 0x10, 0x00, 0x01, 0x11, 0x08, 0xF0, 0x00]

/-- An in-use record with the FILE magic, sequence number 1, the record number
`number`, the update sequence array at offset 48 and its attributes from offset
56 on, where `attrs` stands; the other bytes are 0. -/
def mft_record (number : Nat) (attrs : List Nat) : Nat → Nat :=
  write_bytes
    (write_bytes
      (write_bytes
        (write_bytes
          (write_bytes (write_bytes (fun _ => 0) 0 [0x46, 0x49, 0x4C, 0x45]) 4 [48, 0, 3, 0])
          16 [1, 0])
        20 [56, 0, 1, 0])
      44 (le_bytes 4 number))
    56 attrs

/-- The bytes of a resident `$FILE_NAME` attribute of 96 bytes with the parent
reference `parent`, the namespace `name_space` and the one-unit name `unit`. -/
def file_name_attribute_bytes (parent name_space unit : Nat) : List Nat :=
  [0x30, 0, 0, 0, 96, 0, 0, 0, 0, 0, 0, 0, 0, 0, 0, 0, 66, 0, 0, 0, 24, 0, 0, 0]
    ++ le_bytes 8 parent ++ List.replicate 56 0 ++ [1, name_space] ++ le_bytes 2 unit
    ++ [0, 0, 0, 0]

/-- The end marker of the attributes. -/
def end_marker_bytes : List Nat := [0xFF, 0xFF, 0xFF, 0xFF]

/-- The bytes of a non-resident `$FILE_NAME` attribute header of 16 bytes. -/
def non_resident_name_bytes : List Nat := [0x30, 0, 0, 0, 16, 0, 0, 0, 1, 0, 0, 0, 0, 0, 0, 0]

/-- The bytes of an attribute header of type `$STANDARD_INFORMATION` (0x10) with
`attribute_size` 0. -/
def zero_size_attribute_bytes : List Nat := [0x10, 0, 0, 0, 0, 0, 0, 0, 0, 0, 0, 0, 0, 0, 0, 0]

/-- An iterator over one run of `count` records at offset 0 of the volume, with
a buffer of `count` records, before the first call of `ntfs_mft_iter_advance`. -/
def one_run_iter (count : Nat) : ntfs_mft_iter :=
  { data_runs := fun i => if i = 0 then { length := 1024 * count, offset := 0 } else default
    data_run_count := 1
    buffer := fun _ => 0
    buffer_size := 1024 * count
    bytes_per_sector := 512
    bytes_per_cluster := 4096
    current_datarun := 0
    current_offset_in_datarun := 0 }

/-- The volume holding the two records one after the other at offset 0; every
read succeeds. -/
def two_record_volume (first second : Nat → Nat) : ntfs_volume :=
  { bytes := fun i => if i < 1024 then first i else second (i - 1024)
    readable := fun _ _ => true }

/-- A zeroed `ntfs_parsed_mft_record`. -/
def zero_parsed_record : ntfs_parsed_mft_record :=
  { parse_error := NTFS_ERROR_NONE, id := 0, parent_id := 0, name := [], name_len := 0,
    attributes := 0 }

/-- Record 7 named "a" (parent 5) whose first sub-block ends in 0xAAAA while
the check word of its update sequence array is 0x0001 and entry 1 is 0x1111. -/
def mismatch_record : Nat → Nat :=
  write_bytes
    (write_bytes
      (mft_record 7 (file_name_attribute_bytes (5 + 2 ^ 48) 1 97 ++ end_marker_bytes))
      48 [1, 0, 0x11, 0x11, 0x22, 0x22])
    510 [0xAA, 0xAA]

/-- Record 8 named "b" (parent 5), both sub-blocks ending in the check word 0. -/
def plain_record : Nat → Nat :=
  mft_record 8 (file_name_attribute_bytes (5 + 2 ^ 48) 1 98 ++ end_marker_bytes)

/-- Record 9 with a non-resident `$FILE_NAME` attribute in front of a resident
one named "c" in the WIN32 namespace. -/
def non_resident_first_record : Nat → Nat :=
  mft_record 9
    (non_resident_name_bytes ++ file_name_attribute_bytes (5 + 2 ^ 48) 1 99 ++ end_marker_bytes)

/-- Record 10 whose first attribute has `attribute_size` 0. -/
def zero_size_record : Nat → Nat :=
  mft_record 10 (zero_size_attribute_bytes ++ end_marker_bytes)

/-- The state of the walk `while (ntfs_next_attribute(record, &attribute))`
after `n` calls: the flag of the last call and `attribute`. -/
def attribute_walk_state (record : Nat → Nat) : Nat → Bool × Option Nat
  | 0 => (true, none)
  | n + 1 => ntfs_next_attribute record (attribute_walk_state record n).2

/-- The attributes `ntfs_next_attribute` yields from `attr` on, in order;
`none` when `fuel` calls do not end the walk. -/
def attribute_walk (record : Nat → Nat) : Nat → Option Nat → Option (List Nat)
  | 0, _ => none
  | fuel + 1, attr =>
    match ntfs_next_attribute record attr with
    | (false, _) => some []
    | (true, next) => (attribute_walk record fuel next).map fun l => next.getD 0 :: l

/-- The attribute at `attr` is a `$FILE_NAME` attribute that is non-resident, or
resident with a namespace other than DOS. -/
def ends_name_search (record : Nat → Nat) (attr : Nat) : Bool :=
  decide (u32_at record attr = NTFS_ATTRIBUTE_TYPE_FILE_NAME) &&
    (decide (record (attr + 8) ≠ 0) || decide (record (attr + 89) ≠ NTFS_NAMESPACE_DOS))

/-- What the parser makes of the first attribute that ends the search, if any. -/
def parsed_from_walk (record : Nat → Nat) (attrs : List Nat)
    (parsed_record : ntfs_parsed_mft_record) : ntfs_parsed_mft_record :=
  match attrs.find? (ends_name_search record) with
  | some attr =>
    if record (attr + 8) = 0 then
      { parsed_record with
        id := u32_at record 44 + 2 ^ 48 * u16_at record 16
        parent_id := u64_at record (attr + 24)
        name := ntfs_file_name record attr
        name_len := record (attr + 88) }
    else { parsed_record with parse_error := NTFS_ERROR_PARSE_FILE_NAME_ATTRIBUTE_NON_RESIDENT }
  | none => { parsed_record with parse_error := NTFS_ERROR_PASRE_FILE_NAME_ATTRIBUTE_MISSING }

/-! ## Loose and named records, packed names, positions -/

/-- Record `i` is a live record with the view `t` that the lookup does not name. -/
def loose_at (d : db) (i : Nat) (t : Nat × Nat × Nat × List Nat) : Prop :=
  i < d.record_array.count ∧ record_live d i = true ∧ ¬ registered d i ∧ record_view d i = t

instance (d : db) (i : Nat) : Decidable (registered d i) := by
  unfold registered; infer_instance

/-- The views of the live records that the lookup does not name, in storage
order. -/
def loose_views (d : db) : List (Nat × Nat × Nat × List Nat) :=
  ((List.range d.record_array.count).filter
    (fun i => record_live d i && !decide (registered d i))).map (record_view d)

/-- The views of the live records that the lookup names, in storage order. -/
def named_views (d : db) : List (Nat × Nat × Nat × List Nat) :=
  ((List.range d.record_array.count).filter
    (fun i => record_live d i && decide (registered d i))).map (record_view d)

/-- The names of the records with their terminators, one after the other. -/
def packed_names (recs : List (Nat × Nat × Nat × List Nat)) : List Nat :=
  recs.flatMap fun r => r.2.2.2 ++ [0]

/-- The text occurs in the name, a list of bytes: its `text_length` bytes stand
at some offset of the name and end within it. -/
def name_has_text (flags : Nat) (text : Nat → Nat) (text_length : Nat) (name : List Nat) :
    Bool :=
  (List.range name.length).any fun j =>
    decide (j + text_length ≤ name.length) && needle_at flags (mem_of name) text text_length j

/-- The positions of the records of `recs` that satisfy `h`, in order. -/
def positions (h : Nat × Nat × Nat × List Nat → Bool)
    (recs : List (Nat × Nat × Nat × List Nat)) : List Nat :=
  (List.range recs.length).filter fun k => h (recs.getD k (0, 0, 0, []))

/-- The records f0, f1, ... (ids 2, 3, ...), `n` of them, children of the record
with id 1. -/
def f_list (n : Nat) : List (Nat × Nat × Nat × List Nat) :=
  (List.range n).map fun i => (2 + i, 1, 0, f_name i)

/-! ## Record numbers that pass to another id -/

/-- A record number passes to another id only after a DELETE: when a change
further down the list has the record number of a change `c` and another id, the
list holds a DELETE of the id of `c`, at `c` or behind it. -/
def slots_released : List change → Prop
  | [] => True
  | c :: rest =>
    (∀ c1 ∈ rest, record_number c1.id = record_number c.id → c1.id ≠ c.id →
      ∃ z ∈ c :: rest, z.id = c.id ∧ z.type = CHANGE_TYPE_DELETE) ∧
    slots_released rest

/-- The changes [INSERT id 20 "t", INSERT id 20 + 2^48 "u", DELETE id 20]: two
ids with the record number 20. -/
def slot_taken_changes : List change :=
  [{ usn := 1, type := CHANGE_TYPE_INSERT, id := 20, parent_id := 5, wname := [116],
     attributes := 0, ignore := false },
   { usn := 2, type := CHANGE_TYPE_INSERT, id := 20 + 2 ^ 48, parent_id := 5, wname := [117],
     attributes := 0, ignore := false },
   { usn := 3, type := CHANGE_TYPE_DELETE, id := 20, parent_id := 5, wname := [116],
     attributes := 0, ignore := false }]

/-- The changes [UPDATE id 10 "s", DELETE id 10, INSERT id 10 + 2^48 "n",
INSERT id 20 "t", UPDATE id 20 "u"]: the record number 10 passes to a new id
after the DELETE. -/
def slot_reuse_changes : List change :=
  [{ usn := 1, type := CHANGE_TYPE_UPDATE, id := 10, parent_id := 5, wname := [115],
     attributes := 0, ignore := false },
   { usn := 2, type := CHANGE_TYPE_DELETE, id := 10, parent_id := 5, wname := [115],
     attributes := 0, ignore := false },
   { usn := 3, type := CHANGE_TYPE_INSERT, id := 10 + 2 ^ 48, parent_id := 5, wname := [110],
     attributes := 0, ignore := false },
   { usn := 4, type := CHANGE_TYPE_INSERT, id := 20, parent_id := 5, wname := [116],
     attributes := 0, ignore := false },
   { usn := 5, type := CHANGE_TYPE_UPDATE, id := 20, parent_id := 5, wname := [117],
     attributes := 0, ignore := false }]

/-! # Theorems -/

/-! ## The index store on its first record -/

/-- C1 (code at the failing inputs).  `db_insert` with a name of length 0 on the
index made by `db_create` fails and leaves one byte, a NUL, in the name buffer
while the record array stays empty, so `debug_sanity_check_names` is false; and
with the name U+0041 U+0000 it succeeds and leaves two NUL bytes for one
record. -/
theorem C1_nul_count_differs_from_record_count :
    (db_insert heap_always db_create 5 5 0 []).map
        (fun r => (r.1, r.2.name_buffer.count,
          count_nul r.2.name_buffer.elems r.2.name_buffer.count, r.2.record_array.count,
          debug_sanity_check_names r.2))
      = some (none, 1, 1, 0, false) ∧
    (db_insert heap_always db_create 5 5 0 [0x41, 0]).map
        (fun r => (r.1, r.2.name_buffer.count,
          count_nul r.2.name_buffer.elems r.2.name_buffer.count, r.2.record_array.count,
          debug_sanity_check_names r.2))
      = some (some 0, 3, 2, 1, false) := by
  constructor <;> decide

/-- C5 (code at the failing input).  After `db_insert` of id 5 and then of the id
with record number 5 and sequence number 1 on the index made by `db_create`,
the record at index 0 does not carry NOT_IN_USE and its record number is 5,
but the lookup entry 5 is 1. -/
theorem C5_lookup_misses_live_record_zero :
    (db_run_calls db_create
        [db_call.insert heap_always 5 5 0 [97],
         db_call.insert heap_always (5 + 2 ^ 48) 5 0 [98]]).map
        (fun d => (d.record_array.count,
          (d.record_array.elems 0).attributes &&& FILE_ATTRIBUTE_NOT_IN_USE,
          record_number (d.record_array.elems 0).id,
          d.lookup_array.elems (record_number (d.record_array.elems 0).id)))
      = some (2, 0, 5, 1) := by
  decide

/-- C6 (code at the failing input).  On the index made by `db_create`,
`db_insert` of id 5 returns the record at index 0, the last and only element of
the record array, and `db_get_record_by_id` of id 5 then returns null. -/
theorem C6_first_record_not_found_by_id :
    (db_insert heap_always db_create 5 5 0 [97]).map
        (fun r => (r.1, r.2.record_array.count, r.2.record_array.elems 0,
          db_get_record_by_id r.2 5))
      = some (some 0, 1, { name_offset := 0, attributes := 0, id := 5, parent_id := 5 },
          none) := by
  decide

/-- C7 (code at the failing input).  After `db_insert` of id 5 (its own parent,
name "a") and `db_delete` of id 5 on the index made by `db_create`, the record
does not carry NOT_IN_USE, and the query for "a" counts and returns it. -/
theorem C7_first_record_survives_delete :
    (db_run_calls db_create
        [db_call.insert heap_always 5 5 0 [97], db_call.delete 5]).bind
        (fun d =>
          (run_query 8 (params_of [97] 0 1 0 1) response_buffer d).map
            (fun r => ((d.record_array.elems 0).attributes &&& FILE_ATTRIBUTE_NOT_IN_USE,
              r.1, bytes_of r.2.data r.2.size)))
      = some (0, { error := QUICKFIND_OK, found_count := 1, return_count := 1 },
          [5, 0, 0, 0, 0, 0, 0, 0, 0, 0, 0, 0, 3, 0, 0, 0, 67, 58, 0]) := by
  decide

/-! ## Coalescing -/

/-- C9 (code at the failing inputs).  On [DELETE 7, DELETE 7]
`ntfs_usn_mark_ignore` marks both changes, the later one too; on
[DELETE 7, INSERT 7] and on [UPDATE 7, INSERT 7] it marks the INSERT although
no change follows it. -/
theorem C9_mark_ignore_disregards_order :
    (ntfs_usn_mark_ignore
        [{ usn := 1, type := CHANGE_TYPE_DELETE, id := 7, parent_id := 1, wname := [97],
           attributes := 0, ignore := false },
         { usn := 2, type := CHANGE_TYPE_DELETE, id := 7, parent_id := 1, wname := [97],
           attributes := 0, ignore := false }]).map (fun c => c.ignore) = [true, true] ∧
    (ntfs_usn_mark_ignore
        [{ usn := 1, type := CHANGE_TYPE_DELETE, id := 7, parent_id := 1, wname := [97],
           attributes := 0, ignore := false },
         { usn := 2, type := CHANGE_TYPE_INSERT, id := 7, parent_id := 1, wname := [97],
           attributes := 0, ignore := false }]).map (fun c => c.ignore) = [true, true] ∧
    (ntfs_usn_mark_ignore
        [{ usn := 1, type := CHANGE_TYPE_UPDATE, id := 7, parent_id := 1, wname := [97],
           attributes := 0, ignore := false },
         { usn := 2, type := CHANGE_TYPE_INSERT, id := 7, parent_id := 1, wname := [97],
           attributes := 0, ignore := false }]).map (fun c => c.ignore) = [false, true] := by
  refine ⟨?_, ?_, ?_⟩ <;> decide

/-! ## Bit tricks on `u32` masks -/

theorem movemask_testBit (v : List Nat) (b : Nat) :
    (mm256_movemask_epi8 v).testBit b = decide (v.getD b 0 / 128 % 2 = 1) := by
  induction v generalizing b with
  | nil => simp [mm256_movemask_epi8]
  | cons x xs ih =>
    cases b with
    | zero =>
      simp only [mm256_movemask_epi8, Nat.testBit_zero, List.getD_cons_zero]
      congr 1
      have : x / 128 % 2 < 2 := Nat.mod_lt _ (by decide)
      apply propext
      omega
    | succ b =>
      rw [Nat.testBit_succ]
      simp only [mm256_movemask_epi8, List.getD_cons_succ]
      have h2 : (x / 128 % 2 + 2 * mm256_movemask_epi8 xs) / 2 = mm256_movemask_epi8 xs := by
        have : x / 128 % 2 < 2 := Nat.mod_lt _ (by decide)
        omega
      rw [h2, ih]

theorem tzcnt_spec (w v : Nat) (h : ∃ b, b < w ∧ v.testBit b = true) :
    tzcnt w v < w ∧ v.testBit (tzcnt w v) = true ∧ ∀ b, b < tzcnt w v → v.testBit b = false := by
  induction w generalizing v with
  | zero => obtain ⟨b, hb, _⟩ := h; omega
  | succ w ih =>
    unfold tzcnt
    by_cases h1 : v % 2 = 1
    · simp only [h1, if_true]
      refine ⟨by omega, ?_, fun b hb => by omega⟩
      simp [Nat.testBit_zero, h1]
    · simp only [h1, if_false]
      have h0 : v.testBit 0 = false := by simp [Nat.testBit_zero, h1]
      have : ∃ b, b < w ∧ (v / 2).testBit b = true := by
        obtain ⟨b, hb, hbit⟩ := h
        cases b with
        | zero => rw [h0] at hbit; cases hbit
        | succ b => exact ⟨b, by omega, by rwa [Nat.testBit_succ] at hbit⟩
      obtain ⟨i1, i2, i3⟩ := ih (v / 2) this
      refine ⟨by omega, ?_, ?_⟩
      · rw [Nat.add_comm, Nat.testBit_succ]; exact i2
      · intro b hb
        cases b with
        | zero => exact h0
        | succ b => rw [Nat.testBit_succ]; exact i3 b (by omega)

theorem clear_leftmost_set_testBit (w v : Nat) (hv : v ≠ 0) (hw : v < 2 ^ w) (b : Nat) :
    (clear_leftmost_set v).testBit b = (v.testBit b && decide (b ≠ tzcnt w v)) := by
  unfold clear_leftmost_set
  induction w generalizing v b with
  | zero => simp at hw; omega
  | succ w ih =>
    rw [Nat.testBit_land]
    unfold tzcnt
    by_cases h1 : v % 2 = 1
    · simp only [h1, if_true]
      cases b with
      | zero =>
        have : (v - 1).testBit 0 = false := by
          rw [Nat.testBit_zero]; simp; omega
        simp [this]
      | succ b =>
        have : (v - 1) / 2 = v / 2 := by omega
        simp [Nat.testBit_succ, this]
    · simp only [h1, if_false]
      cases b with
      | zero =>
        have : v.testBit 0 = false := by simp [Nat.testBit_zero, h1]
        simp [this]
      | succ b =>
        have hu : v / 2 ≠ 0 := by omega
        have hu2 : v / 2 < 2 ^ w := by
          rw [Nat.pow_succ] at hw; omega
        have hd : (v - 1) / 2 = v / 2 - 1 := by omega
        have := ih (v / 2) hu hu2 b
        rw [Nat.testBit_land] at this
        rw [Nat.testBit_succ, Nat.testBit_succ, hd, this]
        congr 1
        apply decide_eq_decide.mpr
        omega

theorem count_where_front (P : Nat → Bool) (n : Nat) :
    count_where P (n + 1) = (if P 0 then 1 else 0) + count_where (fun i => P (i + 1)) n := by
  induction n with
  | zero => simp [count_where]
  | succ n ih =>
    rw [count_where, ih]
    simp only [count_where]
    omega

theorem count_where_congr (P Q : Nat → Bool) (n : Nat) (h : ∀ i, i < n → P i = Q i) :
    count_where P n = count_where Q n := by
  induction n with
  | zero => rfl
  | succ n ih =>
    simp only [count_where]
    rw [ih (fun i hi => h i (by omega)), h n (by omega)]

theorem popcnt_eq_count (w v : Nat) : popcnt w v = count_where (fun b => v.testBit b) w := by
  induction w generalizing v with
  | zero => rfl
  | succ w ih =>
    rw [count_where_front, popcnt, ih]
    have h2 : v % 2 < 2 := Nat.mod_lt _ (by decide)
    have : (if v.testBit 0 = true then 1 else 0) = v % 2 := by
      rw [Nat.testBit_zero]
      by_cases h : v % 2 = 1
      · simp [h]
      · simp [h]; omega
    rw [this]
    congr 1
    apply count_where_congr
    intro i _
    rw [Nat.testBit_succ]

theorem count_where_cut (P : Nat → Bool) (t n : Nat) (h : t ≤ n) :
    count_where (fun b => P b && decide (b < t)) n = count_where P t := by
  induction n with
  | zero =>
    have : t = 0 := by omega
    subst this; rfl
  | succ n ih =>
    by_cases ht : t = n + 1
    · subst ht
      apply count_where_congr
      intro i hi
      simp [hi]
    · simp only [count_where]
      rw [ih (by omega)]
      have : ¬ (n < t) := by omega
      simp [this]

theorem zero_bits_below_testBit (mz t b : Nat) (ht : t < 32) (hb : b < 32) :
    (zero_bits_below mz t).testBit b = (mz.testBit b && decide (b < t)) := by
  unfold zero_bits_below
  rw [Nat.testBit_land, Nat.testBit_xor, Nat.testBit_mod_two_pow, Nat.testBit_shiftLeft]
  have e : (0xFFFFFFFF : Nat) = 2 ^ 32 - 1 := by norm_num
  rw [e, Nat.testBit_two_pow_sub_one, Nat.testBit_two_pow_sub_one]
  congr 1
  by_cases h : b < t
  · have : ¬ (b ≥ t) := by omega
    simp [hb, h, this]
  · have : b ≥ t := by omega
    have h3 : b - t < 32 := by omega
    simp [hb, h, this, h3]

theorem count_bits_set_zero_bits_below (mz t : Nat) (ht : t < 32) :
    count_bits_set (zero_bits_below mz t) = count_where (fun b => mz.testBit b) t := by
  unfold count_bits_set
  rw [popcnt_eq_count]
  rw [← count_where_cut (fun b => mz.testBit b) t 32 (by omega)]
  apply count_where_congr
  intro i hi
  exact zero_bits_below_testBit mz t i ht hi


/-! ## Lanes and masks -/

theorem getD_zipWith (f : Nat → Nat → Nat) (l1 l2 : List Nat) (i : Nat)
    (h1 : i < l1.length) (h2 : i < l2.length) :
    (List.zipWith f l1 l2).getD i 0 = f (l1.getD i 0) (l2.getD i 0) := by
  induction l1 generalizing l2 i with
  | nil => simp at h1
  | cons a l1 ih =>
    cases l2 with
    | nil => simp at h2
    | cons b l2 =>
      cases i with
      | zero => simp
      | succ i =>
        simp only [List.zipWith_cons_cons, List.getD_cons_succ]
        exact ih l2 i (by simpa using h1) (by simpa using h2)

theorem length_set1 (c : Nat) : (mm256_set1_epi8 c).length = 32 :=
  List.length_replicate 32 (c % 256)

theorem length_loadu (mem : Nat → Nat) (p : Nat) : (mm256_loadu_si256 mem p).length = 32 := by
  unfold mm256_loadu_si256
  rw [List.length_map, List.length_range]

theorem length_cmpeq (a b : List Nat) (ha : a.length = 32) (hb : b.length = 32) :
    (mm256_cmpeq_epi8 a b).length = 32 := by
  simp [mm256_cmpeq_epi8, ha, hb]

theorem length_or (a b : List Nat) (ha : a.length = 32) (hb : b.length = 32) :
    (mm256_or_si256 a b).length = 32 := by
  simp [mm256_or_si256, ha, hb]

theorem getD_replicate_lt (n a i : Nat) (hi : i < n) : (List.replicate n a).getD i 0 = a := by
  simp [List.getD_eq_getElem?_getD, List.getElem?_replicate, hi]

theorem getD_map_range (f : Nat → Nat) (n i : Nat) (hi : i < n) :
    ((List.range n).map f).getD i 0 = f i := by
  simp [List.getD_eq_getElem?_getD, List.getElem?_map, List.getElem?_range hi]

theorem getD_set1 (c i : Nat) (hi : i < 32) : (mm256_set1_epi8 c).getD i 0 = c % 256 :=
  getD_replicate_lt 32 (c % 256) i hi

theorem getD_loadu (mem : Nat → Nat) (p i : Nat) (hi : i < 32) :
    (mm256_loadu_si256 mem p).getD i 0 = mem (p + i) :=
  getD_map_range (fun b => mem (p + b)) 32 i hi

theorem getD_cmpeq_set1_loadu (mem : Nat → Nat) (c p i : Nat) (hi : i < 32) :
    (mm256_cmpeq_epi8 (mm256_set1_epi8 c) (mm256_loadu_si256 mem p)).getD i 0
      = if c % 256 = mem (p + i) then 0xFF else 0 := by
  unfold mm256_cmpeq_epi8
  rw [getD_zipWith _ _ _ _ (by rw [length_set1]; exact hi) (by rw [length_loadu]; exact hi),
    getD_set1 _ _ hi, getD_loadu _ _ _ hi]

theorem getD_out (v : List Nat) (i : Nat) (h : v.length ≤ i) : v.getD i 0 = 0 := by
  simp [List.getD_eq_getElem?_getD, List.getElem?_eq_none h]

/-- Bit `b` of the mask of `cmpeq(set1(c), loadu(p))`. -/
theorem mask_cmpeq_testBit (mem : Nat → Nat) (c p b : Nat) :
    (mm256_movemask_epi8
        (mm256_cmpeq_epi8 (mm256_set1_epi8 c) (mm256_loadu_si256 mem p))).testBit b
      = (decide (b < 32) && decide (c % 256 = mem (p + b))) := by
  rw [movemask_testBit]
  by_cases hb : b < 32
  · rw [getD_cmpeq_set1_loadu _ _ _ _ hb]
    by_cases h : c % 256 = mem (p + b) <;> simp [h, hb]
  · rw [getD_out _ _ (by rw [length_cmpeq _ _ (length_set1 _) (length_loadu _ _)]; omega)]
    simp [hb]

/-- Bit `b` of the mask of `and(cmpeq(set1(c1), loadu(p1)), cmpeq(set1(c2), loadu(p2)))`. -/
theorem mask_and_testBit (mem : Nat → Nat) (c1 p1 c2 p2 b : Nat) :
    (mm256_movemask_epi8
        (mm256_and_si256
          (mm256_cmpeq_epi8 (mm256_set1_epi8 c1) (mm256_loadu_si256 mem p1))
          (mm256_cmpeq_epi8 (mm256_set1_epi8 c2) (mm256_loadu_si256 mem p2)))).testBit b
      = (decide (b < 32) && (decide (c1 % 256 = mem (p1 + b)) && decide (c2 % 256 = mem (p2 + b)))) := by
  rw [movemask_testBit]
  by_cases hb : b < 32
  · unfold mm256_and_si256
    rw [getD_zipWith _ _ _ _
      (by rw [length_cmpeq _ _ (length_set1 _) (length_loadu _ _)]; exact hb)
      (by rw [length_cmpeq _ _ (length_set1 _) (length_loadu _ _)]; exact hb),
      getD_cmpeq_set1_loadu _ _ _ _ hb, getD_cmpeq_set1_loadu _ _ _ _ hb]
    by_cases h1 : c1 % 256 = mem (p1 + b) <;> by_cases h2 : c2 % 256 = mem (p2 + b) <;>
      simp [h1, h2, hb]
  · rw [getD_out _ _ (by
      simp only [mm256_and_si256, List.length_zipWith,
        length_cmpeq _ _ (length_set1 _) (length_loadu _ _)]; omega)]
    simp [hb]

/-- Bit `b` of the mask of `or(cmpeq(set1(c1), loadu(p)), cmpeq(set1(c2), loadu(p)))`. -/
theorem mask_or_testBit (mem : Nat → Nat) (c1 c2 p b : Nat) :
    (mm256_movemask_epi8
        (mm256_or_si256
          (mm256_cmpeq_epi8 (mm256_set1_epi8 c1) (mm256_loadu_si256 mem p))
          (mm256_cmpeq_epi8 (mm256_set1_epi8 c2) (mm256_loadu_si256 mem p)))).testBit b
      = (decide (b < 32) && (decide (c1 % 256 = mem (p + b)) || decide (c2 % 256 = mem (p + b)))) := by
  rw [movemask_testBit]
  by_cases hb : b < 32
  · unfold mm256_or_si256
    rw [getD_zipWith _ _ _ _
      (by rw [length_cmpeq _ _ (length_set1 _) (length_loadu _ _)]; exact hb)
      (by rw [length_cmpeq _ _ (length_set1 _) (length_loadu _ _)]; exact hb),
      getD_cmpeq_set1_loadu _ _ _ _ hb, getD_cmpeq_set1_loadu _ _ _ _ hb]
    by_cases h1 : c1 % 256 = mem (p + b) <;> by_cases h2 : c2 % 256 = mem (p + b) <;>
      simp [h1, h2, hb]
  · rw [getD_out _ _ (by
      simp only [mm256_or_si256, List.length_zipWith,
        length_cmpeq _ _ (length_set1 _) (length_loadu _ _)]; omega)]
    simp [hb]

/-- Bit `b` of the mask of the case-insensitive first/last test. -/
theorem mask_and_or_testBit (mem : Nat → Nat) (a1 a2 p1 b1 b2 p2 b : Nat) :
    (mm256_movemask_epi8
        (mm256_and_si256
          (mm256_or_si256
            (mm256_cmpeq_epi8 (mm256_set1_epi8 a1) (mm256_loadu_si256 mem p1))
            (mm256_cmpeq_epi8 (mm256_set1_epi8 a2) (mm256_loadu_si256 mem p1)))
          (mm256_or_si256
            (mm256_cmpeq_epi8 (mm256_set1_epi8 b1) (mm256_loadu_si256 mem p2))
            (mm256_cmpeq_epi8 (mm256_set1_epi8 b2) (mm256_loadu_si256 mem p2))))).testBit b
      = (decide (b < 32) &&
          ((decide (a1 % 256 = mem (p1 + b)) || decide (a2 % 256 = mem (p1 + b))) &&
           (decide (b1 % 256 = mem (p2 + b)) || decide (b2 % 256 = mem (p2 + b))))) := by
  rw [movemask_testBit]
  have hl : ∀ c1 c2 q, (mm256_or_si256
            (mm256_cmpeq_epi8 (mm256_set1_epi8 c1) (mm256_loadu_si256 mem q))
            (mm256_cmpeq_epi8 (mm256_set1_epi8 c2) (mm256_loadu_si256 mem q))).length = 32 :=
    fun c1 c2 q => length_or _ _ (length_cmpeq _ _ (length_set1 _) (length_loadu _ _))
      (length_cmpeq _ _ (length_set1 _) (length_loadu _ _))
  by_cases hb : b < 32
  · have hg : ∀ c1 c2 q, (mm256_or_si256
            (mm256_cmpeq_epi8 (mm256_set1_epi8 c1) (mm256_loadu_si256 mem q))
            (mm256_cmpeq_epi8 (mm256_set1_epi8 c2) (mm256_loadu_si256 mem q))).getD b 0
          = ((if c1 % 256 = mem (q + b) then 0xFF else 0) |||
             (if c2 % 256 = mem (q + b) then 0xFF else 0)) := by
      intro c1 c2 q
      unfold mm256_or_si256
      rw [getD_zipWith _ _ _ _
        (by rw [length_cmpeq _ _ (length_set1 _) (length_loadu _ _)]; exact hb)
        (by rw [length_cmpeq _ _ (length_set1 _) (length_loadu _ _)]; exact hb),
        getD_cmpeq_set1_loadu _ _ _ _ hb, getD_cmpeq_set1_loadu _ _ _ _ hb]
    unfold mm256_and_si256
    rw [getD_zipWith _ _ _ _ (by rw [hl]; exact hb) (by rw [hl]; exact hb), hg, hg]
    by_cases h1 : a1 % 256 = mem (p1 + b) <;> by_cases h2 : a2 % 256 = mem (p1 + b) <;>
      by_cases h3 : b1 % 256 = mem (p2 + b) <;> by_cases h4 : b2 % 256 = mem (p2 + b) <;>
      simp [h1, h2, h3, h4, hb]
  · rw [getD_out _ _ (by
      simp only [mm256_and_si256, List.length_zipWith, hl]; omega)]
    simp [hb]


/-! ## The confirm loop and the loop over blocks -/

theorem count_where_add (f : Nat → Bool) (n1 n2 : Nat) :
    count_where f (n1 + n2) = count_where f n1 + count_where (fun j => f (n1 + j)) n2 := by
  induction n2 with
  | zero => simp [count_where]
  | succ n2 ih =>
    rw [← Nat.add_assoc, count_where, ih, count_where]
    omega

theorem simd_memmem_while_spec (confirm : Nat → Bool) (p Z M : Nat)
    (hM : ∀ b, 32 ≤ b → M.testBit b = false) :
    ∀ rounds m lo, 32 ≤ rounds + lo →
      (∀ b, m.testBit b = (M.testBit b && decide (lo ≤ b))) →
      (∃ b, b < 32 ∧ lo ≤ b ∧ M.testBit b = true ∧ confirm b = true ∧
          (∀ b', lo ≤ b' → b' < b → (M.testBit b' && confirm b') = false) ∧
          simd_memmem_while confirm p Z rounds m
            = some (p + b, count_bits_set (zero_bits_below Z b))) ∨
      ((∀ b', lo ≤ b' → (M.testBit b' && confirm b') = false) ∧
          simd_memmem_while confirm p Z rounds m = none) := by
  intro rounds
  induction rounds with
  | zero =>
    intro m lo hr hm
    right
    refine ⟨fun b' hb' => ?_, rfl⟩
    rw [hM b' (by omega)]; rfl
  | succ rounds ih =>
    intro m lo hr hm
    unfold simd_memmem_while
    by_cases hz : m = 0
    · right
      simp only [hz, ne_eq, not_true_eq_false, if_false, and_true]
      intro b' hb'
      have := hm b'
      rw [hz, Nat.zero_testBit] at this
      simp only [hb', decide_True, Bool.and_true] at this
      rw [← this]; rfl
    · simp only [ne_eq, hz, not_false_eq_true, if_true]
      have hm32 : ∀ b, 32 ≤ b → m.testBit b = false := by
        intro b hb; rw [hm b, hM b hb]; rfl
      have hlt : m < 2 ^ 32 := Nat.lt_pow_two_of_testBit m hm32
      obtain ⟨i, hi⟩ := Nat.ne_zero_implies_bit_true hz
      have hi32 : i < 32 := by
        by_contra hc
        rw [hm32 i (by omega)] at hi; cases hi
      obtain ⟨t1, t2, t3⟩ := tzcnt_spec 32 m ⟨i, hi32, hi⟩
      have ht : count_trailing_zeroes m = tzcnt 32 m := rfl
      rw [ht]
      have t2' := t2
      rw [hm] at t2'
      simp only [Bool.and_eq_true, decide_eq_true_eq] at t2'
      have hbelow : ∀ b', lo ≤ b' → b' < tzcnt 32 m → M.testBit b' = false := by
        intro b' h1 h2
        have := t3 b' h2
        rw [hm b'] at this
        simpa [h1] using this
      by_cases hc : confirm (tzcnt 32 m) = true
      · left
        refine ⟨tzcnt 32 m, t1, t2'.2, t2'.1, hc, ?_, by simp [hc]⟩
        intro b' h1 h2
        rw [hbelow b' h1 h2]; rfl
      · simp only [hc, if_false]
        have hm' : ∀ b, (clear_leftmost_set m).testBit b
            = (M.testBit b && decide (tzcnt 32 m + 1 ≤ b)) := by
          intro b
          rw [clear_leftmost_set_testBit 32 m hz hlt b, hm b]
          by_cases h1 : b < tzcnt 32 m
          · have := t3 b h1
            rw [hm b] at this
            have h3 : ¬ (tzcnt 32 m + 1 ≤ b) := by omega
            simp [this, h3]
          · by_cases h2 : b = tzcnt 32 m
            · have h3 : ¬ (tzcnt 32 m + 1 ≤ b) := by omega
              simp [h2]
            · have h3 : tzcnt 32 m + 1 ≤ b := by omega
              have h4 : lo ≤ b := by omega
              simp [h2, h3, h4]
        rcases ih (clear_leftmost_set m) (tzcnt 32 m + 1) (by omega) hm' with
          ⟨b, b1, b2, b3, b4, b5, b6⟩ | ⟨n1, n2⟩
        · left
          refine ⟨b, b1, by omega, b3, b4, ?_, b6⟩
          intro b' h1 h2
          by_cases h3 : b' < tzcnt 32 m
          · rw [hbelow b' h1 h3]; rfl
          · by_cases h4 : b' = tzcnt 32 m
            · subst h4; simp [hc]
            · exact b5 b' (by omega) h2
        · right
          refine ⟨?_, n2⟩
          intro b' h1
          by_cases h3 : b' < tzcnt 32 m
          · rw [hbelow b' h1 h3]; rfl
          · by_cases h4 : b' = tzcnt 32 m
            · subst h4; simp [hc]
            · exact n1 b' (by omega)

/-- A loop over 32-byte blocks that in each block either returns the first hit
with the NULs before it or moves on with the NULs of the block, returns the
first hit of the scanned range with the NULs before it. -/
theorem block_scan_spec (mem : Nat → Nat) (s : Nat) (hit : Nat → Bool)
    (loop : Nat → Nat → Nat → Option Nat × Nat)
    (h0 : ∀ i zc, loop 0 i zc = (none, zc))
    (hstep : ∀ blocks i zc,
      (∃ b, b < 32 ∧ hit (s + i + b) = true ∧ (∀ b', b' < b → hit (s + i + b') = false) ∧
        loop (blocks + 1) i zc
          = (some (s + i + b), zc + count_where (fun j => decide (mem (s + i + j) = 0)) b)) ∨
      ((∀ b, b < 32 → hit (s + i + b) = false) ∧
        loop (blocks + 1) i zc
          = loop blocks (i + 32)
              (zc + count_where (fun j => decide (mem (s + i + j) = 0)) 32))) :
    ∀ blocks i zc,
      (∃ q, s + i ≤ q ∧ q < s + i + 32 * blocks ∧ hit q = true ∧
        (∀ q', s + i ≤ q' → q' < q → hit q' = false) ∧
        loop blocks i zc
          = (some q, zc + count_where (fun j => decide (mem (s + i + j) = 0)) (q - (s + i)))) ∨
      ((∀ q', s + i ≤ q' → q' < s + i + 32 * blocks → hit q' = false) ∧
        loop blocks i zc
          = (none, zc + count_where (fun j => decide (mem (s + i + j) = 0)) (32 * blocks))) := by
  intro blocks
  induction blocks with
  | zero =>
    intro i zc
    right
    exact ⟨fun q' h1 h2 => by omega, by rw [h0]; rfl⟩
  | succ blocks ih =>
    intro i zc
    rcases hstep blocks i zc with ⟨b, b1, b2, b3, b4⟩ | ⟨n1, n2⟩
    · left
      refine ⟨s + i + b, by omega, by omega, b2, ?_, ?_⟩
      · intro q' h1 h2
        have := b3 (q' - (s + i)) (by omega)
        rwa [show s + i + (q' - (s + i)) = q' by omega] at this
      · rw [b4, show s + i + b - (s + i) = b by omega]
    · have hblock : ∀ q', s + i ≤ q' → q' < s + i + 32 → hit q' = false := by
        intro q' h1 h2
        have := n1 (q' - (s + i)) (by omega)
        rwa [show s + i + (q' - (s + i)) = q' by omega] at this
      rcases ih (i + 32) (zc + count_where (fun j => decide (mem (s + i + j) = 0)) 32) with
        ⟨q, q1, q2, q3, q4, q5⟩ | ⟨m1, m2⟩
      · left
        refine ⟨q, by omega, by omega, q3, ?_, ?_⟩
        · intro q' h1 h2
          by_cases h3 : q' < s + i + 32
          · exact hblock q' h1 h3
          · exact q4 q' (by omega) h2
        · rw [n2, q5]
          have e : q - (s + i) = 32 + (q - (s + (i + 32))) := by omega
          rw [e, count_where_add]
          have e2 : ∀ j, s + (i + 32) + j = s + i + (32 + j) := by intro j; omega
          simp only [e2]
          rw [Nat.add_assoc]
      · right
        refine ⟨?_, ?_⟩
        · intro q' h1 h2
          by_cases h3 : q' < s + i + 32
          · exact hblock q' h1 h3
          · exact m1 q' (by omega) (by omega)
        · rw [n2, m2]
          have e : 32 * (blocks + 1) = 32 + 32 * blocks := by omega
          rw [e, count_where_add]
          have e2 : ∀ j, s + (i + 32) + j = s + i + (32 + j) := by intro j; omega
          simp only [e2]
          rw [Nat.add_assoc]


/-! ## The single-byte scans -/

theorem mask_zero_testBit (mem : Nat → Nat) (p b : Nat) :
    (mm256_movemask_epi8
        (mm256_cmpeq_epi8 (mm256_set1_epi8 0) (mm256_loadu_si256 mem p))).testBit b
      = (decide (b < 32) && decide (mem (p + b) = 0)) := by
  rw [mask_cmpeq_testBit]
  congr 1
  apply decide_eq_decide.mpr
  constructor <;> intro h <;> simp_all

theorem mask_zero_count_below (mem : Nat → Nat) (p t : Nat) (ht : t < 32) :
    count_bits_set (zero_bits_below
        (mm256_movemask_epi8 (mm256_cmpeq_epi8 (mm256_set1_epi8 0) (mm256_loadu_si256 mem p))) t)
      = count_where (fun j => decide (mem (p + j) = 0)) t := by
  rw [count_bits_set_zero_bits_below _ _ ht]
  apply count_where_congr
  intro i hi
  rw [mask_zero_testBit]
  have : i < 32 := by omega
  simp [this]

theorem mask_zero_count_block (mem : Nat → Nat) (p : Nat) :
    count_bits_set
        (mm256_movemask_epi8 (mm256_cmpeq_epi8 (mm256_set1_epi8 0) (mm256_loadu_si256 mem p)))
      = count_where (fun j => decide (mem (p + j) = 0)) 32 := by
  unfold count_bits_set
  rw [popcnt_eq_count]
  apply count_where_congr
  intro i hi
  rw [mask_zero_testBit]
  simp [hi]

/-- A mask whose bits are the lanes `cand` is zero exactly when no lane holds. -/
theorem mask_cases (M : Nat) (cand : Nat → Bool)
    (hM : ∀ b, M.testBit b = (decide (b < 32) && cand b)) :
    (M ≠ 0 ∧ count_trailing_zeroes M < 32 ∧ cand (count_trailing_zeroes M) = true ∧
        ∀ b, b < count_trailing_zeroes M → cand b = false) ∨
    (M = 0 ∧ ∀ b, b < 32 → cand b = false) := by
  by_cases hz : M = 0
  · right
    refine ⟨hz, fun b hb => ?_⟩
    have := hM b
    rw [hz, Nat.zero_testBit] at this
    simpa [hb] using this.symm
  · left
    obtain ⟨i, hi⟩ := Nat.ne_zero_implies_bit_true hz
    have hi' := hi
    rw [hM i] at hi'
    simp only [Bool.and_eq_true, decide_eq_true_eq] at hi'
    obtain ⟨t1, t2, t3⟩ := tzcnt_spec 32 M ⟨i, hi'.1, hi⟩
    refine ⟨hz, t1, ?_, ?_⟩
    · have := t2
      rw [hM] at this
      simp only [Bool.and_eq_true, decide_eq_true_eq] at this
      exact this.2
    · intro b hb
      have := t3 b hb
      rw [hM b] at this
      have hb32 : b < 32 := Nat.lt_trans hb t1
      simpa [hb32] using this

theorem simd_memchr_count_zeroes_loop_spec (mem : Nat → Nat) (s c : Nat) :
    ∀ blocks i zc,
      (∃ q, s + i ≤ q ∧ q < s + i + 32 * blocks ∧ decide (c % 256 = mem q) = true ∧
        (∀ q', s + i ≤ q' → q' < q → decide (c % 256 = mem q') = false) ∧
        simd_memchr_count_zeroes_loop mem s c blocks i zc
          = (some q, zc + count_where (fun j => decide (mem (s + i + j) = 0)) (q - (s + i)))) ∨
      ((∀ q', s + i ≤ q' → q' < s + i + 32 * blocks → decide (c % 256 = mem q') = false) ∧
        simd_memchr_count_zeroes_loop mem s c blocks i zc
          = (none, zc + count_where (fun j => decide (mem (s + i + j) = 0)) (32 * blocks))) := by
  apply block_scan_spec mem s (fun q => decide (c % 256 = mem q))
  · intro i zc; rfl
  · intro blocks i zc
    rcases mask_cases _ (fun b => decide (c % 256 = mem (s + i + b)))
      (mask_cmpeq_testBit mem c (s + i)) with ⟨h1, h2, h3, h4⟩ | ⟨h1, h2⟩
    · left
      refine ⟨_, h2, h3, h4, ?_⟩
      rw [simd_memchr_count_zeroes_loop]
      simp only [h1, ne_eq, not_false_eq_true, if_true]
      rw [mask_zero_count_below _ _ _ h2]
    · right
      refine ⟨h2, ?_⟩
      rw [simd_memchr_count_zeroes_loop]
      simp only [h1, ne_eq, not_true_eq_false, if_false]
      rw [mask_zero_count_block]

theorem simd_memchr_count_zeroes_nocase_loop_spec (mem : Nat → Nat) (s c : Nat) :
    ∀ blocks i zc,
      (∃ q, s + i ≤ q ∧ q < s + i + 32 * blocks ∧
        (decide (tolower c % 256 = mem q) || decide (toupper c % 256 = mem q)) = true ∧
        (∀ q', s + i ≤ q' → q' < q →
          (decide (tolower c % 256 = mem q') || decide (toupper c % 256 = mem q')) = false) ∧
        simd_memchr_count_zeroes_nocase_loop mem s c blocks i zc
          = (some q, zc + count_where (fun j => decide (mem (s + i + j) = 0)) (q - (s + i)))) ∨
      ((∀ q', s + i ≤ q' → q' < s + i + 32 * blocks →
          (decide (tolower c % 256 = mem q') || decide (toupper c % 256 = mem q')) = false) ∧
        simd_memchr_count_zeroes_nocase_loop mem s c blocks i zc
          = (none, zc + count_where (fun j => decide (mem (s + i + j) = 0)) (32 * blocks))) := by
  apply block_scan_spec mem s
    (fun q => decide (tolower c % 256 = mem q) || decide (toupper c % 256 = mem q))
  · intro i zc; rfl
  · intro blocks i zc
    rcases mask_cases _
      (fun b => decide (tolower c % 256 = mem (s + i + b)) ||
        decide (toupper c % 256 = mem (s + i + b)))
      (mask_or_testBit mem (tolower c) (toupper c) (s + i)) with ⟨h1, h2, h3, h4⟩ | ⟨h1, h2⟩
    · left
      refine ⟨_, h2, h3, h4, ?_⟩
      rw [simd_memchr_count_zeroes_nocase_loop]
      simp only [h1, ne_eq, not_false_eq_true, if_true]
      rw [mask_zero_count_below _ _ _ h2]
    · right
      refine ⟨h2, ?_⟩
      rw [simd_memchr_count_zeroes_nocase_loop]
      simp only [h1, ne_eq, not_true_eq_false, if_false]
      rw [mask_zero_count_block]

theorem simd_memchr_loop_spec (mem : Nat → Nat) (s c : Nat) :
    ∀ blocks i,
      (∃ q, s + i ≤ q ∧ q < s + i + 32 * blocks ∧ c % 256 = mem q ∧
        (∀ q', s + i ≤ q' → q' < q → c % 256 ≠ mem q') ∧
        simd_memchr_loop mem s c blocks i = some q) ∨
      ((∀ q', s + i ≤ q' → q' < s + i + 32 * blocks → c % 256 ≠ mem q') ∧
        simd_memchr_loop mem s c blocks i = none) := by
  intro blocks
  induction blocks with
  | zero =>
    intro i
    right
    exact ⟨fun q' h1 h2 => by omega, rfl⟩
  | succ blocks ih =>
    intro i
    rw [simd_memchr_loop]
    rcases mask_cases _ (fun b => decide (c % 256 = mem (s + i + b)))
      (mask_cmpeq_testBit mem c (s + i)) with ⟨h1, h2, h3, h4⟩ | ⟨h1, h2⟩
    · left
      simp only [h1, ne_eq, not_false_eq_true, if_true]
      refine ⟨_, by omega, by omega, of_decide_eq_true h3, ?_, rfl⟩
      intro q' q1 q2
      have := h4 (q' - (s + i)) (by omega)
      rw [show s + i + (q' - (s + i)) = q' by omega] at this
      exact of_decide_eq_false this
    · simp only [h1, ne_eq, not_true_eq_false, if_false]
      have hblock : ∀ q', s + i ≤ q' → q' < s + i + 32 → c % 256 ≠ mem q' := by
        intro q' q1 q2
        have := h2 (q' - (s + i)) (by omega)
        rw [show s + i + (q' - (s + i)) = q' by omega] at this
        exact of_decide_eq_false this
      rcases ih (i + 32) with ⟨q, q1, q2, q3, q4, q5⟩ | ⟨m1, m2⟩
      · left
        refine ⟨q, by omega, by omega, q3, ?_, q5⟩
        intro q' a1 a2
        by_cases h3 : q' < s + i + 32
        · exact hblock q' a1 h3
        · exact q4 q' (by omega) a2
      · right
        refine ⟨?_, m2⟩
        intro q' a1 a2
        by_cases h3 : q' < s + i + 32
        · exact hblock q' a1 h3
        · exact m1 q' (by omega) (by omega)


/-! ## The multi-byte scans -/

/-- One block of a `memmem` scan: the confirm loop on a mask with lanes `cand`. -/
theorem memmem_block (mem : Nat → Nat) (p M : Nat) (cand confirm : Nat → Bool)
    (hM : ∀ b, M.testBit b = (decide (b < 32) && cand b)) :
    (∃ b, b < 32 ∧ (cand b && confirm b) = true ∧
        (∀ b', b' < b → (cand b' && confirm b') = false) ∧
        simd_memmem_while confirm p
            (mm256_movemask_epi8
              (mm256_cmpeq_epi8 (mm256_set1_epi8 0) (mm256_loadu_si256 mem p))) 32 M
          = some (p + b, count_where (fun j => decide (mem (p + j) = 0)) b)) ∨
    ((∀ b, b < 32 → (cand b && confirm b) = false) ∧
        simd_memmem_while confirm p
            (mm256_movemask_epi8
              (mm256_cmpeq_epi8 (mm256_set1_epi8 0) (mm256_loadu_si256 mem p))) 32 M
          = none) := by
  have hM32 : ∀ b, 32 ≤ b → M.testBit b = false := by
    intro b hb
    rw [hM b]
    have : ¬ b < 32 := by omega
    simp [this]
  rcases simd_memmem_while_spec confirm p
      (mm256_movemask_epi8 (mm256_cmpeq_epi8 (mm256_set1_epi8 0) (mm256_loadu_si256 mem p)))
      M hM32 32 M 0 (by omega) (by intro b; simp) with
    ⟨b, b1, _, b3, b4, b5, b6⟩ | ⟨n1, n2⟩
  · left
    refine ⟨b, b1, ?_, ?_, ?_⟩
    · rw [hM b] at b3
      simp only [Bool.and_eq_true, decide_eq_true_eq] at b3
      simp [b3.2, b4]
    · intro b' hb'
      have := b5 b' (by omega) hb'
      rw [hM b'] at this
      have h32 : b' < 32 := by omega
      simpa [h32] using this
    · rw [b6, mask_zero_count_below _ _ _ b1]
  · right
    refine ⟨?_, n2⟩
    intro b hb
    have := n1 b (by omega)
    rw [hM b] at this
    simpa [hb] using this

theorem simd_memmem_count_zeroes_loop_spec (mem : Nat → Nat) (s : Nat) (needle : Nat → Nat)
    (k : Nat) (hk : 1 ≤ k) :
    ∀ blocks i zc,
      (∃ q, s + i ≤ q ∧ q < s + i + 32 * blocks ∧
        ((decide (needle 0 % 256 = mem q) &&
            decide (needle (usize_sub k 1) % 256 = mem (q + k - 1))) &&
          memcmp_eq mem (q + 1) needle 1 (usize_sub k 2)) = true ∧
        (∀ q', s + i ≤ q' → q' < q →
          ((decide (needle 0 % 256 = mem q') &&
              decide (needle (usize_sub k 1) % 256 = mem (q' + k - 1))) &&
            memcmp_eq mem (q' + 1) needle 1 (usize_sub k 2)) = false) ∧
        simd_memmem_count_zeroes_loop mem s needle k blocks i zc
          = (some q, zc + count_where (fun j => decide (mem (s + i + j) = 0)) (q - (s + i)))) ∨
      ((∀ q', s + i ≤ q' → q' < s + i + 32 * blocks →
          ((decide (needle 0 % 256 = mem q') &&
              decide (needle (usize_sub k 1) % 256 = mem (q' + k - 1))) &&
            memcmp_eq mem (q' + 1) needle 1 (usize_sub k 2)) = false) ∧
        simd_memmem_count_zeroes_loop mem s needle k blocks i zc
          = (none, zc + count_where (fun j => decide (mem (s + i + j) = 0)) (32 * blocks))) := by
  apply block_scan_spec mem s
    (fun q => (decide (needle 0 % 256 = mem q) &&
        decide (needle (usize_sub k 1) % 256 = mem (q + k - 1))) &&
      memcmp_eq mem (q + 1) needle 1 (usize_sub k 2))
  · intro i zc; rfl
  · intro blocks i zc
    have e : ∀ b, s + i + k - 1 + b = s + i + b + k - 1 := by intro b; omega
    rcases memmem_block mem (s + i) _
      (fun b => decide (needle 0 % 256 = mem (s + i + b)) &&
        decide (needle (usize_sub k 1) % 256 = mem (s + i + b + k - 1)))
      (fun bitpos => memcmp_eq mem (s + i + bitpos + 1) needle 1 (usize_sub k 2))
      (by
        intro b
        rw [mask_and_testBit mem (needle 0) (s + i) (needle (usize_sub k 1)) (s + i + k - 1) b,
          e b]) with
      ⟨b, b1, b2, b3, b4⟩ | ⟨n1, n2⟩
    · left
      refine ⟨b, b1, b2, b3, ?_⟩
      rw [simd_memmem_count_zeroes_loop]
      simp only [b4]
    · right
      refine ⟨n1, ?_⟩
      rw [simd_memmem_count_zeroes_loop]
      simp only [n2]
      rw [mask_zero_count_block]

theorem simd_memmem_count_zeroes_nocase_loop_spec (mem : Nat → Nat) (s : Nat)
    (needle : Nat → Nat) (k : Nat) (hk : 1 ≤ k) :
    ∀ blocks i zc,
      (∃ q, s + i ≤ q ∧ q < s + i + 32 * blocks ∧
        (((decide (tolower (needle 0) % 256 = mem q) ||
              decide (toupper (needle 0) % 256 = mem q)) &&
            (decide (tolower (needle (usize_sub k 1)) % 256 = mem (q + k - 1)) ||
              decide (toupper (needle (usize_sub k 1)) % 256 = mem (q + k - 1)))) &&
          memicmp_eq mem (q + 1) needle 1 (usize_sub k 2)) = true ∧
        (∀ q', s + i ≤ q' → q' < q →
          (((decide (tolower (needle 0) % 256 = mem q') ||
                decide (toupper (needle 0) % 256 = mem q')) &&
              (decide (tolower (needle (usize_sub k 1)) % 256 = mem (q' + k - 1)) ||
                decide (toupper (needle (usize_sub k 1)) % 256 = mem (q' + k - 1)))) &&
            memicmp_eq mem (q' + 1) needle 1 (usize_sub k 2)) = false) ∧
        simd_memmem_count_zeroes_nocase_loop mem s needle k blocks i zc
          = (some q, zc + count_where (fun j => decide (mem (s + i + j) = 0)) (q - (s + i)))) ∨
      ((∀ q', s + i ≤ q' → q' < s + i + 32 * blocks →
          (((decide (tolower (needle 0) % 256 = mem q') ||
                decide (toupper (needle 0) % 256 = mem q')) &&
              (decide (tolower (needle (usize_sub k 1)) % 256 = mem (q' + k - 1)) ||
                decide (toupper (needle (usize_sub k 1)) % 256 = mem (q' + k - 1)))) &&
            memicmp_eq mem (q' + 1) needle 1 (usize_sub k 2)) = false) ∧
        simd_memmem_count_zeroes_nocase_loop mem s needle k blocks i zc
          = (none, zc + count_where (fun j => decide (mem (s + i + j) = 0)) (32 * blocks))) := by
  apply block_scan_spec mem s
    (fun q => ((decide (tolower (needle 0) % 256 = mem q) ||
          decide (toupper (needle 0) % 256 = mem q)) &&
        (decide (tolower (needle (usize_sub k 1)) % 256 = mem (q + k - 1)) ||
          decide (toupper (needle (usize_sub k 1)) % 256 = mem (q + k - 1)))) &&
      memicmp_eq mem (q + 1) needle 1 (usize_sub k 2))
  · intro i zc; rfl
  · intro blocks i zc
    have e : ∀ b, s + i + k - 1 + b = s + i + b + k - 1 := by intro b; omega
    rcases memmem_block mem (s + i) _
      (fun b => (decide (tolower (needle 0) % 256 = mem (s + i + b)) ||
          decide (toupper (needle 0) % 256 = mem (s + i + b))) &&
        (decide (tolower (needle (usize_sub k 1)) % 256 = mem (s + i + b + k - 1)) ||
          decide (toupper (needle (usize_sub k 1)) % 256 = mem (s + i + b + k - 1))))
      (fun bitpos => memicmp_eq mem (s + i + bitpos + 1) needle 1 (usize_sub k 2))
      (by
        intro b
        rw [mask_and_or_testBit mem (tolower (needle 0)) (toupper (needle 0)) (s + i)
          (tolower (needle (usize_sub k 1))) (toupper (needle (usize_sub k 1)))
          (s + i + k - 1) b, e b]) with
      ⟨b, b1, b2, b3, b4⟩ | ⟨n1, n2⟩
    · left
      refine ⟨b, b1, b2, b3, ?_⟩
      rw [simd_memmem_count_zeroes_nocase_loop]
      simp only [b4]
    · right
      refine ⟨n1, ?_⟩
      rw [simd_memmem_count_zeroes_nocase_loop]
      simp only [n2]
      rw [mask_zero_count_block]


/-! ## What the scans find -/

theorem usize_sub_eq (a b : Nat) (hb : b ≤ a) (ha : a < 2 ^ 64) : usize_sub a b = a - b := by
  unfold usize_sub
  have h1 : b % 2 ^ 64 = b := Nat.mod_eq_of_lt (by omega)
  rw [h1]
  have h2 : a + 2 ^ 64 - b = (a - b) + 2 ^ 64 := by omega
  rw [h2, Nat.add_mod_right]
  exact Nat.mod_eq_of_lt (by omega)

theorem needle_at_iff (flags : Nat) (mem text : Nat → Nat) (k p : Nat) :
    needle_at flags mem text k p = true ↔
      ∀ j, j < k → byte_eq flags (mem (p + j)) (text j) = true := by
  unfold needle_at
  rw [List.all_eq_true]
  constructor
  · intro h j hj; exact h j (List.mem_range.mpr hj)
  · intro h j hj; exact h j (List.mem_range.mp hj)

theorem memcmp_eq_iff (mem : Nat → Nat) (a : Nat) (needle : Nat → Nat) (b n : Nat) :
    memcmp_eq mem a needle b n = true ↔ ∀ j, j < n → mem (a + j) = needle (b + j) := by
  unfold memcmp_eq
  rw [List.all_eq_true]
  constructor
  · intro h j hj; exact of_decide_eq_true (h j (List.mem_range.mpr hj))
  · intro h j hj; exact decide_eq_true (h j (List.mem_range.mp hj))

theorem memicmp_eq_iff (mem : Nat → Nat) (a : Nat) (needle : Nat → Nat) (b n : Nat) :
    memicmp_eq mem a needle b n = true ↔
      ∀ j, j < n → tolower (mem (a + j)) = tolower (needle (b + j)) := by
  unfold memicmp_eq
  rw [List.all_eq_true]
  constructor
  · intro h j hj; exact of_decide_eq_true (h j (List.mem_range.mpr hj))
  · intro h j hj; exact decide_eq_true (h j (List.mem_range.mp hj))

theorem nocase_byte_iff (x c : Nat) (hc : c < 256) :
    (tolower c % 256 = x ∨ toupper c % 256 = x) ↔ tolower x = tolower c := by
  unfold tolower toupper
  split_ifs <;> omega

theorem byte_eq_cs (flags x y : Nat) (hf : flags &&& QUICKFIND_FLAG_CASE_SENSITIVE ≠ 0) :
    byte_eq flags x y = decide (x = y) := by
  unfold byte_eq; rw [if_pos hf]

theorem byte_eq_nocase (flags x y : Nat) (hf : ¬ flags &&& QUICKFIND_FLAG_CASE_SENSITIVE ≠ 0) :
    byte_eq flags x y = decide (tolower x = tolower y) := by
  unfold byte_eq; rw [if_neg hf]

/-- The candidate test and `memcmp` of `simd_memmem_count_zeroes` together say
that the needle occurs at `q`. -/
theorem memmem_hit_eq (flags : Nat) (mem text : Nat → Nat) (k : Nat)
    (hf : flags &&& QUICKFIND_FLAG_CASE_SENSITIVE ≠ 0) (hk : 2 ≤ k) (hk2 : k < 2 ^ 64)
    (hb : ∀ j, j < k → text j < 256) (q : Nat) :
    ((decide (text 0 % 256 = mem q) &&
        decide (text (usize_sub k 1) % 256 = mem (q + k - 1))) &&
      memcmp_eq mem (q + 1) text 1 (usize_sub k 2)) = needle_at flags mem text k q := by
  rw [Bool.eq_iff_iff, needle_at_iff]
  simp only [Bool.and_eq_true, decide_eq_true_eq, memcmp_eq_iff, byte_eq_cs _ _ _ hf]
  rw [usize_sub_eq k 1 (by omega) hk2, usize_sub_eq k 2 hk hk2,
    Nat.mod_eq_of_lt (hb 0 (by omega)), Nat.mod_eq_of_lt (hb (k - 1) (by omega))]
  constructor
  · rintro ⟨⟨h1, h2⟩, h3⟩ j hj
    by_cases j0 : j = 0
    · subst j0; exact h1.symm
    · by_cases j1 : j = k - 1
      · subst j1
        rw [show q + (k - 1) = q + k - 1 by omega]; exact h2.symm
      · have := h3 (j - 1) (by omega)
        rwa [show q + 1 + (j - 1) = q + j by omega, show 1 + (j - 1) = j by omega] at this
  · intro h
    refine ⟨⟨(h 0 (by omega)).symm, ?_⟩, ?_⟩
    · have := h (k - 1) (by omega)
      rw [show q + (k - 1) = q + k - 1 by omega] at this
      exact this.symm
    · intro j hj
      have := h (1 + j) (by omega)
      rwa [show q + (1 + j) = q + 1 + j by omega] at this

theorem memmem_nocase_hit_eq (flags : Nat) (mem text : Nat → Nat) (k : Nat)
    (hf : ¬ flags &&& QUICKFIND_FLAG_CASE_SENSITIVE ≠ 0) (hk : 2 ≤ k) (hk2 : k < 2 ^ 64)
    (hb : ∀ j, j < k → text j < 256) (q : Nat) :
    (((decide (tolower (text 0) % 256 = mem q) || decide (toupper (text 0) % 256 = mem q)) &&
        (decide (tolower (text (usize_sub k 1)) % 256 = mem (q + k - 1)) ||
          decide (toupper (text (usize_sub k 1)) % 256 = mem (q + k - 1)))) &&
      memicmp_eq mem (q + 1) text 1 (usize_sub k 2)) = needle_at flags mem text k q := by
  rw [Bool.eq_iff_iff, needle_at_iff]
  simp only [Bool.and_eq_true, Bool.or_eq_true, decide_eq_true_eq, memicmp_eq_iff,
    byte_eq_nocase _ _ _ hf]
  rw [usize_sub_eq k 1 (by omega) hk2, usize_sub_eq k 2 hk hk2,
    nocase_byte_iff _ _ (hb 0 (by omega)), nocase_byte_iff _ _ (hb (k - 1) (by omega))]
  constructor
  · rintro ⟨⟨h1, h2⟩, h3⟩ j hj
    by_cases j0 : j = 0
    · subst j0; exact h1
    · by_cases j1 : j = k - 1
      · subst j1
        rw [show q + (k - 1) = q + k - 1 by omega]; exact h2
      · have := h3 (j - 1) (by omega)
        rwa [show q + 1 + (j - 1) = q + j by omega, show 1 + (j - 1) = j by omega] at this
  · intro h
    refine ⟨⟨h 0 (by omega), ?_⟩, ?_⟩
    · have := h (k - 1) (by omega)
      rwa [show q + (k - 1) = q + k - 1 by omega] at this
    · intro j hj
      have := h (1 + j) (by omega)
      rwa [show q + (1 + j) = q + 1 + j by omega] at this

theorem memchr_hit_eq (flags : Nat) (mem text : Nat → Nat)
    (hf : flags &&& QUICKFIND_FLAG_CASE_SENSITIVE ≠ 0) (hb : text 0 < 256) (q : Nat) :
    decide (text 0 % 256 = mem q) = needle_at flags mem text 1 q := by
  rw [Bool.eq_iff_iff, needle_at_iff]
  simp only [decide_eq_true_eq, byte_eq_cs _ _ _ hf]
  rw [Nat.mod_eq_of_lt hb]
  constructor
  · intro h j hj
    have : j = 0 := by omega
    subst this; exact h.symm
  · intro h; exact (h 0 (by omega)).symm

theorem memchr_nocase_hit_eq (flags : Nat) (mem text : Nat → Nat)
    (hf : ¬ flags &&& QUICKFIND_FLAG_CASE_SENSITIVE ≠ 0) (hb : text 0 < 256) (q : Nat) :
    (decide (tolower (text 0) % 256 = mem q) || decide (toupper (text 0) % 256 = mem q))
      = needle_at flags mem text 1 q := by
  rw [Bool.eq_iff_iff, needle_at_iff]
  simp only [Bool.or_eq_true, decide_eq_true_eq, byte_eq_nocase _ _ _ hf]
  rw [nocase_byte_iff _ _ hb]
  constructor
  · intro h j hj
    have : j = 0 := by omega
    subst this; exact h
  · intro h; exact h 0 (by omega)

/-- What `find_first_occurrence_and_count_nulls` returns for a needle of
`1 <= k` bytes: the first offset in the scanned blocks at which the needle
occurs, with the number of NUL bytes before it, or null when there is none. -/
theorem find_first_occurrence_and_count_nulls_spec (mem : Nat → Nat) (s n : Nat)
    (text : Nat → Nat) (k flags : Nat) (hk1 : 1 ≤ k) (hk2 : k < 2 ^ 64)
    (hb : ∀ j, j < k → text j < 256) :
    (∃ q, s ≤ q ∧ q < s + 32 * ((n + 31) / 32) ∧ needle_at flags mem text k q = true ∧
        (∀ q', s ≤ q' → q' < q → needle_at flags mem text k q' = false) ∧
        find_first_occurrence_and_count_nulls mem s n text k flags
          = (some q, count_where (fun j => decide (mem (s + j) = 0)) (q - s))) ∨
    ((∀ q', s ≤ q' → q' < s + 32 * ((n + 31) / 32) → needle_at flags mem text k q' = false) ∧
        (find_first_occurrence_and_count_nulls mem s n text k flags).1 = none) := by
  unfold find_first_occurrence_and_count_nulls
  by_cases hf : flags &&& QUICKFIND_FLAG_CASE_SENSITIVE ≠ 0
  · rw [if_pos hf]
    by_cases h1 : k = 1
    · subst h1
      rw [if_pos rfl]
      have := simd_memchr_count_zeroes_loop_spec mem s (text 0) ((n + 31) / 32) 0 0
      simp only [memchr_hit_eq flags mem text hf (hb 0 (by omega)), Nat.add_zero,
        Nat.zero_add] at this
      rcases this with ⟨q, a1, a2, a3, a4, a5⟩ | ⟨b1, b2⟩
      · exact Or.inl ⟨q, a1, a2, a3, a4, a5⟩
      · exact Or.inr ⟨b1, by unfold simd_memchr_count_zeroes; rw [b2]⟩
    · rw [if_neg h1]
      have := simd_memmem_count_zeroes_loop_spec mem s text k hk1 ((n + 31) / 32) 0 0
      simp only [memmem_hit_eq flags mem text k hf (by omega) hk2 hb, Nat.add_zero,
        Nat.zero_add] at this
      rcases this with ⟨q, a1, a2, a3, a4, a5⟩ | ⟨b1, b2⟩
      · exact Or.inl ⟨q, a1, a2, a3, a4, a5⟩
      · exact Or.inr ⟨b1, by unfold simd_memmem_count_zeroes; rw [b2]⟩
  · rw [if_neg hf]
    by_cases h1 : k = 1
    · subst h1
      rw [if_pos rfl]
      have := simd_memchr_count_zeroes_nocase_loop_spec mem s (text 0) ((n + 31) / 32) 0 0
      simp only [memchr_nocase_hit_eq flags mem text hf (hb 0 (by omega)), Nat.add_zero,
        Nat.zero_add] at this
      rcases this with ⟨q, a1, a2, a3, a4, a5⟩ | ⟨b1, b2⟩
      · exact Or.inl ⟨q, a1, a2, a3, a4, a5⟩
      · exact Or.inr ⟨b1, by unfold simd_memchr_count_zeroes_nocase; rw [b2]⟩
    · rw [if_neg h1]
      have := simd_memmem_count_zeroes_nocase_loop_spec mem s text k hk1 ((n + 31) / 32) 0 0
      simp only [memmem_nocase_hit_eq flags mem text k hf (by omega) hk2 hb, Nat.add_zero,
        Nat.zero_add] at this
      rcases this with ⟨q, a1, a2, a3, a4, a5⟩ | ⟨b1, b2⟩
      · exact Or.inl ⟨q, a1, a2, a3, a4, a5⟩
      · exact Or.inr ⟨b1, by unfold simd_memmem_count_zeroes_nocase; rw [b2]⟩

/-- What `simd_memchr` returns for the byte 0: the first NUL of the scanned
blocks. -/
theorem simd_memchr_nul_spec (mem : Nat → Nat) (s n : Nat) :
    (∃ q, s ≤ q ∧ q < s + 32 * ((n + 31) / 32) ∧ mem q = 0 ∧
        (∀ q', s ≤ q' → q' < q → mem q' ≠ 0) ∧ simd_memchr mem s n 0 = some q) ∨
    ((∀ q', s ≤ q' → q' < s + 32 * ((n + 31) / 32) → mem q' ≠ 0) ∧
        simd_memchr mem s n 0 = none) := by
  have := simd_memchr_loop_spec mem s 0 ((n + 31) / 32) 0
  simp only [Nat.add_zero, Nat.zero_mod] at this
  rcases this with ⟨q, a1, a2, a3, a4, a5⟩ | ⟨b1, b2⟩
  · exact Or.inl ⟨q, a1, a2, a3.symm, fun q' h1 h2 h => a4 q' h1 h2 h.symm, a5⟩
  · exact Or.inr ⟨fun q' h1 h2 h => b1 q' h1 h2 h.symm, b2⟩


/-! ## The loop of `run_query`: the selected record -/

theorem count_nul_eq (elems : Nat → Nat) (n : Nat) :
    count_nul elems n = count_where (fun i => decide (elems i = 0)) n := by
  induction n with
  | zero => rfl
  | succ n ih =>
    simp only [count_nul, count_where, ih]
    by_cases h : elems n = 0 <;> simp [h]

theorem count_nul_add (elems : Nat → Nat) (a n : Nat) :
    count_nul elems (a + n)
      = count_nul elems a + count_where (fun j => decide (elems (a + j) = 0)) n := by
  rw [count_nul_eq, count_nul_eq, count_where_add]

theorem count_nul_mono (elems : Nat → Nat) (a b : Nat) (h : a ≤ b) :
    count_nul elems a ≤ count_nul elems b := by
  have : b = a + (b - a) := by omega
  rw [this, count_nul_add]
  omega

theorem count_nul_no_nul (elems : Nat → Nat) (a b : Nat) (_h : a ≤ b)
    (hn : ∀ i, a ≤ i → i < b → elems i ≠ 0) : count_nul elems b = count_nul elems a := by
  induction b with
  | zero =>
    have : a = 0 := by omega
    subst this; rfl
  | succ b ih =>
    by_cases hab : a = b + 1
    · subst hab; rfl
    · rw [count_nul, ih (by omega) (fun i h1 h2 => hn i h1 (by omega))]
      simp [hn b (by omega) (by omega)]

theorem count_nul_eq_imp (elems : Nat → Nat) (a b : Nat) (_h : a ≤ b)
    (he : count_nul elems a = count_nul elems b) : ∀ i, a ≤ i → i < b → elems i ≠ 0 := by
  intro i h1 h2 hz
  have m1 := count_nul_mono elems a i h1
  have m2 := count_nul_mono elems (i + 1) b (by omega)
  have : count_nul elems (i + 1) = count_nul elems i + 1 := by
    simp [count_nul, hz]
  omega

theorem tolower_ne_zero (x : Nat) (h : x ≠ 0) : tolower x ≠ 0 := by
  unfold tolower; split_ifs <;> omega

theorem needle_at_no_nul (flags : Nat) (mem text : Nat → Nat) (k p : Nat)
    (ht : ∀ j, j < k → text j ≠ 0) (h : needle_at flags mem text k p = true) :
    ∀ j, j < k → mem (p + j) ≠ 0 := by
  intro j hj hz
  have := (needle_at_iff flags mem text k p).mp h j hj
  unfold byte_eq at this
  rw [hz] at this
  split_ifs at this
  · exact ht j hj (of_decide_eq_true this).symm
  · have h2 := of_decide_eq_true this
    exact tolower_ne_zero _ (ht j hj) h2.symm

/-- The first half of the loop body on a state that satisfies the loop
invariant: the match lies in the name of the selected record. -/
theorem run_query_select_spec (params : quickfind_params) (d : db) (st : query_state)
    (hc : names_correspond d) (hsz : d.name_buffer.count < 2 ^ 64) (ht : text_nul_free params)
    (hst : query_state_ok d st) (m cs idx : Nat)
    (hsel : run_query_select params d st = some (m, cs, idx)) :
    st.current_search ≤ m ∧
    needle_at params.flags d.name_buffer.elems params.text params.text_length m = true ∧
    (∀ q, st.current_search ≤ q → q < m →
      needle_at params.flags d.name_buffer.elems params.text params.text_length q = false) ∧
    idx = count_nul d.name_buffer.elems m ∧ idx < d.record_array.count ∧
    (d.record_array.elems idx).name_offset ≤ m ∧ m + params.text_length ≤ cs ∧
    cs < d.name_buffer.count ∧ name_byte d cs = 0 ∧
    (∀ i, (d.record_array.elems idx).name_offset ≤ i → i < cs → name_byte d i ≠ 0) := by
  obtain ⟨hcs, hcri⟩ := hst
  obtain ⟨hk1, hk2, hbytes⟩ := ht
  obtain ⟨_, hlast, hoff⟩ := hc
  unfold run_query_select at hsel
  dsimp only at hsel
  rw [usize_sub_eq _ _ hcs hsz] at hsel
  rcases find_first_occurrence_and_count_nulls_spec d.name_buffer.elems st.current_search
      (d.name_buffer.count - st.current_search) params.text params.text_length params.flags
      hk1 (by omega) (fun j hj => (hbytes j hj).2) with
    ⟨q, q1, q2, q3, q4, q5⟩ | ⟨n1, n2⟩
  · rw [q5] at hsel
    simp only at hsel
    by_cases hm : q > d.name_buffer.count
    · rw [if_pos hm] at hsel; cases hsel
    · rw [if_neg hm] at hsel
      rw [usize_sub_eq _ _ (by omega) hsz] at hsel
      rcases simd_memchr_nul_spec d.name_buffer.elems q (d.name_buffer.count - q) with
        ⟨t, t1, t2, t3, t4, t5⟩ | ⟨u1, u2⟩
      · rw [t5] at hsel
        simp only at hsel
        split at hsel
        · cases hsel
        · rename_i hidx
          simp only [Option.some.injEq, Prod.mk.injEq] at hsel
          obtain ⟨e1, e2, e3⟩ := hsel
          subst e1 e2
          have hidx_eq : idx = count_nul d.name_buffer.elems q := by
            rw [← e3, hcri]
            have : q = st.current_search + (q - st.current_search) := by omega
            rw [this, count_nul_add]
            rw [show st.current_search + (q - st.current_search) - st.current_search
              = q - st.current_search by omega]
          have hnn := needle_at_no_nul params.flags d.name_buffer.elems params.text
            params.text_length q (fun j hj => (hbytes j hj).1) q3
          have hq0 : d.name_buffer.elems q ≠ 0 := by
            have := hnn 0 hk1
            rwa [Nat.add_zero] at this
          have hqlt : q < d.name_buffer.count := by
            by_contra hge
            have hqe : q = d.name_buffer.count := by omega
            rw [hqe, Nat.sub_self] at t2
            simp at t2
            omega
          have hlastz := hlast (by omega)
          have htlt : t < d.name_buffer.count := by
            by_contra hge
            exact t4 (d.name_buffer.count - 1) (by omega) (by omega) hlastz
          have hidx_lt : idx < d.record_array.count := by omega
          obtain ⟨o1, o2⟩ := hoff idx hidx_lt
          have hoff_le : (d.record_array.elems idx).name_offset ≤ q := by
            by_contra hgt
            rcases o2 with o2 | o2
            · omega
            · have m1 := count_nul_mono d.name_buffer.elems q
                ((d.record_array.elems idx).name_offset - 1) (by omega)
              have : count_nul d.name_buffer.elems (d.record_array.elems idx).name_offset
                  = count_nul d.name_buffer.elems
                      ((d.record_array.elems idx).name_offset - 1) + 1 := by
                have e : (d.record_array.elems idx).name_offset
                    = ((d.record_array.elems idx).name_offset - 1) + 1 := by omega
                unfold name_byte at o2
                conv_lhs => rw [e]
                simp [count_nul, o2]
              omega
          refine ⟨q1, q3, q4, hidx_eq, hidx_lt, hoff_le, ?_, htlt, t3, ?_⟩
          · by_contra hlt
            exact hnn (t - q) (by omega) (by rw [show q + (t - q) = t by omega]; exact t3)
          · intro i i1 i2
            by_cases hi : i < q
            · exact count_nul_eq_imp d.name_buffer.elems _ q hoff_le
                (by rw [o1, hidx_eq]) i i1 hi
            · exact t4 i (by omega) i2
      · rw [u2] at hsel; cases hsel
  · have : ∃ z, find_first_occurrence_and_count_nulls d.name_buffer.elems st.current_search
        (d.name_buffer.count - st.current_search) params.text params.text_length params.flags
        = (none, z) := ⟨_, Prod.ext n2 rfl⟩
    obtain ⟨z, hz⟩ := this
    rw [hz] at hsel
    cases hsel

theorem run_query_found_state (params : quickfind_params) (d : db) (st st1 : query_state)
    (cs idx : Nat) (h : run_query_found params d st cs idx = Sum.inl st1) :
    st1.current_search = cs ∧ st1.current_record_index = idx := by
  unfold run_query_found at h
  dsimp only at h
  split_ifs at h
  all_goals first
    | (split at h
       · cases h
       · cases h; exact ⟨rfl, rfl⟩)
    | (cases h; exact ⟨rfl, rfl⟩)

theorem run_query_body_ok (params : quickfind_params) (d : db) (st st1 : query_state)
    (hc : names_correspond d) (hsz : d.name_buffer.count < 2 ^ 64) (ht : text_nul_free params)
    (hst : query_state_ok d st) (h : run_query_body params d st = Sum.inl st1) :
    query_state_ok d st1 := by
  unfold run_query_body at h
  split at h
  · cases h
  · rename_i m cs idx hsel
    obtain ⟨_, _, _, s4, _, s6, _, s8, _, s10⟩ :=
      run_query_select_spec params d st hc hsz ht hst m cs idx hsel
    obtain ⟨e1, e2⟩ := run_query_found_state params d st st1 cs idx h
    refine ⟨by rw [e1]; omega, ?_⟩
    rw [e1, e2, s4]
    by_cases hm : m ≤ cs
    · exact (count_nul_no_nul d.name_buffer.elems m cs hm
        (fun i i1 i2 => s10 i (by omega) i2)).symm
    · have : (1:Nat) ≤ params.text_length := ht.1
      omega

theorem run_query_state_after_ok (params : quickfind_params) (d : db) (result_buffer : buffer)
    (hc : names_correspond d) (hsz : d.name_buffer.count < 2 ^ 64) (ht : text_nul_free params) :
    ∀ n st, run_query_state_after params d result_buffer n = some st → query_state_ok d st := by
  intro n
  induction n with
  | zero =>
    intro st h
    simp only [run_query_state_after, Option.some.injEq] at h
    subst h
    exact ⟨Nat.zero_le _, rfl⟩
  | succ n ih =>
    intro st h
    rw [run_query_state_after] at h
    split at h
    · cases h
    · rename_i st0 h0
      split_ifs at h
      split at h
      · rename_i st1 hb
        simp only [Option.some.injEq] at h
        subst h
        exact run_query_body_ok params d st0 st1 hc hsz ht (ih st0 h0) hb
      · cases h

/-- C2.  In an index with the name/record correspondence and for a text of at
least one byte without NUL, whenever the loop of `run_query`, in any round,
finds a match at `m` and selects the record at index `idx` (its
`current_record_index` plus the counted NULs), the match lies in the name of
that record: the name starts at `name_offset <= m`, holds no NUL up to its
terminator `cs`, the new `current_search`, and the matched bytes end before
`cs`; no other record's name contains `m`. -/
theorem C2_selected_record_contains_match (params : quickfind_params) (d : db)
    (result_buffer : buffer) (n : Nat) (st : query_state) (m cs idx : Nat)
    (hc : names_correspond d) (hsz : d.name_buffer.count < 2 ^ 64) (ht : text_nul_free params)
    (hreach : run_query_state_after params d result_buffer n = some st)
    (hsel : run_query_select params d st = some (m, cs, idx)) :
    idx < d.record_array.count ∧
    (d.record_array.elems idx).name_offset ≤ m ∧ m + params.text_length ≤ cs ∧
    name_byte d cs = 0 ∧
    (∀ i, (d.record_array.elems idx).name_offset ≤ i → i < cs → name_byte d i ≠ 0) ∧
    (∀ k, k < d.record_array.count → (d.record_array.elems k).name_offset ≤ m →
      (∀ i, (d.record_array.elems k).name_offset ≤ i → i < m → name_byte d i ≠ 0) →
      k = idx) := by
  have hst := run_query_state_after_ok params d result_buffer hc hsz ht n st hreach
  obtain ⟨_, _, _, s4, s5, s6, s7, _, s9, s10⟩ :=
    run_query_select_spec params d st hc hsz ht hst m cs idx hsel
  refine ⟨s5, s6, s7, s9, s10, ?_⟩
  intro k hk1 hk2 hk3
  have := (hc.2.2 k hk1).1
  rw [← this, s4]
  exact (count_nul_no_nul d.name_buffer.elems _ m hk2 hk3).symm

/-- C2 at a concrete input: the second round of the query for "a" over the
names "xa" and "a" selects record 1 for the match at offset 3. -/
theorem C2_selected_record_contains_match_witness :
    (names_correspond two_names_db ∧ two_names_db.name_buffer.count < 2 ^ 64 ∧
      text_nul_free (params_of [97] 0 2 0 2) ∧
      run_query_select (params_of [97] 0 2 0 2) two_names_db
        ((run_query_state_after (params_of [97] 0 2 0 2) two_names_db response_buffer 1).getD
          (run_query_init response_buffer)) = some (3, 4, 1)) ∧
    (1 < two_names_db.record_array.count ∧
      (two_names_db.record_array.elems 1).name_offset ≤ 3 ∧
      3 + (params_of [97] 0 2 0 2).text_length ≤ 4 ∧
      name_byte two_names_db 4 = 0 ∧
      (∀ i, (two_names_db.record_array.elems 1).name_offset ≤ i → i < 4 →
        name_byte two_names_db i ≠ 0) ∧
      (∀ k, k < two_names_db.record_array.count →
        (two_names_db.record_array.elems k).name_offset ≤ 3 →
        (∀ i, (two_names_db.record_array.elems k).name_offset ≤ i → i < 3 →
          name_byte two_names_db i ≠ 0) →
        k = 1)) :=
  ⟨⟨by decide, by decide, by decide, by decide⟩,
    C2_selected_record_contains_match (params_of [97] 0 2 0 2) two_names_db response_buffer 1
      ((run_query_state_after (params_of [97] 0 2 0 2) two_names_db response_buffer 1).getD
        (run_query_init response_buffer)) 3 4 1
      (by decide) (by decide) (by decide) (by rfl) (by decide)⟩


/-! ## The layout of the names -/
theorem c_string_spec (mem : Nat → Nat) :
    ∀ limit p, (∀ i, i < (c_string mem p limit).length → mem (p + i) ≠ 0) ∧
      ((c_string mem p limit).length < limit → mem (p + (c_string mem p limit).length) = 0) ∧
      (c_string mem p limit).length ≤ limit := by
  intro limit
  induction limit with
  | zero => intro p; simp [c_string]
  | succ limit ih =>
    intro p
    unfold c_string
    by_cases h : mem p = 0
    · simp [h]
    · simp only [h, if_false, List.length_cons]
      obtain ⟨i1, i2, i3⟩ := ih (p + 1)
      refine ⟨?_, ?_, by omega⟩
      · intro i hi
        cases i with
        | zero => simpa using h
        | succ i =>
          have := i1 i (by omega)
          rwa [show p + 1 + i = p + (i + 1) by omega] at this
      · intro hl
        have := i2 (by omega)
        rwa [show p + 1 + (c_string mem (p + 1) limit).length
          = p + ((c_string mem (p + 1) limit).length + 1) by omega] at this

theorem c_string_length (mem : Nat → Nat) :
    ∀ L p limit, (∀ i, p ≤ i → i < p + L → mem i ≠ 0) → mem (p + L) = 0 → L < limit →
      (c_string mem p limit).length = L := by
  intro L
  induction L with
  | zero =>
    intro p limit _ h2 h3
    cases limit with
    | zero => omega
    | succ limit => simp [c_string, show mem p = 0 from h2]
  | succ L ih =>
    intro p limit h1 h2 h3
    cases limit with
    | zero => omega
    | succ limit =>
      have hp : mem p ≠ 0 := h1 p (by omega) (by omega)
      simp only [c_string, hp, if_false, List.length_cons]
      rw [ih (p + 1) limit (fun i a b => h1 i (by omega) (by omega))
        (by rwa [show p + 1 + L = p + (L + 1) by omega]) (by omega)]

/-- In an index with the name/record correspondence the name of record `k` ends
at a NUL inside the name buffer and holds none before it. -/
theorem record_name_spec (d : db) (hc : names_correspond d) (k : Nat)
    (hk : k < d.record_array.count) :
    (d.record_array.elems k).name_offset + record_name_length d k < d.name_buffer.count ∧
    name_byte d ((d.record_array.elems k).name_offset + record_name_length d k) = 0 ∧
    (∀ i, (d.record_array.elems k).name_offset ≤ i →
      i < (d.record_array.elems k).name_offset + record_name_length d k → name_byte d i ≠ 0) := by
  obtain ⟨hcnt, hlast, hoff⟩ := hc
  obtain ⟨o1, _⟩ := hoff k hk
  have hlt : (d.record_array.elems k).name_offset < d.name_buffer.count := by
    by_contra hge
    have := count_nul_mono d.name_buffer.elems d.name_buffer.count
      (d.record_array.elems k).name_offset (by omega)
    omega
  have hz := hlast (by omega)
  obtain ⟨s1, s2, s3⟩ := c_string_spec d.name_buffer.elems
    (d.name_buffer.count - (d.record_array.elems k).name_offset)
    (d.record_array.elems k).name_offset
  have hL : record_name_length d k
      < d.name_buffer.count - (d.record_array.elems k).name_offset := by
    unfold record_name_length
    by_contra hge
    have := s1 (d.name_buffer.count - 1 - (d.record_array.elems k).name_offset) (by omega)
    rw [show (d.record_array.elems k).name_offset
      + (d.name_buffer.count - 1 - (d.record_array.elems k).name_offset)
      = d.name_buffer.count - 1 by omega] at this
    exact this hz
  refine ⟨by omega, s2 hL, ?_⟩
  intro i i1 i2
  have := s1 (i - (d.record_array.elems k).name_offset) (by unfold record_name_length at i2; omega)
  rwa [show (d.record_array.elems k).name_offset + (i - (d.record_array.elems k).name_offset)
    = i by omega] at this

/-- The number of NUL bytes before an offset inside the name of record `k`
(its terminator included) is `k`. -/
theorem count_nul_in_name (d : db) (hc : names_correspond d) (k : Nat)
    (hk : k < d.record_array.count) (p : Nat) (h1 : (d.record_array.elems k).name_offset ≤ p)
    (h2 : p ≤ (d.record_array.elems k).name_offset + record_name_length d k) :
    count_nul d.name_buffer.elems p = k := by
  obtain ⟨_, _, n3⟩ := record_name_spec d hc k hk
  rw [count_nul_no_nul d.name_buffer.elems _ p h1 (fun i a b => n3 i a (by omega))]
  exact (hc.2.2 k hk).1

theorem count_nul_after_name (d : db) (hc : names_correspond d) (k : Nat)
    (hk : k < d.record_array.count) :
    count_nul d.name_buffer.elems
      ((d.record_array.elems k).name_offset + record_name_length d k + 1) = k + 1 := by
  obtain ⟨_, n2, _⟩ := record_name_spec d hc k hk
  have := count_nul_in_name d hc k hk
    ((d.record_array.elems k).name_offset + record_name_length d k) (by omega) (by omega)
  unfold name_byte at n2
  simp [count_nul, n2, this]

/-- Names lie in the name buffer in the order of their records. -/
theorem name_end_lt_offset (d : db) (hc : names_correspond d) (k k' : Nat) (hkk : k < k')
    (hk' : k' < d.record_array.count) :
    (d.record_array.elems k).name_offset + record_name_length d k
      < (d.record_array.elems k').name_offset := by
  by_contra hge
  have := count_nul_mono d.name_buffer.elems (d.record_array.elems k').name_offset
    ((d.record_array.elems k).name_offset + record_name_length d k) (by omega)
  rw [(hc.2.2 k' hk').1,
    count_nul_in_name d hc k (by omega) _ (by omega) (by omega)] at this
  omega

theorem name_contains_iff (flags : Nat) (text : Nat → Nat) (text_length : Nat) (d : db)
    (k : Nat) :
    name_contains flags text text_length d k = true ↔
      ∃ j, j < record_name_length d k ∧ j + text_length ≤ record_name_length d k ∧
        needle_at flags d.name_buffer.elems text text_length
          ((d.record_array.elems k).name_offset + j) = true := by
  unfold name_contains
  rw [List.any_eq_true]
  constructor
  · rintro ⟨j, hj, h⟩
    simp only [Bool.and_eq_true, decide_eq_true_eq] at h
    exact ⟨j, List.mem_range.mp hj, h.1, h.2⟩
  · rintro ⟨j, hj, h1, h2⟩
    exact ⟨j, List.mem_range.mpr hj, by simp [h1, h2]⟩

/-! ## The loop of `run_query`: the first record whose name contains the text -/
/-- When the first half of the loop body leaves the loop, the text does not
occur in the rest of the name buffer. -/
theorem run_query_select_none_spec (params : quickfind_params) (d : db) (st : query_state)
    (hc : names_correspond d) (hsz : d.name_buffer.count < 2 ^ 64) (ht : text_nul_free params)
    (hst : query_state_ok d st) (hsel : run_query_select params d st = none) :
    ∀ q, st.current_search ≤ q → q < d.name_buffer.count →
      needle_at params.flags d.name_buffer.elems params.text params.text_length q = false := by
  obtain ⟨hcs, hcri⟩ := hst
  obtain ⟨hk1, hk2, hbytes⟩ := ht
  obtain ⟨hcnt, hlast, hoff⟩ := hc
  unfold run_query_select at hsel
  dsimp only at hsel
  rw [usize_sub_eq _ _ hcs hsz] at hsel
  have hcover : ∀ a, a ≤ d.name_buffer.count →
      d.name_buffer.count ≤ a + 32 * ((d.name_buffer.count - a + 31) / 32) := by
    intro a ha; omega
  rcases find_first_occurrence_and_count_nulls_spec d.name_buffer.elems st.current_search
      (d.name_buffer.count - st.current_search) params.text params.text_length params.flags
      hk1 (by omega) (fun j hj => (hbytes j hj).2) with
    ⟨q, q1, q2, q3, q4, q5⟩ | ⟨n1, n2⟩
  · rw [q5] at hsel
    simp only at hsel
    have hnn := needle_at_no_nul params.flags d.name_buffer.elems params.text
      params.text_length q (fun j hj => (hbytes j hj).1) q3
    have hq0 : d.name_buffer.elems q ≠ 0 := by
      have := hnn 0 hk1
      rwa [Nat.add_zero] at this
    by_cases hm : q > d.name_buffer.count
    · intro q' a1 a2
      exact q4 q' a1 (by omega)
    · rw [if_neg hm] at hsel
      rw [usize_sub_eq _ _ (by omega) hsz] at hsel
      by_cases hqe : q = d.name_buffer.count
      · intro q' a1 a2
        exact q4 q' a1 (by omega)
      · have hlastz := hlast (by omega)
        exfalso
        rcases simd_memchr_nul_spec d.name_buffer.elems q (d.name_buffer.count - q) with
          ⟨t, t1, t2, t3, t4, t5⟩ | ⟨u1, u2⟩
        · rw [t5] at hsel
          simp only at hsel
          split at hsel
          · rename_i hidx
            have e : st.current_record_index
                + count_where (fun j => decide (d.name_buffer.elems (st.current_search + j) = 0))
                    (q - st.current_search) = count_nul d.name_buffer.elems q := by
              rw [hcri]
              have : q = st.current_search + (q - st.current_search) := by omega
              conv_rhs => rw [this, count_nul_add]
            rw [e] at hidx
            have hq1 : q ≠ d.name_buffer.count - 1 := by
              intro h; rw [h] at hq0; exact hq0 hlastz
            have m1 := count_nul_mono d.name_buffer.elems q (d.name_buffer.count - 1) (by omega)
            have : count_nul d.name_buffer.elems d.name_buffer.count
                = count_nul d.name_buffer.elems (d.name_buffer.count - 1) + 1 := by
              have e2 : d.name_buffer.count = (d.name_buffer.count - 1) + 1 := by omega
              unfold name_byte at hlastz
              conv_lhs => rw [e2]
              simp [count_nul, hlastz]
            omega
          · cases hsel
        · exact u1 (d.name_buffer.count - 1) (by omega)
            (by have := hcover q (by omega); omega) hlastz
  · intro q' a1 a2
    exact n1 q' a1 (by have := hcover st.current_search hcs; omega)

/-- The first half of the loop body, once the records before `next` are dealt
with, selects the first record from `next` on whose name contains the text. -/
theorem run_query_select_first (params : quickfind_params) (d : db) (st : query_state)
    (next : Nat) (hc : names_correspond d) (hsz : d.name_buffer.count < 2 ^ 64)
    (ht : text_nul_free params) (hst : query_state_at d st next) :
    (∃ m cs idx, run_query_select params d st = some (m, cs, idx) ∧ next ≤ idx ∧
        idx < d.record_array.count ∧
        cs = (d.record_array.elems idx).name_offset + record_name_length d idx ∧
        name_contains params.flags params.text params.text_length d idx = true ∧
        (∀ k, next ≤ k → k < idx →
          name_contains params.flags params.text params.text_length d k = false)) ∨
    (run_query_select params d st = none ∧
        ∀ k, next ≤ k → k < d.record_array.count →
          name_contains params.flags params.text params.text_length d k = false) := by
  obtain ⟨hok, hnext⟩ := hst
  have hstart : ∀ k, next ≤ k → k < d.record_array.count →
      st.current_search ≤ (d.record_array.elems k).name_offset := by
    intro k k1 k2
    rcases hnext with ⟨_, h0⟩ | ⟨h1, h2, h3⟩
    · omega
    · have := name_end_lt_offset d hc (next - 1) k (by omega) k2
      omega
  have hbelow : ∀ k (q : Nat), next ≤ k → k < d.record_array.count →
      (∀ q', st.current_search ≤ q' → q' < q →
        needle_at params.flags d.name_buffer.elems params.text params.text_length q' = false) →
      (d.record_array.elems k).name_offset + record_name_length d k ≤ q →
      name_contains params.flags params.text params.text_length d k = false := by
    intro k q k1 k2 hmin hq
    by_contra hcon
    rw [Bool.not_eq_false] at hcon
    obtain ⟨j, j1, _, j3⟩ := (name_contains_iff _ _ _ _ _).mp hcon
    have := hmin ((d.record_array.elems k).name_offset + j)
      (by have := hstart k k1 k2; omega) (by omega)
    rw [this] at j3; cases j3
  cases hsel : run_query_select params d st with
  | none =>
    right
    refine ⟨rfl, ?_⟩
    intro k k1 k2
    have hn := run_query_select_none_spec params d st hc hsz ht hok hsel
    obtain ⟨n1, _, _⟩ := record_name_spec d hc k k2
    exact hbelow k _ k1 k2 (fun q' a b => hn q' a (by omega)) (Nat.le_refl _)
  | some r =>
    obtain ⟨m, cs, idx⟩ := r
    left
    obtain ⟨s1, s2, s3, s4, s5, s6, s7, s8, s9, s10⟩ :=
      run_query_select_spec params d st hc hsz ht hok m cs idx hsel
    have hk1 : 1 ≤ params.text_length := ht.1
    have hcs : cs = (d.record_array.elems idx).name_offset + record_name_length d idx := by
      have := c_string_length d.name_buffer.elems
        (cs - (d.record_array.elems idx).name_offset) (d.record_array.elems idx).name_offset
        (d.name_buffer.count - (d.record_array.elems idx).name_offset)
        (fun i a b => s10 i a (by omega))
        (by rw [show (d.record_array.elems idx).name_offset
              + (cs - (d.record_array.elems idx).name_offset) = cs by omega]; exact s9)
        (by omega)
      unfold record_name_length
      omega
    have hnext_le : next ≤ idx := by
      rcases hnext with ⟨h0, _⟩ | ⟨h1, h2, h3⟩
      · omega
      · obtain ⟨_, n2, _⟩ := record_name_spec d hc (next - 1) (by omega)
        rw [← h3] at n2
        have hnn := needle_at_no_nul params.flags d.name_buffer.elems params.text
          params.text_length m (fun j hj => (ht.2.2 j hj).1) s2
        have hm0 := hnn 0 hk1
        rw [Nat.add_zero] at hm0
        have hne : m ≠ st.current_search := by
          intro h; rw [h] at hm0; exact hm0 n2
        have c1 := count_nul_after_name d hc (next - 1) (by omega)
        rw [← h3] at c1
        have c2 := count_nul_mono d.name_buffer.elems (st.current_search + 1) m (by omega)
        omega
    refine ⟨m, cs, idx, rfl, hnext_le, s5, hcs, ?_, ?_⟩
    · rw [name_contains_iff]
      refine ⟨m - (d.record_array.elems idx).name_offset, by omega, by omega, ?_⟩
      rw [show (d.record_array.elems idx).name_offset
        + (m - (d.record_array.elems idx).name_offset) = m by omega]
      exact s2
    · intro k k1 k2
      have := name_end_lt_offset d hc k idx k2 s5
      exact hbelow k m k1 (by omega) s3 (by omega)

/-! ## The loop of `run_query`: counting and writing the selected record -/
theorem getD_range_map (bs : List Nat) :
    (List.range bs.length).map (fun j => bs.getD j 0) = bs := by
  apply List.ext_getElem
  · simp
  · intro i h1 h2
    simp [List.getD_eq_getElem?_getD, List.getElem?_eq_getElem h2]

theorem bytes_of_write_bytes (data : Nat → Nat) (n : Nat) (bs : List Nat) :
    bytes_of (write_bytes data n bs) (n + bs.length) = bytes_of data n ++ bs := by
  unfold bytes_of
  rw [List.range_add, List.map_append, List.map_map]
  congr 1
  · apply List.map_congr_left
    intro i hi
    have := List.mem_range.mp hi
    unfold write_bytes
    rw [if_neg (by omega)]
  · conv_rhs => rw [← getD_range_map bs]
    apply List.map_congr_left
    intro j hj
    have := List.mem_range.mp hj
    simp only [Function.comp, write_bytes]
    rw [if_pos (by omega), show n + j - n = j by omega]

theorem walk_ancestors_concat_length (d : db) (ancestor_buffer : Nat → Nat) (size : Nat) :
    ∀ m path p, path.length + 1 ≤ size →
      walk_ancestors_concat d ancestor_buffer size m path = some p → p.length + 1 ≤ size := by
  intro m
  induction m with
  | zero =>
    intro path p h1 h2
    simp only [walk_ancestors_concat, Option.some.injEq] at h2
    subst h2; exact h1
  | succ m ih =>
    intro path p h1 h2
    rw [walk_ancestors_concat] at h2
    split at h2
    · cases h2
    · rename_i p1 hp1
      split at h2
      · cases h2
      · rename_i p2 hp2
        refine ih p2 p ?_ h2
        unfold StringCbCatA at hp2
        split_ifs at hp2 with hfit
        · simp only [Prod.mk.injEq, and_true] at hp2
          subst hp2
          rw [List.length_append]; omega
        · simp at hp2

theorem walk_ancestors_build_path_length (d : db) (k : Nat)
    (h : (walk_ancestors_build_path d k 256 (256 * 256)).1 ≠ 0) :
    (walk_ancestors_build_path d k 256 (256 * 256)).2.length + 1 ≤ 256 * 256 := by
  unfold walk_ancestors_build_path at h ⊢
  split at h
  · simp at h
  · rename_i c ab hc
    split at h
    · simp at h
    · rename_i p hp
      exact walk_ancestors_concat_length d ab _ _ _ p (by simp) hp

/-- The second half of the loop body for a selected record whose name contains
the text, in terms of the counters and the bytes written. -/
theorem run_query_found_progress (params : quickfind_params) (d : db) (st : query_state)
    (idx : Nat) (b0 : buffer) (out : List Nat)
    (hsz : d.name_buffer.count < 2 ^ 64)
    (hend : (d.record_array.elems idx).name_offset + record_name_length d idx
      < d.name_buffer.count)
    (hcon : name_contains params.flags params.text params.text_length d idx = true)
    (hbuf : buffer_holds b0 out st.result_buffer)
    (hcap : b0.size + (query_progress_step params d idx
      { found := st.found_count, ret := st.return_count, out := out }).out.length
        ≤ b0.capacity) :
    ∃ st1, run_query_found params d st
        ((d.record_array.elems idx).name_offset + record_name_length d idx) idx = Sum.inl st1 ∧
      st1.current_search = (d.record_array.elems idx).name_offset + record_name_length d idx ∧
      st1.current_record_index = idx ∧
      st1.found_count = (query_progress_step params d idx
        { found := st.found_count, ret := st.return_count, out := out }).found ∧
      st1.return_count = (query_progress_step params d idx
        { found := st.found_count, ret := st.return_count, out := out }).ret ∧
      buffer_holds b0 (query_progress_step params d idx
        { found := st.found_count, ret := st.return_count, out := out }).out
        st1.result_buffer := by
  have hlen : usize_sub ((d.record_array.elems idx).name_offset + record_name_length d idx)
      (db_get_record_name d (d.record_array.elems idx)) = record_name_length d idx := by
    unfold db_get_record_name
    rw [usize_sub_eq _ _ (by omega) (by omega)]
    omega
  unfold run_query_found query_progress_step record_matches record_passes at *
  dsimp only at *
  rw [hlen]
  rw [hcon] at hcap ⊢
  by_cases h1 : (d.record_array.elems idx).attributes &&& FILE_ATTRIBUTE_NOT_IN_USE = 0
  · by_cases h2 : matches_query_flags (d.record_array.elems idx) params.flags
        params.text_length (record_name_length d idx) = true
    · by_cases h3 : walk_ancestors_is_child_of_root d 256 idx = true
      · by_cases h4 : st.found_count ≥ params.skip_count ∧ st.return_count < params.return_count
        · by_cases h5 : (walk_ancestors_build_path d idx 256 (256 * 256)).1 ≠ 0
          · have hpb : path_builds d idx = true := by unfold path_builds; simp [h5]
            have hl := walk_ancestors_build_path_length d idx h5
            simp only [h1, h2, h3, h4, hpb, decide_True, Bool.and_self, Bool.true_and,
              if_true, and_self, List.length_append] at hcap
            have hps : ((walk_ancestors_build_path d idx 256 (256 * 256)).2.length + 1) % 2 ^ 32
                = (walk_ancestors_build_path d idx 256 (256 * 256)).2.length + 1 :=
              Nat.mod_eq_of_lt (by omega)
            have hrs : (sizeof_query_result_item
                + ((walk_ancestors_build_path d idx 256 (256 * 256)).2.length + 1)) % 2 ^ 32
                = sizeof_query_result_item
                  + ((walk_ancestors_build_path d idx 256 (256 * 256)).2.length + 1) :=
              Nat.mod_eq_of_lt (by unfold sizeof_query_result_item; omega)
            have hil : (record_item_bytes d idx).length = sizeof_query_result_item
                + ((walk_ancestors_build_path d idx 256 (256 * 256)).2.length + 1) := by
              simp [record_item_bytes, query_result_item_bytes, le_bytes,
                sizeof_query_result_item]
              omega
            obtain ⟨hb1, hb2, hb3⟩ := hbuf
            have hfit : st.result_buffer.size + (sizeof_query_result_item
                + ((walk_ancestors_build_path d idx 256 (256 * 256)).2.length + 1))
                ≤ st.result_buffer.capacity := by
              rw [hb1, hb2]; rw [hil] at hcap; omega
            simp only [h1, h2, h3, h4, h5, hpb, hps, hrs, decide_True, Bool.and_self,
              Bool.true_and, if_true, and_self, ne_eq, not_false_eq_true, buffer_append, hfit]
            refine ⟨_, rfl, rfl, rfl, rfl, rfl, ?_⟩
            have htake : ((walk_ancestors_build_path d idx 256 (256 * 256)).2 ++ [0]).take
                ((walk_ancestors_build_path d idx 256 (256 * 256)).2.length + 1)
                = (walk_ancestors_build_path d idx 256 (256 * 256)).2 ++ [0] := by
              apply List.take_of_length_le
              simp
            refine ⟨hb1, ?_, ?_⟩
            · simp only [List.length_append]
              rw [hb2, hil]; omega
            · simp only [htake]
              have hrb : query_result_item_bytes (d.record_array.elems idx).id
                  (d.record_array.elems idx).attributes
                  ((walk_ancestors_build_path d idx 256 (256 * 256)).2.length + 1)
                  ((walk_ancestors_build_path d idx 256 (256 * 256)).2 ++ [0])
                  = record_item_bytes d idx := rfl
              rw [hrb, ← hil, bytes_of_write_bytes, hb3, List.append_assoc]
          · have hpb : path_builds d idx = false := by unfold path_builds; simp [h5]
            simp only [h1, h2, h3, h4, h5, hpb, decide_True, Bool.and_self, Bool.true_and,
              if_true, and_self, if_false, Bool.false_eq_true]
            exact ⟨_, rfl, rfl, rfl, rfl, rfl, hbuf⟩
        · simp only [h1, h2, h3, h4, decide_True, Bool.and_self, Bool.true_and,
            if_true, if_false]
          exact ⟨_, rfl, rfl, rfl, rfl, rfl, hbuf⟩
      · simp only [h1, h2, h3, decide_True, Bool.and_self, Bool.true_and, if_true,
          if_false, Bool.and_false, Bool.false_eq_true]
        exact ⟨_, rfl, rfl, rfl, rfl, rfl, hbuf⟩
    · simp only [h1, h2, decide_True, Bool.true_and, if_true, if_false, Bool.false_and,
        Bool.false_eq_true]
      exact ⟨_, rfl, rfl, rfl, rfl, rfl, hbuf⟩
  · simp only [h1, decide_False, Bool.false_and, if_false, Bool.false_eq_true]
    exact ⟨_, rfl, rfl, rfl, rfl, rfl, hbuf⟩

/-! ## The loop of `run_query`: all records -/
theorem query_progress_step_out (params : quickfind_params) (d : db) (k : Nat)
    (s : query_progress) :
    s.out.length ≤ (query_progress_step params d k s).out.length := by
  unfold query_progress_step
  split_ifs <;> simp

theorem query_progress_run_out (params : quickfind_params) (d : db) :
    ∀ ks s, s.out.length ≤ (query_progress_run params d ks s).out.length := by
  intro ks
  induction ks with
  | nil => intro s; exact Nat.le_refl _
  | cons k ks ih =>
    intro s
    rw [query_progress_run]
    split_ifs
    · exact Nat.le_trans (query_progress_step_out params d k s) (ih _)
    · exact Nat.le_refl _

theorem query_progress_run_stop (params : quickfind_params) (d : db) (ks : List Nat)
    (s : query_progress) (h : ¬ s.found < params.stop_count) :
    query_progress_run params d ks s = s := by
  cases ks with
  | nil => rfl
  | cons k ks => rw [query_progress_run, if_neg h]

theorem query_progress_run_skip (params : quickfind_params) (d : db) :
    ∀ ks s, (∀ k, k ∈ ks →
        name_contains params.flags params.text params.text_length d k = false) →
      query_progress_run params d ks s = s := by
  intro ks
  induction ks with
  | nil => intro s _; rfl
  | cons k ks ih =>
    intro s h
    rw [query_progress_run]
    split_ifs
    · have : query_progress_step params d k s = s := by
        unfold query_progress_step record_matches
        rw [h k (List.mem_cons_self _ _)]
        simp
      rw [this]
      exact ih s (fun k' hk' => h k' (List.mem_cons_of_mem _ hk'))
    · rfl

theorem query_progress_run_append (params : quickfind_params) (d : db) :
    ∀ ks1 ks2 s, query_progress_run params d (ks1 ++ ks2) s
      = query_progress_run params d ks2 (query_progress_run params d ks1 s) := by
  intro ks1
  induction ks1 with
  | nil => intro ks2 s; rfl
  | cons k ks1 ih =>
    intro ks2 s
    rw [List.cons_append, query_progress_run, query_progress_run]
    split_ifs with h
    · exact ih ks2 _
    · exact (query_progress_run_stop params d ks2 s h).symm

theorem range'_split (next idx count : Nat) (h1 : next ≤ idx) (h2 : idx < count) :
    List.range' next (count - next)
      = List.range' next (idx - next) ++ idx :: List.range' (idx + 1) (count - (idx + 1)) := by
  have e : count - next = (1 + (count - (idx + 1))) + (idx - next) := by omega
  rw [e, ← List.range'_append, show next + 1 * (idx - next) = idx by omega,
    Nat.add_comm 1, List.range'_succ]

/-- The loop of `run_query`, once the records before `next` are dealt with,
has the effect of the remaining records on the counters and the output. -/
theorem run_query_loop_progress (params : quickfind_params) (d : db) (b0 : buffer)
    (hc : names_correspond d) (hsz : d.name_buffer.count < 2 ^ 64)
    (ht : text_nul_free params) :
    ∀ gap next st out rounds, d.record_array.count - next ≤ gap →
      query_state_at d st next → buffer_holds b0 out st.result_buffer →
      b0.size + (query_progress_run params d
          (List.range' next (d.record_array.count - next))
          { found := st.found_count, ret := st.return_count, out := out }).out.length
        ≤ b0.capacity →
      d.record_array.count - next + 1 ≤ rounds →
      ∃ b, run_query_loop params d rounds st
          = some ({ error := quickfind_error.QUICKFIND_OK,
                    found_count := (query_progress_run params d
                      (List.range' next (d.record_array.count - next))
                      { found := st.found_count, ret := st.return_count, out := out }).found,
                    return_count := (query_progress_run params d
                      (List.range' next (d.record_array.count - next))
                      { found := st.found_count, ret := st.return_count, out := out }).ret },
                  b) ∧
        buffer_holds b0 (query_progress_run params d
          (List.range' next (d.record_array.count - next))
          { found := st.found_count, ret := st.return_count, out := out }).out b := by
  intro gap
  induction gap with
  | zero =>
    intro next st out rounds hgap hat hbuf hcap hr
    have hks : d.record_array.count - next = 0 := by omega
    rw [hks] at hcap ⊢
    simp only [List.range', query_progress_run] at hcap ⊢
    cases rounds with
    | zero => omega
    | succ r =>
      rw [run_query_loop]
      split_ifs with hf
      · rcases run_query_select_first params d st next hc hsz ht hat with
          ⟨m, cs, idx, _, s2, s3, _⟩ | ⟨n1, _⟩
        · omega
        · unfold run_query_body
          rw [n1]
          exact ⟨_, rfl, hbuf⟩
      · exact ⟨_, rfl, hbuf⟩
  | succ gap ih =>
    intro next st out rounds hgap hat hbuf hcap hr
    cases rounds with
    | zero => omega
    | succ r =>
      rw [run_query_loop]
      split_ifs with hf
      · rcases run_query_select_first params d st next hc hsz ht hat with
          ⟨m, cs, idx, s1, s2, s3, s4, s5, s6⟩ | ⟨n1, n2⟩
        · have hsplit := range'_split next idx d.record_array.count s2 s3
          have hpre : query_progress_run params d (List.range' next (idx - next))
              { found := st.found_count, ret := st.return_count, out := out }
              = { found := st.found_count, ret := st.return_count, out := out } := by
            apply query_progress_run_skip
            intro k hk
            rw [List.mem_range'_1] at hk
            exact s6 k hk.1 (by omega)
          have hfinal : query_progress_run params d
              (List.range' next (d.record_array.count - next))
              { found := st.found_count, ret := st.return_count, out := out }
              = query_progress_run params d
                  (List.range' (idx + 1) (d.record_array.count - (idx + 1)))
                  (query_progress_step params d idx
                    { found := st.found_count, ret := st.return_count, out := out }) := by
            rw [hsplit, query_progress_run_append, hpre, query_progress_run, if_pos hf]
          rw [hfinal] at hcap ⊢
          obtain ⟨e1, _, _⟩ := record_name_spec d hc idx s3
          obtain ⟨st1, f1, f2, f3, f4, f5, f6⟩ := run_query_found_progress params d st idx b0
            out hsz e1 s5 hbuf
            (Nat.le_trans (Nat.add_le_add_left (query_progress_run_out params d _ _) _) hcap)
          have hbody : run_query_body params d st = Sum.inl st1 := by
            unfold run_query_body
            rw [s1]
            simp only
            rw [s4]; exact f1
          rw [hbody]
          simp only
          have hat1 : query_state_at d st1 (idx + 1) :=
            ⟨run_query_body_ok params d st st1 hc hsz ht hat.1 hbody,
              Or.inr ⟨by omega, by omega, by rw [Nat.add_sub_cancel]; exact f2⟩⟩
          have heta : query_progress.mk st1.found_count st1.return_count
                (query_progress_step params d idx
                  { found := st.found_count, ret := st.return_count, out := out }).out
              = query_progress_step params d idx
                  { found := st.found_count, ret := st.return_count, out := out } := by
            rw [f4, f5]
          have := ih (idx + 1) st1
            (query_progress_step params d idx
              { found := st.found_count, ret := st.return_count, out := out }).out r
            (by omega) hat1 f6
            (by rw [heta]; exact hcap) (by omega)
          rw [heta] at this
          exact this
        · unfold run_query_body
          rw [n1]
          have hall : query_progress_run params d
              (List.range' next (d.record_array.count - next))
              { found := st.found_count, ret := st.return_count, out := out }
              = { found := st.found_count, ret := st.return_count, out := out } := by
            apply query_progress_run_skip
            intro k hk
            rw [List.mem_range'_1] at hk
            exact n2 k hk.1 (by omega)
          rw [hall]
          exact ⟨_, rfl, hbuf⟩
      · rw [query_progress_run_stop params d _ _ hf]
        exact ⟨_, rfl, hbuf⟩

/-- The counters and the output after the records `ks`, in closed form. -/
theorem query_progress_run_eq (params : quickfind_params) (d : db) :
    ∀ ks s, query_progress_run params d ks s
      = { found := s.found + ((ks.filter (record_matches params.flags params.text params.text_length d)).take
              (params.stop_count - s.found)).length
          ret := s.ret + ((((((ks.filter (record_matches params.flags params.text params.text_length d)).take
              (params.stop_count - s.found)).drop (params.skip_count - s.found)).filter
              (path_builds d)).take (params.return_count - s.ret))).length
          out := s.out ++ items_bytes d (((((ks.filter (record_matches params.flags params.text params.text_length d)).take
              (params.stop_count - s.found)).drop (params.skip_count - s.found)).filter
              (path_builds d)).take (params.return_count - s.ret)) } := by
  intro ks
  induction ks with
  | nil => intro s; simp [query_progress_run, items_bytes]
  | cons k ks ih =>
    intro s
    rw [query_progress_run]
    by_cases hf : s.found < params.stop_count
    · rw [if_pos hf, ih]
      by_cases hP : record_matches params.flags params.text params.text_length d k = true
      · have h1 : params.stop_count - s.found = (params.stop_count - (s.found + 1)) + 1 := by
          omega
        rw [List.filter_cons_of_pos hP, h1, List.take_succ_cons]
        unfold query_progress_step
        rw [if_pos hP]
        by_cases hc : s.found ≥ params.skip_count ∧ s.ret < params.return_count
        · rw [if_pos hc]
          have h2 : params.skip_count - s.found = 0 := by omega
          have h3 : params.skip_count - (s.found + 1) = 0 := by omega
          have h4 : params.return_count - s.ret = (params.return_count - (s.ret + 1)) + 1 := by
            omega
          by_cases hb : path_builds d k = true
          · rw [if_pos hb]
            simp only [h2, h3, List.drop_zero, List.filter_cons_of_pos hb]
            rw [h4, List.take_succ_cons]
            simp only [List.length_cons, items_bytes, List.append_assoc]
            congr 1 <;> omega
          · rw [if_neg hb]
            simp only [h2, h3, List.drop_zero, List.filter_cons_of_neg hb, List.length_cons]
            congr 1; omega
        · rw [if_neg hc]
          simp only [List.length_cons]
          by_cases hs : s.found ≥ params.skip_count
          · have hr : params.return_count - s.ret = 0 := by omega
            simp only [hr, List.take_zero, List.length_nil, items_bytes]
            congr 1; omega
          · have h2 : params.skip_count - s.found = (params.skip_count - (s.found + 1)) + 1 := by
              omega
            rw [h2, List.drop_succ_cons]
            congr 1; omega
      · rw [List.filter_cons_of_neg hP]
        unfold query_progress_step
        rw [if_neg hP]
    · rw [if_neg hf]
      have h1 : params.stop_count - s.found = 0 := by omega
      simp [h1, items_bytes]

/-- The counters and the output of a whole query, in closed form. -/
theorem query_progress_run_all (params : quickfind_params) (d : db) :
    query_progress_run params d (List.range' 0 (d.record_array.count - 0))
        { found := 0, ret := 0, out := [] }
      = { found := min params.stop_count
            (matching_records params.flags params.text params.text_length d).length
          ret := (written_records params d).length
          out := items_bytes d (written_records params d) } := by
  rw [query_progress_run_eq, Nat.sub_zero, ← List.range_eq_range']
  simp only [Nat.sub_zero, Nat.zero_add, List.nil_append]
  congr 1
  exact List.length_take _ _

/-! ## What a query returns -/
/-- A query's run in closed form. -/
theorem run_query_eq (params : quickfind_params) (d : db) (result_buffer : buffer)
    (rounds : Nat) (hc : names_correspond d) (hsz : d.name_buffer.count < 2 ^ 64)
    (ht : text_nul_free params)
    (hcap : result_buffer.size + (items_bytes d (written_records params d)).length
      ≤ result_buffer.capacity)
    (hr : d.record_array.count + 1 ≤ rounds) :
    ∃ b, run_query rounds params result_buffer d
        = some ({ error := quickfind_error.QUICKFIND_OK,
                  found_count := min params.stop_count
                    (matching_records params.flags params.text params.text_length d).length,
                  return_count := (written_records params d).length }, b) ∧
      buffer_holds result_buffer (items_bytes d (written_records params d)) b := by
  have hat : query_state_at d (run_query_init result_buffer) 0 :=
    ⟨⟨Nat.zero_le _, rfl⟩, Or.inl ⟨rfl, rfl⟩⟩
  have hbuf : buffer_holds result_buffer [] (run_query_init result_buffer).result_buffer :=
    ⟨rfl, rfl, by simp [run_query_init]⟩
  have := run_query_loop_progress params d result_buffer hc hsz ht d.record_array.count 0
    (run_query_init result_buffer) [] rounds (by omega) hat hbuf
    (by
      show result_buffer.size + (query_progress_run params d
        (List.range' 0 (d.record_array.count - 0)) { found := 0, ret := 0, out := [] }).out.length
        ≤ result_buffer.capacity
      rw [query_progress_run_all]; exact hcap)
    (by omega)
  have e : (run_query_init result_buffer).found_count = 0 := rfl
  have e2 : (run_query_init result_buffer).return_count = 0 := rfl
  rw [e, e2, query_progress_run_all] at this
  exact this

/-- C3.  In an index with the name/record correspondence, for a text of at least
one byte without NUL and a result buffer with room for the items the query
writes, `run_query` returns (given `record_array.count + 1` rounds of its loop)
with error OK and `found_count = min(stop_count, M)`, `M` being the number of
matching records (each record counted once); `M` does not depend on
`return_count` or `skip_count`, and with `return_count = 0` nothing is
written. -/
theorem C3_found_count (params : quickfind_params) (d : db) (result_buffer : buffer)
    (rounds : Nat) (hc : names_correspond d) (hsz : d.name_buffer.count < 2 ^ 64)
    (ht : text_nul_free params)
    (hcap : result_buffer.size + (items_bytes d (written_records params d)).length
      ≤ result_buffer.capacity)
    (hr : d.record_array.count + 1 ≤ rounds) :
    ∃ r b, run_query rounds params result_buffer d = some (r, b) ∧
      r.error = quickfind_error.QUICKFIND_OK ∧
      r.found_count = min params.stop_count
        (matching_records params.flags params.text params.text_length d).length ∧
      (params.return_count = 0 → r.return_count = 0 ∧ b.size = result_buffer.size) := by
  obtain ⟨b, h1, h2⟩ := run_query_eq params d result_buffer rounds hc hsz ht hcap hr
  refine ⟨_, b, h1, rfl, rfl, ?_⟩
  intro h0
  have : written_records params d = [] := by
    unfold written_records; rw [h0]; rfl
  rw [this] at h2 ⊢
  exact ⟨rfl, by simpa [items_bytes] using h2.2.1⟩

/-- C3 at a concrete input: the query for "a" with `return_count = 1`,
`skip_count = 1`, `stop_count = 5` over the names "m", ".", "ra", "a". -/
theorem C3_found_count_witness :
    (names_correspond sample_db ∧ sample_db.name_buffer.count < 2 ^ 64 ∧
      text_nul_free (params_of [97] 0 1 1 5) ∧
      response_buffer.size
          + (items_bytes sample_db (written_records (params_of [97] 0 1 1 5) sample_db)).length
        ≤ response_buffer.capacity ∧
      sample_db.record_array.count + 1 ≤ 5) ∧
    ∃ r b, run_query 5 (params_of [97] 0 1 1 5) response_buffer sample_db = some (r, b) ∧
      r.error = quickfind_error.QUICKFIND_OK ∧
      r.found_count = min (params_of [97] 0 1 1 5).stop_count
        (matching_records (params_of [97] 0 1 1 5).flags (params_of [97] 0 1 1 5).text
          (params_of [97] 0 1 1 5).text_length sample_db).length ∧
      ((params_of [97] 0 1 1 5).return_count = 0 →
        r.return_count = 0 ∧ b.size = response_buffer.size) :=
  ⟨⟨by decide, by decide, by decide, by decide, by decide⟩,
    C3_found_count (params_of [97] 0 1 1 5) sample_db response_buffer 5
      (by decide) (by decide) (by decide) (by decide) (by decide)⟩

/-- When the path of every matching record can be built, the written records
are those of the window. -/
theorem written_records_eq_window (params : quickfind_params) (d : db)
    (hpaths : ∀ k, k ∈ matching_records params.flags params.text params.text_length d →
      path_builds d k = true) :
    written_records params d = window_records params d := by
  unfold written_records window_records
  have hf : ((((matching_records params.flags params.text params.text_length d).take
      params.stop_count).drop params.skip_count).filter (path_builds d))
      = ((matching_records params.flags params.text params.text_length d).take
          params.stop_count).drop params.skip_count := by
    rw [List.filter_eq_self]
    intro k hk
    exact hpaths k (List.mem_of_mem_take (List.mem_of_mem_drop hk))
  rw [hf, List.take_drop, List.take_take, Nat.add_comm params.skip_count]

/-- The items of the window.  In an index with the name/record correspondence
in which the path of every matching record fits the path buffer, for a text of
at least one byte without NUL and a result buffer with room for the items of the
window,
`run_query` appends to the buffer exactly the items of the matching records
with ordinal in `[skip_count, min(skip_count + return_count, stop_count))`, in
storage order, each made of the record's id, its attributes, `path_size` = path
length + 1 and the path with its terminator, and returns their number as
`return_count`. -/
theorem run_query_window_items (params : quickfind_params) (d : db) (result_buffer : buffer)
    (rounds : Nat) (hc : names_correspond d) (hsz : d.name_buffer.count < 2 ^ 64)
    (ht : text_nul_free params)
    (hpaths : ∀ k, k ∈ matching_records params.flags params.text params.text_length d →
      path_builds d k = true)
    (hcap : result_buffer.size + (items_bytes d (window_records params d)).length
      ≤ result_buffer.capacity)
    (hr : d.record_array.count + 1 ≤ rounds) :
    ∃ r b, run_query rounds params result_buffer d = some (r, b) ∧
      r.error = quickfind_error.QUICKFIND_OK ∧
      r.return_count = (window_records params d).length ∧
      b.size = result_buffer.size + (items_bytes d (window_records params d)).length ∧
      bytes_of b.data b.size
        = bytes_of result_buffer.data result_buffer.size
          ++ items_bytes d (window_records params d) := by
  have hw := written_records_eq_window params d hpaths
  obtain ⟨b, h1, h2⟩ := run_query_eq params d result_buffer rounds hc hsz ht
    (by rw [hw]; exact hcap) hr
  rw [hw] at h1 h2
  exact ⟨_, b, h1, rfl, rfl, h2.2.1, h2.2.2⟩

/-- The items of the window at a concrete input: the query for "a" with
`return_count = 1`,
`skip_count = 1`, `stop_count = 5` over the names "m", ".", "ra", "a" writes the
item of the record "a". -/
theorem run_query_window_items_example :
    (names_correspond sample_db ∧ sample_db.name_buffer.count < 2 ^ 64 ∧
      text_nul_free (params_of [97] 0 1 1 5) ∧
      (∀ k, k ∈ matching_records (params_of [97] 0 1 1 5).flags (params_of [97] 0 1 1 5).text
          (params_of [97] 0 1 1 5).text_length sample_db → path_builds sample_db k = true) ∧
      response_buffer.size
          + (items_bytes sample_db (window_records (params_of [97] 0 1 1 5) sample_db)).length
        ≤ response_buffer.capacity ∧
      sample_db.record_array.count + 1 ≤ 5) ∧
    ∃ r b, run_query 5 (params_of [97] 0 1 1 5) response_buffer sample_db = some (r, b) ∧
      r.error = quickfind_error.QUICKFIND_OK ∧
      r.return_count = (window_records (params_of [97] 0 1 1 5) sample_db).length ∧
      b.size = response_buffer.size
        + (items_bytes sample_db (window_records (params_of [97] 0 1 1 5) sample_db)).length ∧
      bytes_of b.data b.size
        = bytes_of response_buffer.data response_buffer.size
          ++ items_bytes sample_db (window_records (params_of [97] 0 1 1 5) sample_db) :=
  ⟨⟨by decide, by decide, by decide, by decide, by decide, by decide⟩,
    run_query_window_items (params_of [97] 0 1 1 5) sample_db response_buffer 5
      (by decide) (by decide) (by decide) (by decide) (by decide) (by decide)⟩

/-- C4.  For the text "\0" (one byte), `return_count = 2`, `skip_count = 0`,
`stop_count = 2` over the index holding the root "." alone, the conditions of
the claim hold and no record matches, so the window is empty, but `run_query`
returns `return_count = 2` and writes the item of the root twice: it does not
return the items of the window. -/
theorem C4_fails_for_text_with_nul :
    (names_correspond root_only_db ∧
      (∀ k, k ∈ matching_records (params_of [0] 0 2 0 2).flags (params_of [0] 0 2 0 2).text
          (params_of [0] 0 2 0 2).text_length root_only_db →
        path_builds root_only_db k = true) ∧
      response_buffer.size
          + (items_bytes root_only_db
              (window_records (params_of [0] 0 2 0 2) root_only_db)).length
        ≤ response_buffer.capacity) ∧
    (run_query 3 (params_of [0] 0 2 0 2) response_buffer root_only_db).map
        (fun r => (r.1, bytes_of r.2.data r.2.size))
      = some ({ error := quickfind_error.QUICKFIND_OK, found_count := 2, return_count := 2 },
          [5, 0, 0, 0, 0, 0, 0, 0, 0, 0, 0, 0, 3, 0, 0, 0, 67, 58, 0,
           5, 0, 0, 0, 0, 0, 0, 0, 0, 0, 0, 0, 3, 0, 0, 0, 67, 58, 0]) ∧
    ¬ ∃ r b, run_query 3 (params_of [0] 0 2 0 2) response_buffer root_only_db = some (r, b) ∧
      r.error = quickfind_error.QUICKFIND_OK ∧
      r.return_count = (window_records (params_of [0] 0 2 0 2) root_only_db).length ∧
      b.size = response_buffer.size
        + (items_bytes root_only_db
            (window_records (params_of [0] 0 2 0 2) root_only_db)).length ∧
      bytes_of b.data b.size
        = bytes_of response_buffer.data response_buffer.size
          ++ items_bytes root_only_db (window_records (params_of [0] 0 2 0 2) root_only_db) := by
  have hrun : (run_query 3 (params_of [0] 0 2 0 2) response_buffer root_only_db).map
        (fun r => (r.1, bytes_of r.2.data r.2.size))
      = some ({ error := quickfind_error.QUICKFIND_OK, found_count := 2, return_count := 2 },
          [5, 0, 0, 0, 0, 0, 0, 0, 0, 0, 0, 0, 3, 0, 0, 0, 67, 58, 0,
           5, 0, 0, 0, 0, 0, 0, 0, 0, 0, 0, 0, 3, 0, 0, 0, 67, 58, 0]) := by decide
  refine ⟨⟨by decide, by decide, by decide⟩, hrun, ?_⟩
  rintro ⟨r, b, h1, _, h3, _⟩
  rw [h1] at hrun
  simp only [Option.map_some', Option.some.injEq, Prod.mk.injEq] at hrun
  have hw : (window_records (params_of [0] 0 2 0 2) root_only_db).length = 0 := by decide
  rw [hw, hrun.1] at h3
  cases h3

/-! ## The index store: arrays and tombstones -/

theorem array_void_reserve_loop_ge :
    ∀ rounds n rc, 0 < n → rc ≤ n * 2 ^ rounds →
      rc ≤ array_void_reserve_loop rounds n rc ∧ n ≤ array_void_reserve_loop rounds n rc := by
  intro rounds
  induction rounds with
  | zero => intro n rc _ h; simp [array_void_reserve_loop] at h ⊢; exact h
  | succ rounds ih =>
    intro n rc hn h
    rw [array_void_reserve_loop]
    split_ifs with hlt
    · have := ih (n * 2) rc (by omega) (by rw [Nat.pow_succ] at h; nlinarith)
      exact ⟨this.1, by omega⟩
    · exact ⟨by omega, Nat.le_refl _⟩

/-- `array_void_reserve` on an allocated block: it returns, keeps the count and
the content of the block, grows the block to the wanted size when it succeeds
and leaves the array as it is when it fails. -/
theorem array_void_reserve_spec {α : Type} [Inhabited α] (heap : Nat → Bool) (a : array α)
    (elem_size reserve_count : Nat) (init_to_zero : Bool) (hpos : 0 < a.count_allocated) :
    ∃ ok a1, array_void_reserve heap a elem_size reserve_count init_to_zero = some (ok, a1) ∧
      a1.count = a.count ∧ a.count_allocated ≤ a1.count_allocated ∧
      (ok = true → reserve_count ≤ a1.count_allocated) ∧ (ok = false → a1 = a) ∧
      (∀ i, i < a.count_allocated → a1.elems i = a.elems i) ∧
      (init_to_zero = true → ∀ i, a.count_allocated ≤ i → i < a1.count_allocated →
        a1.elems i = default) ∧
      (∀ i, a1.count_allocated ≤ i → a1.elems i = a.elems i) ∧
      (init_to_zero = false → a1.elems = a.elems) ∧
      ((∀ n, heap n = true) → ok = true) := by
  unfold array_void_reserve
  by_cases h1 : a.count_allocated < reserve_count
  · rw [if_pos h1, if_neg (by omega)]
    have hge := array_void_reserve_loop_ge reserve_count a.count_allocated reserve_count hpos
      (by
        have : reserve_count < 2 ^ reserve_count := Nat.lt_two_pow reserve_count
        nlinarith)
    by_cases h2 : heap (array_void_reserve_loop reserve_count a.count_allocated reserve_count
        * elem_size) = true
    · simp only [h2, if_true]
      refine ⟨true, _, rfl, rfl, hge.2, fun _ => hge.1, (fun h => by cases h), ?_, ?_, ?_, ?_,
        fun _ => rfl⟩
      · intro i hi
        simp only
        rw [if_neg (by omega)]
      · intro hz i i1 i2
        simp only
        rw [if_pos ⟨hz, i1, i2⟩]
      · intro i hi
        dsimp only at hi ⊢
        rw [if_neg (by omega)]
      · intro hz
        funext i
        simp [hz]
    · simp only [h2, if_false, Bool.false_eq_true]
      refine ⟨false, a, rfl, rfl, Nat.le_refl _, (fun h => by cases h), fun _ => rfl,
        fun _ _ => rfl, ?_, fun _ _ => rfl, fun _ => rfl, ?_⟩
      · intro _ i i1 i2; omega
      · intro hall; exact absurd (hall _) h2
  · rw [if_neg h1]
    refine ⟨true, a, rfl, rfl, Nat.le_refl _, (fun _ => by omega), (fun h => by cases h),
      fun _ _ => rfl, ?_, fun _ _ => rfl, fun _ => rfl, fun _ => rfl⟩
    intro _ i i1 i2; omega

/-- `array_void_push_count` on an allocated block. -/
theorem array_void_push_count_spec {α : Type} [Inhabited α] (heap : Nat → Bool) (a : array α)
    (elem_size push_count : Nat) (init_to_zero : Bool) (hpos : 0 < a.count_allocated) :
    (array_void_push_count heap a elem_size push_count init_to_zero = some (none, a) ∧
      ¬ (∀ n, heap n = true)) ∨
    (∃ a1, array_void_push_count heap a elem_size push_count init_to_zero
        = some (some a.count, a1) ∧
      a1.count = a.count + push_count ∧ a.count_allocated ≤ a1.count_allocated ∧
      (init_to_zero = false → a1.elems = a.elems)) := by
  obtain ⟨ok, a1, h, h1, h2, _, h4, _, _, _, h8, h9⟩ :=
    array_void_reserve_spec heap a elem_size (a.count + push_count) init_to_zero hpos
  unfold array_void_push_count
  rw [h]
  cases ok with
  | false =>
    left
    rw [h4 rfl]
    exact ⟨rfl, fun hall => by cases h9 hall⟩
  | true =>
    right
    exact ⟨{ a1 with count := a1.count + push_count }, by simp only [h1], by simp [h1], h2, h8⟩

theorem not_in_use_set (a : Nat) :
    (a ||| FILE_ATTRIBUTE_NOT_IN_USE) &&& FILE_ATTRIBUTE_NOT_IN_USE ≠ 0 := by
  unfold FILE_ATTRIBUTE_NOT_IN_USE
  intro h
  have := congrArg (fun x => Nat.testBit x 31) h
  simp only [Nat.testBit_land, Nat.testBit_lor, Nat.testBit_two_pow_self, Nat.zero_testBit,
    Bool.or_true, Bool.and_self] at this
  cases this

/-- `db_mark_record_not_in_use`: only the attributes of the record change, and
only by the NOT_IN_USE bit. -/
theorem db_mark_record_not_in_use_spec (d : db) (idx : Nat) :
    (db_mark_record_not_in_use d idx).name_buffer = d.name_buffer ∧
    (db_mark_record_not_in_use d idx).lookup_array = d.lookup_array ∧
    (db_mark_record_not_in_use d idx).latest_usn = d.latest_usn ∧
    (db_mark_record_not_in_use d idx).record_array.count = d.record_array.count ∧
    (db_mark_record_not_in_use d idx).record_array.count_allocated
      = d.record_array.count_allocated ∧
    (∀ i, i ≠ idx →
      (db_mark_record_not_in_use d idx).record_array.elems i = d.record_array.elems i) ∧
    ((db_mark_record_not_in_use d idx).record_array.elems idx).id
      = (d.record_array.elems idx).id ∧
    ((db_mark_record_not_in_use d idx).record_array.elems idx).parent_id
      = (d.record_array.elems idx).parent_id ∧
    ((db_mark_record_not_in_use d idx).record_array.elems idx).name_offset
      = (d.record_array.elems idx).name_offset ∧
    ((db_mark_record_not_in_use d idx).record_array.elems idx).attributes
        &&& FILE_ATTRIBUTE_NOT_IN_USE ≠ 0 := by
  unfold db_mark_record_not_in_use
  by_cases h : (d.record_array.elems idx).attributes &&& FILE_ATTRIBUTE_NOT_IN_USE = 0
  · rw [if_pos h]
    refine ⟨rfl, rfl, rfl, rfl, rfl, ?_, ?_, ?_, ?_, ?_⟩
    · intro i hi; simp [write_at, hi]
    · simp [write_at]
    · simp [write_at]
    · simp [write_at]
    · simp only [write_at, if_true]
      exact not_in_use_set _
  · rw [if_neg h]
    exact ⟨rfl, rfl, rfl, rfl, rfl, fun _ _ => rfl, rfl, rfl, rfl, h⟩

/-- `db_refresh_lookup` on an allocated lookup: on success the entry of the new
record's record number names the new record, the record it named before is
marked, and nothing else changes; on failure nothing changes. -/
theorem db_refresh_lookup_spec (heap : Nat → Bool) (d : db) (nr : Nat)
    (hpos : 0 < d.lookup_array.count_allocated) :
    ∃ ok d1, db_refresh_lookup heap d nr = some (ok, d1) ∧
      d1.name_buffer = d.name_buffer ∧ d1.latest_usn = d.latest_usn ∧
      (ok = false → d1 = d) ∧ ((∀ n, heap n = true) → ok = true) ∧
      (ok = true →
        record_number (d.record_array.elems nr).id < d1.lookup_array.count_allocated ∧
        d.lookup_array.count_allocated ≤ d1.lookup_array.count_allocated ∧
        d1.lookup_array.elems (record_number (d.record_array.elems nr).id) = nr % 2 ^ 32 ∧
        (∀ k, k ≠ record_number (d.record_array.elems nr).id →
          k < d.lookup_array.count_allocated →
          d1.lookup_array.elems k = d.lookup_array.elems k) ∧
        (∀ k, k ≠ record_number (d.record_array.elems nr).id →
          d.lookup_array.count_allocated ≤ k → k < d1.lookup_array.count_allocated →
          d1.lookup_array.elems k = 0) ∧
        d1.record_array
          = (if (if record_number (d.record_array.elems nr).id < d.lookup_array.count_allocated
                  then d.lookup_array.elems (record_number (d.record_array.elems nr).id)
                  else 0) ≠ 0 ∧
                nr ≠ (if record_number (d.record_array.elems nr).id
                        < d.lookup_array.count_allocated
                      then d.lookup_array.elems (record_number (d.record_array.elems nr).id)
                      else 0)
              then db_mark_record_not_in_use d
                (if record_number (d.record_array.elems nr).id < d.lookup_array.count_allocated
                  then d.lookup_array.elems (record_number (d.record_array.elems nr).id)
                  else 0)
              else d).record_array) := by
  obtain ⟨ok, la, h, h1, h2, h3, h4, h5, h6, h7, h8, h9⟩ :=
    array_void_reserve_spec heap d.lookup_array 4
      (record_number (d.record_array.elems nr).id + 1) true hpos
  unfold db_refresh_lookup
  dsimp only
  rw [h]
  cases ok with
  | false =>
    have := h4 rfl
    subst this
    exact ⟨false, d, rfl, rfl, rfl, fun _ => rfl, fun hall => h9 hall, fun hc => by cases hc⟩
  | true =>
    have hrn := h3 rfl
    have hprev : la.elems (record_number (d.record_array.elems nr).id)
        = (if record_number (d.record_array.elems nr).id < d.lookup_array.count_allocated
            then d.lookup_array.elems (record_number (d.record_array.elems nr).id) else 0) := by
      split_ifs with hlt
      · exact h5 _ hlt
      · exact h6 rfl _ (by omega) (by omega)
    refine ⟨true, _, rfl, ?_, ?_, (fun hc => by cases hc), (fun _ => rfl), fun _ => ?_⟩
    · dsimp only
      split_ifs <;> first | rfl | exact (db_mark_record_not_in_use_spec _ _).1
    · dsimp only
      split_ifs <;> first | rfl | exact (db_mark_record_not_in_use_spec _ _).2.2.1
    · dsimp only
      have hla : ∀ (e : db), e.lookup_array = { la with count := la.count_allocated } →
          (if la.elems (record_number (d.record_array.elems nr).id) ≠ 0 then
            if nr ≠ la.elems (record_number (d.record_array.elems nr).id) then
              db_mark_record_not_in_use e (la.elems (record_number (d.record_array.elems nr).id))
            else e
           else e).lookup_array = { la with count := la.count_allocated } := by
        intro e he
        split_ifs <;> first | exact he | (rw [(db_mark_record_not_in_use_spec _ _).2.1]; exact he)
      rw [hla _ rfl]
      refine ⟨by dsimp only; omega, by dsimp only; exact h2, by simp [write_at], ?_, ?_, ?_⟩
      · intro k k1 k2
        simp only [write_at, if_neg k1]
        exact h5 k k2
      · intro k k1 k2 k3
        simp only [write_at, if_neg k1]
        exact h6 rfl k k2 k3
      · rw [← hprev]
        by_cases c1 : la.elems (record_number (d.record_array.elems nr).id) ≠ 0
        · by_cases c2 : nr ≠ la.elems (record_number (d.record_array.elems nr).id)
          · simp only [c1, c2, ne_eq, not_false_eq_true, if_true, and_self]
            unfold db_mark_record_not_in_use
            dsimp only
            split_ifs <;> rfl
          · simp only [c1, c2, ne_eq, not_false_eq_true, if_true, if_false, and_false]
        · simp only [c1, ne_eq, if_false, false_and]

theorem c_string_congr (m1 m2 : Nat → Nat) :
    ∀ l p1 p2, (∀ i, i < l → m2 (p2 + i) = m1 (p1 + i)) →
      c_string m2 p2 l = c_string m1 p1 l := by
  intro l
  induction l with
  | zero => intro p1 p2 _; rfl
  | succ l ih =>
    intro p1 p2 h
    have h0 : m2 p2 = m1 p1 := by simpa using h 0 (by omega)
    have ht := ih (p1 + 1) (p2 + 1) (fun i hi => by
      have := h (i + 1) (by omega)
      rwa [show p2 + (i + 1) = p2 + 1 + i by omega,
        show p1 + (i + 1) = p1 + 1 + i by omega] at this)
    simp only [c_string, h0, ht]

/-- A C string that ends within `l1` bytes reads the same with a larger limit
and from any memory that agrees on those bytes. -/
theorem c_string_stable (m1 m2 : Nat → Nat) :
    ∀ l1 l2 p1 p2, l1 ≤ l2 → (∀ i, i < l1 → m2 (p2 + i) = m1 (p1 + i)) →
      (∃ i, i < l1 ∧ m1 (p1 + i) = 0) → c_string m2 p2 l2 = c_string m1 p1 l1 := by
  intro l1
  induction l1 with
  | zero => intro l2 p1 p2 _ _ ⟨i, hi, _⟩; omega
  | succ l1 ih =>
    intro l2 p1 p2 hl h ⟨i, hi, hz⟩
    cases l2 with
    | zero => omega
    | succ l2 =>
      have h0 : m2 p2 = m1 p1 := by simpa using h 0 (by omega)
      by_cases hp : m1 p1 = 0
      · simp [c_string, h0, hp]
      · have hi0 : i ≠ 0 := by
          intro e
          subst e
          exact hp (by simpa using hz)
        have ht := ih l2 (p1 + 1) (p2 + 1) (by omega) (fun j hj => by
          have := h (j + 1) (by omega)
          rwa [show p2 + (j + 1) = p2 + 1 + j by omega,
            show p1 + (j + 1) = p1 + 1 + j by omega] at this)
          ⟨i - 1, by omega, by rwa [show p1 + 1 + (i - 1) = p1 + i by omega]⟩
        simp only [c_string, h0, hp, if_false, ht]

theorem utf8_encode_ne_nil (cp : Nat) : utf8_encode cp ≠ [] := by
  unfold utf8_encode
  split_ifs <;> simp

theorem utf16_to_utf8_length_pos (w : List Nat) (hw : w ≠ []) :
    0 < (utf16_to_utf8 w).length := by
  have hne : utf16_to_utf8 w ≠ [] := by
    match w, hw with
    | [u], _ =>
      unfold utf16_to_utf8
      split_ifs <;> exact utf8_encode_ne_nil _
    | u :: v :: rest, _ =>
      unfold utf16_to_utf8
      split_ifs <;> simp [utf8_encode_ne_nil]
  exact List.length_pos.mpr hne

/-- `db_insert` on an index with allocated blocks.  The call returns.  The name
buffer only grows.  Either null is returned and the records and the lookup are
as before, or the name is stored behind the old names, the record is stored behind
the old records and `db_refresh_lookup` runs on the outcome. -/
theorem db_insert_spec (heap : Nat → Bool) (d : db) (id parent_id attributes : Nat)
    (wname : List Nat) (h1 : 0 < d.name_buffer.count_allocated)
    (h2 : 0 < d.record_array.count_allocated) :
    (∃ d1, db_insert heap d id parent_id attributes wname = some (none, d1) ∧
      d1.record_array = d.record_array ∧ d1.lookup_array = d.lookup_array ∧
      d1.latest_usn = d.latest_usn ∧
      0 < d1.name_buffer.count_allocated ∧ d.name_buffer.count ≤ d1.name_buffer.count ∧
      (∀ i, i < d.name_buffer.count → d1.name_buffer.elems i = d.name_buffer.elems i) ∧
      ¬ ((∀ n, heap n = true) ∧ wname ≠ [])) ∨
    (∃ d1, wname ≠ [] ∧
      db_insert heap d id parent_id attributes wname
        = (db_refresh_lookup heap d1 d.record_array.count).map
            (fun p => (some d.record_array.count, p.2)) ∧
      d1.lookup_array = d.lookup_array ∧ d1.latest_usn = d.latest_usn ∧
      0 < d1.name_buffer.count_allocated ∧ 0 < d1.record_array.count_allocated ∧
      d1.name_buffer.count = d.name_buffer.count + (utf16_to_utf8 wname).length + 1 ∧
      (∀ i, i < d.name_buffer.count → d1.name_buffer.elems i = d.name_buffer.elems i) ∧
      (∀ i, i < (utf16_to_utf8 wname).length + 1 →
        d1.name_buffer.elems (d.name_buffer.count + i) = mem_of (utf16_to_utf8 wname) i) ∧
      d1.record_array.count = d.record_array.count + 1 ∧
      d1.record_array.elems
        = write_at d.record_array.elems d.record_array.count
            ⟨d.name_buffer.count, attributes, id, parent_id⟩) := by
  unfold db_insert
  dsimp only
  by_cases hw : wname = []
  · subst hw
    have hlen : length_of_utf16_as_utf8 [] = 0 := by
      simp [length_of_utf16_as_utf8, WideCharToMultiByte]
    rw [hlen]
    left
    rcases array_void_push_count_spec heap d.name_buffer 1 (0 + 1) false h1 with
      ⟨e, _⟩ | ⟨a1, e, c1, c2, c3⟩
    · rw [e]
      exact ⟨_, rfl, rfl, rfl, rfl, h1, Nat.le_refl _, fun _ _ => rfl, fun h => h.2 rfl⟩
    · rw [e]
      have hconv : (convert_utf16_to_utf8 [] 0).2 = false := by
        simp [convert_utf16_to_utf8, WideCharToMultiByte]
      simp only [hconv, Bool.not_false, if_true]
      refine ⟨_, rfl, rfl, rfl, rfl, by dsimp only; omega, by dsimp only; omega, ?_,
        fun h => h.2 rfl⟩
      intro i hi
      dsimp only
      rw [c3 rfl]
      simp [write_bytes, convert_utf16_to_utf8, WideCharToMultiByte]
  · have hpos := utf16_to_utf8_length_pos wname hw
    have hwl : wname.length ≠ 0 := by
      intro e; exact hw (List.length_eq_zero.mp e)
    have hlen : length_of_utf16_as_utf8 wname = (utf16_to_utf8 wname).length := by
      simp [length_of_utf16_as_utf8, WideCharToMultiByte, hwl]
    rw [hlen]
    rcases array_void_push_count_spec heap d.name_buffer 1
        ((utf16_to_utf8 wname).length + 1) false h1 with ⟨e, hh⟩ | ⟨a1, e, c1, c2, c3⟩
    · left
      rw [e]
      exact ⟨_, rfl, rfl, rfl, rfl, h1, Nat.le_refl _, fun _ _ => rfl, fun h => hh h.1⟩
    · rw [e]
      have hconv : convert_utf16_to_utf8 wname (utf16_to_utf8 wname).length
          = (utf16_to_utf8 wname, true) := by
        have : (utf16_to_utf8 wname).length ≠ 0 := by omega
        simp [convert_utf16_to_utf8, WideCharToMultiByte, hwl, this, hpos]
      simp only [hconv, Bool.not_true, Bool.false_eq_true, if_false]
      have hold : ∀ i, i < d.name_buffer.count →
          write_at (write_bytes a1.elems d.name_buffer.count (utf16_to_utf8 wname))
            (d.name_buffer.count + (utf16_to_utf8 wname).length) 0 i = d.name_buffer.elems i := by
        intro i hi
        rw [c3 rfl]
        simp only [write_at, write_bytes]
        rw [if_neg (by omega), if_neg (by omega)]
      rcases array_void_push_count_spec heap d.record_array sizeof_record 1 false h2 with
        ⟨e2, hh⟩ | ⟨a2, e2, r1, r2, r3⟩
      · left
        unfold array_void_push
        rw [e2]
        exact ⟨{ d with
            name_buffer := { a1 with
              elems := write_at (write_bytes a1.elems d.name_buffer.count (utf16_to_utf8 wname))
                (d.name_buffer.count + (utf16_to_utf8 wname).length) 0 } },
          rfl, rfl, rfl, rfl, by dsimp only; omega, by dsimp only; omega, hold,
          fun h => hh h.1⟩
      · right
        unfold array_void_push
        rw [e2]
        dsimp only
        refine ⟨{ d with
            name_buffer := { a1 with
              elems := write_at (write_bytes a1.elems d.name_buffer.count (utf16_to_utf8 wname))
                (d.name_buffer.count + (utf16_to_utf8 wname).length) 0 }
            record_array := { a2 with
              elems := write_at a2.elems d.record_array.count
                ⟨d.name_buffer.count, attributes, id, parent_id⟩ } },
          hw, ?_, rfl, rfl, by dsimp only; omega, by dsimp only; omega,
          by dsimp only; omega, hold, ?_, by dsimp only; exact r1, by dsimp only; rw [r3 rfl]⟩
        · generalize db_refresh_lookup heap _ d.record_array.count = q
          cases q with
          | none => rfl
          | some p => rfl
        · intro i hi
          dsimp only
          rw [c3 rfl]
          simp only [write_at, write_bytes, mem_of]
          by_cases hil : i = (utf16_to_utf8 wname).length
          · subst hil
            simp
          · rw [if_neg (by omega), if_pos (by omega)]
            simp

/-! ## The index store: what the lookup names and what is loose -/

/-- The name of a record does not change when names are appended behind it. -/
theorem record_name_stable (d d1 : db) (i : Nat)
    (hoff : (d1.record_array.elems i).name_offset = (d.record_array.elems i).name_offset)
    (hcnt : d.name_buffer.count ≤ d1.name_buffer.count)
    (hb : ∀ j, j < d.name_buffer.count → d1.name_buffer.elems j = d.name_buffer.elems j)
    (hz : ∃ t, (d.record_array.elems i).name_offset ≤ t ∧ t < d.name_buffer.count ∧
      d.name_buffer.elems t = 0) :
    record_name d1 i = record_name d i := by
  unfold record_name
  rw [hoff]
  obtain ⟨t, t1, t2, t3⟩ := hz
  apply c_string_stable
  · omega
  · intro j hj
    exact hb _ (by omega)
  · exact ⟨t - (d.record_array.elems i).name_offset, by omega,
      by rwa [show (d.record_array.elems i).name_offset
        + (t - (d.record_array.elems i).name_offset) = t by omega]⟩

/-- A live record is either the one the lookup names for its record number or
a loose one. -/
theorem live_records_iff (d : db) (t : Nat × Nat × Nat × List Nat) :
    t ∈ live_records d ↔ loose_record d t ∨ ∃ k, lookup_live d k = some t := by
  unfold live_records
  simp only [List.mem_map, List.mem_filter, List.mem_range]
  constructor
  · rintro ⟨i, ⟨hi, hl⟩, hv⟩
    by_cases hr : registered d i
    · right
      refine ⟨record_number (d.record_array.elems i).id, ?_⟩
      obtain ⟨r1, r2, r3⟩ := hr
      unfold lookup_live
      rw [r3, if_pos ⟨r2, r1, hi, hl⟩, hv]
    · left
      exact ⟨i, hi, hl, hr, hv⟩
  · rintro (⟨i, hi, hl, _, hv⟩ | ⟨k, hk⟩)
    · exact ⟨i, ⟨hi, hl⟩, hv⟩
    · unfold lookup_live at hk
      split_ifs at hk with h
      exact ⟨_, ⟨h.2.2.1, h.2.2.2⟩, Option.some.inj hk⟩

theorem loose_record_of_at (x y : db) (h : ∀ i t, loose_at x i t ↔ loose_at y i t) :
    ∀ t, loose_record x t ↔ loose_record y t :=
  fun t => ⟨fun ⟨i, hx⟩ => ⟨i, (h i t).1 hx⟩, fun ⟨i, hx⟩ => ⟨i, (h i t).2 hx⟩⟩

/-- `db_delete` on a well-formed index: the lookup entry of the record number
names no live record afterwards, and nothing else changes for the live records. -/
theorem db_delete_effect_at (d : db) (id : Nat) (hok : db_ok d) :
    db_ok (db_delete d id) ∧ (db_delete d id).record_array.count = d.record_array.count ∧
    (db_delete d id).latest_usn = d.latest_usn ∧
    (d.record_array.count ≤ 2 ^ 32 →
      (∀ k, lookup_live (db_delete d id) k
        = if k = record_number id then none else lookup_live d k) ∧
      (∀ i t, loose_at (db_delete d id) i t ↔ loose_at d i t)) := by
  obtain ⟨k1, k2, k3, k4, k5⟩ := hok
  unfold db_delete
  cases h : db_get_record_by_id d id with
  | none =>
    refine ⟨⟨k1, k2, k3, k4, k5⟩, rfl, rfl, fun _ => ⟨fun k => ?_, fun i t => Iff.rfl⟩⟩
    dsimp only
    by_cases hk : k = record_number id
    · rw [if_pos hk]
      subst hk
      unfold db_get_record_by_id at h
      unfold lookup_live
      dsimp only at h
      split_ifs at h with a1 a2 a3
      · rw [if_neg (by omega)]
      · rw [if_neg (by omega)]
      · rw [if_neg (fun hc => hc.2.1 a3)]
    · rw [if_neg hk]
  | some idx =>
    dsimp only
    have hget : record_number id < d.lookup_array.count_allocated ∧
        d.lookup_array.elems (record_number id) = idx ∧ idx < d.record_array.count ∧
        idx ≠ 0 := by
      unfold db_get_record_by_id at h
      dsimp only at h
      split_ifs at h with a1 a2 a3
      have := Option.some.inj h
      exact ⟨by omega, this, by omega, by omega⟩
    obtain ⟨g1, g2, g3, g4⟩ := hget
    obtain ⟨m1, m2, m3, m4, m5, m6, m7, m8, m9, m10⟩ := db_mark_record_not_in_use_spec d idx
    have hid : ∀ i, ((db_mark_record_not_in_use d idx).record_array.elems i).id
        = (d.record_array.elems i).id := by
      intro i
      by_cases hi : i = idx
      · rw [hi, m7]
      · rw [m6 i hi]
    have hoff : ∀ i, ((db_mark_record_not_in_use d idx).record_array.elems i).name_offset
        = (d.record_array.elems i).name_offset := by
      intro i
      by_cases hi : i = idx
      · rw [hi, m9]
      · rw [m6 i hi]
    have hname : ∀ i, record_name (db_mark_record_not_in_use d idx) i = record_name d i := by
      intro i
      unfold record_name
      rw [m1, hoff i]
    have hview : ∀ i, i ≠ idx →
        record_view (db_mark_record_not_in_use d idx) i = record_view d i := by
      intro i hi
      unfold record_view
      rw [hname i, m6 i hi]
    have hlive : ∀ i, i ≠ idx →
        record_live (db_mark_record_not_in_use d idx) i = record_live d i := by
      intro i hi
      unfold record_live
      rw [m6 i hi]
    have hdead : record_live (db_mark_record_not_in_use d idx) idx = false := by
      unfold record_live
      exact decide_eq_false m10
    have hreg : ∀ i, registered (db_mark_record_not_in_use d idx) i ↔ registered d i := by
      intro i
      unfold registered
      rw [m2, hid i]
    refine ⟨⟨by rw [m1]; exact k1, by rw [m5]; exact k2, by rw [m2]; exact k3, ?_, ?_⟩, m4, m3,
      fun hc => ⟨fun k => ?_, fun i t => ?_⟩⟩
    · intro hc rn hrn hne
      rw [m2] at hrn hne ⊢
      rw [m4] at hc ⊢
      rw [hid]
      exact k4 hc rn hrn hne
    · intro i hi
      rw [m4] at hi
      rw [m1, hoff i]
      exact k5 i hi
    · have hidx : record_number (d.record_array.elems idx).id = record_number id := by
        have := (k4 hc _ g1 (by rw [g2]; exact g4)).2
        rwa [g2] at this
      unfold lookup_live
      rw [m2, m4]
      by_cases hk : k = record_number id
      · rw [if_pos hk, hk, g2, hdead]
        simp
      · rw [if_neg hk]
        by_cases hcond : k < d.lookup_array.count_allocated ∧ d.lookup_array.elems k ≠ 0
        · have hne : d.lookup_array.elems k ≠ idx := by
            intro e
            have := (k4 hc k hcond.1 hcond.2).2
            rw [e, hidx] at this
            exact hk this.symm
          rw [hlive _ hne, hview _ hne]
        · rw [if_neg (fun hx => hcond ⟨hx.1, hx.2.1⟩), if_neg (fun hx => hcond ⟨hx.1, hx.2.1⟩)]
    · have hidx : record_number (d.record_array.elems idx).id = record_number id := by
        have := (k4 hc _ g1 (by rw [g2]; exact g4)).2
        rwa [g2] at this
      have hregidx : registered d idx := ⟨g4, by rw [hidx]; exact g1, by rw [hidx]; exact g2⟩
      unfold loose_at
      constructor
      · rintro ⟨hi, hl, hr, hv⟩
        have hne : i ≠ idx := by
          intro e
          rw [e, hdead] at hl
          cases hl
        exact ⟨by rwa [m4] at hi, by rwa [hlive i hne] at hl, fun hx => hr ((hreg i).2 hx),
          by rwa [hview i hne] at hv⟩
      · rintro ⟨hi, hl, hr, hv⟩
        have hne : i ≠ idx := by
          intro e
          rw [e] at hr
          exact hr hregidx
        exact ⟨by rwa [m4], by rwa [hlive i hne], fun hx => hr ((hreg i).1 hx),
          by rwa [hview i hne]⟩

/-- `db_delete` on a well-formed index: the lookup entry of the record number
names no live record afterwards, and nothing else changes for the live records. -/
theorem db_delete_effect (d : db) (id : Nat) (hok : db_ok d) :
    db_ok (db_delete d id) ∧ (db_delete d id).record_array.count = d.record_array.count ∧
    (db_delete d id).latest_usn = d.latest_usn ∧
    (d.record_array.count ≤ 2 ^ 32 →
      (∀ k, lookup_live (db_delete d id) k
        = if k = record_number id then none else lookup_live d k) ∧
      (∀ t, loose_record (db_delete d id) t ↔ loose_record d t)) := by
  obtain ⟨a, b, c, h⟩ := db_delete_effect_at d id hok
  exact ⟨a, b, c, fun hc => ⟨(h hc).1, loose_record_of_at _ _ (h hc).2⟩⟩

theorem mark_if_spec (x : db) (P : Prop) [Decidable P] (prev : Nat) (ra : array record)
    (h : ra = (if P then db_mark_record_not_in_use x prev else x).record_array) :
    ra.count = x.record_array.count ∧ ra.count_allocated = x.record_array.count_allocated ∧
    (∀ i, (ra.elems i).id = (x.record_array.elems i).id) ∧
    (∀ i, (ra.elems i).name_offset = (x.record_array.elems i).name_offset) ∧
    (∀ i, ¬ (P ∧ i = prev) → ra.elems i = x.record_array.elems i) ∧
    (P → (ra.elems prev).attributes &&& FILE_ATTRIBUTE_NOT_IN_USE ≠ 0) := by
  subst h
  obtain ⟨_, _, _, m4, m5, m6, m7, _, m9, m10⟩ := db_mark_record_not_in_use_spec x prev
  by_cases hP : P
  · rw [if_pos hP]
    refine ⟨m4, m5, ?_, ?_, ?_, fun _ => m10⟩
    · intro i
      by_cases hi : i = prev
      · rw [hi, m7]
      · rw [m6 i hi]
    · intro i
      by_cases hi : i = prev
      · rw [hi, m9]
      · rw [m6 i hi]
    · intro i hi
      exact m6 i (fun e => hi ⟨hP, e⟩)
  · rw [if_neg hP]
    exact ⟨rfl, rfl, fun _ => rfl, fun _ => rfl, fun _ _ => rfl, fun h => absurd h hP⟩

/-- Appending bytes to the name buffer changes nothing for the records. -/
theorem names_appended_frame_at (d d1 : db) (hok : db_ok d)
    (hra : d1.record_array = d.record_array) (hla : d1.lookup_array = d.lookup_array)
    (hcap : 0 < d1.name_buffer.count_allocated)
    (hcnt : d.name_buffer.count ≤ d1.name_buffer.count)
    (hb : ∀ j, j < d.name_buffer.count → d1.name_buffer.elems j = d.name_buffer.elems j) :
    db_ok d1 ∧ (∀ k, lookup_live d1 k = lookup_live d k) ∧
    (∀ i t, loose_at d1 i t ↔ loose_at d i t) := by
  obtain ⟨_, k2, k3, k4, k5⟩ := hok
  have hname : ∀ i, i < d.record_array.count → record_name d1 i = record_name d i := by
    intro i hi
    exact record_name_stable d d1 i (by rw [hra]) hcnt hb (k5 i hi)
  have hview : ∀ i, i < d.record_array.count → record_view d1 i = record_view d i := by
    intro i hi
    unfold record_view
    rw [hname i hi, hra]
  have hlive : ∀ i, record_live d1 i = record_live d i := by
    intro i
    unfold record_live
    rw [hra]
  have hreg : ∀ i, registered d1 i ↔ registered d i := by
    intro i
    unfold registered
    rw [hra, hla]
  refine ⟨⟨hcap, by rw [hra]; exact k2, by rw [hla]; exact k3, ?_, ?_⟩, fun k => ?_,
    fun i t => ?_⟩
  · rw [hra, hla]
    exact k4
  · intro i hi
    rw [hra] at hi ⊢
    obtain ⟨t, t1, t2, t3⟩ := k5 i hi
    exact ⟨t, t1, by omega, by rw [hb t t2]; exact t3⟩
  · unfold lookup_live
    rw [hla, hra, hlive]
    by_cases hcond : k < d.lookup_array.count_allocated ∧ d.lookup_array.elems k ≠ 0 ∧
        d.lookup_array.elems k < d.record_array.count ∧
        record_live d (d.lookup_array.elems k) = true
    · rw [if_pos hcond, if_pos hcond, hview _ hcond.2.2.1]
    · rw [if_neg hcond, if_neg hcond]
  · unfold loose_at
    constructor
    · rintro ⟨hi, hl, hr, hv⟩
      rw [hra] at hi
      exact ⟨hi, by rwa [hlive] at hl, fun hx => hr ((hreg i).2 hx), by rwa [hview i hi] at hv⟩
    · rintro ⟨hi, hl, hr, hv⟩
      exact ⟨by rwa [hra], by rwa [hlive], fun hx => hr ((hreg i).1 hx), by rwa [hview i hi]⟩

/-- The index with a record appended behind the old records under a name
appended behind the old names, before the lookup is refreshed. -/
theorem record_appended_frame (d e : db) (id parent_id attributes : Nat) (wname : List Nat)
    (hok : db_ok d) (hla : e.lookup_array = d.lookup_array)
    (hcn : 0 < e.name_buffer.count_allocated) (hcr : 0 < e.record_array.count_allocated)
    (hnc : e.name_buffer.count = d.name_buffer.count + (utf16_to_utf8 wname).length + 1)
    (hb : ∀ i, i < d.name_buffer.count → e.name_buffer.elems i = d.name_buffer.elems i)
    (hnew : ∀ i, i < (utf16_to_utf8 wname).length + 1 →
      e.name_buffer.elems (d.name_buffer.count + i) = mem_of (utf16_to_utf8 wname) i)
    (hrc : e.record_array.count = d.record_array.count + 1)
    (hre : e.record_array.elems
      = write_at d.record_array.elems d.record_array.count
          ⟨d.name_buffer.count, attributes, id, parent_id⟩) :
    db_ok e ∧
    e.record_array.elems d.record_array.count
      = ⟨d.name_buffer.count, attributes, id, parent_id⟩ ∧
    (∀ i, i ≠ d.record_array.count → e.record_array.elems i = d.record_array.elems i) ∧
    (∀ i, i < d.record_array.count → record_name e i = record_name d i) ∧
    record_name e d.record_array.count = stored_name wname := by
  obtain ⟨_, _, k3, k4, k5⟩ := hok
  have hnewrec : e.record_array.elems d.record_array.count
      = ⟨d.name_buffer.count, attributes, id, parent_id⟩ := by
    rw [hre]
    simp [write_at]
  have hold : ∀ i, i ≠ d.record_array.count →
      e.record_array.elems i = d.record_array.elems i := by
    intro i hi
    rw [hre]
    simp [write_at, hi]
  have hname : ∀ i, i < d.record_array.count → record_name e i = record_name d i := by
    intro i hi
    exact record_name_stable d e i (by rw [hold i (by omega)]) (by omega) hb (k5 i hi)
  refine ⟨⟨hcn, hcr, by rw [hla]; exact k3, ?_, ?_⟩, hnewrec, hold, hname, ?_⟩
  · intro hc rn hrn hne
    rw [hla] at hrn hne ⊢
    obtain ⟨a1, a2⟩ := k4 (by omega) rn hrn hne
    rw [hold _ (by omega)]
    exact ⟨by omega, a2⟩
  · intro i hi
    by_cases hic : i = d.record_array.count
    · rw [hic, hnewrec]
      refine ⟨d.name_buffer.count + (utf16_to_utf8 wname).length, by dsimp only; omega,
        by omega, ?_⟩
      rw [hnew _ (by omega)]
      simp [mem_of]
    · rw [hold i hic]
      obtain ⟨t, t1, t2, t3⟩ := k5 i (by omega)
      exact ⟨t, t1, by omega, by rw [hb t t2]; exact t3⟩
  · unfold record_name stored_name
    rw [hnewrec]
    dsimp only
    rw [show e.name_buffer.count - d.name_buffer.count = (utf16_to_utf8 wname).length + 1
      by omega]
    apply c_string_congr
    intro i hi
    rw [hnew i hi, Nat.zero_add]

/-- `db_refresh_lookup` for a record `nr` that no lookup entry names yet: the
entry of its record number names it afterwards (unless `nr = 0`, which reads as
no record), the record named before is no longer live, and the other entries
and the loose records are as before. -/
theorem db_refresh_lookup_effect_at (heap : Nat → Bool) (e : db) (nr : Nat) (hok : db_ok e)
    (hnr : nr < e.record_array.count)
    (hfresh : e.record_array.count ≤ 2 ^ 32 → ∀ k, k < e.lookup_array.count_allocated →
      e.lookup_array.elems k ≠ 0 → e.lookup_array.elems k ≠ nr) :
    ∃ ok e1, db_refresh_lookup heap e nr = some (ok, e1) ∧ db_ok e1 ∧
      e1.latest_usn = e.latest_usn ∧ e1.record_array.count = e.record_array.count ∧
      ((∀ n, heap n = true) → ok = true) ∧
      (ok = true → e.record_array.count ≤ 2 ^ 32 →
        (∀ k, lookup_live e1 k
          = if k = record_number (e.record_array.elems nr).id then
              (if nr ≠ 0 ∧ record_live e nr = true then some (record_view e nr) else none)
            else lookup_live e k) ∧
        (∀ i t, loose_at e1 i t ↔
          (i < e.record_array.count ∧ (i = nr → nr = 0) ∧ record_live e i = true ∧
            ¬ registered e i ∧ record_view e i = t))) := by
  obtain ⟨ok, e1, hrun, f_nb, f_usn, f_fail, f_heap, f_ok⟩ :=
    db_refresh_lookup_spec heap e nr hok.2.2.1
  cases ok with
  | false =>
    have := f_fail rfl
    subst this
    exact ⟨false, e1, hrun, hok, rfl, rfl, f_heap, fun h => by cases h⟩
  | true =>
    obtain ⟨k1, k2, k3, k4, k5⟩ := hok
    obtain ⟨f_rn, f_ca, f_set, f_old, f_new, f_ra⟩ := f_ok rfl
    generalize hpv : (if record_number (e.record_array.elems nr).id
        < e.lookup_array.count_allocated
        then e.lookup_array.elems (record_number (e.record_array.elems nr).id) else 0) = prevv
      at f_ra
    obtain ⟨r1, r2, r3, r4, r5, r6⟩ := mark_if_spec e _ prevv e1.record_array f_ra
    have hname : ∀ i, record_name e1 i = record_name e i := by
      intro i
      unfold record_name
      rw [f_nb, r4]
    refine ⟨true, e1, hrun, ⟨by rw [f_nb]; exact k1, by rw [r2]; exact k2, by omega, ?_, ?_⟩,
      f_usn, r1, f_heap, fun _ hc => ?_⟩
    · intro hc k hk hne
      rw [r1] at hc ⊢
      rw [r3]
      have hmod : nr % 2 ^ 32 = nr := Nat.mod_eq_of_lt (by omega)
      by_cases hkr : k = record_number (e.record_array.elems nr).id
      · rw [hkr, f_set, hmod]
        exact ⟨hnr, rfl⟩
      · by_cases hkc : k < e.lookup_array.count_allocated
        · rw [f_old k hkr hkc] at hne ⊢
          exact k4 hc k hkc hne
        · exact absurd (f_new k hkr (by omega) hk) hne
    · intro i hi
      rw [r1] at hi
      rw [f_nb, r4]
      exact k5 i hi
    · have hmod : nr % 2 ^ 32 = nr := Nat.mod_eq_of_lt (by omega)
      rw [hmod] at f_set
      have hprev : prevv ≠ 0 →
          record_number (e.record_array.elems nr).id < e.lookup_array.count_allocated ∧
          e.lookup_array.elems (record_number (e.record_array.elems nr).id) = prevv ∧
          prevv < e.record_array.count ∧
          record_number (e.record_array.elems prevv).id
            = record_number (e.record_array.elems nr).id ∧ prevv ≠ nr := by
        intro hne
        split_ifs at hpv with hlt
        · have hne2 : e.lookup_array.elems (record_number (e.record_array.elems nr).id) ≠ 0 := by
            rw [hpv]; exact hne
          obtain ⟨a1, a2⟩ := k4 hc _ hlt hne2
          have a3 := hfresh hc _ hlt hne2
          rw [hpv] at a1 a2 a3
          exact ⟨hlt, hpv, a1, a2, a3⟩
        · exact absurd hpv.symm hne
      have hregp : prevv ≠ 0 → registered e prevv := by
        intro hne
        obtain ⟨p1, p2, _, p4, _⟩ := hprev hne
        exact ⟨hne, by rw [p4]; exact p1, by rw [p4]; exact p2⟩
      have hsame : ∀ i, (prevv ≠ 0 → i ≠ prevv) → e1.record_array.elems i
          = e.record_array.elems i := by
        intro i hi
        exact r5 i (fun hx => hi hx.1.1 hx.2)
      have hview : ∀ i, (prevv ≠ 0 → i ≠ prevv) → record_view e1 i = record_view e i := by
        intro i hi
        unfold record_view
        rw [hname, hsame i hi]
      have hlive : ∀ i, (prevv ≠ 0 → i ≠ prevv) → record_live e1 i = record_live e i := by
        intro i hi
        unfold record_live
        rw [hsame i hi]
      have hdead : prevv ≠ 0 → record_live e1 prevv = false := by
        intro hne
        unfold record_live
        exact decide_eq_false (r6 ⟨hne, fun hx => (hprev hne).2.2.2.2 hx.symm⟩)
      have hnrp : prevv ≠ 0 → nr ≠ prevv := fun hne hx => (hprev hne).2.2.2.2 hx.symm
      constructor
      · intro k
        unfold lookup_live
        rw [r1]
        by_cases hkr : k = record_number (e.record_array.elems nr).id
        · rw [if_pos hkr, hkr, f_set, hlive nr hnrp, hview nr hnrp]
          by_cases hn : nr ≠ 0 ∧ record_live e nr = true
          · rw [if_pos ⟨f_rn, hn.1, hnr, hn.2⟩, if_pos hn]
          · rw [if_neg (fun hx => hn ⟨hx.2.1, hx.2.2.2⟩), if_neg hn]
        · rw [if_neg hkr]
          by_cases hkc : k < e.lookup_array.count_allocated
          · rw [f_old k hkr hkc]
            by_cases hz : e.lookup_array.elems k = 0
            · rw [if_neg (fun hx => hx.2.1 hz), if_neg (fun hx => hx.2.1 hz)]
            · have hnp : prevv ≠ 0 → e.lookup_array.elems k ≠ prevv := by
                intro hne hx
                have := (k4 hc k hkc hz).2
                rw [hx, (hprev hne).2.2.2.1] at this
                exact hkr this.symm
              rw [hlive _ hnp, hview _ hnp]
              by_cases hcond : e.lookup_array.elems k < e.record_array.count ∧
                  record_live e (e.lookup_array.elems k) = true
              · rw [if_pos ⟨by omega, hz, hcond.1, hcond.2⟩, if_pos ⟨hkc, hz, hcond.1, hcond.2⟩]
              · rw [if_neg (fun hx => hcond ⟨hx.2.2.1, hx.2.2.2⟩),
                  if_neg (fun hx => hcond ⟨hx.2.2.1, hx.2.2.2⟩)]
          · rw [if_neg (fun hx => hkc hx.1 :
              ¬ (k < e.lookup_array.count_allocated ∧ e.lookup_array.elems k ≠ 0 ∧
                e.lookup_array.elems k < e.record_array.count ∧
                record_live e (e.lookup_array.elems k) = true))]
            by_cases hk1 : k < e1.lookup_array.count_allocated
            · rw [if_neg (fun hx => hx.2.1 (f_new k hkr (by omega) hk1))]
            · rw [if_neg (fun hx => hk1 hx.1)]
      · intro i t
        unfold loose_at
        constructor
        · rintro ⟨hi, hl, hr, hv⟩
          have hip : prevv ≠ 0 → i ≠ prevv := by
            intro hne hx
            rw [hx, hdead hne] at hl
            cases hl
          refine ⟨by rwa [r1] at hi, ?_, by rwa [hlive i hip] at hl, ?_,
            by rwa [hview i hip] at hv⟩
          · intro hx
            by_contra hn0
            apply hr
            rw [hx]
            exact ⟨hn0, by rw [r3]; exact f_rn, by rw [r3]; exact f_set⟩
          · rintro ⟨g1, g2, g3⟩
            by_cases hrr : record_number (e.record_array.elems i).id
                = record_number (e.record_array.elems nr).id
            · have hpe : prevv = i := by
                rw [← g3, hrr]
                have := hpv
                rw [if_pos (by rw [← hrr]; exact g2)] at this
                exact this.symm
              exact hip (by rw [hpe]; exact g1) hpe.symm
            · apply hr
              refine ⟨g1, by rw [r3]; omega, ?_⟩
              rw [r3, f_old _ hrr g2]
              exact g3
        · rintro ⟨hi, hin, hl, hr, hv⟩
          have hip : prevv ≠ 0 → i ≠ prevv := by
            intro hne hx
            rw [hx] at hr
            exact hr (hregp hne)
          refine ⟨by rwa [r1], by rwa [hlive i hip], ?_, by rwa [hview i hip]⟩
          rintro ⟨g1, g2, g3⟩
          rw [r3] at g2 g3
          by_cases hrr : record_number (e.record_array.elems i).id
              = record_number (e.record_array.elems nr).id
          · rw [hrr, f_set] at g3
            exact g1 (by rw [← g3]; exact hin g3.symm)
          · by_cases hkc : record_number (e.record_array.elems i).id
                < e.lookup_array.count_allocated
            · rw [f_old _ hrr hkc] at g3
              exact hr ⟨g1, hkc, g3⟩
            · rw [f_new _ hrr (by omega) g2] at g3
              exact g1 g3.symm

/-- `db_insert` on a well-formed index.  The call returns and leaves a
well-formed index.  When it returns null, the records are as before.  When it
returns a record and no allocation failed: in an index that held a record the
lookup entry of the record number names the new record (if it is live) and the
other entries and the loose records are as before; in an empty index the new
record is at index 0 and is loose. -/
theorem db_insert_effect_at (heap : Nat → Bool) (d : db) (id parent_id attributes : Nat)
    (wname : List Nat) (hok : db_ok d) :
    ∃ res d1, db_insert heap d id parent_id attributes wname = some (res, d1) ∧ db_ok d1 ∧
      d1.latest_usn = d.latest_usn ∧
      ((res = none ∧ ¬ ((∀ n, heap n = true) ∧ wname ≠ []) ∧
          d1.record_array.count = d.record_array.count ∧
          (∀ k, lookup_live d1 k = lookup_live d k) ∧
          (∀ i t, loose_at d1 i t ↔ loose_at d i t)) ∨
       (res = some d.record_array.count ∧ wname ≠ [] ∧
          d1.record_array.count = d.record_array.count + 1 ∧
          ((∀ n, heap n = true) → d.record_array.count < 2 ^ 32 →
            (d.record_array.count ≠ 0 →
              (∀ k, lookup_live d1 k
                = if k = record_number id then
                    (if attributes &&& FILE_ATTRIBUTE_NOT_IN_USE = 0 then
                      some (id, parent_id, attributes, stored_name wname)
                    else none)
                  else lookup_live d k) ∧
              (∀ i t, loose_at d1 i t ↔ loose_at d i t)) ∧
            (d.record_array.count = 0 →
              (∀ k, lookup_live d1 k = none) ∧
              (∀ t, loose_record d1 t ↔
                (attributes &&& FILE_ATTRIBUTE_NOT_IN_USE = 0 ∧
                  t = (id, parent_id, attributes, stored_name wname))))))) := by
  rcases db_insert_spec heap d id parent_id attributes wname hok.1 hok.2.1 with
    ⟨d1, hrun, hra, hla, husn, hcap, hcnt, hb, hnot⟩ |
    ⟨e, hw, hrun, hla, husn, hcn, hcr, hnc, hb, hnew, hrc, hre⟩
  · obtain ⟨a1, a2, a3⟩ := names_appended_frame_at d d1 hok hra hla hcap hcnt hb
    exact ⟨none, d1, hrun, a1, husn, Or.inl ⟨rfl, hnot, by rw [hra], a2, a3⟩⟩
  · obtain ⟨heok, hnewrec, hold, hname, hnamenew⟩ :=
      record_appended_frame d e id parent_id attributes wname hok hla hcn hcr hnc hb hnew hrc hre
    obtain ⟨_, _, _, k4, _⟩ := hok
    have hfresh : e.record_array.count ≤ 2 ^ 32 → ∀ k, k < e.lookup_array.count_allocated →
        e.lookup_array.elems k ≠ 0 → e.lookup_array.elems k ≠ d.record_array.count := by
      intro hc k hk hne
      rw [hla] at hk hne ⊢
      have := (k4 (by omega) k hk hne).1
      omega
    obtain ⟨ok, e1, hrun2, hok1, husn1, hcount1, hheap, heff⟩ :=
      db_refresh_lookup_effect_at heap e d.record_array.count heok (by omega) hfresh
    rw [hrun2] at hrun
    refine ⟨some d.record_array.count, e1, hrun, hok1, by rw [husn1, husn],
      Or.inr ⟨rfl, hw, by omega, fun hall hc => ?_⟩⟩
    obtain ⟨hll, hloose⟩ := heff (hheap hall) (by omega)
    have hid : (e.record_array.elems d.record_array.count).id = id := by rw [hnewrec]
    have hlivenew : record_live e d.record_array.count
        = decide (attributes &&& FILE_ATTRIBUTE_NOT_IN_USE = 0) := by
      unfold record_live
      rw [hnewrec]
    have hviewnew : record_view e d.record_array.count
        = (id, parent_id, attributes, stored_name wname) := by
      unfold record_view
      rw [hnamenew, hnewrec]
    have hviewold : ∀ i, i < d.record_array.count → record_view e i = record_view d i := by
      intro i hi
      unfold record_view
      rw [hname i hi, hold i (by omega)]
    have hliveold : ∀ i, i < d.record_array.count → record_live e i = record_live d i := by
      intro i hi
      unfold record_live
      rw [hold i (by omega)]
    have hregold : ∀ i, i < d.record_array.count → (registered e i ↔ registered d i) := by
      intro i hi
      unfold registered
      rw [hold i (by omega), hla]
    have hlle : ∀ k, lookup_live e k = lookup_live d k := by
      intro k
      unfold lookup_live
      rw [hla, hrc]
      by_cases hcond : k < d.lookup_array.count_allocated ∧ d.lookup_array.elems k ≠ 0
      · have hlt := (k4 (by omega) k hcond.1 hcond.2).1
        rw [hliveold _ hlt, hviewold _ hlt]
        by_cases hl : record_live d (d.lookup_array.elems k) = true
        · rw [if_pos ⟨hcond.1, hcond.2, by omega, hl⟩, if_pos ⟨hcond.1, hcond.2, hlt, hl⟩]
        · rw [if_neg (fun hx => hl hx.2.2.2), if_neg (fun hx => hl hx.2.2.2)]
      · rw [if_neg (fun hx => hcond ⟨hx.1, hx.2.1⟩), if_neg (fun hx => hcond ⟨hx.1, hx.2.1⟩)]
    rw [hid] at hll
    constructor
    · intro hc0
      constructor
      · intro k
        rw [hll k, hlle k, hlivenew, hviewnew]
        by_cases hk : k = record_number id
        · rw [if_pos hk, if_pos hk]
          by_cases ha : attributes &&& FILE_ATTRIBUTE_NOT_IN_USE = 0
          · rw [if_pos ⟨hc0, decide_eq_true ha⟩, if_pos ha]
          · rw [if_neg (fun hx => ha (of_decide_eq_true hx.2)), if_neg ha]
        · rw [if_neg hk, if_neg hk]
      · intro i t
        rw [hloose i t]
        unfold loose_at
        constructor
        · rintro ⟨hi, hin, hl, hr, hv⟩
          have hlt : i < d.record_array.count := by
            by_contra hx
            exact hc0 (hin (by omega))
          exact ⟨hlt, by rwa [hliveold i hlt] at hl, fun hx => hr ((hregold i hlt).2 hx),
            by rwa [hviewold i hlt] at hv⟩
        · rintro ⟨hi, hl, hr, hv⟩
          exact ⟨by omega, fun hx => by omega, by rwa [hliveold i hi],
            fun hx => hr ((hregold i hi).1 hx), by rwa [hviewold i hi]⟩
    · intro hc0
      constructor
      · intro k
        rw [hll k, hlle k]
        have hnone : lookup_live d k = none := by
          unfold lookup_live
          rw [if_neg (fun hx => by omega)]
        rw [hnone]
        simp [hc0]
      · intro t
        constructor
        · rintro ⟨i, hx⟩
          obtain ⟨hi, _, hl, _, hv⟩ := (hloose i t).1 hx
          have hi0 : i = d.record_array.count := by omega
          rw [hi0, hlivenew] at hl
          rw [hi0, hviewnew] at hv
          exact ⟨of_decide_eq_true hl, hv.symm⟩
        · rintro ⟨ha, ht⟩
          refine ⟨d.record_array.count, (hloose _ t).2 ⟨by omega, fun _ => hc0,
            by rw [hlivenew]; exact decide_eq_true ha, ?_, by rw [hviewnew, ht]⟩⟩
          rintro ⟨g1, _, _⟩
          exact g1 hc0

/-- `db_insert` on a well-formed index.  The call returns and leaves a
well-formed index.  When it returns null, the records are as before.  When it
returns a record and no allocation failed: in an index that held a record the
lookup entry of the record number names the new record (if it is live) and the
other entries and the loose records are as before; in an empty index the new
record is at index 0 and is loose. -/
theorem db_insert_effect (heap : Nat → Bool) (d : db) (id parent_id attributes : Nat)
    (wname : List Nat) (hok : db_ok d) :
    ∃ res d1, db_insert heap d id parent_id attributes wname = some (res, d1) ∧ db_ok d1 ∧
      d1.latest_usn = d.latest_usn ∧
      ((res = none ∧ ¬ ((∀ n, heap n = true) ∧ wname ≠ []) ∧
          d1.record_array.count = d.record_array.count ∧
          (∀ k, lookup_live d1 k = lookup_live d k) ∧
          (∀ t, loose_record d1 t ↔ loose_record d t)) ∨
       (res = some d.record_array.count ∧ wname ≠ [] ∧
          d1.record_array.count = d.record_array.count + 1 ∧
          ((∀ n, heap n = true) → d.record_array.count < 2 ^ 32 →
            (d.record_array.count ≠ 0 →
              (∀ k, lookup_live d1 k
                = if k = record_number id then
                    (if attributes &&& FILE_ATTRIBUTE_NOT_IN_USE = 0 then
                      some (id, parent_id, attributes, stored_name wname)
                    else none)
                  else lookup_live d k) ∧
              (∀ t, loose_record d1 t ↔ loose_record d t)) ∧
            (d.record_array.count = 0 →
              (∀ k, lookup_live d1 k = none) ∧
              (∀ t, loose_record d1 t ↔
                (attributes &&& FILE_ATTRIBUTE_NOT_IN_USE = 0 ∧
                  t = (id, parent_id, attributes, stored_name wname))))))) := by
  obtain ⟨res, d1, hrun, hok1, husn, hcase⟩ :=
    db_insert_effect_at heap d id parent_id attributes wname hok
  refine ⟨res, d1, hrun, hok1, husn, ?_⟩
  rcases hcase with ⟨a, b, c, e, f⟩ | ⟨a, b, c, h⟩
  · exact Or.inl ⟨a, b, c, e, loose_record_of_at _ _ f⟩
  · exact Or.inr ⟨a, b, c, fun hall hc => ⟨fun hne => ⟨((h hall hc).1 hne).1,
      loose_record_of_at _ _ ((h hall hc).1 hne).2⟩, (h hall hc).2⟩⟩

/-! ## The index store: reachable states -/

theorem db_create_ok : db_ok db_create := by
  refine ⟨by decide, by decide, by decide, ?_, ?_⟩
  · intro _ rn _ hne
    exact absurd rfl hne
  · intro i hi
    exact absurd hi (Nat.not_lt_zero i)

theorem db_run_call_ok (d d1 : db) (c : db_call) (hok : db_ok d)
    (h : db_run_call d c = some d1) : db_ok d1 ∧ d.record_array.count ≤ d1.record_array.count := by
  cases c with
  | insert heap id parent_id attributes wname =>
    obtain ⟨res, e, hrun, hok1, _, hcase⟩ := db_insert_effect heap d id parent_id attributes wname hok
    simp only [db_run_call, hrun, Option.map_some', Option.some.injEq] at h
    subst h
    refine ⟨hok1, ?_⟩
    rcases hcase with ⟨_, _, hc, _⟩ | ⟨_, _, hc, _⟩ <;> omega
  | update heap id parent_id attributes wname =>
    obtain ⟨g1, g2, _, _⟩ := db_delete_effect d id hok
    obtain ⟨res, e, hrun, hok1, _, hcase⟩ :=
      db_insert_effect heap (db_delete d id) id parent_id attributes wname g1
    simp only [db_run_call, db_update, hrun, Option.map_some', Option.some.injEq] at h
    subst h
    refine ⟨hok1, ?_⟩
    rcases hcase with ⟨_, _, hc, _⟩ | ⟨_, _, hc, _⟩ <;> omega
  | delete id =>
    obtain ⟨g1, g2, _, _⟩ := db_delete_effect d id hok
    simp only [db_run_call, Option.some.injEq] at h
    subst h
    exact ⟨g1, by omega⟩

theorem db_run_calls_ok : ∀ (calls : List db_call) (d d1 : db), db_ok d →
    db_run_calls d calls = some d1 → db_ok d1 := by
  intro calls
  induction calls with
  | nil =>
    intro d d1 hok h
    simp only [db_run_calls, Option.some.injEq] at h
    subst h
    exact hok
  | cons c rest ih =>
    intro d d1 hok h
    simp only [db_run_calls] at h
    cases hc : db_run_call d c with
    | none => rw [hc] at h; cases h
    | some e =>
      rw [hc] at h
      exact ih e d1 (db_run_call_ok d e c hok hc).1 h

/-- Every index state made from `db_create` by calls of the interface is well formed. -/
theorem reachable_ok (d : db) (h : reachable d) : db_ok d := by
  obtain ⟨calls, hc⟩ := h
  exact db_run_calls_ok calls db_create d db_create_ok hc

/-! ## Applying changes -/

/-- One change applied to a well-formed index when no allocation fails. -/
theorem db_apply_change_effect_at (heap : Nat → Bool) (hall : ∀ n, heap n = true) (d : db)
    (c : change) (hok : db_ok d) (hc : d.record_array.count < 2 ^ 32) :
    ∃ d1, db_apply_change heap d c = some d1 ∧ db_ok d1 ∧
      d1.latest_usn = max d.latest_usn c.usn ∧
      d.record_array.count ≤ d1.record_array.count ∧
      d1.record_array.count ≤ d.record_array.count + 1 ∧
      (d.record_array.count ≠ 0 →
        (∀ k, lookup_live d1 k
          = if k = record_number c.id then (change_effect c).getD (lookup_live d k)
            else lookup_live d k) ∧
        (∀ i t, loose_at d1 i t ↔ loose_at d i t)) ∧
      (d.record_array.count = 0 →
        (change_appends c = false → d1.record_array.count = 0) ∧
        (change_appends c = true → d1.record_array.count = 1 ∧
          (∀ k, lookup_live d1 k = none) ∧
          (∀ t, loose_record d1 t ↔ change_effect c = some (some t)))) := by
  obtain ⟨usn, type, id, parent_id, wname, attributes, ignore⟩ := c
  cases ignore with
  | true =>
    refine ⟨{ d with latest_usn := max d.latest_usn usn }, by simp [db_apply_change], hok, rfl,
      Nat.le_refl _, Nat.le_succ _, fun _ => ⟨fun k => ?_, fun i t => Iff.rfl⟩,
      fun h0 => ⟨fun _ => h0, fun h => by simp [change_appends] at h⟩⟩
    show lookup_live d k = _
    simp [change_effect]
  | false =>
    cases type with
    | CHANGE_TYPE_DELETE =>
      obtain ⟨g1, g2, g3, g4⟩ := db_delete_effect_at d id hok
      obtain ⟨g5, g6⟩ := g4 (by omega)
      refine ⟨{ db_delete d id with latest_usn := max (db_delete d id).latest_usn usn },
        by simp [db_apply_change], g1, by dsimp only; rw [g3], by dsimp only; omega,
        by dsimp only; omega, fun _ => ⟨fun k => ?_, fun i t => g6 i t⟩,
        fun h0 => ⟨fun _ => by dsimp only; omega, fun h => by simp [change_appends] at h⟩⟩
      show lookup_live (db_delete d id) k = _
      rw [g5 k]
      simp [change_effect]
    | CHANGE_TYPE_INSERT =>
      obtain ⟨res, e, hrun, hok1, husn, hcase⟩ :=
        db_insert_effect_at heap d id parent_id attributes wname hok
      refine ⟨{ e with latest_usn := max e.latest_usn usn },
        by simp [db_apply_change, hrun], hok1, by dsimp only; rw [husn], ?_⟩
      rcases hcase with ⟨_, hnot, hcnt, hll, hloose⟩ | ⟨_, hw, hcnt, heff⟩
      · have hw : wname = [] := by
          by_contra hx
          exact hnot ⟨hall, hx⟩
        refine ⟨by dsimp only; omega, by dsimp only; omega,
          fun _ => ⟨fun k => ?_, fun i t => hloose i t⟩,
          fun h0 => ⟨fun _ => by dsimp only; omega, fun h => by simp [change_appends, hw] at h⟩⟩
        show lookup_live e k = _
        rw [hll k]
        simp [change_effect, hw]
      · obtain ⟨h1, h2⟩ := heff hall hc
        refine ⟨by dsimp only; omega, by dsimp only; omega,
          fun hne => ⟨fun k => ?_, fun i t => ?_⟩,
          fun h0 => ⟨fun h => by simp [change_appends, hw] at h,
            fun _ => ⟨by dsimp only; omega, fun k => (h2 h0).1 k, fun t => ?_⟩⟩⟩
        · show lookup_live e k = _
          rw [(h1 hne).1 k]
          by_cases ha : attributes &&& FILE_ATTRIBUTE_NOT_IN_USE = 0 <;>
            simp [change_effect, hw, ha]
        · exact (h1 hne).2 i t
        · show loose_record e t ↔ _
          rw [(h2 h0).2 t]
          by_cases ha : attributes &&& FILE_ATTRIBUTE_NOT_IN_USE = 0
          · simp only [change_effect, hw, ha, if_true, if_false, Bool.false_eq_true, true_and,
              Option.some.injEq]
            exact eq_comm
          · simp [change_effect, hw, ha]
    | CHANGE_TYPE_UPDATE =>
      obtain ⟨g1, g2, g3, g4⟩ := db_delete_effect_at d id hok
      obtain ⟨g5, g6⟩ := g4 (by omega)
      obtain ⟨res, e, hrun, hok1, husn, hcase⟩ :=
        db_insert_effect_at heap (db_delete d id) id parent_id attributes wname g1
      refine ⟨{ e with latest_usn := max e.latest_usn usn },
        by simp [db_apply_change, db_update, hrun], hok1, by dsimp only; rw [husn, g3], ?_⟩
      rcases hcase with ⟨_, hnot, hcnt, hll, hloose⟩ | ⟨_, hw, hcnt, heff⟩
      · have hw : wname = [] := by
          by_contra hx
          exact hnot ⟨hall, hx⟩
        refine ⟨by dsimp only; omega, by dsimp only; omega,
          fun _ => ⟨fun k => ?_, fun i t => (hloose i t).trans (g6 i t)⟩,
          fun h0 => ⟨fun _ => by dsimp only; omega, fun h => by simp [change_appends, hw] at h⟩⟩
        show lookup_live e k = _
        rw [hll k, g5 k]
        simp [change_effect, hw]
      · obtain ⟨h1, h2⟩ := heff hall (by omega)
        refine ⟨by dsimp only; omega, by dsimp only; omega,
          fun hne => ⟨fun k => ?_, fun i t => ?_⟩,
          fun h0 => ⟨fun h => by simp [change_appends, hw] at h,
            fun _ => ⟨by dsimp only; omega, fun k => (h2 (by omega)).1 k, fun t => ?_⟩⟩⟩
        · show lookup_live e k = _
          rw [(h1 (by omega)).1 k, g5 k]
          by_cases ha : attributes &&& FILE_ATTRIBUTE_NOT_IN_USE = 0 <;>
            by_cases hk : k = record_number id <;>
            simp [change_effect, hw, ha, hk]
        · exact ((h1 (by omega)).2 i t).trans (g6 i t)
        · show loose_record e t ↔ _
          rw [(h2 (by omega)).2 t]
          by_cases ha : attributes &&& FILE_ATTRIBUTE_NOT_IN_USE = 0
          · simp only [change_effect, hw, ha, if_true, if_false, Bool.false_eq_true, true_and,
              Option.some.injEq]
            exact eq_comm
          · simp [change_effect, hw, ha]

/-- A change list applied to a well-formed index that holds a record, when no
allocation fails: every lookup entry holds what the last change of its record
number gives it, and the loose records are as before. -/
theorem db_apply_changes_effect_at (heap : Nat → Bool) (hall : ∀ n, heap n = true) :
    ∀ (L : List change) (d : db), db_ok d → d.record_array.count ≠ 0 →
      d.record_array.count + L.length ≤ 2 ^ 32 →
      ∃ d1, db_apply_changes heap d L = some d1 ∧ db_ok d1 ∧
        d1.latest_usn = L.foldl (fun u c => max u c.usn) d.latest_usn ∧
        d.record_array.count ≤ d1.record_array.count ∧
        d1.record_array.count ≤ d.record_array.count + L.length ∧
        (∀ k, lookup_live d1 k = (last_effect L k).getD (lookup_live d k)) ∧
        (∀ i t, loose_at d1 i t ↔ loose_at d i t) := by
  intro L
  induction L with
  | nil =>
    intro d hok _ _
    exact ⟨d, rfl, hok, rfl, Nat.le_refl _, Nat.le_refl _, fun k => rfl, fun i t => Iff.rfl⟩
  | cons c rest ih =>
    intro d hok hne hb
    simp only [List.length_cons] at hb
    obtain ⟨e, hrun, hoke, husn, hc1, hc2, heff, _⟩ :=
      db_apply_change_effect_at heap hall d c hok (by omega)
    obtain ⟨hll, hloose⟩ := heff hne
    obtain ⟨d1, hrun1, hok1, husn1, hc3, hc4, hll1, hloose1⟩ :=
      ih e hoke (by omega) (by omega)
    refine ⟨d1, by simp only [db_apply_changes, hrun]; exact hrun1, hok1,
      by rw [husn1, husn]; rfl, by omega, by simp only [List.length_cons]; omega,
      fun k => ?_, fun i t => (hloose1 i t).trans (hloose i t)⟩
    rw [hll1 k, hll k]
    simp only [last_effect]
    cases last_effect rest k with
    | some v => rfl
    | none =>
      by_cases hk : k = record_number c.id
      · rw [if_pos hk, if_pos hk.symm]
        rfl
      · rw [if_neg hk, if_neg (fun hx => hk hx.symm)]


theorem last_effect_append (k : Nat) (B : List change) :
    ∀ A : List change, last_effect (A ++ B) k
      = match last_effect B k with
        | some v => some v
        | none => last_effect A k := by
  intro A
  induction A with
  | nil =>
    simp only [List.nil_append, last_effect]
    cases last_effect B k <;> rfl
  | cons a A ih =>
    rw [List.cons_append]
    simp only [last_effect]
    rw [ih]
    cases last_effect B k <;> rfl

theorem foldl_max_usn_ge : ∀ (L : List change) (u : Nat),
    u ≤ L.foldl (fun u c => max u c.usn) u ∧
    ∀ c ∈ L, c.usn ≤ L.foldl (fun u c => max u c.usn) u := by
  intro L
  induction L with
  | nil => intro u; exact ⟨Nat.le_refl _, fun c hc => by cases hc⟩
  | cons a L ih =>
    intro u
    simp only [List.foldl_cons]
    obtain ⟨i1, i2⟩ := ih (max u a.usn)
    refine ⟨by omega, fun c hc => ?_⟩
    rcases List.mem_cons.mp hc with e | e
    · rw [e]; omega
    · exact i2 c e

theorem foldl_max_usn_fixed : ∀ (L : List change) (u : Nat), (∀ c ∈ L, c.usn ≤ u) →
    L.foldl (fun u c => max u c.usn) u = u := by
  intro L
  induction L with
  | nil => intro u _; rfl
  | cons a L ih =>
    intro u h
    simp only [List.foldl_cons]
    have : max u a.usn = u := by
      have := h a (List.mem_cons_self _ _)
      omega
    rw [this]
    exact ih u (fun c hc => h c (List.mem_cons_of_mem _ hc))

/-! ## Applying a change list twice -/

theorem db_of_calls_eq (calls : List db_call) (h : (db_run_calls db_create calls).isSome = true) :
    db_run_calls db_create calls = some (db_of_calls calls) := by
  unfold db_of_calls
  cases hc : db_run_calls db_create calls with
  | none => rw [hc] at h; cases h
  | some x => rfl

/-- The live records are the named ones and the loose ones. -/
theorem live_records_perm_split (d : db) :
    (live_records d).Perm (named_views d ++ loose_views d) := by
  unfold live_records named_views loose_views
  rw [← List.map_append]
  apply List.Perm.map
  have h := List.filter_append_perm (fun i => decide (registered d i))
    ((List.range d.record_array.count).filter (record_live d))
  rw [List.filter_filter, List.filter_filter] at h
  refine List.Perm.symm (List.Perm.trans ?_ h)
  have e1 : (fun i => record_live d i && decide (registered d i))
      = (fun a => decide (registered d a) && record_live d a) := by
    funext i; exact Bool.and_comm _ _
  have e2 : (fun i => record_live d i && !decide (registered d i))
      = (fun a => (!decide (registered d a)) && record_live d a) := by
    funext i; exact Bool.and_comm _ _
  rw [e1, e2]

theorem lookup_live_some (d : db) (hok : db_ok d) (hc : d.record_array.count ≤ 2 ^ 32)
    (k : Nat) (t : Nat × Nat × Nat × List Nat) (h : lookup_live d k = some t) :
    k < d.lookup_array.count_allocated ∧ d.lookup_array.elems k < d.record_array.count ∧
    record_live d (d.lookup_array.elems k) = true ∧ registered d (d.lookup_array.elems k) ∧
    record_view d (d.lookup_array.elems k) = t ∧ record_number t.1 = k := by
  unfold lookup_live at h
  split_ifs at h with hcond
  obtain ⟨c1, c2, c3, c4⟩ := hcond
  have hv := Option.some.inj h
  obtain ⟨_, hrn⟩ := hok.2.2.2.1 hc k c1 c2
  refine ⟨c1, c3, c4, ⟨c2, by rw [hrn]; exact c1, by rw [hrn]⟩, hv, ?_⟩
  rw [← hv]
  exact hrn

/-- The named live records are what the lookup entries name. -/
theorem named_views_perm (d : db) (hok : db_ok d) (hc : d.record_array.count ≤ 2 ^ 32)
    (K : Nat) (hK : d.lookup_array.count_allocated ≤ K) :
    (named_views d).Perm ((List.range K).filterMap (lookup_live d)) := by
  have hn1 : (named_views d).Nodup := by
    unfold named_views
    apply List.Nodup.map_on _ (List.Nodup.filter _ (List.nodup_range _))
    intro x hx y hy hxy
    simp only [List.mem_filter, Bool.and_eq_true, decide_eq_true_eq] at hx hy
    have hid : (d.record_array.elems x).id = (d.record_array.elems y).id :=
      congrArg (fun v => v.1) hxy
    rw [← hx.2.2.2.2, ← hy.2.2.2.2, hid]
  have hn2 : ((List.range K).filterMap (lookup_live d)).Nodup := by
    apply List.Nodup.filterMap _ (List.nodup_range _)
    intro a a' b ha ha'
    rw [← (lookup_live_some d hok hc a b ha).2.2.2.2.2,
      ← (lookup_live_some d hok hc a' b ha').2.2.2.2.2]
  rw [List.perm_ext_iff_of_nodup hn1 hn2]
  intro t
  unfold named_views
  simp only [List.mem_map, List.mem_filter, List.mem_range, Bool.and_eq_true, decide_eq_true_eq,
    List.mem_filterMap]
  constructor
  · rintro ⟨i, ⟨hi, hl, hr⟩, hv⟩
    refine ⟨record_number (d.record_array.elems i).id, by have := hr.2.1; omega, ?_⟩
    unfold lookup_live
    rw [hr.2.2, if_pos ⟨hr.2.1, hr.1, hi, hl⟩, hv]
  · rintro ⟨k, _, hk⟩
    obtain ⟨_, g2, g3, g4, g5, _⟩ := lookup_live_some d hok hc k t hk
    exact ⟨_, ⟨g2, g3, g4⟩, g5⟩

/-- The loose records of two states are the same list when they are the same
records index by index. -/
theorem loose_views_eq (d1 d2 : db) (hle : d1.record_array.count ≤ d2.record_array.count)
    (h : ∀ i t, loose_at d2 i t ↔ loose_at d1 i t) : loose_views d2 = loose_views d1 := by
  have hp : ∀ i, (record_live d2 i && !decide (registered d2 i)) = true →
      i < d1.record_array.count ∨ d2.record_array.count ≤ i := by
    intro i hi
    by_cases hlt : i < d2.record_array.count
    · left
      simp only [Bool.and_eq_true, Bool.not_eq_true', decide_eq_false_iff_not] at hi
      exact ((h i _).1 ⟨hlt, hi.1, hi.2, rfl⟩).1
    · right; omega
  have hrange : (List.range d2.record_array.count).filter
        (fun i => record_live d2 i && !decide (registered d2 i))
      = (List.range d1.record_array.count).filter
        (fun i => record_live d1 i && !decide (registered d1 i)) := by
    obtain ⟨m, hm⟩ : ∃ m, d2.record_array.count = d1.record_array.count + m :=
      ⟨d2.record_array.count - d1.record_array.count, by omega⟩
    rw [hm, List.range_add, List.filter_append]
    have htail : ((List.range m).map (fun x => d1.record_array.count + x)).filter
        (fun i => record_live d2 i && !decide (registered d2 i)) = [] := by
      rw [List.filter_eq_nil_iff]
      intro i hi hx
      simp only [List.mem_map, List.mem_range] at hi
      obtain ⟨j, hj, rfl⟩ := hi
      rcases hp _ hx with h1 | h1 <;> omega
    rw [htail, List.append_nil]
    apply List.filter_congr
    intro i hi
    rw [List.mem_range] at hi
    by_cases hx : (record_live d1 i && !decide (registered d1 i)) = true
    · rw [hx]
      simp only [Bool.and_eq_true, Bool.not_eq_true', decide_eq_false_iff_not] at hx ⊢
      have := (h i _).2 ⟨hi, hx.1, hx.2, rfl⟩
      exact ⟨this.2.1, this.2.2.1⟩
    · rw [Bool.not_eq_true] at hx
      rw [hx]
      rw [← Bool.not_eq_true]
      intro hy
      simp only [Bool.and_eq_true, Bool.not_eq_true', decide_eq_false_iff_not] at hy
      have := (h i _).1 ⟨by omega, hy.1, hy.2, rfl⟩
      have hz : (record_live d1 i && !decide (registered d1 i)) = true := by
        simp only [Bool.and_eq_true, Bool.not_eq_true', decide_eq_false_iff_not]
        exact ⟨this.2.1, this.2.2.1⟩
      rw [hx] at hz
      cases hz
  unfold loose_views
  rw [hrange]
  apply List.map_congr_left
  intro i hi
  simp only [List.mem_filter, List.mem_range, Bool.and_eq_true, Bool.not_eq_true',
    decide_eq_false_iff_not] at hi
  exact ((h i _).2 ⟨hi.1, hi.2.1, hi.2.2, rfl⟩).2.2.2

/-- Two well-formed states whose lookup entries name the same live records and
whose loose records are the same index by index hold the same live records,
each as often. -/
theorem live_records_perm (d1 d2 : db) (hok1 : db_ok d1) (hok2 : db_ok d2)
    (hc1 : d1.record_array.count ≤ 2 ^ 32) (hc2 : d2.record_array.count ≤ 2 ^ 32)
    (hle : d1.record_array.count ≤ d2.record_array.count)
    (hll : ∀ k, lookup_live d2 k = lookup_live d1 k)
    (hloose : ∀ i t, loose_at d2 i t ↔ loose_at d1 i t) :
    (live_records d2).Perm (live_records d1) := by
  have hf : (List.range (max d1.lookup_array.count_allocated d2.lookup_array.count_allocated)).filterMap
      (lookup_live d2)
      = (List.range (max d1.lookup_array.count_allocated d2.lookup_array.count_allocated)).filterMap
      (lookup_live d1) := by
    congr 1
    funext k
    exact hll k
  have p1 := named_views_perm d1 hok1 hc1 _ (Nat.le_max_left _ d2.lookup_array.count_allocated)
  have p2 := named_views_perm d2 hok2 hc2 _ (Nat.le_max_right d1.lookup_array.count_allocated _)
  rw [hf] at p2
  refine (live_records_perm_split d2).trans (List.Perm.trans ?_ (live_records_perm_split d1).symm)
  rw [loose_views_eq d1 d2 hle hloose]
  exact List.Perm.append_right _ (p2.trans p1.symm)

/-- C10 (amended).  For every index state reachable from `db_create` that holds
a record and every change list (marked by `ntfs_usn_mark_ignore` or not), when
no allocation fails and the record array stays within `2^32` records,
`db_apply_changes` returns on both applications, and the second application
leaves the same live records, each as often as the first (the list of the live
records is a rearrangement of the one before), and the same `latest_usn`. -/
theorem C10_apply_twice_same_live_records (heap : Nat → Bool) (d : db) (changes : List change)
    (hreach : reachable d) (hall : ∀ n, heap n = true) (hne : d.record_array.count ≠ 0)
    (hbound : d.record_array.count + 2 * changes.length ≤ 2 ^ 32) :
    ∃ d1 d2, db_apply_changes heap d changes = some d1 ∧
      db_apply_changes heap d1 changes = some d2 ∧
      (live_records d2).Perm (live_records d1) ∧ d2.latest_usn = d1.latest_usn := by
  have hok := reachable_ok d hreach
  have husn_fix : ∀ u, changes.foldl (fun u c => max u c.usn)
      (changes.foldl (fun u c => max u c.usn) u) = changes.foldl (fun u c => max u c.usn) u :=
    fun u => foldl_max_usn_fixed changes _ (foldl_max_usn_ge changes u).2
  obtain ⟨d1, hrun1, hok1, husn1, hc1, hc2, hll1, hloose1⟩ :=
    db_apply_changes_effect_at heap hall changes d hok hne (by omega)
  obtain ⟨d2, hrun2, hok2, husn2, hc3, hc4, hll2, hloose2⟩ :=
    db_apply_changes_effect_at heap hall changes d1 hok1 (by omega) (by omega)
  refine ⟨d1, d2, hrun1, hrun2, ?_, by rw [husn2, husn1, husn_fix]⟩
  apply live_records_perm d1 d2 hok1 hok2 (by omega) (by omega) hc3 _ hloose2
  intro k
  rw [hll2 k, hll1 k]
  cases last_effect changes k <;> rfl

/-- The amended C10 at the index holding "m", ".", "ra" and "a", a heap that
honours every request and the list [INSERT 20 "t", UPDATE 20 "u", UPDATE 10 "s",
DELETE 11]. -/
theorem C10_apply_twice_same_live_records_witness :
    reachable sample_db ∧ (∀ n, heap_always n = true) ∧ sample_db.record_array.count ≠ 0 ∧
    sample_db.record_array.count + 2 * sample_changes.length ≤ 2 ^ 32 ∧
    ∃ d1 d2, db_apply_changes heap_always sample_db sample_changes = some d1 ∧
      db_apply_changes heap_always d1 sample_changes = some d2 ∧
      (live_records d2).Perm (live_records d1) ∧ d2.latest_usn = d1.latest_usn :=
  ⟨⟨_, db_of_calls_eq _ (by decide)⟩, fun _ => rfl, by decide, by decide,
    C10_apply_twice_same_live_records heap_always sample_db sample_changes
      ⟨_, db_of_calls_eq _ (by decide)⟩ (fun _ => rfl) (by decide) (by decide)⟩

/-- On the empty index one INSERT applied twice leaves two live copies of the
record: the first lands at index 0, which the lookup cannot name, so the second
application does not unlink it. -/
theorem apply_twice_from_empty_index :
    (db_apply_changes heap_always db_create
        [{ usn := 1, type := CHANGE_TYPE_INSERT, id := 5, parent_id := 5, wname := [46],
           attributes := 16, ignore := false }]).map live_records
      = some [(5, 5, 16, [46])] ∧
    ((db_apply_changes heap_always db_create
        [{ usn := 1, type := CHANGE_TYPE_INSERT, id := 5, parent_id := 5, wname := [46],
           attributes := 16, ignore := false }]).bind
      (fun d1 => db_apply_changes heap_always d1
        [{ usn := 1, type := CHANGE_TYPE_INSERT, id := 5, parent_id := 5, wname := [46],
           attributes := 16, ignore := false }])).map live_records
      = some [(5, 5, 16, [46]), (5, 5, 16, [46])] := by
  refine ⟨?_, ?_⟩ <;> decide

/-! ## A full name buffer -/

theorem utf16_to_utf8_cons_ascii (rest : List Nat) :
    utf16_to_utf8 (97 :: rest) = 97 :: utf16_to_utf8 rest := by
  cases rest with
  | nil => simp [utf16_to_utf8, utf8_encode]
  | cons v r => simp [utf16_to_utf8, utf8_encode]

theorem utf16_to_utf8_replicate (n : Nat) :
    utf16_to_utf8 (List.replicate n 97) = List.replicate n 97 := by
  induction n with
  | zero => rfl
  | succ n ih => rw [List.replicate_succ, utf16_to_utf8_cons_ascii, ih]

theorem array_void_reserve_fits {α : Type} [Inhabited α] (heap : Nat → Bool) (a : array α)
    (elem_size reserve_count : Nat) (init_to_zero : Bool)
    (h : reserve_count ≤ a.count_allocated) :
    array_void_reserve heap a elem_size reserve_count init_to_zero = some (true, a) := by
  unfold array_void_reserve
  rw [if_neg (by omega)]

theorem array_void_push_count_fits {α : Type} [Inhabited α] (heap : Nat → Bool) (a : array α)
    (elem_size push_count : Nat) (init_to_zero : Bool)
    (h : a.count + push_count ≤ a.count_allocated) :
    array_void_push_count heap a elem_size push_count init_to_zero
      = some (some a.count, { a with count := a.count + push_count }) := by
  unfold array_void_push_count
  rw [array_void_reserve_fits heap a elem_size _ init_to_zero h]

theorem array_void_push_count_full {α : Type} [Inhabited α] (heap : Nat → Bool) (a : array α)
    (elem_size push_count : Nat) (init_to_zero : Bool) (hheap : ∀ n, heap n = false)
    (hpos : 0 < a.count_allocated) (h : a.count_allocated < a.count + push_count) :
    array_void_push_count heap a elem_size push_count init_to_zero = some (none, a) := by
  unfold array_void_push_count array_void_reserve
  rw [if_pos h, if_neg (by omega)]
  simp [hheap]

/-- `db_insert` returns null and leaves the index as it is when the name does
not fit the name buffer and the heap does not grow it. -/
theorem db_insert_full (heap : Nat → Bool) (d : db) (id parent_id attributes : Nat)
    (wname : List Nat) (hheap : ∀ n, heap n = false) (hpos : 0 < d.name_buffer.count_allocated)
    (h : d.name_buffer.count_allocated
      < d.name_buffer.count + (length_of_utf16_as_utf8 wname + 1)) :
    db_insert heap d id parent_id attributes wname = some (none, d) := by
  unfold db_insert
  dsimp only
  rw [array_void_push_count_full heap d.name_buffer 1 _ false hheap hpos h]

theorem db_refresh_lookup_fits (heap heap1 : Nat → Bool) (e : db) (nr : Nat)
    (h : record_number (e.record_array.elems nr).id + 1 ≤ e.lookup_array.count_allocated) :
    db_refresh_lookup heap e nr = db_refresh_lookup heap1 e nr := by
  unfold db_refresh_lookup
  dsimp only
  rw [array_void_reserve_fits heap _ _ _ _ h, array_void_reserve_fits heap1 _ _ _ _ h]

/-- `db_insert` does not call the heap when the name, the record and the lookup
entry fit the blocks: the outcome is the same for every heap, and the name
buffer keeps its size. -/
theorem db_insert_fits (heap heap1 : Nat → Bool) (d : db) (id parent_id attributes : Nat)
    (wname : List Nat) (hpos : 0 < d.lookup_array.count_allocated)
    (h1 : d.name_buffer.count + (length_of_utf16_as_utf8 wname + 1)
      ≤ d.name_buffer.count_allocated)
    (h2 : d.record_array.count + 1 ≤ d.record_array.count_allocated)
    (h3 : record_number id + 1 ≤ d.lookup_array.count_allocated) :
    db_insert heap d id parent_id attributes wname
      = db_insert heap1 d id parent_id attributes wname ∧
    ∀ res d1, db_insert heap d id parent_id attributes wname = some (res, d1) →
      d1.name_buffer.count_allocated = d.name_buffer.count_allocated ∧
      d1.name_buffer.count = d.name_buffer.count + (length_of_utf16_as_utf8 wname + 1) := by
  unfold db_insert array_void_push
  dsimp only
  rw [array_void_push_count_fits heap d.name_buffer 1 _ false h1,
    array_void_push_count_fits heap1 d.name_buffer 1 _ false h1,
    array_void_push_count_fits heap d.record_array sizeof_record 1 false h2,
    array_void_push_count_fits heap1 d.record_array sizeof_record 1 false h2]
  dsimp only
  by_cases hconv : (convert_utf16_to_utf8 wname (length_of_utf16_as_utf8 wname)).2 = true
  · simp only [hconv, Bool.not_true, Bool.false_eq_true, if_false]
    set E : db :=
      { d with
        name_buffer :=
          { elems := write_at
              (write_bytes d.name_buffer.elems d.name_buffer.count
                (convert_utf16_to_utf8 wname (length_of_utf16_as_utf8 wname)).1)
              (d.name_buffer.count + length_of_utf16_as_utf8 wname) 0,
            count := d.name_buffer.count + (length_of_utf16_as_utf8 wname + 1),
            count_allocated := d.name_buffer.count_allocated,
            elem_size := d.name_buffer.elem_size },
        record_array :=
          { elems := write_at d.record_array.elems d.record_array.count
              ⟨d.name_buffer.count, attributes, id, parent_id⟩,
            count := d.record_array.count + 1,
            count_allocated := d.record_array.count_allocated,
            elem_size := d.record_array.elem_size } } with hE
    have hid : (E.record_array.elems d.record_array.count).id = id := by
      simp [hE, write_at]
    rw [db_refresh_lookup_fits heap heap1 E _ (by rw [hid]; exact h3)]
    refine ⟨rfl, ?_⟩
    intro res d1 hrun
    obtain ⟨ok, e1, hr, f_nb, _⟩ := db_refresh_lookup_spec heap1 E d.record_array.count hpos
    rw [hr] at hrun
    simp only [Option.some.injEq, Prod.mk.injEq] at hrun
    rw [← hrun.2, f_nb]
    exact ⟨rfl, rfl⟩
  · simp only [Bool.not_eq_true] at hconv
    simp only [hconv, Bool.not_false, if_true]
    refine ⟨trivial, ?_⟩
    intro res d1 hrun
    have h2 := (Prod.mk.inj (Option.some.inj hrun)).2
    rw [← h2]
    exact ⟨rfl, rfl⟩

theorem db_delete_name_buffer (d : db) (id : Nat) :
    (db_delete d id).name_buffer = d.name_buffer := by
  unfold db_delete
  cases db_get_record_by_id d id with
  | none => rfl
  | some idx => exact (db_mark_record_not_in_use_spec d idx).1

theorem ntfs_usn_mark_ignore_single (c : change) : ntfs_usn_mark_ignore [c] = [c] := by
  rfl

theorem apply_long_name_update_twice (n : Nat) (h1 : 32767 ≤ n) (h2 : n ≤ 65533) :
    reachable root_only_db ∧
    ntfs_usn_mark_ignore [long_name_update n] = [long_name_update n] ∧
    ∃ d1 d2, db_apply_changes heap_never root_only_db [long_name_update n] = some d1 ∧
      db_apply_changes heap_never d1 [long_name_update n] = some d2 ∧
      ¬ same_live_records d2 d1 := by
  have hreach : reachable root_only_db :=
    ⟨[db_call.insert heap_always 5 5 0 [46]], db_of_calls_eq _ (by decide)⟩
  have hok0 := reachable_ok root_only_db hreach
  have hw : List.replicate n 97 ≠ [] := by
    intro h
    have := congrArg List.length h
    rw [List.length_replicate] at this
    simp only [List.length_nil] at this
    omega
  have hlen : length_of_utf16_as_utf8 (List.replicate n 97) = n := by
    unfold length_of_utf16_as_utf8 WideCharToMultiByte
    rw [utf16_to_utf8_replicate, List.length_replicate, if_neg (by omega), if_pos rfl]
  have hnc0 : root_only_db.name_buffer.count = 2 := by decide
  have hna0 : root_only_db.name_buffer.count_allocated = 65536 := by decide
  have hrc0 : root_only_db.record_array.count = 1 := by decide
  have hra0 : root_only_db.record_array.count_allocated = 2048 := by decide
  have hla0 : root_only_db.lookup_array.count_allocated = 16384 := by decide
  have hid0 : (root_only_db.record_array.elems 0).id = 5 := by decide
  have hdel0 : db_delete root_only_db 7 = root_only_db := by
    have : db_get_record_by_id root_only_db 7 = none := by decide
    unfold db_delete
    rw [this]
  have hrn : record_number 7 = 7 := by decide
  -- first application
  obtain ⟨hirr, hcap⟩ := db_insert_fits heap_never heap_always root_only_db 7 5 0
    (List.replicate n 97) (by rw [hla0]; decide) (by rw [hlen, hnc0, hna0]; omega)
    (by rw [hrc0, hra0]; decide) (by rw [hrn, hla0]; decide)
  obtain ⟨res, e, hrun, hoke, _, hcase⟩ :=
    db_insert_effect heap_always root_only_db 7 5 0 (List.replicate n 97) hok0
  obtain ⟨hcap1, hcnt1⟩ := hcap res e (by rw [hirr]; exact hrun)
  rcases hcase with ⟨_, hnot, _⟩ | ⟨_, _, hcount, heff⟩
  · exact absurd ⟨fun _ => rfl, hw⟩ hnot
  obtain ⟨hll, hloose⟩ := (heff (fun _ => rfl) (by rw [hrc0]; decide)).1 (by rw [hrc0]; decide)
  have hrun1 : db_apply_changes heap_never root_only_db [long_name_update n]
      = some { e with latest_usn := max e.latest_usn 1 } := by
    simp only [db_apply_changes, db_apply_change, long_name_update, db_update, hdel0, hirr, hrun,
      Bool.not_false, if_true, Option.map_some']
  -- second application
  obtain ⟨hokd, hcountd, _, heffd⟩ := db_delete_effect e 7 hoke
  obtain ⟨hlld, hloosed⟩ := heffd (by rw [hcount, hrc0]; decide)
  have hfull : db_insert heap_never (db_delete { e with latest_usn := max e.latest_usn 1 } 7)
      7 5 0 (List.replicate n 97)
      = some (none, db_delete { e with latest_usn := max e.latest_usn 1 } 7) := by
    apply db_insert_full heap_never _ 7 5 0 _ (fun _ => rfl)
    · rw [db_delete_name_buffer]
      show 0 < e.name_buffer.count_allocated
      rw [hcap1, hna0]
      decide
    · rw [db_delete_name_buffer]
      show e.name_buffer.count_allocated < e.name_buffer.count + _
      rw [hcap1, hcnt1, hna0, hnc0, hlen]
      omega
  have hrun2 : db_apply_changes heap_never { e with latest_usn := max e.latest_usn 1 }
      [long_name_update n]
      = some { db_delete { e with latest_usn := max e.latest_usn 1 } 7 with
          latest_usn := max (db_delete { e with latest_usn := max e.latest_usn 1 } 7).latest_usn
            1 } := by
    simp only [db_apply_changes, db_apply_change, long_name_update, db_update, hfull,
      Bool.not_false, if_true, Option.map_some']
  refine ⟨hreach, ntfs_usn_mark_ignore_single _, _, _, hrun1, hrun2, ?_⟩
  intro hsame
  have hin : (7, 5, 0, stored_name (List.replicate n 97))
      ∈ live_records { e with latest_usn := max e.latest_usn 1 } := by
    rw [live_records_iff]
    right
    refine ⟨7, ?_⟩
    show lookup_live e 7 = _
    rw [hll 7, hrn, if_pos rfl, if_pos (by decide)]
  have hout := (hsame _).2 hin
  rw [live_records_iff] at hout
  have hwrap : ∀ (x : db) (u : Nat), db_delete { x with latest_usn := u } 7
      = { db_delete x 7 with latest_usn := u } := by
    intro x u
    unfold db_delete
    have hget : db_get_record_by_id { x with latest_usn := u } 7 = db_get_record_by_id x 7 := rfl
    rw [hget]
    cases db_get_record_by_id x 7 with
    | none => rfl
    | some idx =>
      unfold db_mark_record_not_in_use
      dsimp only
      split_ifs <;> rfl
  rw [hwrap] at hout
  rcases hout with hl | ⟨k, hk⟩
  · have hl1 : loose_record (db_delete e 7) (7, 5, 0, stored_name (List.replicate n 97)) := hl
    have hl2 := (hloose _).1 ((hloosed _).1 hl1)
    obtain ⟨i, hi, _, _, hv⟩ := hl2
    have hi0 : i = 0 := by omega
    rw [hi0] at hv
    have := congrArg Prod.fst hv
    simp only [record_view, hid0] at this
    exact absurd this (by decide)
  · have hk1 : lookup_live (db_delete e 7) k
        = some (7, 5, 0, stored_name (List.replicate n 97)) := hk
    rw [hlld k, hrn] at hk1
    by_cases h7 : k = 7
    · rw [if_pos h7] at hk1
      cases hk1
    · rw [if_neg h7, hll k, hrn, if_neg h7] at hk1
      unfold lookup_live at hk1
      split_ifs at hk1 with hc
      have := (hok0.2.2.2.1 (by rw [hrc0]; decide) k hc.1 hc.2.1).1
      have := hc.2.1
      omega

/-- C10 (counterexample).  The index holding the root alone is reachable, the
list holding one UPDATE of id 7 with a name of 40000 letters is a coalesced
list, and with a heap that grows no block the first application stores the
record (40001 name bytes of 65536 are free) while the second marks it
NOT_IN_USE and returns from `db_insert` with null, because 40001 more bytes do
not fit: the record of id 7 is live after one application and not after two. -/
theorem C10_fails_when_name_buffer_is_full :
    reachable root_only_db ∧
    ntfs_usn_mark_ignore [long_name_update 40000] = [long_name_update 40000] ∧
    ∃ d1 d2, db_apply_changes heap_never root_only_db [long_name_update 40000] = some d1 ∧
      db_apply_changes heap_never d1 [long_name_update 40000] = some d2 ∧
      ¬ same_live_records d2 d1 :=
  apply_long_name_update_twice 40000 (by decide) (by decide)

/-! ## Coalescing and applying -/

theorem with_flags_length : ∀ (L : List change) (f : Nat → Bool),
    (with_flags L f).length = L.length := by
  intro L
  induction L with
  | nil => intro f; rfl
  | cons c cs ih => intro f; simp [with_flags, ih]

theorem get?_with_flags : ∀ (L : List change) (f : Nat → Bool) (i : Nat),
    (with_flags L f).get? i = (L.get? i).map (fun c => { c with ignore := c.ignore || f i }) := by
  intro L
  induction L with
  | nil => intro f i; rfl
  | cons c cs ih =>
    intro f i
    cases i with
    | zero => rfl
    | succ i => simp only [with_flags, List.get?_cons_succ, ih]

theorem with_flags_congr : ∀ (L : List change) (f g : Nat → Bool),
    (∀ p, p < L.length → f p = g p) → with_flags L f = with_flags L g := by
  intro L
  induction L with
  | nil => intro f g _; rfl
  | cons c cs ih =>
    intro f g h
    simp only [with_flags]
    rw [h 0 (by simp), ih (fun p => f (p + 1)) (fun p => g (p + 1))
      (fun p hp => h (p + 1) (by simp only [List.length_cons]; omega))]

theorem with_flags_false : ∀ L : List change, with_flags L (fun _ => false) = L := by
  intro L
  induction L with
  | nil => rfl
  | cons c cs ih =>
    simp only [with_flags, ih, Bool.or_false]

theorem set_ignore_with_flags : ∀ (L : List change) (f : Nat → Bool) (k : Nat),
    set_ignore (with_flags L f) k = with_flags L (fun p => f p || decide (p = k)) := by
  intro L
  induction L with
  | nil => intro f k; rfl
  | cons c cs ih =>
    intro f k
    cases k with
    | zero =>
      simp only [with_flags, set_ignore]
      congr 1
      · simp
      · apply with_flags_congr
        intro p _
        simp
    | succ k =>
      simp only [with_flags, set_ignore, ih]
      congr 1
      · simp
      · apply with_flags_congr
        intro p _
        simp

theorem pair_marks_none_left (L : List change) (i j p : Nat) (h : L.get? i = none) :
    pair_marks L i j p = false := by
  unfold pair_marks
  rw [h]

theorem pair_marks_none_right (L : List change) (i j p : Nat) (h : L.get? j = none) :
    pair_marks L i j p = false := by
  unfold pair_marks
  rw [h]
  cases L.get? i <;> rfl

theorem pair_marks_some (L : List change) (i j p : Nat) (ci cj : change)
    (hi : L.get? i = some ci) (hj : L.get? j = some cj) :
    pair_marks L i j p
      = (decide (i ≠ j ∧ ci.id = cj.id) &&
          ((decide (ci.type = CHANGE_TYPE_DELETE ∧ cj.type = CHANGE_TYPE_INSERT) &&
              (decide (p = i) || decide (p = j))) ||
           (decide (ci.type = CHANGE_TYPE_DELETE ∧ cj.type = CHANGE_TYPE_UPDATE) && decide (p = j)) ||
           (decide (ci.type = CHANGE_TYPE_DELETE ∧ cj.type = CHANGE_TYPE_DELETE) && decide (p = j)) ||
           (decide (ci.type = CHANGE_TYPE_UPDATE ∧ cj.type = CHANGE_TYPE_INSERT) &&
              decide (p = j)))) := by
  unfold pair_marks
  rw [hi, hj]

theorem mark_ignore_pair_with_flags (L : List change) (f : Nat → Bool) (i j : Nat) :
    mark_ignore_pair (with_flags L f) i j
      = with_flags L (fun p => f p || pair_marks L i j p) := by
  unfold mark_ignore_pair
  rw [get?_with_flags, get?_with_flags]
  cases hi : L.get? i with
  | none =>
    simp only [Option.map_none']
    apply with_flags_congr
    intro p _
    rw [pair_marks_none_left L i j p hi, Bool.or_false]
  | some ci =>
    cases hj : L.get? j with
    | none =>
      simp only [Option.map_none', Option.map_some']
      apply with_flags_congr
      intro p _
      rw [pair_marks_none_right L i j p hj, Bool.or_false]
    | some cj =>
      simp only [Option.map_some']
      by_cases hc : i ≠ j ∧ ci.id = cj.id
      · rw [if_pos hc]
        dsimp only
        cases hti : ci.type <;> cases htj : cj.type <;>
          simp only [and_self, and_true, and_false, false_and, if_true, if_false,
            set_ignore_with_flags, reduceCtorEq] <;>
          (apply with_flags_congr
           intro p _
           rw [pair_marks_some L i j p ci cj hi hj]
           simp [hc.1, hc.2, hti, htj, Bool.or_assoc])
      · rw [if_neg hc]
        apply with_flags_congr
        intro p _
        rw [pair_marks_some L i j p ci cj hi hj]
        simp only [decide_eq_false hc, Bool.false_and, Bool.or_false]

theorem mark_ignore_pairs_with_flags (L : List change) (i : Nat) :
    ∀ (js : List Nat) (f : Nat → Bool),
      js.foldl (fun cs j => mark_ignore_pair cs i j) (with_flags L f)
        = with_flags L (fun p => f p || js.any (fun j => pair_marks L i j p)) := by
  intro js
  induction js with
  | nil =>
    intro f
    simp only [List.foldl_nil, List.any_nil, Bool.or_false]
  | cons j js ih =>
    intro f
    simp only [List.foldl_cons, mark_ignore_pair_with_flags, ih, List.any_cons, Bool.or_assoc]

theorem mark_ignore_inner_with_flags (L : List change) (f : Nat → Bool) (i : Nat) :
    mark_ignore_inner (with_flags L f) i
      = with_flags L (fun p => f p ||
          (List.range L.length).any (fun j => pair_marks L i j p)) := by
  unfold mark_ignore_inner
  rw [with_flags_length, mark_ignore_pairs_with_flags]

theorem mark_ignore_outer_with_flags (L : List change) :
    ∀ (is : List Nat) (f : Nat → Bool),
      is.foldl (fun cs i => mark_ignore_inner cs i) (with_flags L f)
        = with_flags L (fun p => f p ||
            is.any (fun i => (List.range L.length).any (fun j => pair_marks L i j p))) := by
  intro is
  induction is with
  | nil =>
    intro f
    simp only [List.foldl_nil, List.any_nil, Bool.or_false]
  | cons i is ih =>
    intro f
    simp only [List.foldl_cons, mark_ignore_inner_with_flags, ih, List.any_cons, Bool.or_assoc]

/-- `ntfs_usn_mark_ignore` sets `ignore` at the positions some pair marks and
changes nothing else. -/
theorem ntfs_usn_mark_ignore_eq (L : List change) :
    ntfs_usn_mark_ignore L
      = with_flags L (fun p => (List.range L.length).reverse.any
          (fun i => (List.range L.length).any (fun j => pair_marks L i j p))) := by
  unfold ntfs_usn_mark_ignore
  have h := mark_ignore_outer_with_flags L (List.range L.length).reverse (fun _ => false)
  rw [with_flags_false] at h
  rw [h]
  apply with_flags_congr
  intro p _
  simp

theorem in_rule_order_get : ∀ (L : List change) (i j : Nat) (ci cj : change),
    in_rule_order L → L.get? i = some ci → L.get? j = some cj → i < j →
      (ci.type = CHANGE_TYPE_DELETE → cj.id ≠ ci.id) ∧
      (ci.type = CHANGE_TYPE_UPDATE → cj.id = ci.id → cj.type ≠ CHANGE_TYPE_INSERT) := by
  intro L
  induction L with
  | nil => intro i j ci cj _ hi; cases hi
  | cons c rest ih =>
    intro i j ci cj hord hi hj hlt
    obtain ⟨o1, o2, o3⟩ := hord
    cases j with
    | zero => omega
    | succ j =>
      rw [List.get?_cons_succ] at hj
      cases i with
      | zero =>
        simp only [List.get?_cons_zero, Option.some.injEq] at hi
        subst hi
        have hmem : cj ∈ rest := List.get?_mem hj
        exact ⟨fun h => o1 h cj hmem, fun h => o2 h cj hmem⟩
      | succ i =>
        rw [List.get?_cons_succ] at hi
        exact ih i j ci cj o3 hi hj (by omega)

theorem with_flags_eq_map : ∀ (L : List change) (f : Nat → Bool) (g : change → Bool),
    (∀ p c, L.get? p = some c → f p = g c) →
      with_flags L f = L.map (fun c => { c with ignore := c.ignore || g c }) := by
  intro L
  induction L with
  | nil => intro f g _; rfl
  | cons c rest ih =>
    intro f g h
    simp only [with_flags, List.map_cons]
    rw [h 0 c rfl, ih (fun p => f (p + 1)) g (fun p c1 hp => h (p + 1) c1 hp)]

theorem coalesced_ignore_iff (L : List change) (c : change) :
    coalesced_ignore L c = true ↔
      ∃ c1 ∈ L, c1.id = c.id ∧
        ((c.type = CHANGE_TYPE_INSERT ∧
            (c1.type = CHANGE_TYPE_UPDATE ∨ c1.type = CHANGE_TYPE_DELETE)) ∨
         (c.type = CHANGE_TYPE_UPDATE ∧ c1.type = CHANGE_TYPE_DELETE) ∨
         (c.type = CHANGE_TYPE_DELETE ∧ c1.type = CHANGE_TYPE_INSERT)) := by
  unfold coalesced_ignore
  simp only [List.any_eq_true, Bool.and_eq_true, Bool.or_eq_true, decide_eq_true_eq, or_assoc]

theorem pair_marks_iff (L : List change) (i j p : Nat) :
    pair_marks L i j p = true ↔
      ∃ ci cj, L.get? i = some ci ∧ L.get? j = some cj ∧ i ≠ j ∧ ci.id = cj.id ∧
        ((ci.type = CHANGE_TYPE_DELETE ∧ cj.type = CHANGE_TYPE_INSERT ∧ (p = i ∨ p = j)) ∨
         (ci.type = CHANGE_TYPE_DELETE ∧ cj.type = CHANGE_TYPE_UPDATE ∧ p = j) ∨
         (ci.type = CHANGE_TYPE_DELETE ∧ cj.type = CHANGE_TYPE_DELETE ∧ p = j) ∨
         (ci.type = CHANGE_TYPE_UPDATE ∧ cj.type = CHANGE_TYPE_INSERT ∧ p = j)) := by
  cases hi : L.get? i with
  | none =>
    rw [pair_marks_none_left L i j p hi]
    constructor
    · intro h; cases h
    · rintro ⟨ci, cj, h, _⟩; cases h
  | some ci =>
    cases hj : L.get? j with
    | none =>
      rw [pair_marks_none_right L i j p hj]
      constructor
      · intro h; cases h
      · rintro ⟨ci, cj, _, h, _⟩; cases h
    | some cj =>
      rw [pair_marks_some L i j p ci cj hi hj]
      simp only [Bool.and_eq_true, Bool.or_eq_true, decide_eq_true_eq, Option.some.injEq]
      constructor
      · rintro ⟨⟨h1, h2⟩, h3⟩
        refine ⟨ci, cj, rfl, rfl, h1, h2, ?_⟩
        tauto
      · rintro ⟨ci1, cj1, e1, e2, h1, h2, h3⟩
        subst e1 e2
        refine ⟨⟨h1, h2⟩, ?_⟩
        tauto

theorem get?_lt (L : List change) (q : Nat) (c : change) (h : L.get? q = some c) :
    q < L.length := by
  by_contra hn
  rw [List.get?_eq_none.2 (by omega)] at h
  cases h

theorem mark_flags_eq (L : List change) (hord : in_rule_order L) (p : Nat) (c : change)
    (hp : L.get? p = some c) :
    (List.range L.length).reverse.any
        (fun i => (List.range L.length).any (fun j => pair_marks L i j p))
      = coalesced_ignore L c := by
  rw [Bool.eq_iff_iff, coalesced_ignore_iff]
  simp only [List.any_eq_true, List.mem_reverse, List.mem_range]
  constructor
  · rintro ⟨i, _, j, _, hm⟩
    rw [pair_marks_iff] at hm
    obtain ⟨ci, cj, gi, gj, hne, hid, hcase⟩ := hm
    rcases hcase with ⟨t1, t2, hpe⟩ | ⟨t1, t2, hpe⟩ | ⟨t1, t2, hpe⟩ | ⟨t1, t2, hpe⟩
    · rcases hpe with hpe | hpe
      · rw [hpe, gi] at hp
        cases hp
        exact ⟨cj, List.get?_mem gj, hid.symm, Or.inr (Or.inr ⟨t1, t2⟩)⟩
      · rw [hpe, gj] at hp
        cases hp
        exact ⟨ci, List.get?_mem gi, hid, Or.inl ⟨t2, Or.inr t1⟩⟩
    · rw [hpe, gj] at hp
      cases hp
      exact ⟨ci, List.get?_mem gi, hid, Or.inr (Or.inl ⟨t2, t1⟩)⟩
    · exfalso
      rcases Nat.lt_or_gt_of_ne hne with hlt | hlt
      · exact (in_rule_order_get L i j ci cj hord gi gj hlt).1 t1 hid.symm
      · exact (in_rule_order_get L j i cj ci hord gj gi hlt).1 t2 hid
    · rw [hpe, gj] at hp
      cases hp
      exact ⟨ci, List.get?_mem gi, hid, Or.inl ⟨t2, Or.inl t1⟩⟩
  · rintro ⟨c1, hmem, hid, hcase⟩
    obtain ⟨q, hq⟩ := List.get?_of_mem hmem
    have hql := get?_lt L q c1 hq
    have hpl := get?_lt L p c hp
    have hne : q ≠ p := by
      intro e
      rw [e, hp] at hq
      cases hq
      rcases hcase with ⟨t1, t2 | t2⟩ | ⟨t1, t2⟩ | ⟨t1, t2⟩ <;> rw [t1] at t2 <;> cases t2
    rcases hcase with ⟨t1, t2 | t2⟩ | ⟨t1, t2⟩ | ⟨t1, t2⟩
    · refine ⟨q, hql, p, hpl, ?_⟩
      rw [pair_marks_iff]
      exact ⟨c1, c, hq, hp, hne, hid, Or.inr (Or.inr (Or.inr ⟨t2, t1, rfl⟩))⟩
    · refine ⟨q, hql, p, hpl, ?_⟩
      rw [pair_marks_iff]
      exact ⟨c1, c, hq, hp, hne, hid, Or.inl ⟨t2, t1, Or.inr rfl⟩⟩
    · refine ⟨q, hql, p, hpl, ?_⟩
      rw [pair_marks_iff]
      exact ⟨c1, c, hq, hp, hne, hid, Or.inr (Or.inl ⟨t2, t1, rfl⟩)⟩
    · refine ⟨p, hpl, q, hql, ?_⟩
      rw [pair_marks_iff]
      exact ⟨c, c1, hp, hq, fun e => hne e.symm, hid.symm, Or.inl ⟨t1, t2, Or.inl rfl⟩⟩

/-- On a list that meets no rule the wrong way round `ntfs_usn_mark_ignore`
marks the changes that
`coalesced_ignore` names and changes nothing else. -/
theorem ntfs_usn_mark_ignore_ordered (L : List change) (hord : in_rule_order L) :
    ntfs_usn_mark_ignore L
      = L.map (fun c => { c with ignore := c.ignore || coalesced_ignore L c }) := by
  rw [ntfs_usn_mark_ignore_eq]
  exact with_flags_eq_map L _ _ (fun p c hp => mark_flags_eq L hord p c hp)

/-- The lists that meet no rule the wrong way round are those on which the body
of the loop of `ntfs_usn_mark_ignore` marks nothing for a pair `(i, j)` with
`i` before `j`. -/
theorem in_rule_order_iff (L : List change) :
    in_rule_order L ↔ ∀ i j p, i < j → pair_marks L i j p = false := by
  constructor
  · intro h i j p hlt
    rw [Bool.eq_false_iff]
    intro hm
    rw [pair_marks_iff] at hm
    obtain ⟨ci, cj, gi, gj, _, hid, hcase⟩ := hm
    have := in_rule_order_get L i j ci cj h gi gj hlt
    rcases hcase with ⟨t1, _, _⟩ | ⟨t1, _, _⟩ | ⟨t1, _, _⟩ | ⟨t1, t2, _⟩
    · exact this.1 t1 hid.symm
    · exact this.1 t1 hid.symm
    · exact this.1 t1 hid.symm
    · exact this.2 t1 hid.symm t2
  · induction L with
    | nil => intro _; trivial
    | cons c rest ih =>
      intro h
      refine ⟨?_, ?_, ?_⟩
      · intro ht c1 hc1 hid
        obtain ⟨j, hj⟩ := List.get?_of_mem hc1
        have hm : pair_marks (c :: rest) 0 (j + 1) (j + 1) = true := by
          rw [pair_marks_iff]
          refine ⟨c, c1, rfl, by rw [List.get?_cons_succ]; exact hj, by omega, hid.symm, ?_⟩
          cases h1 : c1.type with
          | CHANGE_TYPE_INSERT => exact Or.inl ⟨ht, rfl, Or.inr rfl⟩
          | CHANGE_TYPE_UPDATE => exact Or.inr (Or.inl ⟨ht, rfl, rfl⟩)
          | CHANGE_TYPE_DELETE => exact Or.inr (Or.inr (Or.inl ⟨ht, rfl, rfl⟩))
        rw [h 0 (j + 1) (j + 1) (by omega)] at hm
        cases hm
      · intro ht c1 hc1 hid h1
        obtain ⟨j, hj⟩ := List.get?_of_mem hc1
        have hm : pair_marks (c :: rest) 0 (j + 1) (j + 1) = true := by
          rw [pair_marks_iff]
          exact ⟨c, c1, rfl, by rw [List.get?_cons_succ]; exact hj, by omega, hid.symm,
            Or.inr (Or.inr (Or.inr ⟨ht, h1, rfl⟩))⟩
        rw [h 0 (j + 1) (j + 1) (by omega)] at hm
        cases hm
      · apply ih
        intro i j p hlt
        rw [Bool.eq_false_iff]
        intro hm
        rw [pair_marks_iff] at hm
        obtain ⟨ci, cj, gi, gj, hne, hid, hcase⟩ := hm
        have hm2 : pair_marks (c :: rest) (i + 1) (j + 1) (p + 1) = true := by
          rw [pair_marks_iff]
          refine ⟨ci, cj, by rw [List.get?_cons_succ]; exact gi,
            by rw [List.get?_cons_succ]; exact gj, by omega, hid, ?_⟩
          rcases hcase with ⟨t1, t2, hp⟩ | ⟨t1, t2, hp⟩ | ⟨t1, t2, hp⟩ | ⟨t1, t2, hp⟩
          · exact Or.inl ⟨t1, t2, by omega⟩
          · exact Or.inr (Or.inl ⟨t1, t2, by omega⟩)
          · exact Or.inr (Or.inr (Or.inl ⟨t1, t2, by omega⟩))
          · exact Or.inr (Or.inr (Or.inr ⟨t1, t2, by omega⟩))
        rw [h (i + 1) (j + 1) (p + 1) (by omega)] at hm2
        cases hm2

theorem in_rule_order_split : ∀ (P : List change) (c : change) (T : List change),
    in_rule_order (P ++ c :: T) →
      ∀ c1 ∈ P, (c1.type = CHANGE_TYPE_DELETE → c.id ≠ c1.id) ∧
        (c1.type = CHANGE_TYPE_UPDATE → c.id = c1.id → c.type ≠ CHANGE_TYPE_INSERT) := by
  intro P
  induction P with
  | nil => intro c T _ c1 hc1; cases hc1
  | cons a rest ih =>
    intro c T hord c1 hc1
    obtain ⟨o1, o2, o3⟩ := hord
    rcases List.mem_cons.mp hc1 with e | e
    · rw [e]
      have hmem : c ∈ rest ++ c :: T := by simp
      exact ⟨fun h => o1 h c hmem, fun h => o2 h c hmem⟩
    · exact ih c T o3 c1 e

theorem change_effect_of_ignore (c : change) (h : c.ignore = true) : change_effect c = none := by
  unfold change_effect
  rw [if_pos h]

theorem change_effect_of_update (c : change) (h : c.ignore = false)
    (ht : c.type = CHANGE_TYPE_UPDATE) : ∃ v, change_effect c = some v := by
  unfold change_effect
  rw [h, ht]
  simp only [Bool.false_eq_true, if_false]
  split_ifs <;> exact ⟨_, rfl⟩

theorem change_effect_of_delete (c : change) (h : c.ignore = false)
    (ht : c.type = CHANGE_TYPE_DELETE) : change_effect c = some none := by
  unfold change_effect
  rw [h, ht]
  rfl

theorem mark_eq_self (L : List change) (c : change) (h1 : c.ignore = false)
    (h2 : coalesced_ignore L c = false) :
    ({ c with ignore := c.ignore || coalesced_ignore L c } : change) = c := by
  rw [h1, h2]
  cases c
  simp only [Bool.or_false] at h1 ⊢
  rw [h1]

theorem in_rule_order_suffix : ∀ (A S : List change),
    in_rule_order (A ++ S) → in_rule_order S := by
  intro A
  induction A with
  | nil => intro S h; exact h
  | cons a rest ih => intro S h; exact ih S h.2.2

theorem slots_released_split : ∀ (X : List change) (x : change) (Y : List change),
    slots_released (X ++ x :: Y) →
      ∀ c1 ∈ Y, record_number c1.id = record_number x.id → c1.id ≠ x.id →
        ∃ z ∈ x :: Y, z.id = x.id ∧ z.type = CHANGE_TYPE_DELETE := by
  intro X
  induction X with
  | nil => intro x Y h; exact h.1
  | cons a rest ih => intro x Y h; exact ih x Y h.2

theorem last_effect_snoc (k : Nat) (P : List change) (c : change) :
    last_effect (P ++ [c]) k
      = if record_number c.id = k then
          (match change_effect c with
            | some v => some v
            | none => last_effect P k)
        else last_effect P k := by
  rw [last_effect_append]
  simp only [last_effect]
  by_cases hk : record_number c.id = k
  · rw [if_pos hk, if_pos hk]
  · rw [if_neg hk, if_neg hk]

theorem last_effect_map_dead (k : Nat) (g : change → change) (hid : ∀ c, (g c).id = c.id) :
    ∀ P : List change,
      (∀ x ∈ P, record_number x.id = k →
        change_effect (g x) = none ∨ change_effect (g x) = some none) →
      last_effect (P.map g) k = none ∨ last_effect (P.map g) k = some none := by
  intro P
  induction P with
  | nil => intro _; left; rfl
  | cons c rest ih =>
    intro h
    simp only [List.map_cons, last_effect]
    rcases ih (fun x hx => h x (List.mem_cons_of_mem _ hx)) with e | e
    · rw [e, hid c]
      dsimp only
      by_cases hk : record_number c.id = k
      · rw [if_pos hk]
        exact h c (List.mem_cons_self _ _) hk
      · rw [if_neg hk]
        left; rfl
    · rw [e]
      right; rfl

theorem last_effect_map_none_all (k : Nat) (g : change → change) (hid : ∀ c, (g c).id = c.id) :
    ∀ P : List change, last_effect (P.map g) k = none →
      ∀ x ∈ P, record_number x.id = k → change_effect (g x) = none := by
  intro P
  induction P with
  | nil => intro _ x hx; cases hx
  | cons c rest ih =>
    intro h x hx hxk
    simp only [List.map_cons, last_effect] at h
    cases hr : last_effect (rest.map g) k with
    | some v => rw [hr] at h; cases h
    | none =>
      rw [hr, hid c] at h
      dsimp only at h
      rcases List.mem_cons.mp hx with e | e
      · rw [e] at hxk ⊢
        rw [if_pos hxk] at h
        exact h
      · exact ih hr x e hxk

/-- On an unmarked list that meets no rule the wrong way round and in which a
record number passes to
another id only after a DELETE, marking does not change what the list leaves in
a lookup entry, provided the entry names no live record before when the first
change of its record number is an INSERT. -/
theorem coalesced_last_effect_slots (L : List change) (k : Nat)
    (ll : Option (Nat × Nat × Nat × List Nat))
    (hunmarked : ∀ c ∈ L, c.ignore = false) (hord : in_rule_order L)
    (hslots : slots_released L)
    (hfirst : ∀ x0, L.find? (fun x => decide (record_number x.id = k)) = some x0 →
      x0.type = CHANGE_TYPE_INSERT → ll = none) :
    (last_effect (L.map (fun c => { c with ignore := c.ignore || coalesced_ignore L c })) k).getD ll
      = (last_effect L k).getD ll := by
  generalize hg : (fun c : change => ({ c with ignore := c.ignore || coalesced_ignore L c } : change))
    = g
  have hgid : ∀ c, (g c).id = c.id := by
    intro c; rw [← hg]
  have hmark : ∀ x : change, coalesced_ignore L x = true → change_effect (g x) = none := by
    intro x hx
    rw [← hg]
    apply change_effect_of_ignore
    show (x.ignore || coalesced_ignore L x) = true
    rw [hx, Bool.or_true]
  have hself : ∀ x ∈ L, coalesced_ignore L x = false → g x = x := by
    intro x hx h
    rw [← hg]
    exact mark_eq_self L x (hunmarked x hx) h
  have hunm : ∀ x ∈ L, change_effect (g x) = none ∨ change_effect (g x) = change_effect x := by
    intro x hx
    by_cases hm : coalesced_ignore L x = true
    · exact Or.inl (hmark x hm)
    · rw [hself x hx (by simpa using hm)]
      exact Or.inr rfl
  have key : ∀ (P Q : List change), L = P ++ Q →
      (∀ x ∈ Q, record_number x.id = k → change_effect x = none ∧ change_effect (g x) = none) →
      (last_effect (P.map g) k).getD ll = (last_effect P k).getD ll := by
    intro P
    induction P using List.reverseRecOn with
    | nil => intro Q _ _; rfl
    | append_singleton P1 c ih =>
      intro Q hL hQ
      have hL1 : L = P1 ++ c :: Q := by rw [hL, List.append_assoc]; rfl
      have hcL : c ∈ L := by rw [hL1]; simp
      have hci := hunmarked c hcL
      rw [List.map_append, List.map_singleton, last_effect_snoc, last_effect_snoc, hgid c]
      by_cases hk : record_number c.id = k
      · rw [if_pos hk, if_pos hk]
        have hmemL : ∀ x ∈ L, x ∈ P1 ∨ x = c ∨ x ∈ Q := by
          intro x hx
          rw [hL1] at hx
          rcases List.mem_append.mp hx with h1 | h1
          · exact Or.inl h1
          · rcases List.mem_cons.mp h1 with h2 | h2
            · exact Or.inr (Or.inl h2)
            · exact Or.inr (Or.inr h2)
        have hP1L : ∀ x ∈ P1, x ∈ L := by
          intro x hx; rw [hL1]; exact List.mem_append_left _ hx
        have hQL : ∀ x ∈ Q, x ∈ L := by
          intro x hx; rw [hL1]
          exact List.mem_append_right _ (List.mem_cons_of_mem _ hx)
        have hsplit := in_rule_order_split P1 c Q (by rw [← hL1]; exact hord)
        have hQtype : ∀ x ∈ Q, record_number x.id = k → x.type = CHANGE_TYPE_INSERT := by
          intro x hx hxk
          have hxi := hunmarked x (hQL x hx)
          cases hxt : x.type with
          | CHANGE_TYPE_INSERT => rfl
          | CHANGE_TYPE_UPDATE =>
            obtain ⟨v, hv⟩ := change_effect_of_update x hxi hxt
            rw [(hQ x hx hxk).1] at hv
            cases hv
          | CHANGE_TYPE_DELETE =>
            have := change_effect_of_delete x hxi hxt
            rw [(hQ x hx hxk).1] at this
            cases this
        have hinert : ∀ x ∈ c :: Q, change_effect c = none → change_effect (g c) = none →
            record_number x.id = k → change_effect x = none ∧ change_effect (g x) = none := by
          intro x hx h1 h2 hxk
          rcases List.mem_cons.mp hx with e | e
          · rw [e]; exact ⟨h1, h2⟩
          · exact hQ x e hxk
        cases heff : change_effect c with
        | none =>
          have hgeff : change_effect (g c) = none := by
            rcases hunm c hcL with h | h
            · exact h
            · rw [h]; exact heff
          rw [hgeff]
          dsimp only
          exact ih (c :: Q) hL1 (fun x hx hxk => hinert x hx heff hgeff hxk)
        | some v =>
          dsimp only
          cases ht : c.type with
          | CHANGE_TYPE_UPDATE =>
            have hno : coalesced_ignore L c = false := by
              rw [Bool.eq_false_iff]
              intro hx
              rw [coalesced_ignore_iff] at hx
              obtain ⟨c1, hmem, hid1, hcase⟩ := hx
              rw [ht] at hcase
              rcases hcase with ⟨t, _⟩ | ⟨_, t⟩ | ⟨t, _⟩
              · cases t
              · rcases hmemL c1 hmem with m | m | m
                · exact (hsplit c1 m).1 t hid1.symm
                · rw [m, ht] at t
                  cases t
                · have := hQtype c1 m (by rw [hid1, hk])
                  rw [this] at t
                  cases t
              · cases t
            rw [hself c hcL hno, heff]
          | CHANGE_TYPE_INSERT =>
            have hno : coalesced_ignore L c = false := by
              rw [Bool.eq_false_iff]
              intro hx
              rw [coalesced_ignore_iff] at hx
              obtain ⟨c1, hmem, hid1, hcase⟩ := hx
              rw [ht] at hcase
              rcases hcase with ⟨_, t⟩ | ⟨t, _⟩ | ⟨t, _⟩
              · rcases hmemL c1 hmem with m | m | m
                · rcases t with t | t
                  · exact (hsplit c1 m).2 t hid1.symm ht
                  · exact (hsplit c1 m).1 t hid1.symm
                · rw [m, ht] at t
                  rcases t with t | t <;> cases t
                · have := hQtype c1 m (by rw [hid1, hk])
                  rw [this] at t
                  rcases t with t | t <;> cases t
              · cases t
              · cases t
            rw [hself c hcL hno, heff]
          | CHANGE_TYPE_DELETE =>
            have hraw : change_effect c = some none := change_effect_of_delete c hci ht
            rw [heff] at hraw
            have hv : v = none := (Option.some.inj hraw)
            subst hv
            by_cases hI : ∃ c1 ∈ L, c1.id = c.id ∧ c1.type = CHANGE_TYPE_INSERT
            · obtain ⟨c1, hmem, hid1, t1⟩ := hI
              have hyes : coalesced_ignore L c = true := by
                rw [coalesced_ignore_iff]
                exact ⟨c1, hmem, hid1, Or.inr (Or.inr ⟨ht, t1⟩)⟩
              rw [hmark c hyes]
              dsimp only
              show (last_effect (List.map g P1) k).getD ll = none
              -- every change of the record number before `c` is marked or a DELETE
              have hdel : ∀ x ∈ P1, record_number x.id = k →
                  ∃ z ∈ L, z.id = x.id ∧ z.type = CHANGE_TYPE_DELETE := by
                intro x hx hxk
                by_cases hxid : x.id = c.id
                · exact ⟨c, hcL, hxid.symm, ht⟩
                · obtain ⟨X, Y, hXY⟩ := List.append_of_mem hx
                  have hL2 : L = X ++ x :: (Y ++ c :: Q) := by
                    rw [hL1, hXY]
                    simp
                  obtain ⟨z, hz, hz1, hz2⟩ := slots_released_split X x (Y ++ c :: Q)
                    (by rw [← hL2]; exact hslots) c (by simp) (by rw [hk, hxk])
                    (fun e => hxid e.symm)
                  exact ⟨z, by rw [hL2]; exact List.mem_append_right _ hz, hz1, hz2⟩
              have hdead : ∀ x ∈ P1, record_number x.id = k →
                  change_effect (g x) = none ∨ change_effect (g x) = some none := by
                intro x hx hxk
                obtain ⟨z, hz, hz1, hz2⟩ := hdel x hx hxk
                cases hxt : x.type with
                | CHANGE_TYPE_INSERT =>
                  left
                  apply hmark
                  rw [coalesced_ignore_iff]
                  exact ⟨z, hz, hz1, Or.inl ⟨hxt, Or.inr hz2⟩⟩
                | CHANGE_TYPE_UPDATE =>
                  left
                  apply hmark
                  rw [coalesced_ignore_iff]
                  exact ⟨z, hz, hz1, Or.inr (Or.inl ⟨hxt, hz2⟩)⟩
                | CHANGE_TYPE_DELETE =>
                  rcases hunm x (hP1L x hx) with h | h
                  · exact Or.inl h
                  · right
                    rw [h]
                    exact change_effect_of_delete x (hunmarked x (hP1L x hx)) hxt
              rcases last_effect_map_dead k g hgid P1 hdead with e | e
              · rw [e]
                show ll = none
                -- every change of the record number is without effect once marked
                have hnone : ∀ x ∈ L, record_number x.id = k → change_effect (g x) = none := by
                  intro x hx hxk
                  rcases hmemL x hx with m | m | m
                  · exact last_effect_map_none_all k g hgid P1 e x m hxk
                  · rw [m]; exact hmark c hyes
                  · exact (hQ x m hxk).2
                have hmarked : ∀ x ∈ L, record_number x.id = k →
                    x.type ≠ CHANGE_TYPE_INSERT → coalesced_ignore L x = true := by
                  intro x hx hxk hxt
                  by_contra hm
                  have hgx := hself x hx (by simpa using hm)
                  have h0 := hnone x hx hxk
                  rw [hgx] at h0
                  cases hxt2 : x.type with
                  | CHANGE_TYPE_INSERT => exact hxt hxt2
                  | CHANGE_TYPE_UPDATE =>
                    obtain ⟨v, hv⟩ := change_effect_of_update x (hunmarked x hx) hxt2
                    rw [h0] at hv
                    cases hv
                  | CHANGE_TYPE_DELETE =>
                    have := change_effect_of_delete x (hunmarked x hx) hxt2
                    rw [h0] at this
                    cases this
                cases hf : L.find? (fun x => decide (record_number x.id = k)) with
                | none =>
                  rw [List.find?_eq_none] at hf
                  exact absurd (decide_eq_true hk) (hf c hcL)
                | some x0 =>
                  obtain ⟨hx0k, A, B, hAB, hA⟩ := List.find?_eq_some.mp hf
                  have hx0k : record_number x0.id = k := of_decide_eq_true hx0k
                  have hx0L : x0 ∈ L := by rw [hAB]; simp
                  have hordB := in_rule_order_suffix A (x0 :: B) (by rw [← hAB]; exact hord)
                  have hinB : ∀ w ∈ L, w.id = x0.id → w.type ≠ x0.type → w ∈ B := by
                    intro w hw hwid hwt
                    rw [hAB] at hw
                    rcases List.mem_append.mp hw with h1 | h1
                    · have := hA w h1
                      rw [hwid, hx0k] at this
                      simp at this
                    · rcases List.mem_cons.mp h1 with h2 | h2
                      · rw [h2] at hwt
                        exact absurd rfl hwt
                      · exact h2
                  cases hx0t : x0.type with
                  | CHANGE_TYPE_INSERT => exact hfirst x0 hf hx0t
                  | CHANGE_TYPE_UPDATE =>
                    exfalso
                    have hm := hmarked x0 hx0L hx0k (by rw [hx0t]; intro h; cases h)
                    rw [coalesced_ignore_iff] at hm
                    obtain ⟨z, hz, hzid, hcase⟩ := hm
                    rw [hx0t] at hcase
                    rcases hcase with ⟨t, _⟩ | ⟨_, t⟩ | ⟨t, _⟩
                    · cases t
                    · have hm2 := hmarked z hz (by rw [hzid, hx0k]) (by rw [t]; intro h; cases h)
                      rw [coalesced_ignore_iff] at hm2
                      obtain ⟨w, hw, hwid, hcase2⟩ := hm2
                      rw [t] at hcase2
                      rcases hcase2 with ⟨t2, _⟩ | ⟨t2, _⟩ | ⟨_, t2⟩
                      · cases t2
                      · cases t2
                      · have hwB := hinB w hw (by rw [hwid, hzid])
                          (by rw [t2, hx0t]; intro h; cases h)
                        exact hordB.2.1 hx0t w hwB (by rw [hwid, hzid]) t2
                    · cases t
                  | CHANGE_TYPE_DELETE =>
                    exfalso
                    have hm := hmarked x0 hx0L hx0k (by rw [hx0t]; intro h; cases h)
                    rw [coalesced_ignore_iff] at hm
                    obtain ⟨w, hw, hwid, hcase⟩ := hm
                    rw [hx0t] at hcase
                    rcases hcase with ⟨t, _⟩ | ⟨t, _⟩ | ⟨_, t⟩
                    · cases t
                    · cases t
                    · have hwB := hinB w hw hwid (by rw [t, hx0t]; intro h; cases h)
                      exact hordB.1 hx0t w hwB hwid
              · rw [e]
                rfl
            · have hno : coalesced_ignore L c = false := by
                rw [Bool.eq_false_iff]
                intro hx
                rw [coalesced_ignore_iff] at hx
                obtain ⟨c1, hmem, hid1, hcase⟩ := hx
                rw [ht] at hcase
                rcases hcase with ⟨t, _⟩ | ⟨t, _⟩ | ⟨_, t⟩
                · cases t
                · cases t
                · exact hI ⟨c1, hmem, hid1, t⟩
              rw [hself c hcL hno, heff]
      · rw [if_neg hk, if_neg hk]
        exact ih (c :: Q) hL1 (fun x hx hxk => by
          rcases List.mem_cons.mp hx with e | e
          · rw [e] at hxk; exact absurd hxk hk
          · exact hQ x e hxk)
  exact key L [] (by simp) (fun x hx => by cases hx)

theorem loose_views_eq_of_at (d1 d2 : db) (h : ∀ i t, loose_at d2 i t ↔ loose_at d1 i t) :
    loose_views d2 = loose_views d1 := by
  rcases Nat.le_total d1.record_array.count d2.record_array.count with hle | hle
  · exact loose_views_eq d1 d2 hle h
  · exact (loose_views_eq d2 d1 hle (fun i t => (h i t).symm)).symm

/-- C8 (amended).  For an index state reachable from `db_create` that holds a
record and a change list, oldest change first and with no change marked, in
which no change follows a DELETE of its id and no INSERT follows an UPDATE of
its id, a record number passes to another id only after a DELETE, and the index
holds no live record under a record number whose first change in the list is an
INSERT: when no allocation fails and the record array stays within `2^32`
records, `db_apply_changes` on the list marked by `ntfs_usn_mark_ignore` and on
the list as it is both return and leave the same set of live records, each
record as often, and the same `latest_usn`. -/
theorem C8_coalesced_apply_same_live_records (heap : Nat → Bool) (d : db)
    (changes : List change) (hreach : reachable d) (hall : ∀ n, heap n = true)
    (hne : d.record_array.count ≠ 0)
    (hbound : d.record_array.count + changes.length ≤ 2 ^ 32)
    (hunmarked : ∀ c ∈ changes, c.ignore = false) (hord : in_rule_order changes)
    (hslots : slots_released changes)
    (hfresh : ∀ c ∈ changes,
      (changes.find? (fun x => decide (record_number x.id = record_number c.id))).map
          (fun x => x.type) = some CHANGE_TYPE_INSERT →
        lookup_live d (record_number c.id) = none) :
    ∃ d1 d2, db_apply_changes heap d (ntfs_usn_mark_ignore changes) = some d1 ∧
      db_apply_changes heap d changes = some d2 ∧
      same_live_records d1 d2 ∧ (live_records d1).Perm (live_records d2) ∧
      d1.latest_usn = d2.latest_usn := by
  have hok := reachable_ok d hreach
  rw [ntfs_usn_mark_ignore_ordered changes hord]
  obtain ⟨d1, hrun1, hok1, husn1, _, hc1, hll1, hloose1⟩ :=
    db_apply_changes_effect_at heap hall
      (changes.map (fun c => { c with ignore := c.ignore || coalesced_ignore changes c })) d hok
      hne (by rw [List.length_map]; exact hbound)
  obtain ⟨d2, hrun2, hok2, husn2, _, hc2, hll2, hloose2⟩ :=
    db_apply_changes_effect_at heap hall changes d hok hne hbound
  rw [List.length_map] at hc1
  have hll : ∀ k, lookup_live d1 k = lookup_live d2 k := by
    intro k
    rw [hll1 k, hll2 k]
    apply coalesced_last_effect_slots changes k _ hunmarked hord hslots
    intro x0 hx0 ht
    have hmem : x0 ∈ changes := List.mem_of_find?_eq_some hx0
    have hk : record_number x0.id = k := of_decide_eq_true (List.find?_eq_some.mp hx0).1
    rw [← hk]
    apply hfresh x0 hmem
    rw [hk, hx0]
    exact congrArg some ht
  have hperm : (live_records d1).Perm (live_records d2) := by
    have p1 := named_views_perm d1 hok1 (by omega)
      (max d1.lookup_array.count_allocated d2.lookup_array.count_allocated)
      (Nat.le_max_left _ _)
    have p2 := named_views_perm d2 hok2 (by omega)
      (max d1.lookup_array.count_allocated d2.lookup_array.count_allocated)
      (Nat.le_max_right _ _)
    have hf : (List.range (max d1.lookup_array.count_allocated
          d2.lookup_array.count_allocated)).filterMap (lookup_live d1)
        = (List.range (max d1.lookup_array.count_allocated
          d2.lookup_array.count_allocated)).filterMap (lookup_live d2) := by
      congr 1
      funext k
      exact hll k
    rw [hf] at p1
    refine (live_records_perm_split d1).trans
      (List.Perm.trans ?_ (live_records_perm_split d2).symm)
    rw [loose_views_eq_of_at d2 d1 (fun i t => (hloose1 i t).trans (hloose2 i t).symm)]
    exact List.Perm.append_right _ (p1.trans p2.symm)
  exact ⟨d1, d2, hrun1, hrun2, fun t => hperm.mem_iff, hperm, by
    rw [husn1, husn2, List.foldl_map]⟩

/-- The amended C8 at the index holding "m", ".", "ra" and "a", a heap that
honours every request and the list [UPDATE 10 "s", DELETE 10, INSERT 10 + 2^48
"n", INSERT 20 "t", UPDATE 20 "u"], on which `ntfs_usn_mark_ignore` marks the
UPDATE of id 10 and the INSERT of id 20. -/
theorem C8_coalesced_apply_same_live_records_witness :
    (reachable sample_db ∧ (∀ n, heap_always n = true) ∧ sample_db.record_array.count ≠ 0 ∧
      sample_db.record_array.count + slot_reuse_changes.length ≤ 2 ^ 32 ∧
      (∀ c ∈ slot_reuse_changes, c.ignore = false) ∧ in_rule_order slot_reuse_changes ∧
      slots_released slot_reuse_changes ∧
      (∀ c ∈ slot_reuse_changes,
        (slot_reuse_changes.find?
            (fun x => decide (record_number x.id = record_number c.id))).map
            (fun x => x.type) = some CHANGE_TYPE_INSERT →
          lookup_live sample_db (record_number c.id) = none) ∧
      (ntfs_usn_mark_ignore slot_reuse_changes).map (fun c => c.ignore)
        = [true, false, false, true, false]) ∧
    ∃ d1 d2, db_apply_changes heap_always sample_db (ntfs_usn_mark_ignore slot_reuse_changes)
        = some d1 ∧
      db_apply_changes heap_always sample_db slot_reuse_changes = some d2 ∧
      same_live_records d1 d2 ∧ (live_records d1).Perm (live_records d2) ∧
      d1.latest_usn = d2.latest_usn :=
  ⟨⟨⟨_, db_of_calls_eq _ (by decide)⟩, fun _ => rfl, by decide, by decide, by decide,
      by simp [in_rule_order, slot_reuse_changes],
      by simp [slots_released, slot_reuse_changes, record_number], by decide, by decide⟩,
    C8_coalesced_apply_same_live_records heap_always sample_db slot_reuse_changes
      ⟨_, db_of_calls_eq _ (by decide)⟩ (fun _ => rfl) (by decide) (by decide) (by decide)
      (by simp [in_rule_order, slot_reuse_changes])
      (by simp [slots_released, slot_reuse_changes, record_number]) (by decide)⟩

/-- C8 (counterexample).  Over the index holding "m" (id 0), "." (id 5), "ra"
(id 10) and "a" (id 11).  On [INSERT id 10 "t", DELETE id 10]
`ntfs_usn_mark_ignore` marks both changes, so the marked list leaves all four
records live, while the list as it is replaces the record of id 10 and then
deletes it, leaving three.  On [INSERT id 20 "t", INSERT id 20 + 2^48 "u",
DELETE id 20] it marks the changes of id 20, so the marked list leaves the
record of id 20 + 2^48 live, while in the list as it is the DELETE of id 20
removes that record, which holds the lookup entry of record number 20. -/
theorem C8_fails_for_live_slot :
    (db_apply_changes heap_always sample_db (ntfs_usn_mark_ignore insert_delete_changes)).map
        live_records
      = some [(0, 0, 0, [109]), (5, 5, 0, [46]), (10, 5, 0, [114, 97]), (11, 5, 0, [97])] ∧
    (db_apply_changes heap_always sample_db insert_delete_changes).map live_records
      = some [(0, 0, 0, [109]), (5, 5, 0, [46]), (11, 5, 0, [97])] ∧
    (db_apply_changes heap_always sample_db (ntfs_usn_mark_ignore slot_taken_changes)).map
        live_records
      = some [(0, 0, 0, [109]), (5, 5, 0, [46]), (10, 5, 0, [114, 97]), (11, 5, 0, [97]),
          (20 + 2 ^ 48, 5, 0, [117])] ∧
    (db_apply_changes heap_always sample_db slot_taken_changes).map live_records
      = some [(0, 0, 0, [109]), (5, 5, 0, [46]), (10, 5, 0, [114, 97]), (11, 5, 0, [97])] := by
  refine ⟨?_, ?_, ?_, ?_⟩ <;> decide

/-- Where the loop of `ntfs_usn_mark_ignore` marks a change because of an
earlier one, and on the empty index, the two lists part: over the index holding
"m", ".", "ra" and "a", on [DELETE id 10, DELETE id 10] both changes are
marked, so the marked list leaves "ra" live and the list as it is does not; over
the empty index, on [INSERT id 8 "a", UPDATE id 8 "b"] the marked list leaves
"b" alone and the list as it is leaves "a" as well, stored at index 0. -/
theorem coalesced_apply_parts :
    (db_apply_changes heap_always sample_db (ntfs_usn_mark_ignore delete_delete_changes)).map
        live_records
      = some [(0, 0, 0, [109]), (5, 5, 0, [46]), (10, 5, 0, [114, 97]), (11, 5, 0, [97])] ∧
    (db_apply_changes heap_always sample_db delete_delete_changes).map live_records
      = some [(0, 0, 0, [109]), (5, 5, 0, [46]), (11, 5, 0, [97])] ∧
    (db_apply_changes heap_always db_create
        (ntfs_usn_mark_ignore insert_update_changes)).map live_records
      = some [(8, 5, 0, [98])] ∧
    (db_apply_changes heap_always db_create insert_update_changes).map live_records
      = some [(8, 5, 0, [97]), (8, 5, 0, [98])] := by
  refine ⟨?_, ?_, ?_, ?_⟩ <;> decide

/-! ## The snapshot file -/

theorem bytes_of_length (m : Nat → Nat) (n : Nat) : (bytes_of m n).length = n := by
  simp [bytes_of]

theorem le_bytes_length (n v : Nat) : (le_bytes n v).length = n := by
  simp [le_bytes]

theorem mem_of_bytes_of (m : Nat → Nat) (n j : Nat) (h : j < n) :
    mem_of (bytes_of m n) j = m j := by
  simp [mem_of, bytes_of, List.getD_eq_getElem?_getD, h]

theorem bytes_of_mem_of (L : List Nat) : bytes_of (mem_of L) L.length = L := by
  unfold bytes_of mem_of
  exact getD_range_map L

theorem bytes_of_congr (m1 m2 : Nat → Nat) (n : Nat) (h : ∀ j, j < n → m1 j = m2 j) :
    bytes_of m1 n = bytes_of m2 n := by
  unfold bytes_of
  apply List.map_congr_left
  intro j hj
  exact h j (List.mem_range.mp hj)

theorem le_value_le_bytes_aux (v : Nat) : ∀ n s,
    le_value ((List.range' s n).map (fun i => v / 256 ^ i % 256)) = v / 256 ^ s % 256 ^ n := by
  intro n
  induction n with
  | zero => intro s; simp [le_value, Nat.mod_one]
  | succ n ih =>
    intro s
    rw [List.range'_succ, List.map_cons, le_value, ih (s + 1)]
    rw [Nat.pow_succ 256 s, ← Nat.div_div_eq_div_mul, Nat.pow_succ 256 n,
      Nat.mul_comm (256 ^ n) 256, Nat.mod_mul]

/-- Little-endian bytes give back the value they were made of. -/
theorem le_value_le_bytes (n v : Nat) : le_value (le_bytes n v) = v % 256 ^ n := by
  unfold le_bytes
  rw [List.range_eq_range', le_value_le_bytes_aux v n 0]
  try simp

theorem le_value_bytes_of (m : Nat → Nat) (n v : Nat)
    (h : ∀ j, j < n → m j = v / 256 ^ j % 256) : le_value (bytes_of m n) = v % 256 ^ n := by
  rw [← le_value_le_bytes]
  congr 1
  unfold bytes_of le_bytes
  apply List.map_congr_left
  intro j hj
  exact h j (List.mem_range.mp hj)

theorem file_write_ok (f : file) (buffer : Nat → Nat) (size : Nat) (hok : f.ok = true)
    (h : size < 2 ^ 32) :
    file_write f buffer size = { ok := true, data := f.data ++ bytes_of buffer size } := by
  unfold file_write
  rw [if_pos hok]
  simp only [Nat.mod_eq_of_lt h, if_true, hok]

theorem file_read_ok (bytes rest : List Nat) (size : Nat) (hl : bytes.length = size)
    (h : size < 2 ^ 32) :
    file_read { ok := true, data := bytes ++ rest } size = ({ ok := true, data := rest }, bytes) := by
  unfold file_read
  subst hl
  simp only [if_true, Nat.mod_eq_of_lt h, List.take_left', List.drop_left']

theorem file_write_array_ok {α : Type} (f : file) (a : array α) (w : Nat) (block : Nat → Nat)
    (hok : f.ok = true) (h : a.count_allocated * a.elem_size < 2 ^ 32) :
    file_write_array f a w block
      = { ok := true
          data := f.data ++ array_bytes w a.count a.count_allocated a.elem_size
            ++ bytes_of block (a.count_allocated * a.elem_size) } := by
  unfold file_write_array
  have h64 : a.count_allocated * a.elem_size % 2 ^ 64 = a.count_allocated * a.elem_size :=
    Nat.mod_eq_of_lt (by omega)
  rw [file_write_ok f _ sizeof_array hok (by decide), h64, file_write_ok _ _ _ rfl h]
  have hl : (array_bytes w a.count a.count_allocated a.elem_size).length = sizeof_array := by
    simp [array_bytes, le_bytes_length, sizeof_array]
  rw [← hl, bytes_of_mem_of]

theorem file_read_array_ok (heap : Nat → Bool) (w count count_allocated elem_size : Nat)
    (data block rest : List Nat) (h1 : count < 2 ^ 64) (h2 : count_allocated < 2 ^ 64)
    (h3 : elem_size < 2 ^ 64) (hb : block.length = count_allocated * elem_size)
    (h : count_allocated * elem_size < 2 ^ 32)
    (hheap : heap (count_allocated * elem_size) = true)
    (hdata : data = array_bytes w count count_allocated elem_size ++ (block ++ rest)) :
    file_read_array heap { ok := true, data := data }
      = ({ ok := true, data := rest },
         { elems_word := w % 2 ^ 64, count := count, count_allocated := count_allocated,
           elem_size := elem_size, block := some block }) := by
  subst hdata
  unfold array_bytes
  unfold file_read_array
  have hl : (le_bytes 8 w ++ le_bytes 8 count ++ le_bytes 8 count_allocated
      ++ le_bytes 8 elem_size).length = sizeof_array := by
    simp [le_bytes_length, sizeof_array]
  rw [file_read_ok _ _ sizeof_array hl (by decide)]
  have e1 : (le_bytes 8 w ++ le_bytes 8 count ++ le_bytes 8 count_allocated
      ++ le_bytes 8 elem_size).take 8 = le_bytes 8 w := by
    rw [List.append_assoc, List.append_assoc]
    exact List.take_left' (le_bytes_length 8 w)
  have e2 : ((le_bytes 8 w ++ le_bytes 8 count ++ le_bytes 8 count_allocated
      ++ le_bytes 8 elem_size).drop 8).take 8 = le_bytes 8 count := by
    rw [List.append_assoc, List.append_assoc, List.drop_left' (le_bytes_length 8 w)]
    exact List.take_left' (le_bytes_length 8 count)
  have e3 : ((le_bytes 8 w ++ le_bytes 8 count ++ le_bytes 8 count_allocated
      ++ le_bytes 8 elem_size).drop 16).take 8 = le_bytes 8 count_allocated := by
    rw [List.append_assoc, List.drop_left' (by simp [le_bytes_length])]
    exact List.take_left' (le_bytes_length 8 count_allocated)
  have e4 : ((le_bytes 8 w ++ le_bytes 8 count ++ le_bytes 8 count_allocated
      ++ le_bytes 8 elem_size).drop 24).take 8 = le_bytes 8 elem_size := by
    rw [List.drop_left' (by simp [le_bytes_length])]
    exact List.take_of_length_le (by simp [le_bytes_length])
  dsimp only
  rw [e1, e2, e3, e4, le_value_le_bytes, le_value_le_bytes, le_value_le_bytes,
    le_value_le_bytes]
  have p : (256 : Nat) ^ 8 = 2 ^ 64 := by norm_num
  rw [p, Nat.mod_eq_of_lt h1, Nat.mod_eq_of_lt h2, Nat.mod_eq_of_lt h3]
  have h64 : count_allocated * elem_size % 2 ^ 64 = count_allocated * elem_size :=
    Nat.mod_eq_of_lt (by omega)
  rw [h64]
  unfold file_read_and_allocate
  simp only [if_true, hheap]
  rw [file_read_ok _ _ _ hb h]
  rfl

theorem record_block_at (elems : Nat → record) (i j : Nat) (hj : j < 32) :
    record_block elems (sizeof_record * i + j) = (record_bytes (elems i)).getD j 0 := by
  unfold record_block sizeof_record
  rw [show (32 * i + j) / 32 = i by omega, show (32 * i + j) % 32 = j by omega]

theorem record_at_record_block (elems : Nat → record) (n i : Nat) (hi : i < n)
    (hfit : record_fits (elems i)) :
    record_at (mem_of (bytes_of (record_block elems) (n * sizeof_record))) (sizeof_record * i)
      = elems i := by
  obtain ⟨f1, f2, f3, f4⟩ := hfit
  have hin : ∀ j, j < 32 →
      mem_of (bytes_of (record_block elems) (n * sizeof_record)) (sizeof_record * i + j)
        = (record_bytes (elems i)).getD j 0 := by
    intro j hj
    rw [mem_of_bytes_of _ _ _ (by unfold sizeof_record; nlinarith), record_block_at elems i j hj]
  have p8 : (256 : Nat) ^ 8 = 2 ^ 64 := by norm_num
  have p4 : (256 : Nat) ^ 4 = 2 ^ 32 := by norm_num
  have a1 : le_value (bytes_of (fun j =>
      mem_of (bytes_of (record_block elems) (n * sizeof_record)) (sizeof_record * i + j)) 8)
      = (elems i).name_offset := by
    rw [le_value_bytes_of _ 8 (elems i).name_offset, p8, Nat.mod_eq_of_lt f1]
    intro j hj
    rw [hin j (by omega)]
    interval_cases j <;> rfl
  have a2 : le_value (bytes_of (fun j =>
      mem_of (bytes_of (record_block elems) (n * sizeof_record)) (sizeof_record * i + 8 + j)) 4)
      = (elems i).attributes := by
    rw [le_value_bytes_of _ 4 (elems i).attributes, p4, Nat.mod_eq_of_lt f2]
    intro j hj
    rw [Nat.add_assoc, hin (8 + j) (by omega)]
    interval_cases j <;> rfl
  have a3 : le_value (bytes_of (fun j =>
      mem_of (bytes_of (record_block elems) (n * sizeof_record)) (sizeof_record * i + 16 + j)) 8)
      = (elems i).id := by
    rw [le_value_bytes_of _ 8 (elems i).id, p8, Nat.mod_eq_of_lt f3]
    intro j hj
    rw [Nat.add_assoc, hin (16 + j) (by omega)]
    interval_cases j <;> rfl
  have a4 : le_value (bytes_of (fun j =>
      mem_of (bytes_of (record_block elems) (n * sizeof_record)) (sizeof_record * i + 24 + j)) 8)
      = (elems i).parent_id := by
    rw [le_value_bytes_of _ 8 (elems i).parent_id, p8, Nat.mod_eq_of_lt f4]
    intro j hj
    rw [Nat.add_assoc, hin (24 + j) (by omega)]
    interval_cases j <;> rfl
  unfold record_at
  rw [a1, a2, a3, a4]

theorem u32_at_u32_block (elems : Nat → Nat) (n i : Nat) (hi : i < n) (hfit : elems i < 2 ^ 32) :
    u32_at (mem_of (bytes_of (u32_block elems) (n * 4))) (4 * i) = elems i := by
  unfold u32_at
  have p4 : (256 : Nat) ^ 4 = 2 ^ 32 := by norm_num
  rw [le_value_bytes_of _ 4 (elems i), p4, Nat.mod_eq_of_lt hfit]
  intro j hj
  rw [mem_of_bytes_of _ _ _ (by omega)]
  unfold u32_block
  rw [show (4 * i + j) / 4 = i by omega, show (4 * i + j) % 4 = j by omega]

/-- What `db_write_to_file` writes when every block is smaller than 4 GiB. -/
theorem db_write_to_file_eq (d : db) (w1 w2 w3 : Nat)
    (hn : d.name_buffer.count_allocated * d.name_buffer.elem_size < 2 ^ 32)
    (hr : d.record_array.count_allocated * d.record_array.elem_size < 2 ^ 32)
    (hl : d.lookup_array.count_allocated * d.lookup_array.elem_size < 2 ^ 32) :
    db_write_to_file d w1 w2 w3
      = (true,
          le_bytes 8 d.latest_journal_id ++ (le_bytes 8 d.latest_usn ++
          (le_bytes 4 d.records_not_in_use_count ++
          (array_bytes w1 d.name_buffer.count d.name_buffer.count_allocated
              d.name_buffer.elem_size ++
          (bytes_of d.name_buffer.elems
              (d.name_buffer.count_allocated * d.name_buffer.elem_size) ++
          (array_bytes w2 d.record_array.count d.record_array.count_allocated
              d.record_array.elem_size ++
          (bytes_of (record_block d.record_array.elems)
              (d.record_array.count_allocated * d.record_array.elem_size) ++
          (array_bytes w3 d.lookup_array.count d.lookup_array.count_allocated
              d.lookup_array.elem_size ++
          (bytes_of (u32_block d.lookup_array.elems)
              (d.lookup_array.count_allocated * d.lookup_array.elem_size) ++ []))))))))) := by
  unfold db_write_to_file
  dsimp only
  rw [file_write_ok _ _ 8 rfl (by decide), file_write_ok _ _ 8 rfl (by decide),
    file_write_ok _ _ 4 rfl (by decide), file_write_array_ok _ _ _ _ rfl hn,
    file_write_array_ok _ _ _ _ rfl hr, file_write_array_ok _ _ _ _ rfl hl]
  have e8 : ∀ v, bytes_of (mem_of (le_bytes 8 v)) 8 = le_bytes 8 v := by
    intro v
    have := bytes_of_mem_of (le_bytes 8 v)
    rwa [le_bytes_length] at this
  have e4 : ∀ v, bytes_of (mem_of (le_bytes 4 v)) 4 = le_bytes 4 v := by
    intro v
    have := bytes_of_mem_of (le_bytes 4 v)
    rwa [le_bytes_length] at this
  simp only [e8, e4, List.append_assoc, List.nil_append, List.append_nil]

/-- What `db_create_from_file` reads from a file made of three words and three
arrays whose blocks are smaller than 4 GiB, when the heap honours the three
allocations. -/
theorem db_create_from_file_eq (heap : Nat → Bool) (j u r w1 c1 a1 e1 w2 c2 a2 e2 w3 c3 a3 e3 : Nat)
    (b1 b2 b3 : List Nat)
    (hj : j < 2 ^ 64) (hu : u < 2 ^ 64) (hr : r < 2 ^ 32)
    (hc1 : c1 < 2 ^ 64) (ha1 : a1 < 2 ^ 64) (he1 : e1 < 2 ^ 64) (hb1 : b1.length = a1 * e1)
    (hs1 : a1 * e1 < 2 ^ 32) (hh1 : heap (a1 * e1) = true)
    (hc2 : c2 < 2 ^ 64) (ha2 : a2 < 2 ^ 64) (he2 : e2 < 2 ^ 64) (hb2 : b2.length = a2 * e2)
    (hs2 : a2 * e2 < 2 ^ 32) (hh2 : heap (a2 * e2) = true)
    (hc3 : c3 < 2 ^ 64) (ha3 : a3 < 2 ^ 64) (he3 : e3 < 2 ^ 64) (hb3 : b3.length = a3 * e3)
    (hs3 : a3 * e3 < 2 ^ 32) (hh3 : heap (a3 * e3) = true) :
    db_create_from_file heap
        (le_bytes 8 j ++ (le_bytes 8 u ++ (le_bytes 4 r ++
          (array_bytes w1 c1 a1 e1 ++ (b1 ++
          (array_bytes w2 c2 a2 e2 ++ (b2 ++
          (array_bytes w3 c3 a3 e3 ++ (b3 ++ [])))))))))
      = some
          { latest_journal_id := j
            latest_usn := u
            records_not_in_use_count := r
            name_buffer :=
              { elems := mem_of b1, count := c1, count_allocated := a1, elem_size := e1 }
            record_array :=
              { elems := fun i => record_at (mem_of b2) (sizeof_record * i)
                count := c2, count_allocated := a2, elem_size := e2 }
            lookup_array :=
              { elems := fun i => u32_at (mem_of b3) (4 * i)
                count := c3, count_allocated := a3, elem_size := e3 } } := by
  unfold db_create_from_file
  dsimp only
  rw [file_read_ok _ _ 8 (le_bytes_length 8 j) (by decide)]
  dsimp only
  rw [file_read_ok _ _ 8 (le_bytes_length 8 u) (by decide)]
  dsimp only
  rw [file_read_ok _ _ 4 (le_bytes_length 4 r) (by decide)]
  dsimp only
  rw [file_read_array_ok heap w1 c1 a1 e1 _ b1 _ hc1 ha1 he1 hb1 hs1 hh1 rfl]
  dsimp only
  rw [file_read_array_ok heap w2 c2 a2 e2 _ b2 _ hc2 ha2 he2 hb2 hs2 hh2 rfl]
  dsimp only
  rw [file_read_array_ok heap w3 c3 a3 e3 _ b3 _ hc3 ha3 he3 hb3 hs3 hh3 rfl]
  have p8 : (256 : Nat) ^ 8 = 2 ^ 64 := by norm_num
  have p4 : (256 : Nat) ^ 4 = 2 ^ 32 := by norm_num
  simp only [if_true, le_value_le_bytes, p8, p4, Nat.mod_eq_of_lt hj, Nat.mod_eq_of_lt hu,
    Nat.mod_eq_of_lt hr, Option.getD_some]

/-- C11 (amended).  For every index state a C program can hold whose three
blocks are each smaller than 4 GiB, `db_write_to_file` returns true, and when
the heap honours the three allocations `db_create_from_file` on the bytes
written returns true with the same `latest_journal_id`, `latest_usn` and
`records_not_in_use_count` and, for each of the three arrays, the same `count`,
`count_allocated` and `elem_size`, the same elements in the block and the same
`count_allocated * elem_size` bytes. -/
theorem C11_snapshot_round_trip (heap : Nat → Bool) (d : db) (w1 w2 w3 : Nat)
    (hfit : db_fits d)
    (hn : d.name_buffer.count_allocated * d.name_buffer.elem_size < 2 ^ 32)
    (hr : d.record_array.count_allocated * d.record_array.elem_size < 2 ^ 32)
    (hl : d.lookup_array.count_allocated * d.lookup_array.elem_size < 2 ^ 32)
    (h1 : heap (d.name_buffer.count_allocated * d.name_buffer.elem_size) = true)
    (h2 : heap (d.record_array.count_allocated * d.record_array.elem_size) = true)
    (h3 : heap (d.lookup_array.count_allocated * d.lookup_array.elem_size) = true) :
    (db_write_to_file d w1 w2 w3).1 = true ∧
    ∃ d1, db_create_from_file heap (db_write_to_file d w1 w2 w3).2 = some d1 ∧
      d1.latest_journal_id = d.latest_journal_id ∧ d1.latest_usn = d.latest_usn ∧
      d1.records_not_in_use_count = d.records_not_in_use_count ∧
      (d1.name_buffer.count = d.name_buffer.count ∧
        d1.name_buffer.count_allocated = d.name_buffer.count_allocated ∧
        d1.name_buffer.elem_size = d.name_buffer.elem_size) ∧
      (d1.record_array.count = d.record_array.count ∧
        d1.record_array.count_allocated = d.record_array.count_allocated ∧
        d1.record_array.elem_size = d.record_array.elem_size) ∧
      (d1.lookup_array.count = d.lookup_array.count ∧
        d1.lookup_array.count_allocated = d.lookup_array.count_allocated ∧
        d1.lookup_array.elem_size = d.lookup_array.elem_size) ∧
      (∀ i, i < d.name_buffer.count_allocated →
        d1.name_buffer.elems i = d.name_buffer.elems i) ∧
      (∀ i, i < d.record_array.count_allocated →
        d1.record_array.elems i = d.record_array.elems i) ∧
      (∀ i, i < d.lookup_array.count_allocated →
        d1.lookup_array.elems i = d.lookup_array.elems i) ∧
      bytes_of d1.name_buffer.elems (d.name_buffer.count_allocated * d.name_buffer.elem_size)
        = bytes_of d.name_buffer.elems
            (d.name_buffer.count_allocated * d.name_buffer.elem_size) ∧
      bytes_of (record_block d1.record_array.elems)
          (d.record_array.count_allocated * d.record_array.elem_size)
        = bytes_of (record_block d.record_array.elems)
            (d.record_array.count_allocated * d.record_array.elem_size) ∧
      bytes_of (u32_block d1.lookup_array.elems)
          (d.lookup_array.count_allocated * d.lookup_array.elem_size)
        = bytes_of (u32_block d.lookup_array.elems)
            (d.lookup_array.count_allocated * d.lookup_array.elem_size) := by
  obtain ⟨f1, f2, f3, ⟨n1, n2, n3⟩, ⟨r1, r2, r3⟩, ⟨l1, l2, l3⟩, fn, fr, fl⟩ := hfit
  rw [db_write_to_file_eq d w1 w2 w3 hn hr hl]
  have he1 : ∀ i, i < d.name_buffer.count_allocated →
      mem_of (bytes_of d.name_buffer.elems
        (d.name_buffer.count_allocated * d.name_buffer.elem_size)) i = d.name_buffer.elems i :=
    fun i hi => mem_of_bytes_of _ _ _ (by rw [n3]; omega)
  have he2 : ∀ i, i < d.record_array.count_allocated →
      record_at (mem_of (bytes_of (record_block d.record_array.elems)
        (d.record_array.count_allocated * d.record_array.elem_size))) (sizeof_record * i)
        = d.record_array.elems i := by
    intro i hi
    rw [r3]
    exact record_at_record_block _ _ i hi (fr i hi)
  have he3 : ∀ i, i < d.lookup_array.count_allocated →
      u32_at (mem_of (bytes_of (u32_block d.lookup_array.elems)
        (d.lookup_array.count_allocated * d.lookup_array.elem_size))) (4 * i)
        = d.lookup_array.elems i := by
    intro i hi
    rw [l3]
    exact u32_at_u32_block _ _ i hi (fl i hi)
  refine ⟨rfl, _, db_create_from_file_eq heap _ _ _ w1 _ _ _ w2 _ _ _ w3 _ _ _ _ _ _ f1 f2 f3
    n1 n2 (by omega) (bytes_of_length _ _) hn h1 r1 r2 (by rw [r3]; decide)
    (bytes_of_length _ _) hr h2 l1 l2 (by omega) (bytes_of_length _ _) hl h3,
    rfl, rfl, rfl, ⟨rfl, rfl, rfl⟩, ⟨rfl, rfl, rfl⟩, ⟨rfl, rfl, rfl⟩, he1, he2, he3, ?_, ?_, ?_⟩
  · apply bytes_of_congr
    intro k hk
    exact mem_of_bytes_of _ _ _ hk
  · apply bytes_of_congr
    intro k hk
    have hlt : k / sizeof_record < d.record_array.count_allocated := by
      rw [r3, Nat.mul_comm] at hk
      exact Nat.div_lt_of_lt_mul hk
    exact congrArg (fun r => (record_bytes r).getD (k % sizeof_record) 0) (he2 _ hlt)
  · apply bytes_of_congr
    intro k hk
    have hlt : k / 4 < d.lookup_array.count_allocated := by
      rw [l3, Nat.mul_comm] at hk
      exact Nat.div_lt_of_lt_mul hk
    exact congrArg (fun v => v / 256 ^ (k % 4) % 256) (he3 _ hlt)

/-- The amended C11 at an index with one record, a heap that honours every
request and the pointer words 4096, 8192 and 12288. -/
theorem C11_snapshot_round_trip_witness :
    db_fits small_db ∧
    small_db.name_buffer.count_allocated * small_db.name_buffer.elem_size < 2 ^ 32 ∧
    (db_write_to_file small_db 4096 8192 12288).1 = true ∧
    ∃ d1, db_create_from_file heap_always (db_write_to_file small_db 4096 8192 12288).2
        = some d1 ∧
      d1.latest_journal_id = 77 ∧ d1.latest_usn = 1000 ∧
      d1.record_array.elems 0 = ⟨0, 16, 5, 5⟩ ∧ d1.name_buffer.elems 0 = 97 := by
  have h := C11_snapshot_round_trip heap_always small_db 4096 8192 12288 (by decide) (by decide)
    (by decide) (by decide) rfl rfl rfl
  obtain ⟨hw, d1, hr, a1, a2, _, _, _, _, a7, a8, _⟩ := h
  exact ⟨by decide, by decide, hw, d1, hr, a1, a2, a8 0 (by decide), a7 0 (by decide)⟩

/-- C11 (counterexample).  The index made by `db_create` with a name buffer of
4 GiB is one a C program can hold; `db_write_to_file` asks `WriteFile` for
`(u32) 2^32 = 0` bytes of the block, finds `bytes_written != size` and returns
false, having written the three words and the header of the name buffer (52
bytes); `db_create_from_file` on these bytes returns false, also with a heap
that honours every request. -/
theorem C11_fails_for_block_of_4GiB :
    db_fits large_names_db ∧
    ((db_write_to_file large_names_db 0 0 0).1,
      (db_write_to_file large_names_db 0 0 0).2.length) = (false, 52) ∧
    (db_create_from_file heap_always (db_write_to_file large_names_db 0 0 0).2).isNone
      = true := by
  refine ⟨⟨by decide, by decide, by decide, ⟨by decide, by decide, by decide⟩,
    ⟨by decide, by decide, by decide⟩, ⟨by decide, by decide, by decide⟩,
    fun i _ => (by decide : (0 : Nat) < 256),
    fun i _ => (by decide : record_fits ⟨0, 0, 0, 0⟩),
    fun i _ => (by decide : (0 : Nat) < 2 ^ 32)⟩, by decide, by decide⟩

/-! ## The path of a record -/

theorem walk_ancestors_collect_chain (d : db) (abc : Nat) :
    ∀ (chain : List Nat), parent_chain d chain →
      ∀ (rounds count : Nat) (buf : Nat → Nat), chain.length ≤ rounds → 1 ≤ count →
        count + chain.length ≤ abc + 1 →
        ∃ buf1, walk_ancestors_collect d abc rounds (chain.getD 0 0) count buf
            = some (count + chain.length - 1, buf1) ∧
          (∀ i, i < chain.length → buf1 (count - 1 + i) = chain.getD i 0) ∧
          ∀ j, j < count - 1 → buf1 j = buf j := by
  intro chain
  induction chain with
  | nil => intro h; cases h
  | cons c rest ih =>
    intro hch rounds count buf hr hc hfit
    cases rest with
    | nil =>
      cases rounds with
      | zero => simp at hr
      | succ rounds =>
        have hroot : (d.record_array.elems c).id = (d.record_array.elems c).parent_id := hch
        refine ⟨write_at buf (count - 1) c, ?_, ?_, ?_⟩
        · simp only [walk_ancestors_collect, List.getD_cons_zero, if_pos hroot, List.length_cons,
            List.length_nil]
          rfl
        · intro i hi
          simp only [List.length_cons, List.length_nil] at hi
          have : i = 0 := by omega
          subst this
          simp [write_at]
        · intro j hj
          simp only [write_at]
          rw [if_neg (by omega)]
    | cons c1 rest1 =>
      obtain ⟨hne, hpar, hrest⟩ := hch
      cases rounds with
      | zero => simp at hr
      | succ rounds =>
        simp only [List.length_cons] at hr hfit
        obtain ⟨buf1, h1, h2, h3⟩ := ih hrest rounds (count + 1) (write_at buf (count - 1) c)
          (by simp only [List.length_cons]; omega) (by omega)
          (by simp only [List.length_cons]; omega)
        refine ⟨buf1, ?_, ?_, ?_⟩
        · simp only [walk_ancestors_collect, List.getD_cons_zero, if_neg hne, hpar]
          rw [if_neg (by omega)]
          simp only [List.getD_cons_zero] at h1
          rw [h1]
          simp only [List.length_cons]
          congr 2
          omega
        · intro i hi
          cases i with
          | zero =>
            rw [Nat.add_zero, h3 (count - 1) (by omega)]
            simp [write_at]
          | succ i =>
            have := h2 i (by simp only [List.length_cons] at hi ⊢; omega)
            simp only [List.getD_cons_succ]
            rw [← this]
            congr 1
            omega
        · intro j hj
          rw [h3 j (by omega)]
          simp only [write_at]
          rw [if_neg (by omega)]

theorem c_string_eq_record_name (d : db) (c size : Nat)
    (hterm : ∃ t, (d.record_array.elems c).name_offset ≤ t ∧ t < d.name_buffer.count ∧
      d.name_buffer.elems t = 0)
    (hlen : (record_name d c).length < size) :
    c_string d.name_buffer.elems (d.record_array.elems c).name_offset size = record_name d c := by
  unfold record_name at hlen ⊢
  obtain ⟨t, t1, t2, t3⟩ := hterm
  by_cases hle : d.name_buffer.count - (d.record_array.elems c).name_offset ≤ size
  · exact c_string_stable _ _ _ _ _ _ hle (fun _ _ => rfl)
      ⟨t - (d.record_array.elems c).name_offset, by omega,
        by rw [show (d.record_array.elems c).name_offset
          + (t - (d.record_array.elems c).name_offset) = t by omega]; exact t3⟩
  · have hs := c_string_spec d.name_buffer.elems
      (d.name_buffer.count - (d.record_array.elems c).name_offset)
      (d.record_array.elems c).name_offset
    exact (c_string_stable _ _ _ _ _ _ (by omega) (fun _ _ => rfl)
      ⟨_, hlen, hs.2.1 (by omega)⟩).symm

theorem path_of_names_length_le (n : List Nat) (ns : List (List Nat)) :
    n.length + 1 ≤ (path_of_names (n :: ns)).length := by
  simp [path_of_names]

theorem walk_ancestors_concat_chain (d : db) (buf : Nat → Nat) (size : Nat) :
    ∀ (m : Nat) (path : List Nat),
      (∀ i, i < m → ∃ t, (d.record_array.elems (buf i)).name_offset ≤ t ∧
        t < d.name_buffer.count ∧ d.name_buffer.elems t = 0) →
      (path ++ path_of_names
        ((List.range m).reverse.map fun i => record_name d (buf i))).length + 1 ≤ size →
      walk_ancestors_concat d buf size m path
        = some (path ++ path_of_names
            ((List.range m).reverse.map fun i => record_name d (buf i))) := by
  intro m
  induction m with
  | zero =>
    intro path _ _
    simp [walk_ancestors_concat, path_of_names]
  | succ m ih =>
    intro path hterm hfit
    rw [List.range_succ, List.reverse_append, List.reverse_singleton, List.singleton_append,
      List.map_cons, path_of_names] at hfit ⊢
    simp only [List.length_append, List.length_cons] at hfit
    have hname := c_string_eq_record_name d (buf m) size (hterm m (by omega)) (by omega)
    rw [walk_ancestors_concat]
    dsimp only [db_get_record_name]
    rw [hname]
    have h1 : StringCbCatA path size [92] = (path ++ [92], true) := by
      unfold StringCbCatA
      rw [if_pos (by simp only [List.length_singleton]; omega)]
    have h2 : StringCbCatA (path ++ [92]) size (record_name d (buf m))
        = (path ++ [92] ++ record_name d (buf m), true) := by
      unfold StringCbCatA
      rw [if_pos (by simp only [List.length_append, List.length_singleton]; omega)]
    rw [h1]
    dsimp only
    rw [h2]
    dsimp only
    rw [ih (path ++ [92] ++ record_name d (buf m)) (fun i hi => hterm i (by omega))
      (by simp only [List.length_append, List.length_singleton]; omega)]
    simp

/-- The path `walk_ancestors_build_path` builds along a chain of parents. -/
theorem walk_ancestors_build_path_chain (d : db) (chain : List Nat) (path_buffer_size : Nat)
    (hchain : parent_chain d chain) (hlen : chain.length ≤ 256)
    (hterm : ∀ c ∈ chain, ∃ t, (d.record_array.elems c).name_offset ≤ t ∧
      t < d.name_buffer.count ∧ d.name_buffer.elems t = 0)
    (hfit : (chain_path d chain).length + 1 ≤ path_buffer_size) :
    walk_ancestors_build_path d (chain.getD 0 0) 256 path_buffer_size
        = (chain.length, chain_path d chain) := by
  have hpos : 1 ≤ chain.length := by
    cases chain with
    | nil => cases hchain
    | cons c rest => simp
  obtain ⟨buf, h1, h2, _⟩ := walk_ancestors_collect_chain d 256 chain hchain 257 1 (fun _ => 0)
    (by omega) (by omega) (by omega)
  have hbuf : ∀ i, i < chain.length - 1 → buf i = chain.getD i 0 := by
    intro i hi
    have := h2 i (by omega)
    rwa [show 1 - 1 + i = i by omega] at this
  have hnames : (List.range (chain.length - 1)).reverse.map (fun i => record_name d (buf i))
      = (List.range (chain.length - 1)).reverse.map
          (fun i => record_name d (chain.getD i 0)) := by
    apply List.map_congr_left
    intro i hi
    rw [hbuf i (by simpa using hi)]
  have hc := walk_ancestors_concat_chain d buf path_buffer_size (chain.length - 1) [67, 58]
    (fun i hi => by
      rw [hbuf i hi]
      apply hterm
      rw [List.getD_eq_getElem _ _ (by omega)]
      exact List.getElem_mem _)
    (by rw [hnames]; exact hfit)
  unfold walk_ancestors_build_path
  rw [h1]
  dsimp only
  rw [show 1 + chain.length - 1 - 1 = chain.length - 1 by omega, hc, hnames]
  dsimp only
  rw [show 1 + chain.length - 1 = chain.length by omega]
  rfl

/-- C12.  For a record whose parent chain, as `db_get_record_parent` finds it,
ends at a root and has at most 256 records, whose names end inside the name
buffer and whose path with its terminator fits the path buffer,
`walk_ancestors_build_path` with the 256-entry ancestor buffer returns the
number of records of the chain and leaves the path "C:" followed by a backslash
and the name of each record of the chain from the one below the root down to
the record itself; for a root the path is "C:". -/
theorem C12_build_path (d : db) (chain : List Nat) (path_buffer_size : Nat)
    (hchain : parent_chain d chain) (hlen : chain.length ≤ 256)
    (hterm : ∀ c ∈ chain, ∃ t, (d.record_array.elems c).name_offset ≤ t ∧
      t < d.name_buffer.count ∧ d.name_buffer.elems t = 0)
    (hfit : (chain_path d chain).length + 1 ≤ path_buffer_size) :
    walk_ancestors_build_path d (chain.getD 0 0) 256 path_buffer_size
        = (chain.length, chain_path d chain) ∧
    (chain.length = 1 → chain_path d chain = [67, 58]) :=
  ⟨walk_ancestors_build_path_chain d chain path_buffer_size hchain hlen hterm hfit,
    fun h => by unfold chain_path; rw [h]; rfl⟩

/-- C12 at the index made by inserting {id 10, parent 1, "readme.txt"} and
then {id 1, parent 1, "."}: the chain of the record at index 0 is that record
and the root at index 1, and its path is C:\readme.txt. -/
theorem C12_build_path_witness :
    parent_chain readme_db [0, 1] ∧ [0, 1].length ≤ 256 ∧
    walk_ancestors_build_path readme_db 0 256 (256 * 256)
      = (2, [67, 58, 92, 114, 101, 97, 100, 109, 101, 46, 116, 120, 116]) := by
  have h := (C12_build_path readme_db [0, 1] (256 * 256)
    ⟨by decide, by decide,
      (by decide : (readme_db.record_array.elems 1).id
        = (readme_db.record_array.elems 1).parent_id)⟩ (by decide)
    (fun c hc => by
      rcases List.mem_cons.mp hc with e | hc
      · exact ⟨10, by rw [e]; decide, by decide, by decide⟩
      · rcases List.mem_cons.mp hc with e | hc
        · exact ⟨12, by rw [e]; decide, by decide, by decide⟩
        · cases hc)
    (by decide)).1
  exact ⟨⟨by decide, by decide,
    (by decide : (readme_db.record_array.elems 1).id
      = (readme_db.record_array.elems 1).parent_id)⟩, by decide,
    by rw [show (0 : Nat) = [0, 1].getD 0 0 from rfl, h]; decide⟩

/-! ## Records skipped by the ancestor check -/

theorem walk_ancestors_is_child_of_root_iff (d : db) :
    ∀ (m r : Nat), walk_ancestors_is_child_of_root d m r = true ↔
      ∃ chain, parent_chain d chain ∧ chain.getD 0 0 = r ∧ chain.length ≤ m := by
  intro m
  induction m with
  | zero =>
    intro r
    simp only [walk_ancestors_is_child_of_root, Bool.false_eq_true, false_iff]
    rintro ⟨chain, h1, _, h3⟩
    cases chain with
    | nil => exact h1
    | cons c rest => simp at h3
  | succ m ih =>
    intro r
    rw [walk_ancestors_is_child_of_root]
    by_cases hroot : (d.record_array.elems r).id = (d.record_array.elems r).parent_id
    · rw [if_pos hroot]
      simp only [true_iff]
      exact ⟨[r], hroot, rfl, by simp⟩
    · rw [if_neg hroot]
      cases hp : db_get_record_parent d (d.record_array.elems r) with
      | none =>
        simp only [Bool.false_eq_true, false_iff]
        rintro ⟨chain, h1, h2, _⟩
        cases chain with
        | nil => exact h1
        | cons c rest =>
          simp only [List.getD_cons_zero] at h2
          subst h2
          cases rest with
          | nil => exact hroot h1
          | cons c1 rest1 =>
            rw [h1.2.1] at hp
            cases hp
      | some p =>
        dsimp only
        rw [ih p]
        constructor
        · rintro ⟨chain, h1, h2, h3⟩
          cases chain with
          | nil => exact absurd h1 id
          | cons c rest =>
            simp only [List.getD_cons_zero] at h2
            subst h2
            exact ⟨r :: c :: rest, ⟨hroot, hp, h1⟩, rfl, by simp only [List.length_cons] at h3 ⊢; omega⟩
        · rintro ⟨chain, h1, h2, h3⟩
          cases chain with
          | nil => exact absurd h1 id
          | cons c rest =>
            simp only [List.getD_cons_zero] at h2
            subst h2
            cases rest with
            | nil => exact absurd h1 hroot
            | cons c1 rest1 =>
              obtain ⟨_, g2, g3⟩ := h1
              rw [hp] at g2
              cases g2
              exact ⟨p :: rest1, g3, rfl, by simp only [List.length_cons] at h3 ⊢; omega⟩

/-- C13.  `walk_ancestors_is_child_of_root` with depth 256 (a function of the
index and the record, so it returns on every index) is true exactly when the
record has a parent chain, as `db_get_record_parent` finds it, that ends at a
root and has at most 256 records.  For a record on which it is false the loop
body of `run_query` leaves `found_count`, `return_count` and the result buffer
as they are.  Under the conditions of C3 `run_query` returns with error OK, its
`found_count` counts and its output holds only matching records, and a record
on which `walk_ancestors_is_child_of_root` is false is neither among the
matching records nor among the written ones. -/
theorem C13_child_of_root (params : quickfind_params) (d : db) (result_buffer : buffer)
    (rounds : Nat) :
    (∀ r, walk_ancestors_is_child_of_root d 256 r = true ↔
      ∃ chain, parent_chain d chain ∧ chain.getD 0 0 = r ∧ chain.length ≤ 256) ∧
    (∀ st current_search k, walk_ancestors_is_child_of_root d 256 k = false →
      run_query_found params d st current_search k
        = Sum.inl { st with current_search := current_search, current_record_index := k }) ∧
    (names_correspond d → d.name_buffer.count < 2 ^ 64 → text_nul_free params →
      result_buffer.size + (items_bytes d (written_records params d)).length
        ≤ result_buffer.capacity →
      d.record_array.count + 1 ≤ rounds →
      ∃ b, run_query rounds params result_buffer d
          = some ({ error := QUICKFIND_OK,
                    found_count := min params.stop_count
                      (matching_records params.flags params.text params.text_length d).length,
                    return_count := (written_records params d).length }, b) ∧
        buffer_holds result_buffer (items_bytes d (written_records params d)) b ∧
        ∀ k, walk_ancestors_is_child_of_root d 256 k = false →
          k ∉ matching_records params.flags params.text params.text_length d ∧
          k ∉ written_records params d) := by
  refine ⟨walk_ancestors_is_child_of_root_iff d 256, ?_, ?_⟩
  · intro st cs k hk
    unfold run_query_found
    dsimp only
    rw [hk]
    simp only [Bool.false_eq_true, if_false]
    split_ifs <;> rfl
  · intro hc hsz ht hcap hr
    obtain ⟨b, h1, h2⟩ := run_query_eq params d result_buffer rounds hc hsz ht hcap hr
    refine ⟨b, h1, h2, ?_⟩
    intro k hk
    have hnot : k ∉ matching_records params.flags params.text params.text_length d := by
      intro hm
      unfold matching_records at hm
      have := (List.mem_filter.mp hm).2
      unfold record_matches record_passes at this
      rw [hk] at this
      simp at this
    refine ⟨hnot, ?_⟩
    intro hw
    unfold written_records at hw
    exact hnot (List.mem_of_mem_take (List.mem_of_mem_drop
      (List.mem_of_mem_filter (List.mem_of_mem_take hw))))

set_option maxRecDepth 8000 in
theorem C13_child_of_root_witness :
    (walk_ancestors_is_child_of_root cycle_db 256 2 = true ∧
      walk_ancestors_is_child_of_root cycle_db 256 3 = false ∧
      walk_ancestors_is_child_of_root cycle_db 256 4 = false ∧
      walk_ancestors_is_child_of_root cycle_db 256 5 = false) ∧
    (names_correspond cycle_db ∧ cycle_db.name_buffer.count < 2 ^ 64 ∧
      text_nul_free (params_of [97] 0 5 0 5) ∧
      response_buffer.size
          + (items_bytes cycle_db (written_records (params_of [97] 0 5 0 5) cycle_db)).length
        ≤ response_buffer.capacity ∧
      cycle_db.record_array.count + 1 ≤ 7) ∧
    ∃ b, run_query 7 (params_of [97] 0 5 0 5) response_buffer cycle_db
        = some ({ error := QUICKFIND_OK,
                  found_count := min (params_of [97] 0 5 0 5).stop_count
                    (matching_records (params_of [97] 0 5 0 5).flags (params_of [97] 0 5 0 5).text
                      (params_of [97] 0 5 0 5).text_length cycle_db).length,
                  return_count := (written_records (params_of [97] 0 5 0 5) cycle_db).length }, b) ∧
      buffer_holds response_buffer
        (items_bytes cycle_db (written_records (params_of [97] 0 5 0 5) cycle_db)) b ∧
      ∀ k, walk_ancestors_is_child_of_root cycle_db 256 k = false →
        k ∉ matching_records (params_of [97] 0 5 0 5).flags (params_of [97] 0 5 0 5).text
            (params_of [97] 0 5 0 5).text_length cycle_db ∧
        k ∉ written_records (params_of [97] 0 5 0 5) cycle_db :=
  ⟨by decide, ⟨by decide, by decide, by decide, by decide, by decide⟩,
    (C13_child_of_root (params_of [97] 0 5 0 5) cycle_db response_buffer 7).2.2
      (by decide) (by decide) (by decide) (by decide) (by decide)⟩

set_option maxRecDepth 8000 in
theorem cycle_db_matching :
    matching_records (params_of [97] 0 5 0 5).flags (params_of [97] 0 5 0 5).text
      (params_of [97] 0 5 0 5).text_length cycle_db = [2] := by decide

/-! ## Flag predicates of a query -/

/-- What `matches_query_flags` returns, in terms of the attribute bits. -/
theorem matches_query_flags_iff (r : record) (flags query_len match_len : Nat) :
    matches_query_flags r flags query_len match_len = true ↔
      r.attributes &&& FILE_ATTRIBUTE_NOT_IN_USE = 0 ∧
      (flags &&& QUICKFIND_FLAG_ONLY_FILES ≠ 0 → r.attributes &&& FILE_ATTRIBUTE_DIRECTORY = 0) ∧
      (flags &&& QUICKFIND_FLAG_ONLY_DIRECTORIES ≠ 0 →
        r.attributes &&& FILE_ATTRIBUTE_DIRECTORY ≠ 0) ∧
      (flags &&& QUICKFIND_FLAG_FULLNAME ≠ 0 → query_len = match_len) := by
  unfold matches_query_flags
  by_cases h1 : r.attributes &&& FILE_ATTRIBUTE_NOT_IN_USE = 0 <;>
  by_cases h2 : flags &&& QUICKFIND_FLAG_ONLY_FILES = 0 <;>
  by_cases h3 : flags &&& QUICKFIND_FLAG_ONLY_DIRECTORIES = 0 <;>
  by_cases h4 : flags &&& QUICKFIND_FLAG_FULLNAME = 0 <;>
  by_cases h5 : r.attributes &&& FILE_ATTRIBUTE_DIRECTORY = 0 <;>
  by_cases h6 : query_len = match_len <;>
  simp [h1, h2, h3, h4, h5, h6]

/-- With FULLNAME a name that contains the text is the text. -/
theorem name_contains_fullname (flags : Nat) (text : Nat → Nat) (text_length : Nat) (d : db)
    (k : Nat) (hlen : text_length = record_name_length d k) (hpos : 1 ≤ text_length) :
    name_contains flags text text_length d k = true ↔
      ∀ j, j < text_length →
        byte_eq flags (d.name_buffer.elems ((d.record_array.elems k).name_offset + j)) (text j)
          = true := by
  unfold name_contains needle_at
  rw [List.any_eq_true]
  constructor
  · rintro ⟨j, hj, h⟩
    rw [Bool.and_eq_true, decide_eq_true_eq, List.all_eq_true] at h
    have hj0 : j = 0 := by omega
    subst hj0
    intro i hi
    have := h.2 i (List.mem_range.mpr hi)
    simpa using this
  · intro h
    refine ⟨0, List.mem_range.mpr (by omega), ?_⟩
    rw [Bool.and_eq_true, decide_eq_true_eq, List.all_eq_true]
    refine ⟨by omega, ?_⟩
    intro i hi
    simpa using h i (List.mem_range.mp hi)

/-- Membership in `matching_records`. -/
theorem mem_matching_records (flags : Nat) (text : Nat → Nat) (text_length : Nat) (d : db)
    (k : Nat) :
    k ∈ matching_records flags text text_length d ↔
      k < d.record_array.count ∧ name_contains flags text text_length d k = true ∧
      (d.record_array.elems k).attributes &&& FILE_ATTRIBUTE_NOT_IN_USE = 0 ∧
      matches_query_flags (d.record_array.elems k) flags text_length (record_name_length d k)
        = true ∧
      walk_ancestors_is_child_of_root d 256 k = true := by
  unfold matching_records record_matches record_passes
  rw [List.mem_filter, List.mem_range]
  simp only [Bool.and_eq_true, decide_eq_true_eq]

/-- The records a query writes are among the matching ones. -/
theorem written_records_subset (params : quickfind_params) (d : db) (k : Nat)
    (hw : k ∈ written_records params d) :
    k ∈ matching_records params.flags params.text params.text_length d := by
  unfold written_records at hw
  exact List.mem_of_mem_take (List.mem_of_mem_drop
    (List.mem_of_mem_filter (List.mem_of_mem_take hw)))

/-- C14.  Under the conditions of C3 `run_query` returns with error OK, its
`found_count` counts the matching records (up to `stop_count`) and its output
holds the items of written records, which are matching records.  Every matching
record is not tombstoned, has no DIRECTORY bit when ONLY_FILES is set, has the
DIRECTORY bit when ONLY_DIRECTORIES is set, and with FULLNAME its whole name has
the length of the text and equals the text byte by byte (up to ASCII case unless
CASE_SENSITIVE is set).  With FULLNAME the matching records are exactly the
records that are not tombstoned, pass the two attribute predicates, reach a root
within the depth cap and whose name is the text. -/
theorem C14_flag_predicates (params : quickfind_params) (d : db) (result_buffer : buffer)
    (rounds : Nat)
    (hcorr : names_correspond d) (hsize : d.name_buffer.count < 2 ^ 64)
    (htext : text_nul_free params)
    (hcap : result_buffer.size + (items_bytes d (written_records params d)).length
      ≤ result_buffer.capacity)
    (hrounds : d.record_array.count + 1 ≤ rounds) :
    (∃ b, run_query rounds params result_buffer d
        = some ({ error := QUICKFIND_OK,
                  found_count := min params.stop_count
                    (matching_records params.flags params.text params.text_length d).length,
                  return_count := (written_records params d).length }, b) ∧
      buffer_holds result_buffer (items_bytes d (written_records params d)) b) ∧
    (∀ k, k ∈ written_records params d →
      k ∈ matching_records params.flags params.text params.text_length d) ∧
    (∀ k, k ∈ matching_records params.flags params.text params.text_length d →
      (d.record_array.elems k).attributes &&& FILE_ATTRIBUTE_NOT_IN_USE = 0 ∧
      (params.flags &&& QUICKFIND_FLAG_ONLY_FILES ≠ 0 →
        (d.record_array.elems k).attributes &&& FILE_ATTRIBUTE_DIRECTORY = 0) ∧
      (params.flags &&& QUICKFIND_FLAG_ONLY_DIRECTORIES ≠ 0 →
        (d.record_array.elems k).attributes &&& FILE_ATTRIBUTE_DIRECTORY ≠ 0) ∧
      (params.flags &&& QUICKFIND_FLAG_FULLNAME ≠ 0 →
        record_name_length d k = params.text_length ∧
        ∀ j, j < params.text_length →
          byte_eq params.flags
            (d.name_buffer.elems ((d.record_array.elems k).name_offset + j)) (params.text j)
            = true)) ∧
    (params.flags &&& QUICKFIND_FLAG_FULLNAME ≠ 0 →
      ∀ k, k ∈ matching_records params.flags params.text params.text_length d ↔
        k < d.record_array.count ∧
        (d.record_array.elems k).attributes &&& FILE_ATTRIBUTE_NOT_IN_USE = 0 ∧
        (params.flags &&& QUICKFIND_FLAG_ONLY_FILES ≠ 0 →
          (d.record_array.elems k).attributes &&& FILE_ATTRIBUTE_DIRECTORY = 0) ∧
        (params.flags &&& QUICKFIND_FLAG_ONLY_DIRECTORIES ≠ 0 →
          (d.record_array.elems k).attributes &&& FILE_ATTRIBUTE_DIRECTORY ≠ 0) ∧
        walk_ancestors_is_child_of_root d 256 k = true ∧
        record_name_length d k = params.text_length ∧
        ∀ j, j < params.text_length →
          byte_eq params.flags
            (d.name_buffer.elems ((d.record_array.elems k).name_offset + j)) (params.text j)
            = true) := by
  refine ⟨run_query_eq params d result_buffer rounds hcorr hsize htext hcap hrounds,
    written_records_subset params d, ?_, ?_⟩
  · intro k hk
    rw [mem_matching_records] at hk
    obtain ⟨_, hn, hlive, hflags, _⟩ := hk
    rw [matches_query_flags_iff] at hflags
    refine ⟨hlive, hflags.2.1, hflags.2.2.1, ?_⟩
    intro hf
    have hl := hflags.2.2.2 hf
    exact ⟨hl.symm, (name_contains_fullname _ _ _ d k hl htext.1).mp hn⟩
  · intro hf k
    rw [mem_matching_records, matches_query_flags_iff]
    constructor
    · rintro ⟨hk, hn, hlive, hflags, hroot⟩
      have hl := hflags.2.2.2 hf
      exact ⟨hk, hlive, hflags.2.1, hflags.2.2.1, hroot, hl.symm,
        (name_contains_fullname _ _ _ d k hl htext.1).mp hn⟩
    · rintro ⟨hk, hlive, h1, h2, hroot, hl, hn⟩
      exact ⟨hk, (name_contains_fullname _ _ _ d k hl.symm htext.1).mpr hn, hlive,
        ⟨hlive, h1, h2, fun _ => hl.symm⟩, hroot⟩

theorem C14_flag_predicates_witness :
    (names_correspond flags_db ∧ flags_db.name_buffer.count < 2 ^ 64 ∧
      text_nul_free (params_of [97, 98] 6 5 0 5) ∧
      response_buffer.size
          + (items_bytes flags_db (written_records (params_of [97, 98] 6 5 0 5) flags_db)).length
        ≤ response_buffer.capacity ∧
      flags_db.record_array.count + 1 ≤ 7) ∧
    matching_records 6 (mem_of [97, 98]) 2 flags_db = [3, 5] ∧
    matching_records 2 (mem_of [97, 98]) 2 flags_db = [2, 3, 5] ∧
    matching_records 3 (mem_of [97, 98]) 2 flags_db = [2, 3] ∧
    matching_records 11 (mem_of [97, 98]) 2 flags_db = [2] ∧
    matching_records 4 (mem_of [97, 98]) 2 flags_db = [3, 4, 5] ∧
    ((∃ b, run_query 7 (params_of [97, 98] 6 5 0 5) response_buffer flags_db
        = some ({ error := QUICKFIND_OK,
                  found_count := min (params_of [97, 98] 6 5 0 5).stop_count
                    (matching_records (params_of [97, 98] 6 5 0 5).flags
                      (params_of [97, 98] 6 5 0 5).text
                      (params_of [97, 98] 6 5 0 5).text_length flags_db).length,
                  return_count :=
                    (written_records (params_of [97, 98] 6 5 0 5) flags_db).length }, b) ∧
      buffer_holds response_buffer
        (items_bytes flags_db (written_records (params_of [97, 98] 6 5 0 5) flags_db)) b) ∧
    (∀ k, k ∈ written_records (params_of [97, 98] 6 5 0 5) flags_db →
      k ∈ matching_records (params_of [97, 98] 6 5 0 5).flags (params_of [97, 98] 6 5 0 5).text
        (params_of [97, 98] 6 5 0 5).text_length flags_db)) :=
  ⟨⟨by decide, by decide, by decide, by decide, by decide⟩,
    by decide, by decide, by decide, by decide, by decide,
    (C14_flag_predicates (params_of [97, 98] 6 5 0 5) flags_db response_buffer 7
      (by decide) (by decide) (by decide) (by decide) (by decide)).1,
    (C14_flag_predicates (params_of [97, 98] 6 5 0 5) flags_db response_buffer 7
      (by decide) (by decide) (by decide) (by decide) (by decide)).2.1⟩

set_option maxRecDepth 8000 in
/-- C14 as stated fails for a record that does not reach a root.  In the index
with the record "wa" (index 5, id 13, not tombstoned) whose parent 99 is not in
the index, the FULLNAME query for the text "wa" finds and returns nothing,
although "wa" is the full name of a live record. -/
theorem C14_fails_for_orphan :
    (names_correspond cycle_db ∧ text_nul_free (params_of [119, 97] 2 5 0 5) ∧
      5 < cycle_db.record_array.count ∧ record_live cycle_db 5 = true ∧
      record_name cycle_db 5 = [119, 97]) ∧
    (run_query 7 (params_of [119, 97] 2 5 0 5) response_buffer cycle_db).map
        (fun r => (r.1, bytes_of r.2.data r.2.size))
      = some ({ error := QUICKFIND_OK, found_count := 0, return_count := 0 }, []) := by
  decide

/-! ## Case-insensitive matching -/

theorem tolower_eq_zero (x : Nat) : tolower x = 0 ↔ x = 0 := by
  by_cases h : 65 ≤ x ∧ x ≤ 90
  · simp only [tolower, if_pos h]
    constructor <;> intro g <;> omega
  · simp only [tolower, if_neg h]

theorem tolower_zero_iff (x y : Nat) (h : tolower x = tolower y) : x = 0 ↔ y = 0 := by
  rw [← tolower_eq_zero x, h, tolower_eq_zero]

theorem tolower_toupper (x : Nat) : tolower (toupper x) = tolower x := by
  unfold tolower toupper
  split_ifs <;> omega

theorem c_string_length_case (e1 e2 : Nat → Nat) (h : ∀ i, e2 i = 0 ↔ e1 i = 0) :
    ∀ n p, (c_string e2 p n).length = (c_string e1 p n).length := by
  intro n
  induction n with
  | zero => intro p; rfl
  | succ n ih =>
    intro p
    simp only [c_string]
    by_cases h1 : e1 p = 0
    · rw [if_pos h1, if_pos ((h p).mpr h1)]
    · rw [if_neg h1, if_neg (fun h2 => h1 ((h p).mp h2))]
      simp only [List.length_cons, ih]

theorem count_nul_case (e1 e2 : Nat → Nat) (h : ∀ i, e2 i = 0 ↔ e1 i = 0) :
    ∀ n, count_nul e2 n = count_nul e1 n := by
  intro n
  induction n with
  | zero => rfl
  | succ n ih =>
    simp only [count_nul, ih]
    by_cases h1 : e1 n = 0
    · rw [if_pos h1, if_pos ((h n).mpr h1)]
    · rw [if_neg h1, if_neg (fun h2 => h1 ((h n).mp h2))]

theorem byte_eq_case (flags x1 x2 y1 y2 : Nat)
    (hf : flags &&& QUICKFIND_FLAG_CASE_SENSITIVE = 0)
    (hx : tolower x2 = tolower x1) (hy : tolower y2 = tolower y1) :
    byte_eq flags x2 y2 = byte_eq flags x1 y1 := by
  unfold byte_eq
  simp [hf, hx, hy]

theorem byte_eq_nocase_iff (flags x y : Nat)
    (hf : flags &&& QUICKFIND_FLAG_CASE_SENSITIVE = 0) :
    byte_eq flags x y = true ↔ tolower x = tolower y := by
  unfold byte_eq
  simp [hf]

theorem needle_at_case (flags : Nat) (e1 e2 t1 t2 : Nat → Nat) (k p : Nat)
    (hf : flags &&& QUICKFIND_FLAG_CASE_SENSITIVE = 0)
    (he : ∀ i, tolower (e2 i) = tolower (e1 i))
    (ht : ∀ j, j < k → tolower (t2 j) = tolower (t1 j)) :
    needle_at flags e2 t2 k p = needle_at flags e1 t1 k p := by
  unfold needle_at
  rw [Bool.eq_iff_iff, List.all_eq_true, List.all_eq_true]
  constructor
  · intro h j hj
    rw [← byte_eq_case flags _ _ _ _ hf (he (p + j)) (ht j (List.mem_range.mp hj))]
    exact h j hj
  · intro h j hj
    rw [byte_eq_case flags _ _ _ _ hf (he (p + j)) (ht j (List.mem_range.mp hj))]
    exact h j hj

theorem record_name_length_case (d : db) (elems : Nat → Nat)
    (he : ∀ i, tolower (elems i) = tolower (d.name_buffer.elems i)) (k : Nat) :
    record_name_length (with_name_bytes d elems) k = record_name_length d k := by
  unfold record_name_length
  exact c_string_length_case _ _ (fun i => tolower_zero_iff _ _ (he i)) _ _

theorem name_contains_case (flags : Nat) (t1 t2 : Nat → Nat) (text_length : Nat) (d : db)
    (elems : Nat → Nat) (k : Nat)
    (hf : flags &&& QUICKFIND_FLAG_CASE_SENSITIVE = 0)
    (he : ∀ i, tolower (elems i) = tolower (d.name_buffer.elems i))
    (ht : ∀ j, j < text_length → tolower (t2 j) = tolower (t1 j)) :
    name_contains flags t2 text_length (with_name_bytes d elems) k
      = name_contains flags t1 text_length d k := by
  unfold name_contains
  rw [record_name_length_case d elems he k]
  have hn : ∀ p, needle_at flags (with_name_bytes d elems).name_buffer.elems t2 text_length p
      = needle_at flags d.name_buffer.elems t1 text_length p :=
    fun p => needle_at_case flags _ _ t1 t2 text_length p hf he ht
  simp only [hn]
  rfl

theorem walk_ancestors_is_child_of_root_case (d : db) (elems : Nat → Nat) :
    ∀ m r, walk_ancestors_is_child_of_root (with_name_bytes d elems) m r
      = walk_ancestors_is_child_of_root d m r := by
  intro m
  induction m with
  | zero => intro r; rfl
  | succ m ih =>
    intro r
    rw [walk_ancestors_is_child_of_root, walk_ancestors_is_child_of_root]
    show (if (d.record_array.elems r).id = (d.record_array.elems r).parent_id then true
      else match db_get_record_parent d (d.record_array.elems r) with
        | none => false
        | some parent => walk_ancestors_is_child_of_root (with_name_bytes d elems) m parent) = _
    cases db_get_record_parent d (d.record_array.elems r) with
    | none => rfl
    | some p => simp only [ih]

theorem record_matches_case (flags : Nat) (t1 t2 : Nat → Nat) (text_length : Nat) (d : db)
    (elems : Nat → Nat) (k : Nat)
    (hf : flags &&& QUICKFIND_FLAG_CASE_SENSITIVE = 0)
    (he : ∀ i, tolower (elems i) = tolower (d.name_buffer.elems i))
    (ht : ∀ j, j < text_length → tolower (t2 j) = tolower (t1 j)) :
    record_matches flags t2 text_length (with_name_bytes d elems) k
      = record_matches flags t1 text_length d k := by
  unfold record_matches record_passes
  rw [name_contains_case flags t1 t2 text_length d elems k hf he ht,
    record_name_length_case d elems he k, walk_ancestors_is_child_of_root_case]
  rfl

theorem matching_records_case (flags : Nat) (t1 t2 : Nat → Nat) (text_length : Nat) (d : db)
    (elems : Nat → Nat)
    (hf : flags &&& QUICKFIND_FLAG_CASE_SENSITIVE = 0)
    (he : ∀ i, tolower (elems i) = tolower (d.name_buffer.elems i))
    (ht : ∀ j, j < text_length → tolower (t2 j) = tolower (t1 j)) :
    matching_records flags t2 text_length (with_name_bytes d elems)
      = matching_records flags t1 text_length d := by
  unfold matching_records
  have : record_matches flags t2 text_length (with_name_bytes d elems)
      = record_matches flags t1 text_length d :=
    funext fun k => record_matches_case flags t1 t2 text_length d elems k hf he ht
  rw [this]
  rfl

theorem walk_ancestors_collect_case (d : db) (elems : Nat → Nat) (n : Nat) :
    ∀ rounds child ac buf, walk_ancestors_collect (with_name_bytes d elems) n rounds child ac buf
      = walk_ancestors_collect d n rounds child ac buf := by
  intro rounds
  induction rounds with
  | zero => intro child ac buf; rfl
  | succ m ih =>
    intro child ac buf
    rw [walk_ancestors_collect, walk_ancestors_collect]
    show (if (d.record_array.elems child).id = (d.record_array.elems child).parent_id
        then some (ac, write_at buf (ac - 1) child)
      else match db_get_record_parent d (d.record_array.elems child) with
        | none => none
        | some parent =>
          if ac + 1 > n then none
          else walk_ancestors_collect (with_name_bytes d elems) n m parent (ac + 1)
            (write_at buf (ac - 1) child)) = _
    cases db_get_record_parent d (d.record_array.elems child) with
    | none => rfl
    | some p => simp only [ih]

theorem StringCbCatA_case (p1 p2 s1 s2 : List Nat) (size : Nat)
    (hp : p2.length = p1.length) (hs : s2.length = s1.length) :
    (StringCbCatA p2 size s2).2 = (StringCbCatA p1 size s1).2 ∧
      (StringCbCatA p2 size s2).1.length = (StringCbCatA p1 size s1).1.length := by
  unfold StringCbCatA
  rw [hp, hs]
  split_ifs
  · simp [hp, hs]
  · simp [hp, hs, List.length_take]

theorem walk_ancestors_concat_case (d : db) (elems : Nat → Nat)
    (he : ∀ i, tolower (elems i) = tolower (d.name_buffer.elems i))
    (buf : Nat → Nat) (size : Nat) :
    ∀ m p1 p2, p2.length = p1.length →
      (walk_ancestors_concat (with_name_bytes d elems) buf size m p2).map List.length
        = (walk_ancestors_concat d buf size m p1).map List.length := by
  intro m
  induction m with
  | zero => intro p1 p2 hp; simp [walk_ancestors_concat, hp]
  | succ m ih =>
    intro p1 p2 hp
    rw [walk_ancestors_concat, walk_ancestors_concat]
    obtain ⟨ha, hb⟩ := StringCbCatA_case p1 p2 [92] [92] size hp rfl
    rcases h1 : StringCbCatA p1 size [92] with ⟨q1, b1⟩
    rcases h2 : StringCbCatA p2 size [92] with ⟨q2, b2⟩
    rw [h1, h2] at ha hb
    dsimp only at ha hb
    subst ha
    cases b2 with
    | false => rfl
    | true =>
      dsimp only
      have hs : (c_string (with_name_bytes d elems).name_buffer.elems
            (db_get_record_name (with_name_bytes d elems)
              ((with_name_bytes d elems).record_array.elems (buf m))) size).length
          = (c_string d.name_buffer.elems
            (db_get_record_name d (d.record_array.elems (buf m))) size).length :=
        c_string_length_case _ _ (fun i => tolower_zero_iff _ _ (he i)) _ _
      obtain ⟨hc, hd⟩ := StringCbCatA_case q1 q2 _ _ size hb hs
      rcases h3 : StringCbCatA q1 size (c_string d.name_buffer.elems
            (db_get_record_name d (d.record_array.elems (buf m))) size) with ⟨r1, c1⟩
      rcases h4 : StringCbCatA q2 size (c_string (with_name_bytes d elems).name_buffer.elems
            (db_get_record_name (with_name_bytes d elems)
              ((with_name_bytes d elems).record_array.elems (buf m))) size) with ⟨r2, c2⟩
      rw [h3, h4] at hc hd
      dsimp only at hc hd
      subst hc
      cases c2 with
      | false => rfl
      | true => exact ih r1 r2 hd

theorem path_builds_case (d : db) (elems : Nat → Nat)
    (he : ∀ i, tolower (elems i) = tolower (d.name_buffer.elems i)) (k : Nat) :
    path_builds (with_name_bytes d elems) k = path_builds d k := by
  unfold path_builds walk_ancestors_build_path
  rw [walk_ancestors_collect_case]
  cases walk_ancestors_collect d 256 (256 + 1) k 1 (fun _ => 0) with
  | none => rfl
  | some q =>
    obtain ⟨ac, buf⟩ := q
    dsimp only
    have := walk_ancestors_concat_case d elems he buf (256 * 256) (ac - 1) [67, 58] [67, 58] rfl
    cases h1 : walk_ancestors_concat d buf (256 * 256) (ac - 1) [67, 58] with
    | none =>
      rw [h1] at this
      cases h2 : walk_ancestors_concat (with_name_bytes d elems) buf (256 * 256) (ac - 1)
          [67, 58] with
      | none => rfl
      | some x => rw [h2] at this; cases this
    | some y =>
      rw [h1] at this
      cases h2 : walk_ancestors_concat (with_name_bytes d elems) buf (256 * 256) (ac - 1)
          [67, 58] with
      | none => rw [h2] at this; cases this
      | some x => rfl

theorem written_records_case (params : quickfind_params) (text2 : Nat → Nat) (d : db)
    (elems : Nat → Nat)
    (hf : params.flags &&& QUICKFIND_FLAG_CASE_SENSITIVE = 0)
    (he : ∀ i, tolower (elems i) = tolower (d.name_buffer.elems i))
    (ht : ∀ j, j < params.text_length → tolower (text2 j) = tolower (params.text j)) :
    written_records { params with text := text2 } (with_name_bytes d elems)
      = written_records params d := by
  unfold written_records
  dsimp only
  rw [matching_records_case params.flags params.text text2 params.text_length d elems hf he ht]
  have : path_builds (with_name_bytes d elems) = path_builds d :=
    funext fun k => path_builds_case d elems he k
  rw [this]

theorem names_correspond_case (d : db) (elems : Nat → Nat)
    (he : ∀ i, tolower (elems i) = tolower (d.name_buffer.elems i))
    (hc : names_correspond d) : names_correspond (with_name_bytes d elems) := by
  have hz : ∀ i, elems i = 0 ↔ d.name_buffer.elems i = 0 := fun i => tolower_zero_iff _ _ (he i)
  have hcn := count_nul_case d.name_buffer.elems elems hz
  obtain ⟨h1, h2, h3⟩ := hc
  refine ⟨?_, ?_, ?_⟩
  · show count_nul elems d.name_buffer.count = d.record_array.count
    rw [hcn]; exact h1
  · intro hpos
    show elems (d.name_buffer.count - 1) = 0
    exact (hz _).mpr (h2 hpos)
  · intro k hk
    obtain ⟨g1, g2⟩ := h3 k hk
    refine ⟨?_, ?_⟩
    · show count_nul elems (d.record_array.elems k).name_offset = k
      rw [hcn]; exact g1
    · cases g2 with
      | inl g => exact Or.inl g
      | inr g => exact Or.inr ((hz _).mpr g)

/-- C15.  Without QUICKFIND_FLAG_CASE_SENSITIVE the name of a record contains
the text exactly when at some offset of the name the `text_length` bytes of the
name and of the text are equal after `tolower`.  When the text is replaced by a
text `text2` and the bytes of the name buffer by `elems`, each byte equal to the
one it replaces after `tolower`, the matching records and the written records
are the same, and, under the conditions of C3, both queries return with error OK
and the same `found_count` and `return_count`; this holds for every
`text_length >= 1`. -/
theorem C15_case_insensitive (params : quickfind_params) (text2 : Nat → Nat) (d : db)
    (elems : Nat → Nat) (result_buffer : buffer) (rounds : Nat)
    (hflag : params.flags &&& QUICKFIND_FLAG_CASE_SENSITIVE = 0)
    (hnames : ∀ i, tolower (elems i) = tolower (d.name_buffer.elems i))
    (htext2 : ∀ j, j < params.text_length → tolower (text2 j) = tolower (params.text j))
    (hcorr : names_correspond d) (hsize : d.name_buffer.count < 2 ^ 64)
    (htext : text_nul_free params) (hfree2 : text_nul_free { params with text := text2 })
    (hcap : result_buffer.size + (items_bytes d (written_records params d)).length
      ≤ result_buffer.capacity)
    (hcap2 : result_buffer.size
        + (items_bytes (with_name_bytes d elems) (written_records params d)).length
      ≤ result_buffer.capacity)
    (hrounds : d.record_array.count + 1 ≤ rounds) :
    (∀ k, name_contains params.flags params.text params.text_length d k = true ↔
      ∃ j, j + params.text_length ≤ record_name_length d k ∧
        ∀ i, i < params.text_length →
          tolower (d.name_buffer.elems ((d.record_array.elems k).name_offset + j + i))
            = tolower (params.text i)) ∧
    matching_records params.flags text2 params.text_length (with_name_bytes d elems)
      = matching_records params.flags params.text params.text_length d ∧
    written_records { params with text := text2 } (with_name_bytes d elems)
      = written_records params d ∧
    ∃ r b1 b2, run_query rounds params result_buffer d = some (r, b1) ∧
      run_query rounds { params with text := text2 } result_buffer (with_name_bytes d elems)
        = some (r, b2) ∧
      r.error = QUICKFIND_OK ∧
      r.found_count = min params.stop_count
        (matching_records params.flags params.text params.text_length d).length ∧
      r.return_count = (written_records params d).length ∧
      buffer_holds result_buffer (items_bytes d (written_records params d)) b1 ∧
      buffer_holds result_buffer
        (items_bytes (with_name_bytes d elems) (written_records params d)) b2 := by
  have hw := written_records_case params text2 d elems hflag hnames htext2
  have hm := matching_records_case params.flags params.text text2 params.text_length d elems
    hflag hnames htext2
  refine ⟨?_, hm, hw, ?_⟩
  · intro k
    unfold name_contains needle_at
    rw [List.any_eq_true]
    constructor
    · rintro ⟨j, _, h⟩
      rw [Bool.and_eq_true, decide_eq_true_eq, List.all_eq_true] at h
      refine ⟨j, h.1, ?_⟩
      intro i hi
      exact (byte_eq_nocase_iff _ _ _ hflag).mp (h.2 i (List.mem_range.mpr hi))
    · rintro ⟨j, h1, h2⟩
      refine ⟨j, List.mem_range.mpr (by have := htext.1; omega), ?_⟩
      rw [Bool.and_eq_true, decide_eq_true_eq, List.all_eq_true]
      refine ⟨h1, ?_⟩
      intro i hi
      exact (byte_eq_nocase_iff _ _ _ hflag).mpr (h2 i (List.mem_range.mp hi))
  · obtain ⟨b1, g1, g2⟩ := run_query_eq params d result_buffer rounds hcorr hsize htext hcap
      hrounds
    obtain ⟨b2, g3, g4⟩ := run_query_eq { params with text := text2 } (with_name_bytes d elems)
      result_buffer rounds (names_correspond_case d elems hnames hcorr) hsize hfree2
      (by rw [hw]; exact hcap2) hrounds
    rw [hw] at g3 g4
    have hm2 : matching_records params.flags text2 params.text_length (with_name_bytes d elems)
        = matching_records params.flags params.text params.text_length d := hm
    refine ⟨_, b1, b2, g1, ?_, rfl, rfl, rfl, g2, g4⟩
    rw [g3]
    dsimp only
    rw [hm2]

theorem C15_case_insensitive_witness :
    ((params_of [97, 98] 0 5 0 5).flags &&& QUICKFIND_FLAG_CASE_SENSITIVE = 0 ∧
      (∀ j, j < (params_of [97, 98] 0 5 0 5).text_length →
        tolower (mem_of [65, 98] j) = tolower ((params_of [97, 98] 0 5 0 5).text j)) ∧
      names_correspond flags_db ∧ text_nul_free (params_of [97, 98] 0 5 0 5) ∧
      matching_records 0 (mem_of [97, 98]) 2 flags_db = [2, 3, 4, 5]) ∧
    ∃ r b1 b2, run_query 7 (params_of [97, 98] 0 5 0 5) response_buffer flags_db = some (r, b1) ∧
      run_query 7 { (params_of [97, 98] 0 5 0 5) with text := mem_of [65, 98] } response_buffer
          (with_name_bytes flags_db (fun i => toupper (flags_db.name_buffer.elems i)))
        = some (r, b2) ∧
      r.error = QUICKFIND_OK ∧
      r.found_count = min (params_of [97, 98] 0 5 0 5).stop_count
        (matching_records (params_of [97, 98] 0 5 0 5).flags (params_of [97, 98] 0 5 0 5).text
          (params_of [97, 98] 0 5 0 5).text_length flags_db).length ∧
      r.return_count = (written_records (params_of [97, 98] 0 5 0 5) flags_db).length ∧
      buffer_holds response_buffer
        (items_bytes flags_db (written_records (params_of [97, 98] 0 5 0 5) flags_db)) b1 ∧
      buffer_holds response_buffer
        (items_bytes (with_name_bytes flags_db (fun i => toupper (flags_db.name_buffer.elems i)))
          (written_records (params_of [97, 98] 0 5 0 5) flags_db)) b2 :=
  ⟨⟨by decide, by decide, by decide, by decide, by decide⟩,
    (C15_case_insensitive (params_of [97, 98] 0 5 0 5) (mem_of [65, 98]) flags_db
      (fun i => toupper (flags_db.name_buffer.elems i)) response_buffer 7
      (by decide) (fun i => tolower_toupper _) (by decide) (by decide) (by decide) (by decide)
      (by decide) (by decide) (by decide) (by decide)).2.2.2⟩

/-- C16.  With `text_length = 0` the scan `run_query` dispatches to is
`simd_memmem_count_zeroes` (with CASE_SENSITIVE) or
`simd_memmem_count_zeroes_nocase` (without), called with `k = 0`: the condition
`k > 1` of its assertion is false, the needle byte it broadcasts into `last` is
`needle[2^64 - 1]`, which is not a byte of the text, and the comparisons it
makes have length `2^64 - 2`. -/
theorem C16_zero_length_text_scan (mem : Nat → Nat) (buffer buffer_length : Nat)
    (look_for : Nat → Nat) (flags : Nat) :
    find_first_occurrence_and_count_nulls mem buffer buffer_length look_for 0 flags
      = (if flags &&& QUICKFIND_FLAG_CASE_SENSITIVE ≠ 0 then
          simd_memmem_count_zeroes mem buffer buffer_length look_for 0
        else simd_memmem_count_zeroes_nocase mem buffer buffer_length look_for 0) ∧
    simd_memmem_assert 0 = false ∧
    simd_memmem_last_index 0 = 2 ^ 64 - 1 ∧ ¬ simd_memmem_last_index 0 < 0 ∧
    simd_memmem_compare_length 0 = 2 ^ 64 - 2 := by
  refine ⟨?_, by decide, by decide, by decide, by decide⟩
  unfold find_first_occurrence_and_count_nulls
  simp

/-! ## Errors of a query and of a request -/

/-- The second half of the loop body for a selected record whose item does not
fit in the result buffer. -/
theorem run_query_found_overflow (params : quickfind_params) (d : db) (st : query_state)
    (idx : Nat) (b0 : buffer) (out : List Nat)
    (hsz : d.name_buffer.count < 2 ^ 64)
    (hend : (d.record_array.elems idx).name_offset + record_name_length d idx
      < d.name_buffer.count)
    (hcon : name_contains params.flags params.text params.text_length d idx = true)
    (hbuf : buffer_holds b0 out st.result_buffer)
    (hprev : b0.size + out.length ≤ b0.capacity)
    (hover : ¬ b0.size + (query_progress_step params d idx
      { found := st.found_count, ret := st.return_count, out := out }).out.length
        ≤ b0.capacity) :
    run_query_found params d st
        ((d.record_array.elems idx).name_offset + record_name_length d idx) idx
      = Sum.inr ({ error := QUICKFIND_ERROR_OUT_OF_MEMORY, found_count := 0,
                   return_count := 0 }, st.result_buffer) := by
  have hlen : usize_sub ((d.record_array.elems idx).name_offset + record_name_length d idx)
      (db_get_record_name d (d.record_array.elems idx)) = record_name_length d idx := by
    unfold db_get_record_name
    rw [usize_sub_eq _ _ (by omega) (by omega)]
    omega
  unfold run_query_found query_progress_step record_matches record_passes at *
  dsimp only at *
  rw [hlen]
  rw [hcon] at hover
  by_cases h1 : (d.record_array.elems idx).attributes &&& FILE_ATTRIBUTE_NOT_IN_USE = 0
  · by_cases h2 : matches_query_flags (d.record_array.elems idx) params.flags
        params.text_length (record_name_length d idx) = true
    · by_cases h3 : walk_ancestors_is_child_of_root d 256 idx = true
      · by_cases h4 : st.found_count ≥ params.skip_count ∧ st.return_count < params.return_count
        · by_cases h5 : (walk_ancestors_build_path d idx 256 (256 * 256)).1 ≠ 0
          · have hpb : path_builds d idx = true := by unfold path_builds; simp [h5]
            have hl := walk_ancestors_build_path_length d idx h5
            simp only [h1, h2, h3, h4, hpb, decide_True, Bool.and_self, Bool.true_and,
              if_true, and_self, List.length_append] at hover
            have hps : ((walk_ancestors_build_path d idx 256 (256 * 256)).2.length + 1) % 2 ^ 32
                = (walk_ancestors_build_path d idx 256 (256 * 256)).2.length + 1 :=
              Nat.mod_eq_of_lt (by omega)
            have hrs : (sizeof_query_result_item
                + ((walk_ancestors_build_path d idx 256 (256 * 256)).2.length + 1)) % 2 ^ 32
                = sizeof_query_result_item
                  + ((walk_ancestors_build_path d idx 256 (256 * 256)).2.length + 1) :=
              Nat.mod_eq_of_lt (by unfold sizeof_query_result_item; omega)
            have hil : (record_item_bytes d idx).length = sizeof_query_result_item
                + ((walk_ancestors_build_path d idx 256 (256 * 256)).2.length + 1) := by
              simp [record_item_bytes, query_result_item_bytes, le_bytes,
                sizeof_query_result_item]
              omega
            obtain ⟨hb1, hb2, hb3⟩ := hbuf
            have hfit : ¬ st.result_buffer.size + (sizeof_query_result_item
                + ((walk_ancestors_build_path d idx 256 (256 * 256)).2.length + 1))
                ≤ st.result_buffer.capacity := by
              rw [hb1, hb2]; rw [hil] at hover; omega
            simp only [h1, h2, h3, h4, h5, hps, hrs, decide_True, Bool.and_self,
              Bool.true_and, if_true, and_self, ne_eq, not_false_eq_true, buffer_append,
              if_neg hfit]
          · have hpb : path_builds d idx = false := by unfold path_builds; simp [h5]
            simp only [h1, h2, h3, h4, hpb, decide_True, Bool.and_self, Bool.true_and,
              if_true, and_self, if_false, Bool.false_eq_true] at hover
            exact absurd hprev hover
        · simp only [h1, h2, h3, h4, decide_True, Bool.and_self, Bool.true_and,
            if_true, if_false] at hover
          exact absurd hprev hover
      · simp only [h1, h2, h3, decide_True, Bool.and_self, Bool.true_and, if_true,
          if_false, Bool.and_false, Bool.false_eq_true] at hover
        exact absurd hprev hover
    · simp only [h1, h2, decide_True, Bool.true_and, if_true, if_false, Bool.false_and,
        Bool.false_eq_true] at hover
      exact absurd hprev hover
  · simp only [h1, decide_False, Bool.false_and, if_false, Bool.false_eq_true] at hover
    exact absurd hprev hover

/-- The loop of `run_query` returns OUT_OF_MEMORY when the output of the
remaining records does not fit in the result buffer. -/
theorem run_query_loop_overflow (params : quickfind_params) (d : db) (b0 : buffer)
    (hc : names_correspond d) (hsz : d.name_buffer.count < 2 ^ 64)
    (ht : text_nul_free params) :
    ∀ gap next st out rounds, d.record_array.count - next ≤ gap →
      query_state_at d st next → buffer_holds b0 out st.result_buffer →
      b0.size + out.length ≤ b0.capacity →
      ¬ b0.size + (query_progress_run params d
          (List.range' next (d.record_array.count - next))
          { found := st.found_count, ret := st.return_count, out := out }).out.length
        ≤ b0.capacity →
      d.record_array.count - next + 1 ≤ rounds →
      ∃ b, run_query_loop params d rounds st
          = some ({ error := QUICKFIND_ERROR_OUT_OF_MEMORY, found_count := 0,
                    return_count := 0 }, b) := by
  intro gap
  induction gap with
  | zero =>
    intro next st out rounds hgap hat hbuf hprev hover hr
    have hks : d.record_array.count - next = 0 := by omega
    rw [hks] at hover
    simp only [List.range', query_progress_run] at hover
    exact absurd hprev hover
  | succ gap ih =>
    intro next st out rounds hgap hat hbuf hprev hover hr
    cases rounds with
    | zero => omega
    | succ r =>
      rw [run_query_loop]
      split_ifs with hf
      · rcases run_query_select_first params d st next hc hsz ht hat with
          ⟨m, cs, idx, s1, s2, s3, s4, s5, s6⟩ | ⟨n1, n2⟩
        · have hsplit := range'_split next idx d.record_array.count s2 s3
          have hpre : query_progress_run params d (List.range' next (idx - next))
              { found := st.found_count, ret := st.return_count, out := out }
              = { found := st.found_count, ret := st.return_count, out := out } := by
            apply query_progress_run_skip
            intro k hk
            rw [List.mem_range'_1] at hk
            exact s6 k hk.1 (by omega)
          have hfinal : query_progress_run params d
              (List.range' next (d.record_array.count - next))
              { found := st.found_count, ret := st.return_count, out := out }
              = query_progress_run params d
                  (List.range' (idx + 1) (d.record_array.count - (idx + 1)))
                  (query_progress_step params d idx
                    { found := st.found_count, ret := st.return_count, out := out }) := by
            rw [hsplit, query_progress_run_append, hpre, query_progress_run, if_pos hf]
          rw [hfinal] at hover
          obtain ⟨e1, _, _⟩ := record_name_spec d hc idx s3
          by_cases hstep : b0.size + (query_progress_step params d idx
              { found := st.found_count, ret := st.return_count, out := out }).out.length
                ≤ b0.capacity
          · obtain ⟨st1, f1, f2, f3, f4, f5, f6⟩ := run_query_found_progress params d st idx b0
              out hsz e1 s5 hbuf hstep
            have hbody : run_query_body params d st = Sum.inl st1 := by
              unfold run_query_body
              rw [s1]
              simp only
              rw [s4]; exact f1
            rw [hbody]
            simp only
            have hat1 : query_state_at d st1 (idx + 1) :=
              ⟨run_query_body_ok params d st st1 hc hsz ht hat.1 hbody,
                Or.inr ⟨by omega, by omega, by rw [Nat.add_sub_cancel]; exact f2⟩⟩
            have heta : query_progress.mk st1.found_count st1.return_count
                  (query_progress_step params d idx
                    { found := st.found_count, ret := st.return_count, out := out }).out
                = query_progress_step params d idx
                    { found := st.found_count, ret := st.return_count, out := out } := by
              rw [f4, f5]
            exact ih (idx + 1) st1
              (query_progress_step params d idx
                { found := st.found_count, ret := st.return_count, out := out }).out r
              (by omega) hat1 f6 hstep (by rw [heta]; exact hover) (by omega)
          · have f1 := run_query_found_overflow params d st idx b0 out hsz e1 s5 hbuf hprev
              hstep
            have hbody : run_query_body params d st
                = Sum.inr ({ error := QUICKFIND_ERROR_OUT_OF_MEMORY, found_count := 0,
                             return_count := 0 }, st.result_buffer) := by
              unfold run_query_body
              rw [s1]
              simp only
              rw [s4]; exact f1
            rw [hbody]
            exact ⟨_, rfl⟩
        · have hall : query_progress_run params d
              (List.range' next (d.record_array.count - next))
              { found := st.found_count, ret := st.return_count, out := out }
              = { found := st.found_count, ret := st.return_count, out := out } := by
            apply query_progress_run_skip
            intro k hk
            rw [List.mem_range'_1] at hk
            exact n2 k hk.1 (by omega)
          rw [hall] at hover
          exact absurd hprev hover
      · rw [query_progress_run_stop params d _ _ hf] at hover
        exact absurd hprev hover

/-- A query whose items do not fit in the result buffer returns
OUT_OF_MEMORY. -/
theorem run_query_overflow (params : quickfind_params) (d : db) (result_buffer : buffer)
    (rounds : Nat) (hc : names_correspond d) (hsz : d.name_buffer.count < 2 ^ 64)
    (ht : text_nul_free params)
    (hsize : result_buffer.size ≤ result_buffer.capacity)
    (hover : ¬ result_buffer.size + (items_bytes d (written_records params d)).length
      ≤ result_buffer.capacity)
    (hr : d.record_array.count + 1 ≤ rounds) :
    ∃ b, run_query rounds params result_buffer d
        = some ({ error := QUICKFIND_ERROR_OUT_OF_MEMORY, found_count := 0,
                  return_count := 0 }, b) := by
  have hat : query_state_at d (run_query_init result_buffer) 0 :=
    ⟨⟨Nat.zero_le _, rfl⟩, Or.inl ⟨rfl, rfl⟩⟩
  have hbuf : buffer_holds result_buffer [] (run_query_init result_buffer).result_buffer :=
    ⟨rfl, rfl, by simp [run_query_init]⟩
  exact run_query_loop_overflow params d result_buffer hc hsz ht d.record_array.count 0
    (run_query_init result_buffer) [] rounds (by omega) hat hbuf
    (by simpa using hsize)
    (by
      show ¬ result_buffer.size + (query_progress_run params d
        (List.range' 0 (d.record_array.count - 0)) { found := 0, ret := 0, out := [] }).out.length
        ≤ result_buffer.capacity
      rw [query_progress_run_all]; exact hover)
    (by omega)

/-- The response to a query request whose query returned an error. -/
theorem server_calculate_response_error (rounds : Nat) (s : server) (r : query_result)
    (b : buffer) (htype : s.request.type = MSG_TYPE_QUERY_REQUEST)
    (hinit : s.database_initialized = true)
    (hrun : run_query rounds (server_params s) (server_result_buffer s) s.database = some (r, b))
    (herr : r.error ≠ QUICKFIND_OK) :
    server_calculate_response rounds s
      = some { s with
          response := { type := 0, error := r.error, found_count := 0, return_count := 0,
                        body_size := 0, body := b.data } } := by
  unfold server_calculate_response
  rw [if_pos htype, hinit, hrun]
  simp only [if_true, if_neg herr]

/-- C18.  In an index with the name/record correspondence, for a text of at
least one byte without NUL and a result buffer whose size is within its
capacity: when the items the query writes do not all fit in the remaining
capacity, `run_query` returns (given `record_array.count + 1` rounds of its
loop) QUICKFIND_ERROR_OUT_OF_MEMORY with zero counts; when `run_query` returns
OK the items fit and the buffer holds every one of them in full; and
`server_calculate_response` answers a query request whose query returned an
error with that error in `head.error`, type 0, `body_size` 0 and zero found and
return counts, so for a query whose items exceed the body of the response the
answer has `head.error` OUT_OF_MEMORY and delivers no item. -/
theorem C18_out_of_memory (params : quickfind_params) (d : db) (result_buffer : buffer)
    (rounds : Nat)
    (hcorr : names_correspond d) (hsize : d.name_buffer.count < 2 ^ 64)
    (htext : text_nul_free params)
    (hbuf : result_buffer.size ≤ result_buffer.capacity)
    (hrounds : d.record_array.count + 1 ≤ rounds) :
    (¬ result_buffer.size + (items_bytes d (written_records params d)).length
        ≤ result_buffer.capacity →
      ∃ b, run_query rounds params result_buffer d
        = some ({ error := QUICKFIND_ERROR_OUT_OF_MEMORY, found_count := 0,
                  return_count := 0 }, b)) ∧
    (∀ r b, run_query rounds params result_buffer d = some (r, b) → r.error = QUICKFIND_OK →
      result_buffer.size + (items_bytes d (written_records params d)).length
        ≤ result_buffer.capacity ∧
      r.return_count = (written_records params d).length ∧
      buffer_holds result_buffer (items_bytes d (written_records params d)) b) ∧
    (∀ (s : server) (r : query_result) (b : buffer),
      s.request.type = MSG_TYPE_QUERY_REQUEST → s.database_initialized = true →
      run_query rounds (server_params s) (server_result_buffer s) s.database = some (r, b) →
      r.error ≠ QUICKFIND_OK →
      server_calculate_response rounds s
        = some { s with
            response := { type := 0, error := r.error, found_count := 0, return_count := 0,
                          body_size := 0, body := b.data } }) ∧
    (∀ s : server, s.request.type = MSG_TYPE_QUERY_REQUEST → s.database_initialized = true →
      s.database = d → server_params s = params →
      ¬ (items_bytes d (written_records params d)).length ≤ sizeof_msg_body →
      ∃ s1, server_calculate_response rounds s = some s1 ∧
        s1.response.error = QUICKFIND_ERROR_OUT_OF_MEMORY ∧ s1.response.body_size = 0 ∧
        s1.response.found_count = 0 ∧ s1.response.return_count = 0 ∧
        s1.response.type = MSG_TYPE_NONE) := by
  refine ⟨?_, ?_, ?_, ?_⟩
  · intro hover
    exact run_query_overflow params d result_buffer rounds hcorr hsize htext hbuf hover hrounds
  · intro r b hrun hok
    by_cases hfit : result_buffer.size + (items_bytes d (written_records params d)).length
        ≤ result_buffer.capacity
    · obtain ⟨b1, g1, g2⟩ := run_query_eq params d result_buffer rounds hcorr hsize htext hfit
        hrounds
      rw [g1] at hrun
      cases hrun
      exact ⟨hfit, rfl, g2⟩
    · obtain ⟨b1, g1⟩ := run_query_overflow params d result_buffer rounds hcorr hsize htext
        hbuf hfit hrounds
      rw [g1] at hrun
      cases hrun
      cases hok
  · intro s r b htype hinit hrun herr
    exact server_calculate_response_error rounds s r b htype hinit hrun herr
  · intro s htype hinit hd hp hover
    subst hd
    subst hp
    obtain ⟨b1, g1⟩ := run_query_overflow (server_params s) s.database (server_result_buffer s)
      rounds hcorr hsize htext (Nat.zero_le _)
      (by
        show ¬ 0 + (items_bytes s.database
          (written_records (server_params s) s.database)).length ≤ sizeof_msg_body
        rw [Nat.zero_add]; exact hover)
      hrounds
    refine ⟨_, server_calculate_response_error rounds s _ b1 htype hinit g1 (by decide),
      rfl, rfl, rfl, rfl, rfl⟩

theorem C18_out_of_memory_witness :
    (names_correspond sample_db ∧ sample_db.name_buffer.count < 2 ^ 64 ∧
      text_nul_free (params_of [97] 0 5 0 5) ∧
      sample_db.record_array.count + 1 ≤ 5 ∧
      (items_bytes sample_db (written_records (params_of [97] 0 5 0 5) sample_db)).length
        = 43) ∧
    ∃ b, run_query 5 (params_of [97] 0 5 0 5) { data := fun _ => 0, size := 0, capacity := 40 }
          sample_db
        = some ({ error := QUICKFIND_ERROR_OUT_OF_MEMORY, found_count := 0,
                  return_count := 0 }, b) :=
  ⟨⟨by decide, by decide, by decide, by decide, by decide⟩,
    (C18_out_of_memory (params_of [97] 0 5 0 5) sample_db
      { data := fun _ => 0, size := 0, capacity := 40 } 5
      (by decide) (by decide) (by decide) (by decide) (by decide)).1 (by decide)⟩

/-- C19.  For a request whose `head.type` is not MSG_TYPE_QUERY_REQUEST
`server_calculate_response` returns with a response whose `head.error` is
QUICKFIND_OK (0) and whose `head.body_size` is 2, the value of
QUICKFIND_ERROR_INVALID_REQUEST: the error code is stored in `body_size`, not in
`error`.  The client that reads this response returns
QUICKFIND_ERROR_INVALID_RESPONSE. -/
theorem C19_not_a_query_request (rounds : Nat) (s : server)
    (htype : s.request.type ≠ MSG_TYPE_QUERY_REQUEST) :
    ∃ s1, server_calculate_response rounds s = some s1 ∧
      s1.response.error = QUICKFIND_OK ∧ s1.response.body_size = 2 ∧
      s1.response.type = MSG_TYPE_NONE ∧
      s1.response.error ≠ QUICKFIND_ERROR_INVALID_REQUEST ∧ s1.response.body_size ≠ 0 ∧
      quickfind_open_connected true QUICKFIND_OK
          (pipe_read_msg true (sizeof_msg_head + s1.response.body_size) s1.response.body_size)
          s1.response
        = QUICKFIND_ERROR_INVALID_RESPONSE := by
  unfold server_calculate_response
  rw [if_neg htype]
  exact ⟨_, rfl, rfl, rfl, rfl,
    (by show QUICKFIND_OK ≠ QUICKFIND_ERROR_INVALID_REQUEST; decide),
    (by show (2 : Nat) ≠ 0; decide), rfl⟩

theorem C19_not_a_query_request_witness :
    (server_of sample_db true MSG_TYPE_NONE).request.type ≠ MSG_TYPE_QUERY_REQUEST ∧
    ∃ s1, server_calculate_response 5 (server_of sample_db true MSG_TYPE_NONE) = some s1 ∧
      s1.response.error = QUICKFIND_OK ∧ s1.response.body_size = 2 ∧
      s1.response.type = MSG_TYPE_NONE ∧
      s1.response.error ≠ QUICKFIND_ERROR_INVALID_REQUEST ∧ s1.response.body_size ≠ 0 ∧
      quickfind_open_connected true QUICKFIND_OK
          (pipe_read_msg true (sizeof_msg_head + s1.response.body_size) s1.response.body_size)
          s1.response
        = QUICKFIND_ERROR_INVALID_RESPONSE :=
  ⟨by decide, C19_not_a_query_request 5 (server_of sample_db true MSG_TYPE_NONE) (by decide)⟩

/-- C20.  For a query request made while `database_initialized` is false
`server_calculate_response` returns, without running the query, with a response
whose `head.error` is QUICKFIND_ERROR_DATABASE_NOT_INITIALIZED, whose
`body_size` is 0 and whose `head.type` is 0 (MSG_TYPE_NONE).  `quickfind_open`,
on reading that response, returns QUICKFIND_ERROR_INVALID_RESPONSE, and whatever
the allocation and the pipe calls do it does not return
QUICKFIND_ERROR_DATABASE_NOT_INITIALIZED. -/
theorem C20_database_not_initialized (rounds : Nat) (s : server)
    (htype : s.request.type = MSG_TYPE_QUERY_REQUEST)
    (hinit : s.database_initialized = false) :
    ∃ s1, server_calculate_response rounds s = some s1 ∧
      s1.response.error = QUICKFIND_ERROR_DATABASE_NOT_INITIALIZED ∧
      s1.response.body_size = 0 ∧ s1.response.type = MSG_TYPE_NONE ∧
      s1.response.body = s.response.body ∧
      quickfind_open_connected true QUICKFIND_OK
          (pipe_read_msg true (sizeof_msg_head + s1.response.body_size) s1.response.body_size)
          s1.response
        = QUICKFIND_ERROR_INVALID_RESPONSE ∧
      ∀ alloc_ok WriteFile_ok bytes_written body_size ReadFile_ok bytes_read,
        quickfind_open_connected alloc_ok (pipe_write_msg WriteFile_ok bytes_written body_size)
            (pipe_read_msg ReadFile_ok bytes_read s1.response.body_size) s1.response
          ≠ QUICKFIND_ERROR_DATABASE_NOT_INITIALIZED := by
  unfold server_calculate_response
  rw [if_pos htype, hinit]
  refine ⟨_, rfl, rfl, rfl, rfl, rfl, rfl, ?_⟩
  intro alloc_ok WriteFile_ok bytes_written body_size ReadFile_ok bytes_read
  unfold quickfind_open_connected pipe_write_msg pipe_read_msg
  cases alloc_ok <;> cases WriteFile_ok <;> cases ReadFile_ok <;>
    simp <;> split_ifs <;> simp

theorem C20_database_not_initialized_witness :
    ((server_of sample_db false MSG_TYPE_QUERY_REQUEST).request.type = MSG_TYPE_QUERY_REQUEST ∧
      (server_of sample_db false MSG_TYPE_QUERY_REQUEST).database_initialized = false) ∧
    ∃ s1, server_calculate_response 5 (server_of sample_db false MSG_TYPE_QUERY_REQUEST)
        = some s1 ∧
      s1.response.error = QUICKFIND_ERROR_DATABASE_NOT_INITIALIZED ∧
      s1.response.body_size = 0 ∧ s1.response.type = MSG_TYPE_NONE ∧
      s1.response.body = (server_of sample_db false MSG_TYPE_QUERY_REQUEST).response.body ∧
      quickfind_open_connected true QUICKFIND_OK
          (pipe_read_msg true (sizeof_msg_head + s1.response.body_size) s1.response.body_size)
          s1.response
        = QUICKFIND_ERROR_INVALID_RESPONSE ∧
      ∀ alloc_ok WriteFile_ok bytes_written body_size ReadFile_ok bytes_read,
        quickfind_open_connected alloc_ok (pipe_write_msg WriteFile_ok bytes_written body_size)
            (pipe_read_msg ReadFile_ok bytes_read s1.response.body_size) s1.response
          ≠ QUICKFIND_ERROR_DATABASE_NOT_INITIALIZED :=
  ⟨⟨rfl, rfl⟩,
    C20_database_not_initialized 5 (server_of sample_db false MSG_TYPE_QUERY_REQUEST) rfl rfl⟩

/-! ## The default stop count -/

/-- The default stop count.  When `stop_count` is left unspecified (0)
`quickfind_open` sends
`stop_count = skip_count + return_count`, and in an index with the name/record
correspondence, for a text of at least one byte without NUL and a result buffer
with room for the items, `run_query` then returns with error OK and
`found_count = min(skip_count + return_count, M)`, `M` being the number of
matching records: `found_count` does not exceed `skip_count + return_count`,
whatever the number of matching records. -/
theorem default_stop_count_found (params : quickfind_params) (d : db) (result_buffer : buffer)
    (rounds : Nat)
    (hstop : params.stop_count = 0)
    (hsum : params.skip_count + params.return_count < 2 ^ 64)
    (hcorr : names_correspond d) (hsize : d.name_buffer.count < 2 ^ 64)
    (htext : text_nul_free params)
    (hcap : result_buffer.size
        + (items_bytes d (written_records (quickfind_open_params params) d)).length
      ≤ result_buffer.capacity)
    (hrounds : d.record_array.count + 1 ≤ rounds) :
    (quickfind_open_params params).stop_count = params.skip_count + params.return_count ∧
    ∃ r b, run_query rounds (quickfind_open_params params) result_buffer d = some (r, b) ∧
      r.error = QUICKFIND_OK ∧
      r.found_count = min (params.skip_count + params.return_count)
        (matching_records params.flags params.text params.text_length d).length ∧
      r.found_count ≤ params.skip_count + params.return_count ∧
      r.return_count = (written_records (quickfind_open_params params) d).length ∧
      buffer_holds result_buffer
        (items_bytes d (written_records (quickfind_open_params params) d)) b := by
  have hq : quickfind_open_params params
      = { params with stop_count := params.skip_count + params.return_count } := by
    unfold quickfind_open_params
    rw [if_pos hstop, Nat.mod_eq_of_lt hsum]
  have ht2 : text_nul_free (quickfind_open_params params) := by rw [hq]; exact htext
  obtain ⟨b, g1, g2⟩ := run_query_eq (quickfind_open_params params) d result_buffer rounds
    hcorr hsize ht2 hcap hrounds
  refine ⟨by rw [hq], _, b, g1, rfl, ?_, ?_, rfl, g2⟩
  · show min (quickfind_open_params params).stop_count _ = _
    rw [hq]
  · show min (quickfind_open_params params).stop_count _ ≤ _
    rw [hq]
    exact Nat.min_le_left _ _

theorem default_stop_count_example :
    ((params_of [97] 0 1 0 0).stop_count = 0 ∧
      (params_of [97] 0 1 0 0).skip_count + (params_of [97] 0 1 0 0).return_count < 2 ^ 64 ∧
      names_correspond sample_db ∧ text_nul_free (params_of [97] 0 1 0 0) ∧
      (matching_records (params_of [97] 0 1 0 0).flags (params_of [97] 0 1 0 0).text
        (params_of [97] 0 1 0 0).text_length sample_db).length = 2) ∧
    (quickfind_open_params (params_of [97] 0 1 0 0)).stop_count
      = (params_of [97] 0 1 0 0).skip_count + (params_of [97] 0 1 0 0).return_count ∧
    ∃ r b, run_query 5 (quickfind_open_params (params_of [97] 0 1 0 0)) response_buffer
        sample_db = some (r, b) ∧
      r.error = QUICKFIND_OK ∧
      r.found_count = min ((params_of [97] 0 1 0 0).skip_count
          + (params_of [97] 0 1 0 0).return_count)
        (matching_records (params_of [97] 0 1 0 0).flags (params_of [97] 0 1 0 0).text
          (params_of [97] 0 1 0 0).text_length sample_db).length ∧
      r.found_count ≤ (params_of [97] 0 1 0 0).skip_count
        + (params_of [97] 0 1 0 0).return_count ∧
      r.return_count
        = (written_records (quickfind_open_params (params_of [97] 0 1 0 0)) sample_db).length ∧
      buffer_holds response_buffer
        (items_bytes sample_db
          (written_records (quickfind_open_params (params_of [97] 0 1 0 0)) sample_db)) b :=
  ⟨⟨by decide, by decide, by decide, by decide, by decide⟩,
    default_stop_count_found (params_of [97] 0 1 0 0) sample_db response_buffer 5
      (by decide) (by decide) (by decide) (by decide) (by decide) (by decide) (by decide)⟩

/-- The state `index_of_records` describes is the one the calls of `db_insert`
leave, checked field by field on the index of f0, the root and f1, f2. -/
theorem index_of_records_agrees :
    (index_of_records (f_recs 3 1)).name_buffer.count = (f_index 3 1).name_buffer.count ∧
    (index_of_records (f_recs 3 1)).record_array.count = (f_index 3 1).record_array.count ∧
    (∀ i, i < 32 →
      (index_of_records (f_recs 3 1)).name_buffer.elems i = (f_index 3 1).name_buffer.elems i) ∧
    (∀ k, k < 8 →
      (index_of_records (f_recs 3 1)).record_array.elems k
        = (f_index 3 1).record_array.elems k) ∧
    (∀ rn, rn < 16 →
      (index_of_records (f_recs 3 1)).lookup_array.elems rn
        = (f_index 3 1).lookup_array.elems rn) := by
  decide

set_option maxRecDepth 100000 in
/-- C17 as stated fails.  In the index holding f0, the root (id 1) and f1 ...
f99, in that order, the query for "f4" with `return_count = 5`,
`skip_count = 0` and `stop_count` left at 0 is sent with `stop_count = 5`;
`run_query` writes the items of f4, f40, f41, f42 and f43 and returns
`found_count = 5`, not 11.  In the index holding the root first and then f0 ...
f99 the ancestor walk returns false for f4, f40, f41, f42 and f43 (indices 5 and
41 to 44). -/
theorem C17_found_count_is_five :
    (quickfind_open_params (params_of [102, 52] 0 5 0 0)).stop_count = 5 ∧
    (run_query 102 (quickfind_open_params (params_of [102, 52] 0 5 0 0)) response_buffer
        (index_of_records (f_recs 100 1))).map (fun r => (r.1, bytes_of r.2.data r.2.size))
      = some ({ error := QUICKFIND_OK, found_count := 5, return_count := 5 },
          [6, 0, 0, 0, 0, 0, 0, 0, 0, 0, 0, 0, 6, 0, 0, 0, 67, 58, 92, 102, 52, 0, 42, 0, 0, 0,
           0, 0, 0, 0, 0, 0, 0, 0, 7, 0, 0, 0, 67, 58, 92, 102, 52, 48, 0, 43, 0, 0, 0, 0, 0,
           0, 0, 0, 0, 0, 0, 7, 0, 0, 0, 67, 58, 92, 102, 52, 49, 0, 44, 0, 0, 0, 0, 0, 0, 0,
           0, 0, 0, 0, 7, 0, 0, 0, 67, 58, 92, 102, 52, 50, 0, 45, 0, 0, 0, 0, 0, 0, 0, 0, 0,
           0, 0, 7, 0, 0, 0, 67, 58, 92, 102, 52, 51, 0]) ∧
    (walk_ancestors_is_child_of_root (index_of_records (f_recs 100 0)) 256 5 = false ∧
      walk_ancestors_is_child_of_root (index_of_records (f_recs 100 0)) 256 41 = false ∧
      walk_ancestors_is_child_of_root (index_of_records (f_recs 100 0)) 256 42 = false ∧
      walk_ancestors_is_child_of_root (index_of_records (f_recs 100 0)) 256 43 = false ∧
      walk_ancestors_is_child_of_root (index_of_records (f_recs 100 0)) 256 44 = false) := by
  decide!

/-! ## The index of f0 ... f99 with the root at any position -/

theorem getD_append_at (a b : List Nat) (j : Nat) :
    (a ++ b).getD (a.length + j) 0 = b.getD j 0 := by
  simp [List.getD_eq_getElem?_getD, List.getElem?_append_right]

theorem getD_append_lt (a b : List Nat) (j : Nat) (h : j < a.length) :
    (a ++ b).getD j 0 = a.getD j 0 := by
  simp [List.getD_eq_getElem?_getD, List.getElem?_append_left h]

theorem packed_names_append (a b : List (Nat × Nat × Nat × List Nat)) :
    packed_names (a ++ b) = packed_names a ++ packed_names b := by
  unfold packed_names
  rw [List.flatMap_append]

theorem packed_names_cons (r : Nat × Nat × Nat × List Nat)
    (b : List (Nat × Nat × Nat × List Nat)) :
    packed_names (r :: b) = r.2.2.2 ++ [0] ++ packed_names b := by
  unfold packed_names
  rw [List.flatMap_cons]

theorem name_offsets_getD : ∀ (recs : List (Nat × Nat × Nat × List Nat)) (start k : Nat),
    k < recs.length →
    (name_offsets start (recs.map fun r => r.2.2.2)).getD k 0
      = start + (packed_names (recs.take k)).length := by
  intro recs
  induction recs with
  | nil => intro start k hk; simp at hk
  | cons r rest ih =>
    intro start k hk
    cases k with
    | zero => simp [name_offsets, packed_names]
    | succ k =>
      simp only [List.length_cons] at hk
      simp only [List.map_cons, name_offsets, List.getD_cons_succ, List.take_succ_cons]
      rw [ih _ k (by omega), packed_names_cons]
      simp only [List.length_append, List.length_cons, List.length_nil]
      omega

/-- The record at position `k` splits the packed names: the names before it, its
name and terminator, the names behind it. -/
theorem packed_names_split (recs : List (Nat × Nat × Nat × List Nat)) (k : Nat)
    (r : Nat × Nat × Nat × List Nat) (hk : recs.get? k = some r) :
    packed_names recs
      = packed_names (recs.take k) ++ (r.2.2.2 ++ [0] ++ packed_names (recs.drop (k + 1))) := by
  have hlt : k < recs.length := by
    rw [List.get?_eq_some] at hk
    exact hk.1
  have hd : recs.drop k = r :: recs.drop (k + 1) := by
    rw [List.drop_eq_getElem_cons hlt]
    congr 1
    rw [List.get?_eq_getElem?, List.getElem?_eq_getElem hlt] at hk
    exact Option.some.inj hk
  conv_lhs => rw [← List.take_append_drop k recs, hd]
  rw [packed_names_append, packed_names_cons]

theorem index_of_records_elems (recs : List (Nat × Nat × Nat × List Nat)) (k : Nat)
    (r : Nat × Nat × Nat × List Nat) (hk : recs.get? k = some r) :
    (index_of_records recs).record_array.elems k
      = ⟨(packed_names (recs.take k)).length, r.2.2.1, r.1, r.2.1⟩ := by
  have hlt : k < recs.length := by
    rw [List.get?_eq_some] at hk
    exact hk.1
  simp only [index_of_records, hk]
  rw [name_offsets_getD recs 0 k hlt, Nat.zero_add]

/-- The bytes of the name of record `k` in the name buffer, and its terminator. -/
theorem index_of_records_name_bytes (recs : List (Nat × Nat × Nat × List Nat)) (k : Nat)
    (r : Nat × Nat × Nat × List Nat) (hk : recs.get? k = some r) :
    (∀ j, j < r.2.2.2.length →
      (index_of_records recs).name_buffer.elems
        (((index_of_records recs).record_array.elems k).name_offset + j) = r.2.2.2.getD j 0) ∧
    (index_of_records recs).name_buffer.elems
      (((index_of_records recs).record_array.elems k).name_offset + r.2.2.2.length) = 0 ∧
    ((index_of_records recs).record_array.elems k).name_offset + r.2.2.2.length
      < (index_of_records recs).name_buffer.count := by
  rw [index_of_records_elems recs k r hk]
  have hs := packed_names_split recs k r hk
  have he : (index_of_records recs).name_buffer.elems = mem_of (packed_names recs) := rfl
  have hc : (index_of_records recs).name_buffer.count = (packed_names recs).length := rfl
  rw [he, hc]
  dsimp only
  refine ⟨fun j hj => ?_, ?_, ?_⟩
  · unfold mem_of
    rw [hs, getD_append_at, List.append_assoc, getD_append_lt _ _ _ hj]
  · unfold mem_of
    rw [hs, getD_append_at, List.append_assoc]
    exact getD_append_at r.2.2.2 ([0] ++ packed_names (recs.drop (k + 1))) 0
  · rw [hs]
    simp only [List.length_append, List.length_cons, List.length_nil]
    omega

theorem count_nul_packed_names : ∀ (pre : List (Nat × Nat × Nat × List Nat)) (rest : List Nat),
    (∀ r ∈ pre, ∀ b ∈ r.2.2.2, b ≠ 0) →
    count_nul (mem_of (packed_names pre ++ rest)) (packed_names pre).length = pre.length := by
  intro pre
  induction pre using List.reverseRecOn with
  | nil => intro rest _; rfl
  | append_singleton init r ih =>
    intro rest hn
    have hinit : ∀ x ∈ init, ∀ b ∈ x.2.2.2, b ≠ 0 :=
      fun x hx => hn x (List.mem_append_left _ hx)
    have hr : ∀ b ∈ r.2.2.2, b ≠ 0 := hn r (by simp)
    have hp : packed_names (init ++ [r]) = packed_names init ++ (r.2.2.2 ++ [0]) := by
      rw [packed_names_append, packed_names_cons]
      simp [packed_names]
    rw [hp, List.append_assoc]
    have hlen : (packed_names init ++ (r.2.2.2 ++ [0])).length
        = (packed_names init).length + r.2.2.2.length + 1 := by
      simp only [List.length_append, List.length_cons, List.length_nil]
      omega
    rw [hlen, count_nul]
    have hz : mem_of (packed_names init ++ (r.2.2.2 ++ [0] ++ rest))
        ((packed_names init).length + r.2.2.2.length) = 0 := by
      unfold mem_of
      rw [getD_append_at, List.append_assoc]
      exact getD_append_at r.2.2.2 ([0] ++ rest) 0
    rw [if_pos hz]
    rw [count_nul_no_nul _ (packed_names init).length _ (by omega)
      (fun i h1 h2 => by
        obtain ⟨j, rfl⟩ : ∃ j, i = (packed_names init).length + j := ⟨i - (packed_names init).length, by omega⟩
        unfold mem_of
        rw [getD_append_at, List.append_assoc, getD_append_lt _ _ _ (by omega)]
        have hj : j < r.2.2.2.length := by omega
        rw [List.getD_eq_getElem _ _ hj]
        exact hr _ (List.getElem_mem _))]
    rw [ih _ hinit]
    simp

theorem packed_names_take_succ (recs : List (Nat × Nat × Nat × List Nat)) (k : Nat)
    (r : Nat × Nat × Nat × List Nat) (hk : recs.get? k = some r) :
    packed_names (recs.take (k + 1)) = packed_names (recs.take k) ++ (r.2.2.2 ++ [0]) := by
  rw [List.take_succ, packed_names_append]
  rw [List.get?_eq_getElem?] at hk
  rw [hk]
  simp [packed_names]

theorem index_of_records_offset (recs : List (Nat × Nat × Nat × List Nat)) (k : Nat)
    (hk : k < recs.length) :
    ((index_of_records recs).record_array.elems k).name_offset
      = (packed_names (recs.take k)).length := by
  have hg : recs.get? k = some (recs.get ⟨k, hk⟩) := List.get?_eq_get hk
  rw [index_of_records_elems recs k _ hg]

/-- The state `index_of_records` describes has the name/record correspondence
when no name holds a NUL byte. -/
theorem index_of_records_names_correspond (recs : List (Nat × Nat × Nat × List Nat))
    (hn : ∀ r ∈ recs, ∀ b ∈ r.2.2.2, b ≠ 0) : names_correspond (index_of_records recs) := by
  have he : (index_of_records recs).name_buffer.elems = mem_of (packed_names recs) := rfl
  have hc : (index_of_records recs).name_buffer.count = (packed_names recs).length := rfl
  have hr : (index_of_records recs).record_array.count = recs.length := rfl
  refine ⟨?_, ?_, ?_⟩
  · rw [he, hc, hr]
    have := count_nul_packed_names recs [] hn
    rwa [List.append_nil] at this
  · intro hpos
    unfold name_byte
    rw [he, hc]
    rcases List.eq_nil_or_concat recs with h | ⟨init, r, h⟩
    · rw [h] at hpos
      exact absurd hpos (Nat.lt_irrefl 0)
    · have hp : packed_names recs = packed_names init ++ (r.2.2.2 ++ [0]) := by
        rw [h, List.concat_eq_append, packed_names_append, packed_names_cons]
        simp [packed_names]
      rw [hp]
      have hl : (packed_names init ++ (r.2.2.2 ++ [0])).length - 1
          = (packed_names init).length + r.2.2.2.length := by
        simp only [List.length_append, List.length_cons, List.length_nil]
        omega
      rw [hl]
      unfold mem_of
      rw [getD_append_at]
      exact getD_append_at r.2.2.2 [0] 0
  · intro k hk
    rw [hr] at hk
    rw [index_of_records_offset recs k hk, he]
    constructor
    · have := count_nul_packed_names (recs.take k) (packed_names (recs.drop k))
        (fun r hr => hn r (List.mem_of_mem_take hr))
      rw [← packed_names_append, List.take_append_drop] at this
      rw [this, List.length_take]
      omega
    · cases k with
      | zero => left; rfl
      | succ k =>
        right
        have hg : recs.get? k = some (recs.get ⟨k, by omega⟩) := List.get?_eq_get (by omega)
        obtain ⟨_, h2, _⟩ := index_of_records_name_bytes recs k _ hg
        rw [index_of_records_offset recs k (by omega)] at h2
        rw [packed_names_take_succ recs k _ hg]
        unfold name_byte
        have hl : (packed_names (List.take k recs) ++ ((recs.get ⟨k, by omega⟩).2.2.2 ++ [0])).length - 1
            = (packed_names (List.take k recs)).length + (recs.get ⟨k, by omega⟩).2.2.2.length := by
          simp only [List.length_append, List.length_cons, List.length_nil]
          omega
        rw [hl]
        exact h2

/-- The name of record `k` of `index_of_records`, read back from the name
buffer. -/
theorem index_of_records_record_name (recs : List (Nat × Nat × Nat × List Nat)) (k : Nat)
    (r : Nat × Nat × Nat × List Nat) (hk : recs.get? k = some r)
    (hn : ∀ b ∈ r.2.2.2, b ≠ 0) :
    record_name (index_of_records recs) k = r.2.2.2 := by
  obtain ⟨h1, h2, h3⟩ := index_of_records_name_bytes recs k r hk
  unfold record_name
  generalize ((index_of_records recs).record_array.elems k).name_offset = off at h1 h2 h3 ⊢
  generalize (index_of_records recs).name_buffer.count = cnt at h3 ⊢
  generalize (index_of_records recs).name_buffer.elems = mem at h1 h2 ⊢
  obtain ⟨lim, hlim⟩ : ∃ lim, cnt - off = r.2.2.2.length + 1 + lim :=
    ⟨cnt - off - r.2.2.2.length - 1, by omega⟩
  rw [hlim]
  clear hlim h3
  generalize r.2.2.2 = name at h1 h2 hn ⊢
  induction name generalizing off with
  | nil =>
    simp only [List.length_nil, Nat.add_zero] at h2
    have e : ([] : List Nat).length + 1 + lim = lim + 1 := by
      simp only [List.length_nil]; omega
    rw [e]
    simp [c_string, h2]
  | cons b rest ih =>
    have hb : mem off = b := by
      have := h1 0 (by simp)
      simpa using this
    have hb0 : b ≠ 0 := hn b (by simp)
    rw [show (b :: rest).length + 1 + lim = (rest.length + 1 + lim) + 1 by
      simp only [List.length_cons]; omega]
    rw [c_string, if_neg (by rw [hb]; exact hb0), hb]
    congr 1
    apply ih (off + 1)
    · intro j hj
      have := h1 (j + 1) (by simp only [List.length_cons]; omega)
      rw [List.getD_cons_succ] at this
      rw [← this]
      congr 1
      omega
    · rw [← h2]
      congr 1
      simp only [List.length_cons]
      omega
    · intro x hx
      exact hn x (List.mem_cons_of_mem _ hx)

theorem index_of_records_record_name_length (recs : List (Nat × Nat × Nat × List Nat))
    (k : Nat) (r : Nat × Nat × Nat × List Nat) (hk : recs.get? k = some r)
    (hn : ∀ b ∈ r.2.2.2, b ≠ 0) :
    record_name_length (index_of_records recs) k = r.2.2.2.length := by
  have := index_of_records_record_name recs k r hk hn
  unfold record_name at this
  unfold record_name_length
  rw [this]

theorem any_congr_mem (l : List Nat) (f g : Nat → Bool) (h : ∀ j ∈ l, f j = g j) :
    l.any f = l.any g := by
  induction l with
  | nil => rfl
  | cons a rest ih =>
    simp only [List.any_cons]
    rw [h a (List.mem_cons_self _ _), ih (fun j hj => h j (List.mem_cons_of_mem _ hj))]

theorem all_congr_mem (l : List Nat) (f g : Nat → Bool) (h : ∀ j ∈ l, f j = g j) :
    l.all f = l.all g := by
  induction l with
  | nil => rfl
  | cons a rest ih =>
    simp only [List.all_cons]
    rw [h a (List.mem_cons_self _ _), ih (fun j hj => h j (List.mem_cons_of_mem _ hj))]

/-- In the state `index_of_records` describes, the name of record `k` contains
the text when the text occurs in the name the record was given. -/
theorem index_of_records_name_contains (recs : List (Nat × Nat × Nat × List Nat)) (k : Nat)
    (r : Nat × Nat × Nat × List Nat) (hk : recs.get? k = some r)
    (hn : ∀ b ∈ r.2.2.2, b ≠ 0) (flags : Nat) (text : Nat → Nat) (text_length : Nat) :
    name_contains flags text text_length (index_of_records recs) k
      = name_has_text flags text text_length r.2.2.2 := by
  obtain ⟨h1, _, _⟩ := index_of_records_name_bytes recs k r hk
  unfold name_contains name_has_text
  rw [index_of_records_record_name_length recs k r hk hn]
  apply any_congr_mem
  intro j _
  by_cases hj : j + text_length ≤ r.2.2.2.length
  · rw [decide_eq_true hj, Bool.true_and, Bool.true_and]
    unfold needle_at
    apply all_congr_mem
    intro i hi
    rw [List.mem_range] at hi
    rw [Nat.add_assoc, h1 (j + i) (by omega)]
    rfl
  · rw [decide_eq_false hj, Bool.false_and, Bool.false_and]

/-- In the state `index_of_records` describes, a record whose parent id names a
root through the lookup: the record at `k`, then the root at `q`, is its chain
of parents. -/
theorem index_of_records_chain (recs : List (Nat × Nat × Nat × List Nat)) (k q : Nat)
    (r rq : Nat × Nat × Nat × List Nat) (hk : recs.get? k = some r)
    (hq : recs.get? q = some rq) (hne : r.1 ≠ r.2.1) (hroot : rq.1 = rq.2.1)
    (hlook : db_get_record_by_id (index_of_records recs) r.2.1 = some q) :
    parent_chain (index_of_records recs) [k, q] := by
  refine ⟨?_, ?_, ?_⟩
  · rw [index_of_records_elems recs k r hk]
    exact hne
  · unfold db_get_record_parent
    rw [index_of_records_elems recs k r hk]
    exact hlook
  · show ((index_of_records recs).record_array.elems q).id
      = ((index_of_records recs).record_array.elems q).parent_id
    rw [index_of_records_elems recs q rq hq]
    exact hroot

theorem index_of_records_term (recs : List (Nat × Nat × Nat × List Nat)) (k : Nat)
    (r : Nat × Nat × Nat × List Nat) (hk : recs.get? k = some r) :
    ∃ t, ((index_of_records recs).record_array.elems k).name_offset ≤ t ∧
      t < (index_of_records recs).name_buffer.count ∧
      (index_of_records recs).name_buffer.elems t = 0 := by
  obtain ⟨_, h2, h3⟩ := index_of_records_name_bytes recs k r hk
  exact ⟨_, Nat.le_add_right _ _, h3, h2⟩

theorem positions_append (h : Nat × Nat × Nat × List Nat → Bool)
    (a b : List (Nat × Nat × Nat × List Nat)) :
    positions h (a ++ b) = positions h a ++ (positions h b).map (fun k => a.length + k) := by
  unfold positions
  rw [List.length_append, List.range_add, List.filter_append, List.filter_map]
  congr 1
  · apply List.filter_congr
    intro k hk
    rw [List.mem_range] at hk
    rw [List.getD_append _ _ _ _ hk]
  · congr 1
    apply List.filter_congr
    intro k _
    simp only [Function.comp]
    rw [List.getD_append_right _ _ _ _ (by omega)]
    congr 2
    omega

theorem positions_lt (h : Nat × Nat × Nat × List Nat → Bool)
    (a : List (Nat × Nat × Nat × List Nat)) : ∀ k ∈ positions h a, k < a.length := by
  intro k hk
  unfold positions at hk
  rw [List.mem_filter, List.mem_range] at hk
  exact hk.1

theorem positions_nil_of (h : Nat × Nat × Nat × List Nat → Bool)
    (a : List (Nat × Nat × Nat × List Nat)) (hn : ∀ r ∈ a, h r = false) : positions h a = [] := by
  unfold positions
  rw [List.filter_eq_nil_iff]
  intro k hk
  rw [List.mem_range] at hk
  rw [List.getD_eq_getElem _ _ hk, hn _ (List.getElem_mem _)]
  simp

/-- A record put in at position `p`: the positions before `p` stay, `p` comes in
when the record satisfies `h`, the positions from `p` on move up by one. -/
theorem positions_insert (h : Nat × Nat × Nat × List Nat → Bool)
    (l : List (Nat × Nat × Nat × List Nat)) (r : Nat × Nat × Nat × List Nat) (p : Nat)
    (hp : p ≤ l.length) :
    positions h (l.take p ++ r :: l.drop p)
      = positions h (l.take p) ++ ((if h r then [p] else [])
          ++ (positions h (l.drop p)).map (fun k => p + 1 + k)) := by
  have hlen : (l.take p).length = p := by rw [List.length_take]; omega
  rw [positions_append, hlen]
  congr 1
  have hc : r :: l.drop p = [r] ++ l.drop p := rfl
  rw [hc, positions_append, List.map_append, List.map_map]
  congr 1
  · have h1 : positions h [r] = if h r then [0] else [] := by
      unfold positions
      show List.filter _ [0] = _
      simp only [List.filter_cons, List.filter_nil]
      rfl
    rw [h1]
    by_cases hr : h r = true
    · rw [if_pos hr, if_pos hr]; rfl
    · rw [if_neg hr, if_neg hr]; rfl
  · apply List.map_congr_left
    intro k _
    simp only [Function.comp, List.length_singleton]
    omega

theorem positions_split (h : Nat × Nat × Nat × List Nat → Bool)
    (l : List (Nat × Nat × Nat × List Nat)) (p : Nat) (hp : p ≤ l.length) :
    positions h l
      = positions h (l.take p) ++ (positions h (l.drop p)).map (fun k => p + k) := by
  have hlen : (l.take p).length = p := by rw [List.length_take]; omega
  conv_lhs => rw [← List.take_append_drop p l]
  rw [positions_append, hlen]

/-- With a record that does not satisfy `h` put in at position `p`, the positions
are those of the list without it, moved up by one from `p` on. -/
theorem positions_insert_false (h : Nat × Nat × Nat × List Nat → Bool)
    (l : List (Nat × Nat × Nat × List Nat)) (r : Nat × Nat × Nat × List Nat) (p : Nat)
    (hp : p ≤ l.length) (hr : h r = false) :
    positions h (l.take p ++ r :: l.drop p)
      = (positions h l).map (fun i => if i < p then i else i + 1) := by
  have hlen : (l.take p).length = p := by rw [List.length_take]; omega
  rw [positions_insert h l r p hp, positions_split h l p hp, hr, List.map_append, List.map_map]
  simp only [Bool.false_eq_true, if_false, List.nil_append]
  congr 1
  · symm
    rw [List.map_congr_left (g := id)]
    · exact List.map_id _
    · intro k hk
      have := positions_lt h _ k hk
      rw [hlen] at this
      simp [this]
  · apply List.map_congr_left
    intro k _
    simp only [Function.comp]
    rw [if_neg (by omega)]
    omega

/-- The record at a position moved up by the record put in at `p`. -/
theorem getD_insert (l : List (Nat × Nat × Nat × List Nat)) (r : Nat × Nat × Nat × List Nat)
    (p i : Nat) (hp : p ≤ l.length) :
    (l.take p ++ r :: l.drop p).getD (if i < p then i else i + 1) (0, 0, 0, [])
      = l.getD i (0, 0, 0, []) := by
  have hlen : (l.take p).length = p := by rw [List.length_take]; omega
  by_cases hi : i < p
  · rw [if_pos hi, List.getD_append _ _ _ _ (by omega)]
    simp only [List.getD_eq_getElem?_getD]
    rw [List.getElem?_take_of_lt hi]
  · rw [if_neg hi, List.getD_append_right _ _ _ _ (by omega), hlen]
    rw [show i + 1 - p = (i - p) + 1 by omega, List.getD_cons_succ]
    simp only [List.getD_eq_getElem?_getD]
    rw [List.getElem?_drop]
    congr 2
    omega

theorem getD_insert_at (l : List (Nat × Nat × Nat × List Nat)) (r : Nat × Nat × Nat × List Nat)
    (p : Nat) (hp : p ≤ l.length) :
    (l.take p ++ r :: l.drop p).get? p = some r := by
  have hlen : (l.take p).length = p := by rw [List.length_take]; omega
  rw [List.get?_eq_getElem?, List.getElem?_append_right (by omega), hlen]
  simp

theorem get?_of_lt (recs : List (Nat × Nat × Nat × List Nat)) (k : Nat) (hk : k < recs.length) :
    recs.get? k = some (recs.getD k (0, 0, 0, [])) := by
  rw [List.get?_eq_getElem?, List.getD_eq_getElem?_getD, List.getElem?_eq_getElem hk]
  rfl

/-- In the state `index_of_records` describes, when no name holds a NUL byte, no
record carries NOT_IN_USE and every record is a root or has the parent id
`rid`, which the lookup resolves to a root: the records matching a query without
flags are those whose name has the text. -/
theorem index_of_records_matching (recs : List (Nat × Nat × Nat × List Nat)) (q rid : Nat)
    (rq : Nat × Nat × Nat × List Nat) (hq : recs.get? q = some rq) (hroot : rq.1 = rq.2.1)
    (hlook : db_get_record_by_id (index_of_records recs) rid = some q)
    (hall : ∀ r ∈ recs, (∀ b ∈ r.2.2.2, b ≠ 0) ∧
      r.2.2.1 &&& FILE_ATTRIBUTE_NOT_IN_USE = 0 ∧ (r.1 = r.2.1 ∨ r.2.1 = rid))
    (text : Nat → Nat) (text_length : Nat) :
    matching_records 0 text text_length (index_of_records recs)
      = positions (fun r => name_has_text 0 text text_length r.2.2.2) recs := by
  unfold matching_records positions
  show List.filter _ (List.range recs.length) = _
  apply List.filter_congr
  intro k hk
  rw [List.mem_range] at hk
  have hg := get?_of_lt recs k hk
  have hmem : recs.getD k (0, 0, 0, []) ∈ recs := by
    rw [List.getD_eq_getElem _ _ hk]
    exact List.getElem_mem _
  obtain ⟨hn, hattr, hpar⟩ := hall _ hmem
  unfold record_matches
  rw [index_of_records_name_contains recs k _ hg hn]
  have hpass : record_passes 0 text_length (index_of_records recs) k = true := by
    unfold record_passes
    have he := index_of_records_elems recs k _ hg
    have ha : ((index_of_records recs).record_array.elems k).attributes
        = (recs.getD k (0, 0, 0, [])).2.2.1 := by rw [he]
    rw [Bool.and_eq_true, Bool.and_eq_true, decide_eq_true_eq, matches_query_flags_iff,
      walk_ancestors_is_child_of_root_iff]
    refine ⟨by rw [ha]; exact hattr, ⟨by rw [ha]; exact hattr, ?_, ?_, ?_⟩, ?_⟩
    · intro h; exact absurd (Nat.zero_and _) h
    · intro h; exact absurd (Nat.zero_and _) h
    · intro h; exact absurd (Nat.zero_and _) h
    · rcases hpar with h1 | h1
      · refine ⟨[k], ?_, rfl, by simp⟩
        show ((index_of_records recs).record_array.elems k).id
          = ((index_of_records recs).record_array.elems k).parent_id
        rw [he]
        exact h1
      · by_cases h2 : (recs.getD k (0, 0, 0, [])).1 = (recs.getD k (0, 0, 0, [])).2.1
        · refine ⟨[k], ?_, rfl, by simp⟩
          show ((index_of_records recs).record_array.elems k).id
            = ((index_of_records recs).record_array.elems k).parent_id
          rw [he]
          exact h2
        · exact ⟨[k, q], index_of_records_chain recs k q _ rq hg hq h2 hroot
            (by rw [h1]; exact hlook), rfl, by simp⟩
  rw [hpass, Bool.and_true]

/-- In the state `index_of_records` describes, the path of a record whose parent
is a root found through the lookup is `C:`, a backslash and the name. -/
theorem index_of_records_child_path (recs : List (Nat × Nat × Nat × List Nat)) (k q : Nat)
    (r rq : Nat × Nat × Nat × List Nat) (hk : recs.get? k = some r)
    (hq : recs.get? q = some rq) (hne : r.1 ≠ r.2.1) (hroot : rq.1 = rq.2.1)
    (hlook : db_get_record_by_id (index_of_records recs) r.2.1 = some q)
    (hn : ∀ b ∈ r.2.2.2, b ≠ 0) (hfit : r.2.2.2.length + 4 ≤ 256 * 256) :
    walk_ancestors_build_path (index_of_records recs) k 256 (256 * 256)
      = (2, [67, 58, 92] ++ r.2.2.2) := by
  have hchain := index_of_records_chain recs k q r rq hk hq hne hroot hlook
  have hpath : chain_path (index_of_records recs) [k, q] = [67, 58, 92] ++ r.2.2.2 := by
    unfold chain_path
    show [67, 58] ++ path_of_names [record_name (index_of_records recs) k] = _
    rw [index_of_records_record_name recs k r hk hn]
    simp [path_of_names]
  have := walk_ancestors_build_path_chain (index_of_records recs) [k, q] (256 * 256) hchain
    (by simp)
    (fun c hc => by
      rcases List.mem_cons.mp hc with h1 | h1
      · rw [h1]; exact index_of_records_term recs k r hk
      · rw [List.mem_singleton] at h1
        rw [h1]; exact index_of_records_term recs q rq hq)
    (by rw [hpath]; simp only [List.length_append, List.length_cons, List.length_nil]; omega)
  rw [hpath] at this
  exact this

theorem f_list_records :
    ∀ r ∈ f_list 100, (∀ b ∈ r.2.2.2, b ≠ 0) ∧ r.2.2.1 &&& FILE_ATTRIBUTE_NOT_IN_USE = 0 ∧
      r.2.1 = 1 ∧ r.1 ≠ r.2.1 ∧ record_number r.1 ≠ 1 ∧ r.2.2.2.length ≤ 3 := by
  decide

theorem f_list_first_f4 :
    (positions (fun r => name_has_text 0 (mem_of [102, 52]) 2 r.2.2.2) (f_list 100)).take 5
      = [4, 40, 41, 42, 43] := by
  decide

theorem f_list_getD :
    (f_list 100).getD 4 (0, 0, 0, []) = (6, 1, 0, [102, 52]) ∧
    (f_list 100).getD 40 (0, 0, 0, []) = (42, 1, 0, [102, 52, 48]) ∧
    (f_list 100).getD 41 (0, 0, 0, []) = (43, 1, 0, [102, 52, 49]) ∧
    (f_list 100).getD 42 (0, 0, 0, []) = (44, 1, 0, [102, 52, 50]) ∧
    (f_list 100).getD 43 (0, 0, 0, []) = (45, 1, 0, [102, 52, 51]) :=
  ⟨rfl, rfl, rfl, rfl, rfl⟩

theorem packed_names_length_le : ∀ (recs : List (Nat × Nat × Nat × List Nat)) (m : Nat),
    (∀ r ∈ recs, r.2.2.2.length ≤ m) → (packed_names recs).length ≤ recs.length * (m + 1) := by
  intro recs m
  induction recs with
  | nil => intro _; simp [packed_names]
  | cons r rest ih =>
    intro h
    rw [packed_names_cons]
    have h1 := h r (List.mem_cons_self _ _)
    have h2 := ih (fun x hx => h x (List.mem_cons_of_mem _ hx))
    simp only [List.length_append, List.length_cons, List.length_nil, Nat.succ_mul]
    omega

/-- The index of f0 ... f99 with the root stored at position `p`, `1 <= p <=
100`: what the lookup, the matching records and the paths are. -/
theorem f_recs_index (p : Nat) (hp1 : 1 ≤ p) (hp : p ≤ 100) :
    names_correspond (index_of_records (f_recs 100 p)) ∧
    (index_of_records (f_recs 100 p)).name_buffer.count < 2 ^ 64 ∧
    (index_of_records (f_recs 100 p)).record_array.count = 101 ∧
    matching_records 0 (mem_of [102, 52]) 2 (index_of_records (f_recs 100 p))
      = (positions (fun r => name_has_text 0 (mem_of [102, 52]) 2 r.2.2.2) (f_list 100)).map
          (fun i => if i < p then i else i + 1) ∧
    ∀ i, i < 100 →
      ((index_of_records (f_recs 100 p)).record_array.elems (if i < p then i else i + 1)).id
        = ((f_list 100).getD i (0, 0, 0, [])).1 ∧
      ((index_of_records (f_recs 100 p)).record_array.elems
          (if i < p then i else i + 1)).attributes
        = ((f_list 100).getD i (0, 0, 0, [])).2.2.1 ∧
      walk_ancestors_build_path (index_of_records (f_recs 100 p)) (if i < p then i else i + 1)
          256 (256 * 256)
        = (2, [67, 58, 92] ++ ((f_list 100).getD i (0, 0, 0, [])).2.2.2) := by
  have hlen : (f_list 100).length = 100 := by simp [f_list]
  have hR : f_recs 100 p
      = (f_list 100).take p ++ (1, 1, 16, [46]) :: (f_list 100).drop p := rfl
  have hRlen : (f_recs 100 p).length = 101 := by
    rw [hR, List.length_append, List.length_cons, List.length_take, List.length_drop, hlen]
    omega
  have hmem : ∀ r ∈ f_recs 100 p, r = (1, 1, 16, [46]) ∨ r ∈ f_list 100 := by
    intro r hr
    rw [hR] at hr
    rcases List.mem_append.mp hr with h | h
    · exact Or.inr (List.mem_of_mem_take h)
    · rcases List.mem_cons.mp h with h1 | h1
      · exact Or.inl h1
      · exact Or.inr (List.mem_of_mem_drop h1)
  have hrootq : (f_recs 100 p).get? p = some (1, 1, 16, [46]) := by
    rw [hR]
    exact getD_insert_at _ _ p (by omega)
  have hall : ∀ r ∈ f_recs 100 p, (∀ b ∈ r.2.2.2, b ≠ 0) ∧
      r.2.2.1 &&& FILE_ATTRIBUTE_NOT_IN_USE = 0 ∧ (r.1 = r.2.1 ∨ r.2.1 = 1) := by
    intro r hr
    rcases hmem r hr with h | h
    · rw [h]
      exact ⟨by decide, by decide, Or.inl rfl⟩
    · obtain ⟨a1, a2, a3, _⟩ := f_list_records r h
      exact ⟨a1, a2, Or.inr a3⟩
  have hlookup : (index_of_records (f_recs 100 p)).lookup_array.elems 1 = p := by
    show (positions (fun r => decide (record_number r.1 = 1)) (f_recs 100 p)).getLastD 0 = p
    rw [hR, positions_insert _ _ _ p (by omega),
      positions_nil_of _ _ (fun r hr => by
        have := (f_list_records r (List.mem_of_mem_take hr)).2.2.2.2.1
        exact decide_eq_false this),
      positions_nil_of _ _ (fun r hr => by
        have := (f_list_records r (List.mem_of_mem_drop hr)).2.2.2.2.1
        exact decide_eq_false this)]
    rfl
  have hlook : db_get_record_by_id (index_of_records (f_recs 100 p)) 1 = some p := by
    unfold db_get_record_by_id
    have h1 : record_number 1 = 1 := rfl
    have h2 : (index_of_records (f_recs 100 p)).lookup_array.count_allocated = 16384 := rfl
    have h3 : (index_of_records (f_recs 100 p)).record_array.count = (f_recs 100 p).length := rfl
    rw [h1, h2, if_neg (by omega)]
    dsimp only
    rw [hlookup, h3, hRlen, if_neg (by omega), if_neg (by omega)]
  refine ⟨index_of_records_names_correspond _ (fun r hr => (hall r hr).1), ?_, hRlen, ?_, ?_⟩
  · show (packed_names (f_recs 100 p)).length < 2 ^ 64
    have := packed_names_length_le (f_recs 100 p) 3 (fun r hr => by
      rcases hmem r hr with h | h
      · rw [h]; decide
      · exact (f_list_records r h).2.2.2.2.2)
    rw [hRlen] at this
    omega
  · rw [index_of_records_matching (f_recs 100 p) p 1 _ hrootq rfl hlook hall, hR]
    exact positions_insert_false _ _ _ p (by omega) (by decide)
  · intro i hi
    have hk : (f_recs 100 p).get? (if i < p then i else i + 1)
        = some ((f_list 100).getD i (0, 0, 0, [])) := by
      rw [get?_of_lt _ _ (by rw [hRlen]; split_ifs <;> omega), hR,
        getD_insert _ _ p i (by omega)]
    have hm : (f_list 100).getD i (0, 0, 0, []) ∈ f_list 100 := by
      rw [List.getD_eq_getElem _ _ (by omega)]
      exact List.getElem_mem _
    obtain ⟨a1, _, a3, a4, _, a6⟩ := f_list_records _ hm
    have he := index_of_records_elems _ _ _ hk
    refine ⟨by rw [he], by rw [he], ?_⟩
    exact index_of_records_child_path (f_recs 100 p) _ p _ _ hk hrootq a4 rfl
      (by rw [a3]; exact hlook) a1 (by omega)

/-- C17 (amended).  In the index holding f0 ... f99, children of the root with
id 1, in that order, with the root stored at any position but the first
(`1 <= p <= 100`), the query with text "f4", `return_count = 5`,
`skip_count = 0` and `stop_count` left at 0 is sent with `stop_count = 5`, and
`run_query` returns with error OK, `return_count = 5`, the items of f4, f40,
f41, f42 and f43 in storage order (ids 6, 42, 43, 44, 45 with the paths C:\f4,
C:\f40, ...), and `found_count = 5`. -/
theorem C17_f4_query (p : Nat) (hp1 : 1 ≤ p) (hp : p ≤ 100) :
    (quickfind_open_params (params_of [102, 52] 0 5 0 0)).stop_count = 5 ∧
    (run_query 102 (quickfind_open_params (params_of [102, 52] 0 5 0 0)) response_buffer
        (index_of_records (f_recs 100 p))).map (fun r => (r.1, bytes_of r.2.data r.2.size))
      = some ({ error := QUICKFIND_OK, found_count := 5, return_count := 5 },
          [6, 0, 0, 0, 0, 0, 0, 0, 0, 0, 0, 0, 6, 0, 0, 0, 67, 58, 92, 102, 52, 0, 42, 0, 0, 0,
           0, 0, 0, 0, 0, 0, 0, 0, 7, 0, 0, 0, 67, 58, 92, 102, 52, 48, 0, 43, 0, 0, 0, 0, 0,
           0, 0, 0, 0, 0, 0, 7, 0, 0, 0, 67, 58, 92, 102, 52, 49, 0, 44, 0, 0, 0, 0, 0, 0, 0,
           0, 0, 0, 0, 7, 0, 0, 0, 67, 58, 92, 102, 52, 50, 0, 45, 0, 0, 0, 0, 0, 0, 0, 0, 0,
           0, 0, 7, 0, 0, 0, 67, 58, 92, 102, 52, 51, 0]) := by
  obtain ⟨hc, hsz, hcount, hmatch, hrec⟩ := f_recs_index p hp1 hp
  have hm5 : (matching_records 0 (mem_of [102, 52]) 2 (index_of_records (f_recs 100 p))).take 5
      = [4, 40, 41, 42, 43].map (fun i => if i < p then i else i + 1) := by
    rw [hmatch, ← List.map_take, f_list_first_f4]
  have hlen5 : 5 ≤ (matching_records 0 (mem_of [102, 52]) 2
      (index_of_records (f_recs 100 p))).length := by
    have := congrArg List.length hm5
    rw [List.length_take] at this
    simp only [List.length_map, List.length_cons, List.length_nil] at this
    omega
  obtain ⟨g4, g40, g41, g42, g43⟩ := f_list_getD
  have h4 := hrec 4 (by omega)
  have h40 := hrec 40 (by omega)
  have h41 := hrec 41 (by omega)
  have h42 := hrec 42 (by omega)
  have h43 := hrec 43 (by omega)
  rw [g4] at h4
  rw [g40] at h40
  rw [g41] at h41
  rw [g42] at h42
  rw [g43] at h43
  have hw : written_records (quickfind_open_params (params_of [102, 52] 0 5 0 0))
      (index_of_records (f_recs 100 p))
      = [4, 40, 41, 42, 43].map (fun i => if i < p then i else i + 1) := by
    show ((((matching_records 0 (mem_of [102, 52]) 2 (index_of_records (f_recs 100 p))).take
      5).drop 0).filter (path_builds (index_of_records (f_recs 100 p)))).take 5 = _
    rw [hm5, List.drop_zero, List.filter_eq_self.mpr, List.take_of_length_le (by simp)]
    intro k hk
    simp only [List.map_cons, List.map_nil, List.mem_cons, List.mem_singleton,
      List.not_mem_nil, or_false] at hk
    unfold path_builds
    rcases hk with h | h | h | h | h <;> rw [h]
    · rw [h4.2.2]; rfl
    · rw [h40.2.2]; rfl
    · rw [h41.2.2]; rfl
    · rw [h42.2.2]; rfl
    · rw [h43.2.2]; rfl
  have hitems : items_bytes (index_of_records (f_recs 100 p))
      ([4, 40, 41, 42, 43].map (fun i => if i < p then i else i + 1))
      = [6, 0, 0, 0, 0, 0, 0, 0, 0, 0, 0, 0, 6, 0, 0, 0, 67, 58, 92, 102, 52, 0, 42, 0, 0, 0,
           0, 0, 0, 0, 0, 0, 0, 0, 7, 0, 0, 0, 67, 58, 92, 102, 52, 48, 0, 43, 0, 0, 0, 0, 0,
           0, 0, 0, 0, 0, 0, 7, 0, 0, 0, 67, 58, 92, 102, 52, 49, 0, 44, 0, 0, 0, 0, 0, 0, 0,
           0, 0, 0, 0, 7, 0, 0, 0, 67, 58, 92, 102, 52, 50, 0, 45, 0, 0, 0, 0, 0, 0, 0, 0, 0,
           0, 0, 7, 0, 0, 0, 67, 58, 92, 102, 52, 51, 0] := by
    simp only [List.map_cons, List.map_nil, items_bytes, record_item_bytes]
    rw [h4.1, h4.2.1, h4.2.2, h40.1, h40.2.1, h40.2.2, h41.1, h41.2.1, h41.2.2,
      h42.1, h42.2.1, h42.2.2, h43.1, h43.2.1, h43.2.2]
    rfl
  obtain ⟨b, hrun, hb1, hb2, hb3⟩ := run_query_eq
    (quickfind_open_params (params_of [102, 52] 0 5 0 0)) (index_of_records (f_recs 100 p))
    response_buffer 102 hc hsz (by decide)
    (by rw [hw, hitems]; decide) (by rw [hcount])
  refine ⟨rfl, ?_⟩
  rw [hrun, hw, hitems] at *
  simp only [Option.map_some', Option.some.injEq, Prod.mk.injEq]
  refine ⟨?_, ?_⟩
  · have e1 : min (quickfind_open_params (params_of [102, 52] 0 5 0 0)).stop_count
        (matching_records (quickfind_open_params (params_of [102, 52] 0 5 0 0)).flags
          (quickfind_open_params (params_of [102, 52] 0 5 0 0)).text
          (quickfind_open_params (params_of [102, 52] 0 5 0 0)).text_length
          (index_of_records (f_recs 100 p))).length = 5 :=
      Nat.min_eq_left hlen5
    rw [e1]
    rfl
  · rw [hb3]
    rfl

/-- The amended C17 with the root stored behind f49 (position 50). -/
theorem C17_f4_query_witness :
    (1 ≤ 50 ∧ 50 ≤ 100) ∧
    (quickfind_open_params (params_of [102, 52] 0 5 0 0)).stop_count = 5 ∧
    (run_query 102 (quickfind_open_params (params_of [102, 52] 0 5 0 0)) response_buffer
        (index_of_records (f_recs 100 50))).map (fun r => (r.1, bytes_of r.2.data r.2.size))
      = some ({ error := QUICKFIND_OK, found_count := 5, return_count := 5 },
          [6, 0, 0, 0, 0, 0, 0, 0, 0, 0, 0, 0, 6, 0, 0, 0, 67, 58, 92, 102, 52, 0, 42, 0, 0, 0,
           0, 0, 0, 0, 0, 0, 0, 0, 7, 0, 0, 0, 67, 58, 92, 102, 52, 48, 0, 43, 0, 0, 0, 0, 0,
           0, 0, 0, 0, 0, 0, 7, 0, 0, 0, 67, 58, 92, 102, 52, 49, 0, 44, 0, 0, 0, 0, 0, 0, 0,
           0, 0, 0, 0, 7, 0, 0, 0, 67, 58, 92, 102, 52, 50, 0, 45, 0, 0, 0, 0, 0, 0, 0, 0, 0,
           0, 0, 7, 0, 0, 0, 67, 58, 92, 102, 52, 51, 0]) :=
  ⟨⟨by decide, by decide⟩, C17_f4_query 50 (by decide) (by decide)⟩

/-! ## Applying changes: the latest usn, ignored pairs -/

/-- `db_insert` on an index with allocated blocks returns, whatever the heap
does; the blocks stay allocated and `latest_usn` is untouched. -/
theorem db_insert_total (heap : Nat → Bool) (d : db) (id parent_id attributes : Nat)
    (wname : List Nat) (h1 : 0 < d.name_buffer.count_allocated)
    (h2 : 0 < d.record_array.count_allocated) (h3 : 0 < d.lookup_array.count_allocated) :
    ∃ res d1, db_insert heap d id parent_id attributes wname = some (res, d1) ∧
      d1.latest_usn = d.latest_usn ∧ 0 < d1.name_buffer.count_allocated ∧
      0 < d1.record_array.count_allocated ∧ 0 < d1.lookup_array.count_allocated := by
  rcases db_insert_spec heap d id parent_id attributes wname h1 h2 with
    ⟨d1, hrun, hra, hla, husn, hcap, _⟩ | ⟨e, hw, hrun, hla, husn, hcn, hcr, _, _, _, _, _⟩
  · exact ⟨none, d1, hrun, husn, hcap, by rw [hra]; exact h2, by rw [hla]; exact h3⟩
  · obtain ⟨ok, e1, hr, g1, g2, g3, g4, g5⟩ :=
      db_refresh_lookup_spec heap e d.record_array.count (by rw [hla]; exact h3)
    refine ⟨some d.record_array.count, e1, by rw [hrun, hr]; rfl, by rw [g2, husn],
      by rw [g1]; exact hcn, ?_, ?_⟩
    · cases ok with
      | false => rw [g3 rfl]; exact hcr
      | true =>
        obtain ⟨_, _, _, _, _, hrec⟩ := g5 rfl
        have key : ∀ (c : Prop) [Decidable c] (x : Nat),
            (if c then db_mark_record_not_in_use e x else e).record_array.count_allocated
              = e.record_array.count_allocated := by
          intro c _ x
          split_ifs
          · exact (db_mark_record_not_in_use_spec e x).2.2.2.2.1
          · rfl
        rw [hrec, key]
        exact hcr
    · cases ok with
      | false => rw [g3 rfl, hla]; exact h3
      | true =>
        obtain ⟨_, hle, _⟩ := g5 rfl
        rw [hla] at hle
        omega

/-- `db_delete` touches neither the name buffer, the lookup array, `latest_usn`
nor the size of the record block. -/
theorem db_delete_frame (d : db) (id : Nat) :
    (db_delete d id).name_buffer = d.name_buffer ∧
    (db_delete d id).lookup_array = d.lookup_array ∧
    (db_delete d id).latest_usn = d.latest_usn ∧
    (db_delete d id).record_array.count_allocated = d.record_array.count_allocated := by
  unfold db_delete
  cases db_get_record_by_id d id with
  | none => exact ⟨rfl, rfl, rfl, rfl⟩
  | some idx =>
    obtain ⟨a1, a2, a3, _, a5, _⟩ := db_mark_record_not_in_use_spec d idx
    exact ⟨a1, a2, a3, a5⟩

/-- One round of the loop of `db_apply_changes` returns on an index with
allocated blocks and leaves `latest_usn = max(latest_usn, usn)`. -/
theorem db_apply_change_total (heap : Nat → Bool) (d : db) (c : change)
    (h1 : 0 < d.name_buffer.count_allocated) (h2 : 0 < d.record_array.count_allocated)
    (h3 : 0 < d.lookup_array.count_allocated) :
    ∃ d1, db_apply_change heap d c = some d1 ∧ d1.latest_usn = max d.latest_usn c.usn ∧
      0 < d1.name_buffer.count_allocated ∧ 0 < d1.record_array.count_allocated ∧
      0 < d1.lookup_array.count_allocated := by
  obtain ⟨usn, type, id, parent_id, wname, attributes, ignore⟩ := c
  cases ignore with
  | true => exact ⟨{ d with latest_usn := max d.latest_usn usn }, by simp [db_apply_change],
      rfl, h1, h2, h3⟩
  | false =>
    cases type with
    | CHANGE_TYPE_INSERT =>
      obtain ⟨res, d1, hrun, husn, g1, g2, g3⟩ :=
        db_insert_total heap d id parent_id attributes wname h1 h2 h3
      exact ⟨{ d1 with latest_usn := max d1.latest_usn usn },
        by simp [db_apply_change, hrun], by show max d1.latest_usn usn = _; rw [husn],
        g1, g2, g3⟩
    | CHANGE_TYPE_UPDATE =>
      obtain ⟨f1, f2, f3, f4⟩ := db_delete_frame d id
      obtain ⟨res, d1, hrun, husn, g1, g2, g3⟩ :=
        db_insert_total heap (db_delete d id) id parent_id attributes wname
          (by rw [f1]; exact h1) (by rw [f4]; exact h2) (by rw [f2]; exact h3)
      exact ⟨{ d1 with latest_usn := max d1.latest_usn usn },
        by simp [db_apply_change, db_update, hrun],
        by show max d1.latest_usn usn = _; rw [husn, f3], g1, g2, g3⟩
    | CHANGE_TYPE_DELETE =>
      obtain ⟨f1, f2, f3, f4⟩ := db_delete_frame d id
      exact ⟨{ db_delete d id with latest_usn := max (db_delete d id).latest_usn usn },
        by simp [db_apply_change], by show max (db_delete d id).latest_usn usn = _; rw [f3],
        by show 0 < (db_delete d id).name_buffer.count_allocated; rw [f1]; exact h1,
        by show 0 < (db_delete d id).record_array.count_allocated; rw [f4]; exact h2,
        by show 0 < (db_delete d id).lookup_array.count_allocated; rw [f2]; exact h3⟩

/-- `db_apply_changes` returns on an index with allocated blocks and leaves
`latest_usn` at the maximum of its value and the usn of every change. -/
theorem db_apply_changes_total (heap : Nat → Bool) :
    ∀ (changes : List change) (d : db), 0 < d.name_buffer.count_allocated →
      0 < d.record_array.count_allocated → 0 < d.lookup_array.count_allocated →
      ∃ d1, db_apply_changes heap d changes = some d1 ∧
        d1.latest_usn = changes.foldl (fun u c => max u c.usn) d.latest_usn ∧
        0 < d1.name_buffer.count_allocated ∧ 0 < d1.record_array.count_allocated ∧
        0 < d1.lookup_array.count_allocated := by
  intro changes
  induction changes with
  | nil => intro d h1 h2 h3; exact ⟨d, rfl, rfl, h1, h2, h3⟩
  | cons c rest ih =>
    intro d h1 h2 h3
    obtain ⟨e, hrun, husn, g1, g2, g3⟩ := db_apply_change_total heap d c h1 h2 h3
    obtain ⟨d1, hrun1, husn1, k1, k2, k3⟩ := ih e g1 g2 g3
    refine ⟨d1, by simp only [db_apply_changes, hrun]; exact hrun1, ?_, k1, k2, k3⟩
    rw [husn1, husn]
    rfl

/-- C24.  On an index whose three blocks are allocated (every state made by
`db_create` and the mutating interface), whatever the heap does,
`db_apply_changes` returns, and `latest_usn` is then the maximum of its previous
value and the usn of every change of the list, ignore-marked changes included:
it is not below its previous value nor below the usn of any change, and it is
the previous value or the usn of a change. -/
theorem C24_latest_usn (heap : Nat → Bool) (d : db) (changes : List change)
    (hnames : 0 < d.name_buffer.count_allocated)
    (hrecords : 0 < d.record_array.count_allocated)
    (hlookup : 0 < d.lookup_array.count_allocated) :
    ∃ d1, db_apply_changes heap d changes = some d1 ∧
      d1.latest_usn = changes.foldl (fun u c => max u c.usn) d.latest_usn ∧
      d.latest_usn ≤ d1.latest_usn ∧
      (∀ c ∈ changes, c.usn ≤ d1.latest_usn) ∧
      (d1.latest_usn = d.latest_usn ∨ ∃ c ∈ changes, d1.latest_usn = c.usn) := by
  obtain ⟨d1, hrun, husn, _⟩ := db_apply_changes_total heap changes d hnames hrecords hlookup
  have hge := foldl_max_usn_ge changes d.latest_usn
  refine ⟨d1, hrun, husn, by rw [husn]; exact hge.1, fun c hc => by rw [husn]; exact hge.2 c hc,
    ?_⟩
  rw [husn]
  clear hrun husn hge
  generalize d.latest_usn = u
  induction changes generalizing u with
  | nil => exact Or.inl rfl
  | cons a rest ih =>
    simp only [List.foldl_cons]
    rcases ih (max u a.usn) with h | ⟨c, hc, h⟩
    · rw [h]
      rcases Nat.le_total u a.usn with hle | hle
      · exact Or.inr ⟨a, List.mem_cons_self _ _, Nat.max_eq_right hle⟩
      · exact Or.inl (Nat.max_eq_left hle)
    · exact Or.inr ⟨c, List.mem_cons_of_mem _ hc, h⟩

theorem C24_latest_usn_witness :
    (0 < sample_db.name_buffer.count_allocated ∧ 0 < sample_db.record_array.count_allocated ∧
      0 < sample_db.lookup_array.count_allocated) ∧
    ∃ d1, db_apply_changes heap_never sample_db
        [⟨7, CHANGE_TYPE_INSERT, 20, 5, [98], 0, false⟩,
         ⟨9, CHANGE_TYPE_DELETE, 21, 5, [], 0, true⟩,
         ⟨8, CHANGE_TYPE_UPDATE, 11, 5, [99], 0, false⟩] = some d1 ∧
      d1.latest_usn
        = ([⟨7, CHANGE_TYPE_INSERT, 20, 5, [98], 0, false⟩,
            ⟨9, CHANGE_TYPE_DELETE, 21, 5, [], 0, true⟩,
            ⟨8, CHANGE_TYPE_UPDATE, 11, 5, [99], 0, false⟩] : List change).foldl
          (fun u c => max u c.usn) sample_db.latest_usn ∧
      sample_db.latest_usn ≤ d1.latest_usn ∧
      (∀ c ∈ ([⟨7, CHANGE_TYPE_INSERT, 20, 5, [98], 0, false⟩,
            ⟨9, CHANGE_TYPE_DELETE, 21, 5, [], 0, true⟩,
            ⟨8, CHANGE_TYPE_UPDATE, 11, 5, [99], 0, false⟩] : List change),
        c.usn ≤ d1.latest_usn) ∧
      (d1.latest_usn = sample_db.latest_usn ∨
        ∃ c ∈ ([⟨7, CHANGE_TYPE_INSERT, 20, 5, [98], 0, false⟩,
            ⟨9, CHANGE_TYPE_DELETE, 21, 5, [], 0, true⟩,
            ⟨8, CHANGE_TYPE_UPDATE, 11, 5, [99], 0, false⟩] : List change),
          d1.latest_usn = c.usn) :=
  ⟨⟨by decide, by decide, by decide⟩,
    C24_latest_usn heap_never sample_db _ (by decide) (by decide) (by decide)⟩

/-- The ancestor walk reads the record array and the lookup array only. -/
theorem walk_ancestors_is_child_of_root_congr (d d1 : db)
    (hr : d1.record_array = d.record_array) (hl : d1.lookup_array = d.lookup_array) :
    ∀ m r, walk_ancestors_is_child_of_root d1 m r = walk_ancestors_is_child_of_root d m r := by
  have hp : ∀ x, db_get_record_parent d1 x = db_get_record_parent d x := by
    intro x
    unfold db_get_record_parent db_get_record_by_id
    rw [hr, hl]
  intro m
  induction m with
  | zero => intro r; rfl
  | succ m ih =>
    intro r
    rw [walk_ancestors_is_child_of_root, walk_ancestors_is_child_of_root]
    simp only [hr, hp]
    cases db_get_record_parent d (d.record_array.elems r) with
    | none => rfl
    | some p => simp only [ih]

theorem walk_ancestors_collect_congr (d d1 : db)
    (hr : d1.record_array = d.record_array) (hl : d1.lookup_array = d.lookup_array) (n : Nat) :
    ∀ rounds child ac buf, walk_ancestors_collect d1 n rounds child ac buf
      = walk_ancestors_collect d n rounds child ac buf := by
  have hp : ∀ x, db_get_record_parent d1 x = db_get_record_parent d x := by
    intro x
    unfold db_get_record_parent db_get_record_by_id
    rw [hr, hl]
  intro rounds
  induction rounds with
  | zero => intro child ac buf; rfl
  | succ m ih =>
    intro child ac buf
    rw [walk_ancestors_collect, walk_ancestors_collect]
    simp only [hr, hp]
    cases db_get_record_parent d (d.record_array.elems child) with
    | none => rfl
    | some p => simp only [ih]

theorem walk_ancestors_concat_congr (d d1 : db)
    (hn : d1.name_buffer = d.name_buffer) (hr : d1.record_array = d.record_array)
    (buf : Nat → Nat) (size : Nat) :
    ∀ m path, walk_ancestors_concat d1 buf size m path = walk_ancestors_concat d buf size m path := by
  intro m
  induction m with
  | zero => intro path; rfl
  | succ m ih =>
    intro path
    rw [walk_ancestors_concat, walk_ancestors_concat]
    simp only [hn, hr, db_get_record_name, ih]

theorem walk_ancestors_build_path_congr (d d1 : db)
    (hn : d1.name_buffer = d.name_buffer) (hr : d1.record_array = d.record_array)
    (hl : d1.lookup_array = d.lookup_array) (child n size : Nat) :
    walk_ancestors_build_path d1 child n size = walk_ancestors_build_path d child n size := by
  unfold walk_ancestors_build_path
  rw [walk_ancestors_collect_congr d d1 hr hl]
  simp only [walk_ancestors_concat_congr d d1 hn hr]

/-- A query reads the name buffer, the record array and the lookup array
only. -/
theorem run_query_congr (d d1 : db)
    (hn : d1.name_buffer = d.name_buffer) (hr : d1.record_array = d.record_array)
    (hl : d1.lookup_array = d.lookup_array) (rounds : Nat) (params : quickfind_params)
    (result_buffer : buffer) :
    run_query rounds params result_buffer d1 = run_query rounds params result_buffer d := by
  have hsel : ∀ st, run_query_select params d1 st = run_query_select params d st := by
    intro st
    unfold run_query_select
    simp only [hn, hr]
  have hfound : ∀ st cs k, run_query_found params d1 st cs k
      = run_query_found params d st cs k := by
    intro st cs k
    unfold run_query_found
    simp only [hr, db_get_record_name, walk_ancestors_is_child_of_root_congr d d1 hr hl,
      walk_ancestors_build_path_congr d d1 hn hr hl]
  have hbody : ∀ st, run_query_body params d1 st = run_query_body params d st := by
    intro st
    unfold run_query_body
    simp only [hsel, hfound]
  unfold run_query
  generalize run_query_init result_buffer = st
  induction rounds generalizing st with
  | zero => rfl
  | succ n ih =>
    rw [run_query_loop, run_query_loop, hbody]
    split_ifs
    · cases run_query_body params d st with
      | inl st1 => exact ih st1
      | inr r => rfl
    · rfl

/-- C25.  For every index state, id `x` and INSERT and DELETE of `x` (whatever
their other fields and their `ignore` flags), `ntfs_usn_mark_ignore` on the
list [INSERT x, DELETE x] leaves both changes marked, and `db_apply_changes` on
the marked list returns, whatever the heap does, with the index as it was but
for `latest_usn = max(latest_usn, usn of the INSERT, usn of the DELETE)`: the
name buffer, the record array, the lookup array and `records_not_in_use_count`
are the same, and so is the result of every query. -/
theorem C25_insert_then_delete (heap : Nat → Bool) (d : db)
    (x u1 u2 p1 p2 a1 a2 : Nat) (w1 w2 : List Nat) (i1 i2 : Bool)
    (rounds : Nat) (params : quickfind_params) (result_buffer : buffer) :
    ntfs_usn_mark_ignore
        [⟨u1, CHANGE_TYPE_INSERT, x, p1, w1, a1, i1⟩, ⟨u2, CHANGE_TYPE_DELETE, x, p2, w2, a2, i2⟩]
      = [⟨u1, CHANGE_TYPE_INSERT, x, p1, w1, a1, true⟩,
         ⟨u2, CHANGE_TYPE_DELETE, x, p2, w2, a2, true⟩] ∧
    ∃ d1, db_apply_changes heap d (ntfs_usn_mark_ignore
        [⟨u1, CHANGE_TYPE_INSERT, x, p1, w1, a1, i1⟩,
         ⟨u2, CHANGE_TYPE_DELETE, x, p2, w2, a2, i2⟩]) = some d1 ∧
      d1.name_buffer = d.name_buffer ∧ d1.record_array = d.record_array ∧
      d1.lookup_array = d.lookup_array ∧
      d1.records_not_in_use_count = d.records_not_in_use_count ∧
      d1.latest_journal_id = d.latest_journal_id ∧
      d1.latest_usn = max (max d.latest_usn u1) u2 ∧
      run_query rounds params result_buffer d1 = run_query rounds params result_buffer d := by
  have hmark : ntfs_usn_mark_ignore
        [⟨u1, CHANGE_TYPE_INSERT, x, p1, w1, a1, i1⟩, ⟨u2, CHANGE_TYPE_DELETE, x, p2, w2, a2, i2⟩]
      = [⟨u1, CHANGE_TYPE_INSERT, x, p1, w1, a1, true⟩,
         ⟨u2, CHANGE_TYPE_DELETE, x, p2, w2, a2, true⟩] := by
    rw [ntfs_usn_mark_ignore_ordered _ (by simp [in_rule_order])]
    simp [coalesced_ignore]
  refine ⟨hmark, ?_⟩
  rw [hmark]
  refine ⟨{ d with latest_usn := max (max d.latest_usn u1) u2 }, ?_, rfl, rfl, rfl, rfl, rfl,
    rfl,
    run_query_congr d { d with latest_usn := max (max d.latest_usn u1) u2 } rfl rfl rfl rounds
      params result_buffer⟩
  simp [db_apply_changes, db_apply_change]

/-- C26.  The index holds the root "." (id 5) alone, so record number 8 is
absent and the parent 5 named by the changes is a root.  After
`ntfs_usn_mark_ignore` (which marks the INSERT and not the UPDATE) and
`db_apply_changes` on [INSERT id 8 "a", UPDATE id 8 "b"] the only live record
with id 8 is named "b" and the query for "a" finds 0 records, but the query for
"b" finds 0 records too: the parent is stored at index 0, which the lookup does
not find, so the ancestor walk of the new record returns false. -/
theorem C26_update_after_insert_not_found :
    (db_get_record_by_id root_only_db 8 = none ∧
      (root_only_db.record_array.elems 0).id = 5 ∧
      walk_ancestors_is_child_of_root root_only_db 256 0 = true) ∧
    ntfs_usn_mark_ignore insert_update_changes
      = [{ usn := 1, type := CHANGE_TYPE_INSERT, id := 8, parent_id := 5, wname := [97],
           attributes := 0, ignore := true },
         { usn := 2, type := CHANGE_TYPE_UPDATE, id := 8, parent_id := 5, wname := [98],
           attributes := 0, ignore := false }] ∧
    ((db_apply_changes heap_always root_only_db
        (ntfs_usn_mark_ignore insert_update_changes)).map live_records
      = some [(5, 5, 0, [46]), (8, 5, 0, [98])]) ∧
    ((db_apply_changes heap_always root_only_db
        (ntfs_usn_mark_ignore insert_update_changes)).bind
        (fun d1 => (run_query 4 (params_of [97] 0 5 0 5) response_buffer d1).map
          (fun r => r.1))
      = some { error := QUICKFIND_OK, found_count := 0, return_count := 0 }) ∧
    ((db_apply_changes heap_always root_only_db
        (ntfs_usn_mark_ignore insert_update_changes)).bind
        (fun d1 => (run_query 4 (params_of [98] 0 5 0 5) response_buffer d1).map
          (fun r => r.1))
      = some { error := QUICKFIND_OK, found_count := 0, return_count := 0 }) ∧
    ((db_apply_changes heap_always root_only_db
        (ntfs_usn_mark_ignore insert_update_changes)).map
        (fun d1 => walk_ancestors_is_child_of_root d1 256 1) = some false) := by
  decide

/-- C30 (amended).  `db_prune` leaves every index state as it is: the record
array, the name buffer, the lookup array and `records_not_in_use_count` are
what they were before the call (the function is not implemented). -/
theorem C30_prune_leaves_index (d : db) :
    db_prune d = d ∧ (db_prune d).record_array = d.record_array ∧
    (db_prune d).name_buffer = d.name_buffer ∧ (db_prune d).lookup_array = d.lookup_array ∧
    (db_prune d).records_not_in_use_count = d.records_not_in_use_count :=
  ⟨rfl, rfl, rfl, rfl, rfl⟩

/-- C30, as stated, fails.  In the index that holds "m", ".", "ra" and "a" after
`db_delete` of "ra" (id 10) one record carries NOT_IN_USE; after `db_prune` the
record array still holds 4 records, the one at index 2 still carries
NOT_IN_USE, the name buffer still holds its 9 bytes and
`records_not_in_use_count` is still 1, not 0. -/
theorem C30_prune_does_nothing :
    (db_delete sample_db 10).records_not_in_use_count = 1 ∧
    ((db_delete sample_db 10).record_array.elems 2).attributes
      &&& FILE_ATTRIBUTE_NOT_IN_USE ≠ 0 ∧
    (db_prune (db_delete sample_db 10)).records_not_in_use_count = 1 ∧
    (db_prune (db_delete sample_db 10)).record_array.count = 4 ∧
    ((db_prune (db_delete sample_db 10)).record_array.elems 2).attributes
      &&& FILE_ATTRIBUTE_NOT_IN_USE ≠ 0 ∧
    (db_prune (db_delete sample_db 10)).name_buffer.count = 9 :=
  ⟨by decide, by decide, by decide, by decide, by decide, by decide⟩

/-! ## Frames, invalid snapshots and items beyond the body -/

/-- C29.  `pipe_read_msg` returns QUICKFIND_ERROR_IO_READ for a frame shorter
than the message header, but for a frame that holds the header and a
`body_size` above the 1 MiB of the body it returns QUICKFIND_OK: the loop of
`server_run` then calls `server_calculate_response` on the request, whose query
text has `text_length = body_size`. -/
theorem C29_oversized_body_accepted (bytes_read body_size : Nat)
    (hhead : sizeof_msg_head ≤ bytes_read) (hbody : sizeof_msg_body < body_size) :
    pipe_read_msg true bytes_read body_size = QUICKFIND_OK ∧
    (∀ short, short < sizeof_msg_head →
      pipe_read_msg true short body_size = QUICKFIND_ERROR_IO_READ) ∧
    ∀ (rounds : Nat) (s : server) (request : request_msg),
      request.body_size = body_size →
      server_run_connected rounds s true bytes_read request
        = (server_calculate_response rounds { s with request := request }).map
            (fun s2 => (s2, true)) ∧
      (server_params { s with request := request }).text_length = body_size ∧
      sizeof_msg_body < (server_params { s with request := request }).text_length := by
  have h1 : pipe_read_msg true bytes_read body_size = QUICKFIND_OK := by
    unfold pipe_read_msg
    simp [Nat.not_lt.mpr hhead]
  refine ⟨h1, ?_, ?_⟩
  · intro short hs
    unfold pipe_read_msg
    simp [hs]
  · intro rounds s request hreq
    subst hreq
    refine ⟨?_, rfl, hbody⟩
    unfold server_run_connected
    simp only [h1, if_true]

theorem C29_oversized_body_accepted_witness :
    (sizeof_msg_head ≤ 48 ∧ sizeof_msg_body < 2000000) ∧
    pipe_read_msg true 48 2000000 = QUICKFIND_OK ∧
    (∀ short, short < sizeof_msg_head →
      pipe_read_msg true short 2000000 = QUICKFIND_ERROR_IO_READ) ∧
    ∀ (rounds : Nat) (s : server) (request : request_msg),
      request.body_size = 2000000 →
      server_run_connected rounds s true 48 request
        = (server_calculate_response rounds { s with request := request }).map
            (fun s2 => (s2, true)) ∧
      (server_params { s with request := request }).text_length = 2000000 ∧
      sizeof_msg_body < (server_params { s with request := request }).text_length :=
  ⟨⟨by decide, by decide⟩, C29_oversized_body_accepted 48 2000000 (by decide) (by decide)⟩

/-- C38.  With `yield_to_next_thread = true` the first test of the connection
loop of `quickfind_open` returns QUICKFIND_ERROR_CANCELLED although no other
call has intervened, whatever the value of the counter: the test compares
`!query_inc_begin` (0 or 1) with the counter, not `query_inc_begin`.  When the
counter has been advanced by other calls to exactly `!query_inc_begin`, the call
is not cancelled. -/
theorem C38_yield_cancels_without_other_call :
    (∀ counter, quickfind_open_first_test counter 0 true = some QUICKFIND_ERROR_CANCELLED) ∧
    (∀ counter others, quickfind_open_first_test counter others false = none) ∧
    quickfind_open_first_test 0 0 true = some QUICKFIND_ERROR_CANCELLED ∧
    quickfind_open_first_test 0 (2 ^ 32 - 1) true = none := by
  refine ⟨?_, ?_, by decide, by decide⟩
  · intro counter
    unfold quickfind_open_first_test quickfind_open_yields InterlockedIncrement
    have h : (counter + 1) % 2 ^ 32 < 2 ^ 32 := Nat.mod_lt _ (by decide)
    generalize (counter + 1) % 2 ^ 32 = b at h
    have h1 : (b + 0) % 2 ^ 32 = b := by rw [Nat.add_zero]; exact Nat.mod_eq_of_lt h
    dsimp only
    rw [h1]
    by_cases h0 : b = 0
    · subst h0
      rfl
    · rw [if_neg h0]
      have hne : (0 : Nat) ≠ b := fun e => h0 e.symm
      rw [decide_eq_true hne]
      rfl
  · intro counter others
    unfold quickfind_open_first_test quickfind_open_yields
    simp

/-- C40.  For the response of one item whose `path_size` field is 0xFFFFFFF0
and whose body has 16 bytes, after the first `quickfind_next`
`quickfind__has_valid_item` returns true and `quickfind_get_result_full_path`
hands out the path at offset 16, although header and path end at offset 2^32,
far beyond `body_size` = 16: the end offset is cast to `uint32_t`, which makes
it 0. -/
theorem C40_valid_item_beyond_body :
    (quickfind_next (quickfind_results_of wrapping_response)).map
        (fun p => (p.1, p.2.current_item, p.2.current_item_index,
          quickfind__has_valid_item p.2, quickfind_get_result_full_path p.2,
          item_path_size p.2.msg.body 0))
      = some (true, some 0, 0, true, some 16, 0xFFFFFFF0) ∧
    wrapping_response.body_size < 0 + sizeof_query_result_item + 0xFFFFFFF0 ∧
    (0 + sizeof_query_result_item + 0xFFFFFFF0) % 2 ^ 32 = 0 := by
  decide

set_option maxRecDepth 100000 in
/-- C27.  `db_create_from_file` checks nothing but the byte counts of its reads.
It returns false on the snapshot of `small_db` (216 bytes) cut to 215 and to 100
bytes, but it returns true on the snapshot with the `count` of the record array
overwritten by 3, above `count_allocated` = 2, and on the snapshot with the
header of the name buffer overwritten to `count_allocated` = 2 and
`elem_size` = 2 (the size of the element type is 1); the index read has these
values. -/
theorem C27_invalid_snapshot_accepted :
    (db_write_to_file small_db 4096 8192 12288).1 = true ∧ small_snapshot.length = 216 ∧
    (db_create_from_file heap_always (small_snapshot.take 215)).isNone = true ∧
    (db_create_from_file heap_always (small_snapshot.take 100)).isNone = true ∧
    (db_create_from_file heap_always (small_snapshot.set 64 3)).map
        (fun d => (d.record_array.count, d.record_array.count_allocated, d.record_array.elem_size))
      = some (3, 2, 32) ∧
    (db_create_from_file heap_always ((small_snapshot.set 36 2).set 44 2)).map
        (fun d => (d.name_buffer.count, d.name_buffer.count_allocated, d.name_buffer.elem_size))
      = some (2, 2, 2) := by
  decide!

/-! ## The client: iterating over the items of a response -/

theorem item_bytes_length (it : Nat × Nat × List Nat) :
    (item_bytes it).length = 16 + it.2.2.length := by
  simp [item_bytes, query_result_item_bytes, le_bytes]
  omega

theorem packed_items_append (a b : List (Nat × Nat × List Nat)) :
    packed_items (a ++ b) = packed_items a ++ packed_items b := by
  induction a with
  | nil => rfl
  | cons x xs ih => simp [packed_items, ih]

theorem items_split : ∀ (items : List (Nat × Nat × List Nat)) (i : Nat)
    (it : Nat × Nat × List Nat), items.get? i = some it →
      items = items.take i ++ it :: items.drop (i + 1) := by
  intro items
  induction items with
  | nil => intro i it h; simp at h
  | cons a l ih =>
    intro i it h
    cases i with
    | zero =>
      simp only [List.get?_cons_zero, Option.some.injEq] at h
      subst h
      rfl
    | succ i =>
      simp only [List.get?_cons_succ] at h
      have := ih i it h
      simp only [List.take_succ_cons, List.drop_succ_cons, List.cons_append]
      rw [← this]

theorem item_offset_succ (items : List (Nat × Nat × List Nat)) (i : Nat)
    (it : Nat × Nat × List Nat) (hget : items.get? i = some it) :
    item_offset items (i + 1) = item_offset items i + (16 + it.2.2.length) := by
  unfold item_offset
  have h := items_split items i it hget
  have ht : items.take (i + 1) = items.take i ++ [it] := by
    have hlen : i < items.length := by
      by_contra hc
      rw [List.get?_eq_none.2 (by omega)] at hget
      cases hget
    conv_lhs => rw [h]
    rw [List.take_append_eq_append_take]
    simp [List.length_take, Nat.min_eq_left (Nat.le_of_lt hlen)]
  rw [ht, packed_items_append]
  simp [packed_items, item_bytes_length]

theorem body_at (body : Nat → Nat) (n : Nat) (items : List (Nat × Nat × List Nat))
    (hbody : bytes_of body n = packed_items items) (i : Nat) (it : Nat × Nat × List Nat)
    (hget : items.get? i = some it) :
    item_offset items i + (16 + it.2.2.length) ≤ n ∧
    ∀ j, j < 16 + it.2.2.length → body (item_offset items i + j) = (item_bytes it).getD j 0 := by
  have hs := items_split items i it hget
  have hp : packed_items items
      = packed_items (items.take i) ++ (item_bytes it ++ packed_items (items.drop (i + 1))) := by
    conv_lhs => rw [hs]
    rw [packed_items_append]
    rfl
  have hn : n = (packed_items items).length := by rw [← hbody, bytes_of_length]
  have hle : item_offset items i + (16 + it.2.2.length) ≤ n := by
    rw [hn, hp]
    unfold item_offset
    simp only [List.length_append, item_bytes_length]
    omega
  refine ⟨hle, ?_⟩
  intro j hj
  have h1 : body (item_offset items i + j)
      = mem_of (bytes_of body n) (item_offset items i + j) :=
    (mem_of_bytes_of body n _ (by omega)).symm
  rw [h1, hbody, hp]
  unfold mem_of item_offset
  rw [getD_append_at, getD_append_lt _ _ _ (by rw [item_bytes_length]; exact hj)]

theorem item_fields (body : Nat → Nat) (n : Nat) (items : List (Nat × Nat × List Nat))
    (hbody : bytes_of body n = packed_items items) (i : Nat) (it : Nat × Nat × List Nat)
    (hget : items.get? i = some it)
    (h1 : it.1 < 2 ^ 64) (h2 : it.2.1 < 2 ^ 32) (h3 : it.2.2.length < 2 ^ 32) :
    item_id body (item_offset items i) = it.1 ∧
    item_attributes body (item_offset items i) = it.2.1 ∧
    item_path_size body (item_offset items i) = it.2.2.length ∧
    bytes_of (fun j => body (item_offset items i + sizeof_query_result_item + j))
      it.2.2.length = it.2.2 := by
  obtain ⟨_, hb⟩ := body_at body n items hbody i it hget
  have hI : item_bytes it
      = le_bytes 8 it.1 ++ (le_bytes 4 it.2.1 ++ (le_bytes 4 it.2.2.length ++ it.2.2)) := by
    simp [item_bytes, query_result_item_bytes]
  have l8 : (le_bytes 8 it.1).length = 8 := le_bytes_length _ _
  have l4a : (le_bytes 4 it.2.1).length = 4 := le_bytes_length _ _
  have l4b : (le_bytes 4 it.2.2.length).length = 4 := le_bytes_length _ _
  refine ⟨?_, ?_, ?_, ?_⟩
  · unfold item_id
    rw [le_value_bytes_of _ 8 it.1, Nat.mod_eq_of_lt (by omega)]
    intro j hj
    rw [hb j (by omega), hI, getD_append_lt _ _ _ (by omega)]
    exact getD_map_range _ 8 j hj
  · unfold item_attributes
    rw [le_value_bytes_of _ 4 it.2.1, Nat.mod_eq_of_lt (by omega)]
    intro j hj
    rw [Nat.add_assoc, hb (8 + j) (by omega), hI]
    rw [show 8 + j = (le_bytes 8 it.1).length + j by rw [l8], getD_append_at,
      getD_append_lt _ _ _ (by omega)]
    exact getD_map_range _ 4 j hj
  · unfold item_path_size
    rw [le_value_bytes_of _ 4 it.2.2.length, Nat.mod_eq_of_lt (by omega)]
    intro j hj
    rw [Nat.add_assoc, hb (12 + j) (by omega), hI]
    rw [show 12 + j = (le_bytes 8 it.1).length + ((le_bytes 4 it.2.1).length + j) by
        rw [l8, l4a]; omega,
      getD_append_at, getD_append_at, getD_append_lt _ _ _ (by omega)]
    exact getD_map_range _ 4 j hj
  · have : bytes_of (fun j => body (item_offset items i + sizeof_query_result_item + j))
        it.2.2.length = bytes_of (mem_of it.2.2) it.2.2.length := by
      apply bytes_of_congr
      intro j hj
      show body (item_offset items i + 16 + j) = _
      rw [Nat.add_assoc, hb (16 + j) (by omega), hI]
      rw [show 16 + j = (le_bytes 8 it.1).length + ((le_bytes 4 it.2.1).length
            + ((le_bytes 4 it.2.2.length).length + j)) by rw [l8, l4a, l4b]; omega,
        getD_append_at, getD_append_at, getD_append_at]
      rfl
    rw [this, bytes_of_mem_of]

theorem items_length_bound (msg : response_msg) (items : List (Nat × Nat × List Nat))
    (hbody : bytes_of msg.body msg.body_size = packed_items items) :
    16 * items.length ≤ msg.body_size := by
  have hn : msg.body_size = (packed_items items).length := by rw [← hbody, bytes_of_length]
  rw [hn]
  clear hn hbody
  induction items with
  | nil => simp
  | cons a l ih =>
    simp only [packed_items, List.length_append, List.length_cons, item_bytes_length]
    omega

theorem has_valid_item_at (msg : response_msg) (items : List (Nat × Nat × List Nat))
    (hbody : bytes_of msg.body msg.body_size = packed_items items)
    (hcount : msg.return_count = items.length) (hsize : msg.body_size < 2 ^ 32)
    (hfields : ∀ it ∈ items, it.1 < 2 ^ 64 ∧ it.2.1 < 2 ^ 32)
    (i : Nat) (it : Nat × Nat × List Nat) (hget : items.get? i = some it) :
    quickfind__has_valid_item (results_at msg items i) = true := by
  have hi : i < items.length := by
    by_contra hc
    rw [List.get?_eq_none.2 (by omega)] at hget
    cases hget
  have hlen := items_length_bound msg items hbody
  obtain ⟨hle, _⟩ := body_at msg.body msg.body_size items hbody i it hget
  obtain ⟨f1, f2⟩ := hfields it (List.get?_mem hget)
  obtain ⟨_, _, hps, _⟩ := item_fields msg.body msg.body_size items hbody i it hget f1 f2
    (by omega)
  unfold quickfind__has_valid_item results_at
  dsimp only
  rw [if_neg (by omega), if_neg (by rw [hcount]; omega), hps]
  unfold sizeof_query_result_item
  rw [Nat.mod_eq_of_lt (by omega), if_neg (by omega)]

theorem quickfind_next_calls_at (msg : response_msg) (items : List (Nat × Nat × List Nat))
    (hbody : bytes_of msg.body msg.body_size = packed_items items)
    (hcount : msg.return_count = items.length) (hsize : msg.body_size < 2 ^ 32)
    (hfields : ∀ it ∈ items, it.1 < 2 ^ 64 ∧ it.2.1 < 2 ^ 32) :
    ∀ i, i < items.length →
      quickfind_next_calls (i + 1) (quickfind_results_of msg)
        = some (true, results_at msg items i) := by
  have hlen := items_length_bound msg items hbody
  intro i
  induction i with
  | zero =>
    intro hi
    simp only [quickfind_next_calls, Option.some_bind]
    unfold quickfind_next quickfind_results_of results_at item_offset
    dsimp only
    rw [if_neg (by rw [hcount]; omega), if_pos rfl]
    rfl
  | succ i ih =>
    intro hi
    rw [quickfind_next_calls, ih (by omega)]
    simp only [Option.some_bind]
    have hget : items.get? i = some (items.get ⟨i, by omega⟩) := List.get?_eq_get (by omega)
    have hget1 : items.get? (i + 1) = some (items.get ⟨i + 1, hi⟩) := List.get?_eq_get hi
    obtain ⟨f1, f2⟩ := hfields _ (List.get?_mem hget)
    obtain ⟨hle, _⟩ := body_at msg.body msg.body_size items hbody i _ hget
    obtain ⟨hle1, _⟩ := body_at msg.body msg.body_size items hbody (i + 1) _ hget1
    obtain ⟨_, _, hps, _⟩ := item_fields msg.body msg.body_size items hbody i _ hget f1 f2
      (by omega)
    have hoff := item_offset_succ items i _ hget
    have hvalid := has_valid_item_at msg items hbody hcount hsize hfields (i + 1) _ hget1
    unfold quickfind_next
    unfold results_at at hvalid ⊢
    dsimp only at hvalid ⊢
    rw [if_neg (by rw [hcount]; omega), if_neg (by omega),
      Nat.mod_eq_of_lt (by omega : i + 1 < 2 ^ 32), if_pos (by rw [hcount]; exact hi), hps]
    unfold sizeof_query_result_item
    rw [Nat.mod_eq_of_lt (by omega), ← hoff, if_pos (by omega), hvalid]

theorem quickfind_next_calls_after (msg : response_msg) (items : List (Nat × Nat × List Nat))
    (hbody : bytes_of msg.body msg.body_size = packed_items items)
    (hcount : msg.return_count = items.length) (hsize : msg.body_size < 2 ^ 32)
    (hfields : ∀ it ∈ items, it.1 < 2 ^ 64 ∧ it.2.1 < 2 ^ 32) :
    ∀ k, ∃ r, quickfind_next_calls (items.length + 1 + k) (quickfind_results_of msg)
        = some (false, r) ∧
      (items.length ≠ 0 → r.current_item = none ∧ r.current_item_index = items.length ∧
        r.msg = msg) ∧
      (items.length = 0 → r = quickfind_results_of msg) := by
  have hlen := items_length_bound msg items hbody
  intro k
  induction k with
  | zero =>
    by_cases h0 : items.length = 0
    · refine ⟨quickfind_results_of msg, ?_, fun h => absurd h0 h, fun _ => rfl⟩
      rw [h0]
      simp only [quickfind_next_calls, Option.some_bind]
      unfold quickfind_next
      rw [if_pos (by show msg.return_count = 0; rw [hcount]; exact h0)]
    · obtain ⟨n, hn⟩ : ∃ n, items.length = n + 1 := ⟨items.length - 1, by omega⟩
      have hcalls := quickfind_next_calls_at msg items hbody hcount hsize hfields n (by omega)
      refine ⟨{ current_item_index := items.length, current_item := none, msg := msg }, ?_,
        fun _ => ⟨rfl, rfl, rfl⟩, fun h => absurd h h0⟩
      rw [Nat.add_zero, hn, quickfind_next_calls, hcalls]
      simp only [Option.some_bind]
      unfold quickfind_next results_at
      dsimp only
      rw [if_neg (by rw [hcount]; omega), if_neg (by omega),
        Nat.mod_eq_of_lt (by omega : n + 1 < 2 ^ 32), if_neg (by rw [hcount]; omega), hcount, hn]
  | succ k ih =>
    obtain ⟨r, hr, h1, h2⟩ := ih
    by_cases h0 : items.length = 0
    · refine ⟨quickfind_results_of msg, ?_, fun h => absurd h0 h, fun _ => rfl⟩
      rw [show items.length + 1 + (k + 1) = (items.length + 1 + k) + 1 by omega,
        quickfind_next_calls, hr]
      simp only [Option.some_bind]
      rw [h2 h0]
      unfold quickfind_next
      rw [if_pos (by show msg.return_count = 0; rw [hcount]; exact h0)]
    · obtain ⟨g1, g2, g3⟩ := h1 h0
      refine ⟨{ current_item_index := items.length, current_item := none, msg := msg }, ?_,
        fun _ => ⟨rfl, rfl, rfl⟩, fun h => absurd h h0⟩
      rw [show items.length + 1 + (k + 1) = (items.length + 1 + k) + 1 by omega,
        quickfind_next_calls, hr]
      simp only [Option.some_bind]
      obtain ⟨idx, cur, m⟩ := r
      dsimp only at g1 g2 g3
      subst g1 g2 g3
      unfold quickfind_next
      dsimp only
      rw [if_neg (by rw [hcount]; omega), if_neg (by omega),
        Nat.mod_eq_of_lt (by omega : items.length + 1 < 2 ^ 32),
        if_neg (by rw [hcount]; omega), hcount]

/-- C28.  For a response whose body holds, in its first `body_size` bytes, the
packed items `items` (each an id below 2^64, attributes below 2^32 and the path
bytes with the terminator) and whose head has `return_count` = the number of
items, starting from the state `quickfind_open` leaves: the `i`-th call of
`quickfind_next` (`i` from 1 to the number of items) returns true, and then
`quickfind_get_result_id` and `quickfind_get_result_attributes` return the id
and the attributes of the `i`-th item and `quickfind_get_result_full_path` the
place in the body where the bytes of its path stand; every later call returns
false. -/
theorem C28_iteration (msg : response_msg) (items : List (Nat × Nat × List Nat))
    (hbody : bytes_of msg.body msg.body_size = packed_items items)
    (hcount : msg.return_count = items.length) (hsize : msg.body_size < 2 ^ 32)
    (hfields : ∀ it ∈ items, it.1 < 2 ^ 64 ∧ it.2.1 < 2 ^ 32) :
    (∀ i it, items.get? i = some it →
      ∃ r, quickfind_next_calls (i + 1) (quickfind_results_of msg) = some (true, r) ∧
        quickfind_get_result_id r = it.1 ∧ quickfind_get_result_attributes r = it.2.1 ∧
        ∃ p, quickfind_get_result_full_path r = some p ∧
          bytes_of (fun j => msg.body (p + j)) it.2.2.length = it.2.2 ∧
          p + it.2.2.length ≤ msg.body_size) ∧
    (∀ n, items.length < n →
      ∃ r, quickfind_next_calls n (quickfind_results_of msg) = some (false, r)) := by
  have hlen := items_length_bound msg items hbody
  refine ⟨?_, ?_⟩
  · intro i it hget
    have hi : i < items.length := by
      by_contra hc
      rw [List.get?_eq_none.2 (by omega)] at hget
      cases hget
    obtain ⟨f1, f2⟩ := hfields it (List.get?_mem hget)
    obtain ⟨hle, _⟩ := body_at msg.body msg.body_size items hbody i it hget
    obtain ⟨e1, e2, _, e4⟩ := item_fields msg.body msg.body_size items hbody i it hget f1 f2
      (by omega)
    have hvalid := has_valid_item_at msg items hbody hcount hsize hfields i it hget
    refine ⟨results_at msg items i,
      quickfind_next_calls_at msg items hbody hcount hsize hfields i hi, ?_, ?_,
      item_offset items i + sizeof_query_result_item, ?_, e4, ?_⟩
    · unfold quickfind_get_result_id
      rw [hvalid]
      exact e1
    · unfold quickfind_get_result_attributes
      rw [hvalid]
      exact e2
    · unfold quickfind_get_result_full_path
      rw [hvalid]
      rfl
    · unfold sizeof_query_result_item
      omega
  · intro n hn
    obtain ⟨r, hr, _⟩ := quickfind_next_calls_after msg items hbody hcount hsize hfields
      (n - (items.length + 1))
    rw [show items.length + 1 + (n - (items.length + 1)) = n by omega] at hr
    exact ⟨r, hr⟩

theorem C28_iteration_witness :
    (bytes_of two_item_response.body two_item_response.body_size
        = packed_items [(10, 0, [67, 58, 92, 114, 97, 0]), (11, 0, [67, 58, 92, 97, 0])] ∧
      two_item_response.return_count
        = [(10, 0, [67, 58, 92, 114, 97, 0]), (11, 0, [67, 58, 92, 97, 0])].length ∧
      two_item_response.body_size < 2 ^ 32) ∧
    (∀ i it, [(10, 0, [67, 58, 92, 114, 97, 0]), (11, 0, [67, 58, 92, 97, 0])].get? i = some it →
      ∃ r, quickfind_next_calls (i + 1) (quickfind_results_of two_item_response)
          = some (true, r) ∧
        quickfind_get_result_id r = it.1 ∧ quickfind_get_result_attributes r = it.2.1 ∧
        ∃ p, quickfind_get_result_full_path r = some p ∧
          bytes_of (fun j => two_item_response.body (p + j)) it.2.2.length = it.2.2 ∧
          p + it.2.2.length ≤ two_item_response.body_size) ∧
    (∀ n, [(10, 0, [67, 58, 92, 114, 97, 0]), (11, 0, [67, 58, 92, 97, 0])].length < n →
      ∃ r, quickfind_next_calls n (quickfind_results_of two_item_response) = some (false, r)) :=
  ⟨⟨by decide, by decide, by decide⟩,
    C28_iteration two_item_response
      [(10, 0, [67, 58, 92, 114, 97, 0]), (11, 0, [67, 58, 92, 97, 0])]
      (by decide) (by decide) (by decide) (by decide)⟩

/-! ## The index store: existing data is kept, the counter of marked records -/

theorem existing_data_kept_refl (d : db) : existing_data_kept d d :=
  ⟨Nat.le_refl _, Nat.le_refl _, fun _ _ => rfl, fun _ _ => ⟨rfl, rfl, rfl, Or.inl rfl⟩⟩

theorem existing_data_kept_trans (d d1 d2 : db) (h1 : existing_data_kept d d1)
    (h2 : existing_data_kept d1 d2) : existing_data_kept d d2 := by
  obtain ⟨a1, a2, a3, a4⟩ := h1
  obtain ⟨b1, b2, b3, b4⟩ := h2
  refine ⟨by omega, by omega, fun i hi => ?_, fun i hi => ?_⟩
  · rw [b3 i (by omega), a3 i hi]
  · obtain ⟨c1, c2, c3, c4⟩ := a4 i hi
    obtain ⟨e1, e2, e3, e4⟩ := b4 i (by omega)
    refine ⟨by rw [e1, c1], by rw [e2, c2], by rw [e3, c3], ?_⟩
    rcases c4 with c4 | c4 <;> rcases e4 with e4 | e4
    · left; rw [e4, c4]
    · right; rw [e4, c4]
    · right; rw [e4, c4]
    · right; rw [e4, c4, Nat.lor_assoc, Nat.or_self]

theorem db_mark_record_not_in_use_kept (d : db) (idx : Nat) :
    existing_data_kept d (db_mark_record_not_in_use d idx) ∧
    (db_mark_record_not_in_use d idx).name_buffer = d.name_buffer ∧
    (db_mark_record_not_in_use d idx).record_array.count = d.record_array.count := by
  unfold db_mark_record_not_in_use
  by_cases h : (d.record_array.elems idx).attributes &&& FILE_ATTRIBUTE_NOT_IN_USE = 0
  · rw [if_pos h]
    refine ⟨⟨Nat.le_refl _, Nat.le_refl _, fun _ _ => rfl, fun i _ => ?_⟩, rfl, rfl⟩
    by_cases hi : i = idx
    · subst hi
      simp [write_at]
    · simp [write_at, hi]
  · rw [if_neg h]
    exact ⟨existing_data_kept_refl d, rfl, rfl⟩

theorem db_delete_kept (d : db) (id : Nat) :
    existing_data_kept d (db_delete d id) := by
  unfold db_delete
  cases db_get_record_by_id d id with
  | none => exact existing_data_kept_refl d
  | some idx => exact (db_mark_record_not_in_use_kept d idx).1

theorem db_insert_kept (heap : Nat → Bool) (d : db) (id parent_id attributes : Nat)
    (wname : List Nat) (h1 : 0 < d.name_buffer.count_allocated)
    (h2 : 0 < d.record_array.count_allocated) (h3 : 0 < d.lookup_array.count_allocated) :
    ∃ res d1, db_insert heap d id parent_id attributes wname = some (res, d1) ∧
      existing_data_kept d d1 := by
  rcases db_insert_spec heap d id parent_id attributes wname h1 h2 with
    ⟨d1, hrun, hra, hla, husn, hcap, hcnt, hb, _⟩ |
    ⟨e, hw, hrun, hla, husn, hcn, hcr, hnc, hb, hnew, hrc, hre⟩
  · refine ⟨none, d1, hrun, by rw [hra], hcnt, hb, fun i _ => ?_⟩
    rw [hra]
    exact ⟨rfl, rfl, rfl, Or.inl rfl⟩
  · have hde : existing_data_kept d e := by
      refine ⟨by omega, by omega, hb, fun i hi => ?_⟩
      rw [hre]
      simp only [write_at, if_neg (by omega : ¬ i = d.record_array.count)]
      exact ⟨trivial, trivial, trivial, Or.inl trivial⟩
    obtain ⟨ok, e1, hr, g1, g2, g3, g4, g5⟩ :=
      db_refresh_lookup_spec heap e d.record_array.count (by rw [hla]; exact h3)
    refine ⟨some d.record_array.count, e1, by rw [hrun, hr]; rfl, ?_⟩
    cases ok with
    | false => rw [g3 rfl]; exact hde
    | true =>
      obtain ⟨_, _, _, _, _, hrec⟩ := g5 rfl
      have hee1 : existing_data_kept e e1 := by
        generalize (if record_number (e.record_array.elems d.record_array.count).id
                < e.lookup_array.count_allocated
              then e.lookup_array.elems
                (record_number (e.record_array.elems d.record_array.count).id)
              else 0) = x at hrec
        by_cases hc : x ≠ 0 ∧ d.record_array.count ≠ x
        · rw [if_pos hc] at hrec
          obtain ⟨⟨k1, k2, k3, k4⟩, _, k5⟩ := db_mark_record_not_in_use_kept e x
          refine ⟨?_, by rw [g1], fun i _ => by rw [g1], ?_⟩
          · rw [hrec, k5]
          · rw [hrec]
            exact k4
        · rw [if_neg hc] at hrec
          refine ⟨by rw [hrec], by rw [g1], fun i _ => by rw [g1], fun i _ => ?_⟩
          rw [hrec]
          exact ⟨rfl, rfl, rfl, Or.inl rfl⟩
      exact existing_data_kept_trans d e e1 hde hee1

theorem db_delete_allocated (d : db) (id : Nat) :
    (db_delete d id).name_buffer.count_allocated = d.name_buffer.count_allocated ∧
    (db_delete d id).record_array.count_allocated = d.record_array.count_allocated ∧
    (db_delete d id).lookup_array.count_allocated = d.lookup_array.count_allocated := by
  obtain ⟨a1, a2, _, a4⟩ := db_delete_frame d id
  exact ⟨by rw [a1], a4, by rw [a2]⟩

/-- C36.  On an index whose three blocks are allocated (every index made from
`db_create` by calls of the interface is one), each of `db_insert`, `db_update`
and `db_delete` returns and keeps the existing data: `record_array.count` and
`name_buffer.count` do not decrease, every byte of the name buffer below the
old count keeps its value, and every record below the old record count keeps
its index, id, parent id and name offset, its attributes being as before or as
before with NOT_IN_USE set. -/
theorem C36_existing_data_kept (d : db) (c : db_call)
    (h1 : 0 < d.name_buffer.count_allocated) (h2 : 0 < d.record_array.count_allocated)
    (h3 : 0 < d.lookup_array.count_allocated) :
    ∃ d1, db_run_call d c = some d1 ∧
      d.record_array.count ≤ d1.record_array.count ∧
      d.name_buffer.count ≤ d1.name_buffer.count ∧
      (∀ i, i < d.name_buffer.count → d1.name_buffer.elems i = d.name_buffer.elems i) ∧
      (∀ i, i < d.record_array.count →
        (d1.record_array.elems i).id = (d.record_array.elems i).id ∧
        (d1.record_array.elems i).parent_id = (d.record_array.elems i).parent_id ∧
        (d1.record_array.elems i).name_offset = (d.record_array.elems i).name_offset ∧
        ((d1.record_array.elems i).attributes = (d.record_array.elems i).attributes ∨
          (d1.record_array.elems i).attributes
            = (d.record_array.elems i).attributes ||| FILE_ATTRIBUTE_NOT_IN_USE)) := by
  cases c with
  | insert heap id parent_id attributes wname =>
    obtain ⟨res, d1, hrun, hk⟩ := db_insert_kept heap d id parent_id attributes wname h1 h2 h3
    exact ⟨d1, by simp [db_run_call, hrun], hk⟩
  | update heap id parent_id attributes wname =>
    obtain ⟨a1, a2, a3⟩ := db_delete_allocated d id
    obtain ⟨res, d1, hrun, hk⟩ := db_insert_kept heap (db_delete d id) id parent_id attributes
      wname (by rw [a1]; exact h1) (by rw [a2]; exact h2) (by rw [a3]; exact h3)
    exact ⟨d1, by simp [db_run_call, db_update, hrun],
      existing_data_kept_trans d _ d1 (db_delete_kept d id) hk⟩
  | delete id =>
    exact ⟨db_delete d id, rfl, db_delete_kept d id⟩

theorem C36_existing_data_kept_witness :
    (0 < root_only_db.name_buffer.count_allocated ∧ 0 < root_only_db.record_array.count_allocated ∧
      0 < root_only_db.lookup_array.count_allocated) ∧
    ∃ d1, db_run_call root_only_db (db_call.update heap_always 7 5 0 [98]) = some d1 ∧
      root_only_db.record_array.count ≤ d1.record_array.count ∧
      root_only_db.name_buffer.count ≤ d1.name_buffer.count ∧
      (∀ i, i < root_only_db.name_buffer.count →
        d1.name_buffer.elems i = root_only_db.name_buffer.elems i) ∧
      (∀ i, i < root_only_db.record_array.count →
        (d1.record_array.elems i).id = (root_only_db.record_array.elems i).id ∧
        (d1.record_array.elems i).parent_id = (root_only_db.record_array.elems i).parent_id ∧
        (d1.record_array.elems i).name_offset = (root_only_db.record_array.elems i).name_offset ∧
        ((d1.record_array.elems i).attributes = (root_only_db.record_array.elems i).attributes ∨
          (d1.record_array.elems i).attributes
            = (root_only_db.record_array.elems i).attributes ||| FILE_ATTRIBUTE_NOT_IN_USE)) :=
  ⟨⟨by decide, by decide, by decide⟩,
    C36_existing_data_kept root_only_db (db_call.update heap_always 7 5 0 [98])
      (by decide) (by decide) (by decide)⟩

theorem count_where_le (P : Nat → Bool) (n : Nat) : count_where P n ≤ n := by
  induction n with
  | zero => simp [count_where]
  | succ n ih =>
    simp only [count_where]
    split_ifs <;> omega

theorem count_where_set (P Q : Nat → Bool) (idx : Nat) (hP : P idx = false) (hQ : Q idx = true)
    (hrest : ∀ i, i ≠ idx → Q i = P i) :
    ∀ n, idx < n → count_where Q n = count_where P n + 1 := by
  intro n
  induction n with
  | zero => intro h; omega
  | succ n ih =>
    intro h
    simp only [count_where]
    by_cases hn : idx = n
    · subst hn
      rw [hP, hQ, count_where_congr Q P idx (fun i hi => hrest i (by omega))]
      simp
    · rw [ih (by omega), hrest n (fun e => hn e.symm)]
      omega

theorem db_mark_record_not_in_use_counter (d : db) (idx : Nat) (hidx : idx < d.record_array.count)
    (hlt : d.record_array.count < 2 ^ 32)
    (hc : d.records_not_in_use_count = records_marked_not_in_use d) :
    (db_mark_record_not_in_use d idx).records_not_in_use_count
      = records_marked_not_in_use (db_mark_record_not_in_use d idx) := by
  unfold db_mark_record_not_in_use
  by_cases h : (d.record_array.elems idx).attributes &&& FILE_ATTRIBUTE_NOT_IN_USE = 0
  · rw [if_pos h]
    unfold records_marked_not_in_use at hc ⊢
    dsimp only
    have hle := count_where_le
      (fun i => decide ((write_at d.record_array.elems idx
        { d.record_array.elems idx with
          attributes := (d.record_array.elems idx).attributes ||| FILE_ATTRIBUTE_NOT_IN_USE }
        i).attributes &&& FILE_ATTRIBUTE_NOT_IN_USE ≠ 0))
      d.record_array.count
    rw [count_where_set
      (fun i => decide ((d.record_array.elems i).attributes &&& FILE_ATTRIBUTE_NOT_IN_USE ≠ 0))
      _ idx (by simp [h]) (by simp [write_at, not_in_use_set])
      (fun i hi => by simp [write_at, hi]) _ hidx] at hle ⊢
    rw [hc, Nat.mod_eq_of_lt (by omega)]
  · rw [if_neg h]
    exact hc

theorem db_delete_counter (d : db) (id : Nat) (hlt : d.record_array.count < 2 ^ 32)
    (hc : d.records_not_in_use_count = records_marked_not_in_use d) :
    (db_delete d id).records_not_in_use_count = records_marked_not_in_use (db_delete d id) := by
  unfold db_delete
  cases h : db_get_record_by_id d id with
  | none => exact hc
  | some idx =>
    dsimp only
    have hidx : idx < d.record_array.count := by
      unfold db_get_record_by_id at h
      dsimp only at h
      split_ifs at h with a1 a2 a3
      cases h
      omega
    exact db_mark_record_not_in_use_counter d idx hidx hlt hc

/-- `db_refresh_lookup` when the lookup could be grown: the counter is the one
`db_mark_record_not_in_use` leaves on the record the lookup named before, if it
named another one. -/
theorem db_refresh_lookup_counter (heap : Nat → Bool) (d : db) (nr : Nat)
    (hpos : 0 < d.lookup_array.count_allocated) (d1 : db)
    (h : db_refresh_lookup heap d nr = some (true, d1)) :
    d1.records_not_in_use_count
      = (if (if record_number (d.record_array.elems nr).id < d.lookup_array.count_allocated
              then d.lookup_array.elems (record_number (d.record_array.elems nr).id)
              else 0) ≠ 0 ∧
            nr ≠ (if record_number (d.record_array.elems nr).id
                    < d.lookup_array.count_allocated
                  then d.lookup_array.elems (record_number (d.record_array.elems nr).id)
                  else 0)
          then db_mark_record_not_in_use d
            (if record_number (d.record_array.elems nr).id < d.lookup_array.count_allocated
              then d.lookup_array.elems (record_number (d.record_array.elems nr).id)
              else 0)
          else d).records_not_in_use_count := by
  obtain ⟨ok, la, hres, h1, h2, h3, h4, h5, h6, h7, h8, h9⟩ :=
    array_void_reserve_spec heap d.lookup_array 4
      (record_number (d.record_array.elems nr).id + 1) true hpos
  unfold db_refresh_lookup at h
  dsimp only at h
  rw [hres] at h
  cases ok with
  | false => simp at h
  | true =>
    have hrn := h3 rfl
    have hprev : la.elems (record_number (d.record_array.elems nr).id)
        = (if record_number (d.record_array.elems nr).id < d.lookup_array.count_allocated
            then d.lookup_array.elems (record_number (d.record_array.elems nr).id) else 0) := by
      split_ifs with hlt
      · exact h5 _ hlt
      · exact h6 rfl _ (by omega) (by omega)
    simp only [Option.some.injEq, Prod.mk.injEq, true_and] at h
    subst h
    dsimp only
    rw [← hprev]
    generalize la.elems (record_number (d.record_array.elems nr).id) = x
    have hm : ∀ (e : db) (la1 : array Nat),
        (db_mark_record_not_in_use { e with lookup_array := la1 } x).records_not_in_use_count
          = (db_mark_record_not_in_use e x).records_not_in_use_count := by
      intro e la1
      unfold db_mark_record_not_in_use
      dsimp only
      split_ifs <;> rfl
    by_cases c1 : x ≠ 0
    · by_cases c2 : nr ≠ x
      · rw [if_pos c1, if_pos c2, if_pos ⟨c1, c2⟩]
        exact hm d _
      · rw [if_pos c1, if_neg c2, if_neg (fun hh => c2 hh.2)]
    · rw [if_neg c1, if_neg (fun hh => c1 hh.1)]

/-- `db_insert` on an index with allocated blocks, as far as the records and the
counter go: either null is returned and both are as before, or the record is
stored behind the old records, the counter being as before, and
`db_refresh_lookup` runs on the outcome. -/
theorem db_insert_counter (heap : Nat → Bool) (d : db) (id parent_id attributes : Nat)
    (wname : List Nat) (h1 : 0 < d.name_buffer.count_allocated)
    (h2 : 0 < d.record_array.count_allocated) :
    (∃ d1, db_insert heap d id parent_id attributes wname = some (none, d1) ∧
      d1.record_array = d.record_array ∧
      d1.records_not_in_use_count = d.records_not_in_use_count) ∨
    (∃ d1, db_insert heap d id parent_id attributes wname
        = (db_refresh_lookup heap d1 d.record_array.count).map
            (fun p => (some d.record_array.count, p.2)) ∧
      d1.lookup_array = d.lookup_array ∧
      d1.records_not_in_use_count = d.records_not_in_use_count ∧
      d1.record_array.count = d.record_array.count + 1 ∧
      d1.record_array.elems
        = write_at d.record_array.elems d.record_array.count
            ⟨d.name_buffer.count, attributes, id, parent_id⟩) := by
  unfold db_insert
  dsimp only
  rcases array_void_push_count_spec heap d.name_buffer 1
      (length_of_utf16_as_utf8 wname + 1) false h1 with ⟨e, _⟩ | ⟨a1, e, c1, c2, c3⟩
  · left
    rw [e]
    exact ⟨_, rfl, rfl, rfl⟩
  · rw [e]
    dsimp only
    by_cases hconv : (convert_utf16_to_utf8 wname (length_of_utf16_as_utf8 wname)).2 = true
    · simp only [hconv, Bool.not_true, Bool.false_eq_true, if_false]
      rcases array_void_push_count_spec heap d.record_array sizeof_record 1 false h2 with
        ⟨e2, _⟩ | ⟨a2, e2, r1, r2, r3⟩
      · left
        unfold array_void_push
        rw [e2]
        exact ⟨_, rfl, rfl, rfl⟩
      · right
        unfold array_void_push
        rw [e2]
        dsimp only
        refine ⟨{ d with
            name_buffer := { a1 with
              elems := write_at (write_bytes a1.elems d.name_buffer.count
                  (convert_utf16_to_utf8 wname (length_of_utf16_as_utf8 wname)).1)
                (d.name_buffer.count + length_of_utf16_as_utf8 wname) 0 }
            record_array := { a2 with
              elems := write_at a2.elems d.record_array.count
                ⟨d.name_buffer.count, attributes, id, parent_id⟩ } },
          ?_, rfl, rfl, r1, by rw [r3 rfl]⟩
        generalize db_refresh_lookup heap _ d.record_array.count = q
        cases q with
        | none => rfl
        | some p => rfl
    · left
      have hf : (convert_utf16_to_utf8 wname (length_of_utf16_as_utf8 wname)).2 = false := by
        cases hb : (convert_utf16_to_utf8 wname (length_of_utf16_as_utf8 wname)).2 with
        | true => exact absurd hb hconv
        | false => rfl
      simp only [hf, Bool.not_false, if_true]
      exact ⟨_, rfl, rfl, rfl⟩

theorem db_insert_counter_ok (heap : Nat → Bool) (d : db) (id parent_id attributes : Nat)
    (wname : List Nat) (hok : db_ok d) (hattr : attributes &&& FILE_ATTRIBUTE_NOT_IN_USE = 0)
    (hc : d.records_not_in_use_count = records_marked_not_in_use d)
    (res : Option Nat) (d1 : db)
    (hrun : db_insert heap d id parent_id attributes wname = some (res, d1))
    (hlt : d1.record_array.count < 2 ^ 32) :
    d1.records_not_in_use_count = records_marked_not_in_use d1 := by
  rcases db_insert_counter heap d id parent_id attributes wname hok.1 hok.2.1 with
    ⟨e, he, hra, hcnt⟩ | ⟨e, he, hla, hcnt, hrc, hre⟩
  · rw [hrun] at he
    simp only [Option.some.injEq, Prod.mk.injEq] at he
    obtain ⟨_, he⟩ := he
    subst he
    rw [hcnt, hc]
    unfold records_marked_not_in_use
    rw [hra]
  · have hce : e.records_not_in_use_count = records_marked_not_in_use e := by
      rw [hcnt, hc]
      unfold records_marked_not_in_use
      rw [hrc, hre, count_where]
      simp only [write_at, if_true, hattr, ne_eq, not_true_eq_false, decide_False,
        Bool.false_eq_true, if_false, Nat.add_zero]
      exact count_where_congr _ _ _ (fun i hi => by
        simp only [if_neg (by omega : ¬ i = d.record_array.count)])
    obtain ⟨ok, e1, hr, g1, g2, g3, g4, g5⟩ :=
      db_refresh_lookup_spec heap e d.record_array.count (by rw [hla]; exact hok.2.2.1)
    rw [hrun, hr] at he
    simp only [Option.map_some', Option.some.injEq, Prod.mk.injEq] at he
    obtain ⟨_, he⟩ := he
    subst he
    cases ok with
    | false => rw [g3 rfl]; exact hce
    | true =>
      obtain ⟨_, _, _, _, _, hrec⟩ := g5 rfl
      have hcount := db_refresh_lookup_counter heap e d.record_array.count
        (by rw [hla]; exact hok.2.2.1) d1 hr
      have hd1 : d1.record_array.count = d.record_array.count + 1 := by
        rw [hrec]
        generalize (if record_number (e.record_array.elems d.record_array.count).id
                < e.lookup_array.count_allocated
              then e.lookup_array.elems
                (record_number (e.record_array.elems d.record_array.count).id)
              else 0) = y
        by_cases hcond : y ≠ 0 ∧ d.record_array.count ≠ y
        · rw [if_pos hcond, (db_mark_record_not_in_use_spec e _).2.2.2.1, hrc]
        · rw [if_neg hcond, hrc]
      have hprev : ∀ x, x = (if record_number (e.record_array.elems d.record_array.count).id
                < e.lookup_array.count_allocated
              then e.lookup_array.elems
                (record_number (e.record_array.elems d.record_array.count).id)
              else 0) → x ≠ 0 → x < e.record_array.count := by
        intro x hx hx0
        split_ifs at hx with hcap
        · rw [hla] at hx hcap
          have := (hok.2.2.2.1 (by omega) _ hcap (by rw [← hx]; exact hx0)).1
          rw [← hx] at this
          omega
        · exact absurd hx hx0
      generalize (if record_number (e.record_array.elems d.record_array.count).id
                < e.lookup_array.count_allocated
              then e.lookup_array.elems
                (record_number (e.record_array.elems d.record_array.count).id)
              else 0) = x at hrec hcount hprev
      unfold records_marked_not_in_use
      rw [hcount, hrec]
      by_cases hcond : x ≠ 0 ∧ d.record_array.count ≠ x
      · rw [if_pos hcond]
        exact db_mark_record_not_in_use_counter e x (hprev x rfl hcond.1) (by omega) hce
      · rw [if_neg hcond]
        exact hce

theorem db_run_call_counter (d d1 : db) (c : db_call) (hok : db_ok d)
    (hattr : call_attributes_in_use c = true)
    (hc : d.records_not_in_use_count = records_marked_not_in_use d)
    (h : db_run_call d c = some d1) (hlt : d1.record_array.count < 2 ^ 32) :
    d1.records_not_in_use_count = records_marked_not_in_use d1 := by
  have hmono := (db_run_call_ok d d1 c hok h).2
  cases c with
  | insert heap id parent_id attributes wname =>
    simp only [db_run_call, Option.map_eq_some', Prod.exists, exists_eq_right] at h
    obtain ⟨res, h⟩ := h
    exact db_insert_counter_ok heap d id parent_id attributes wname hok
      (of_decide_eq_true hattr) hc res d1 h hlt
  | update heap id parent_id attributes wname =>
    simp only [db_run_call, db_update, Option.map_eq_some', Prod.exists, exists_eq_right] at h
    obtain ⟨res, h⟩ := h
    exact db_insert_counter_ok heap (db_delete d id) id parent_id attributes wname
      (db_delete_effect d id hok).1 (of_decide_eq_true hattr)
      (db_delete_counter d id (by omega) hc) res d1 h hlt
  | delete id =>
    simp only [db_run_call, Option.some.injEq] at h
    subst h
    exact db_delete_counter d id (by omega) hc

theorem db_run_calls_count_le : ∀ (calls : List db_call) (d d1 : db), db_ok d →
    db_run_calls d calls = some d1 → d.record_array.count ≤ d1.record_array.count := by
  intro calls
  induction calls with
  | nil =>
    intro d d1 _ h
    simp only [db_run_calls, Option.some.injEq] at h
    subst h
    exact Nat.le_refl _
  | cons c rest ih =>
    intro d d1 hok h
    simp only [db_run_calls] at h
    cases hc : db_run_call d c with
    | none => rw [hc] at h; cases h
    | some e =>
      rw [hc] at h
      obtain ⟨hoke, hle⟩ := db_run_call_ok d e c hok hc
      exact Nat.le_trans hle (ih e d1 hoke h)

theorem db_run_calls_counter : ∀ (calls : List db_call) (d d1 : db), db_ok d →
    (∀ c ∈ calls, call_attributes_in_use c = true) →
    d.records_not_in_use_count = records_marked_not_in_use d →
    db_run_calls d calls = some d1 → d1.record_array.count < 2 ^ 32 →
    d1.records_not_in_use_count = records_marked_not_in_use d1 := by
  intro calls
  induction calls with
  | nil =>
    intro d d1 _ _ hc h _
    simp only [db_run_calls, Option.some.injEq] at h
    subst h
    exact hc
  | cons c rest ih =>
    intro d d1 hok hattr hc h hlt
    simp only [db_run_calls] at h
    cases hcall : db_run_call d c with
    | none => rw [hcall] at h; cases h
    | some e =>
      rw [hcall] at h
      obtain ⟨hoke, _⟩ := db_run_call_ok d e c hok hcall
      have hle := db_run_calls_count_le rest e d1 hoke h
      exact ih e d1 hoke (fun c1 h1 => hattr c1 (List.mem_cons_of_mem _ h1))
        (db_run_call_counter d e c hok (hattr c (List.mem_cons_self _ _)) hc hcall (by omega))
        h hlt

/-- C37.  After every sequence of `db_insert`, `db_update` and `db_delete`
calls starting from `db_create`, with attribute arguments that do not carry the
NOT_IN_USE bit, that leaves fewer than 2^32 records in `record_array` (the
counter is a `u32`), `records_not_in_use_count` equals the number of records in
`record_array` whose attributes have NOT_IN_USE set. -/
theorem C37_not_in_use_count (calls : List db_call) (d : db)
    (hattr : ∀ c ∈ calls, call_attributes_in_use c = true)
    (hrun : db_run_calls db_create calls = some d) (hlt : d.record_array.count < 2 ^ 32) :
    d.records_not_in_use_count = records_marked_not_in_use d :=
  db_run_calls_counter calls db_create d db_create_ok hattr rfl hrun hlt

theorem C37_not_in_use_count_witness :
    ((∀ c ∈ [db_call.insert heap_always 5 5 0 [46], db_call.insert heap_always 10 5 0 [97],
          db_call.update heap_always 10 5 0 [98], db_call.delete 10],
        call_attributes_in_use c = true) ∧
      (db_run_calls db_create
          [db_call.insert heap_always 5 5 0 [46], db_call.insert heap_always 10 5 0 [97],
            db_call.update heap_always 10 5 0 [98], db_call.delete 10]).isSome = true) ∧
    (db_of_calls [db_call.insert heap_always 5 5 0 [46], db_call.insert heap_always 10 5 0 [97],
        db_call.update heap_always 10 5 0 [98], db_call.delete 10]).records_not_in_use_count
      = records_marked_not_in_use
          (db_of_calls [db_call.insert heap_always 5 5 0 [46],
            db_call.insert heap_always 10 5 0 [97], db_call.update heap_always 10 5 0 [98],
            db_call.delete 10]) ∧
    (db_of_calls [db_call.insert heap_always 5 5 0 [46], db_call.insert heap_always 10 5 0 [97],
        db_call.update heap_always 10 5 0 [98], db_call.delete 10]).records_not_in_use_count = 2 :=
  ⟨⟨by decide, by decide⟩,
    C37_not_in_use_count
      [db_call.insert heap_always 5 5 0 [46], db_call.insert heap_always 10 5 0 [97],
        db_call.update heap_always 10 5 0 [98], db_call.delete 10]
      _ (by decide) (db_of_calls_eq _ (by decide)) (by decide), by decide⟩

/-! ## The query: counters of a result -/

theorem items_bytes_snoc (d : db) (ks : List Nat) (k : Nat) :
    items_bytes d (ks ++ [k]) = items_bytes d ks ++ record_item_bytes d k := by
  induction ks with
  | nil => simp [items_bytes]
  | cons a l ih => simp [items_bytes, ih]

theorem query_counters_ok_found (params : quickfind_params) (d : db) (b0 : buffer)
    (found ret : Nat) (b : buffer) (h : query_counters_ok params d b0 found ret b) :
    query_counters_ok params d b0 (found + 1) ret b := by
  obtain ⟨h1, h2, h3⟩ := h
  refine ⟨h1, ?_, h3⟩
  by_cases hs : params.skip_count < found + 1
  · left
    refine ⟨hs, ?_⟩
    rcases h2 with ⟨_, g⟩ | ⟨_, g⟩ <;> omega
  · right
    refine ⟨hs, ?_⟩
    rcases h2 with ⟨_, g⟩ | ⟨_, g⟩ <;> omega

/-- The second half of the loop body of `run_query` keeps the counters and the
buffer fitting together; it adds at most one to `found_count`; and the only
result it returns itself is the out-of-memory error. -/
theorem run_query_found_counters (params : quickfind_params) (d : db) (st : query_state)
    (cs idx : Nat) (b0 : buffer)
    (h : query_counters_ok params d b0 st.found_count st.return_count st.result_buffer) :
    (∃ st1, run_query_found params d st cs idx = Sum.inl st1 ∧
      st1.found_count ≤ st.found_count + 1 ∧
      query_counters_ok params d b0 st1.found_count st1.return_count st1.result_buffer) ∨
    (∃ b, run_query_found params d st cs idx
      = Sum.inr ({ error := QUICKFIND_ERROR_OUT_OF_MEMORY, found_count := 0,
                   return_count := 0 }, b)) := by
  unfold run_query_found
  dsimp only
  by_cases h1 : (d.record_array.elems idx).attributes &&& FILE_ATTRIBUTE_NOT_IN_USE = 0
  · rw [if_pos h1]
    by_cases h2 : matches_query_flags (d.record_array.elems idx) params.flags
        params.text_length (usize_sub cs (db_get_record_name d (d.record_array.elems idx))) = true
    · rw [if_pos h2]
      by_cases h3 : walk_ancestors_is_child_of_root d 256 idx = true
      · rw [if_pos h3]
        by_cases h4 : st.found_count ≥ params.skip_count ∧ st.return_count < params.return_count
        · rw [if_pos h4]
          by_cases h5 : (walk_ancestors_build_path d idx 256 (256 * 256)).1 ≠ 0
          · rw [if_pos h5]
            have hl := walk_ancestors_build_path_length d idx h5
            have hps : ((walk_ancestors_build_path d idx 256 (256 * 256)).2.length + 1) % 2 ^ 32
                = (walk_ancestors_build_path d idx 256 (256 * 256)).2.length + 1 :=
              Nat.mod_eq_of_lt (by omega)
            have hrs : (sizeof_query_result_item
                + ((walk_ancestors_build_path d idx 256 (256 * 256)).2.length + 1)) % 2 ^ 32
                = sizeof_query_result_item
                  + ((walk_ancestors_build_path d idx 256 (256 * 256)).2.length + 1) :=
              Nat.mod_eq_of_lt (by unfold sizeof_query_result_item; omega)
            have hil : (record_item_bytes d idx).length = sizeof_query_result_item
                + ((walk_ancestors_build_path d idx 256 (256 * 256)).2.length + 1) := by
              simp [record_item_bytes, query_result_item_bytes, le_bytes,
                sizeof_query_result_item]
              omega
            have htake : ((walk_ancestors_build_path d idx 256 (256 * 256)).2 ++ [0]).take
                ((walk_ancestors_build_path d idx 256 (256 * 256)).2.length + 1)
                = (walk_ancestors_build_path d idx 256 (256 * 256)).2 ++ [0] := by
              apply List.take_of_length_le
              simp
            rw [hps, hrs, htake]
            unfold buffer_append
            by_cases hfit : st.result_buffer.size + (sizeof_query_result_item
                + ((walk_ancestors_build_path d idx 256 (256 * 256)).2.length + 1))
                ≤ st.result_buffer.capacity
            · left
              rw [if_pos hfit]
              refine ⟨_, rfl, Nat.le_refl _, ?_⟩
              obtain ⟨g1, g2, ks, g3, g4, hb1, hb2, hb3⟩ := h
              dsimp only
              refine ⟨by omega, ?_, ks ++ [idx], by simp [g3], ?_, hb1, ?_, ?_⟩
              · left
                rcases g2 with ⟨_, g⟩ | ⟨_, g⟩ <;> omega
              · intro k hk
                rcases List.mem_append.mp hk with hk | hk
                · exact g4 k hk
                · rw [List.mem_singleton.mp hk]
                  unfold path_builds
                  simp [h5]
              · show st.result_buffer.size + (sizeof_query_result_item
                    + ((walk_ancestors_build_path d idx 256 (256 * 256)).2.length + 1))
                  = b0.size + (items_bytes d (ks ++ [idx])).length
                rw [items_bytes_snoc, List.length_append, hb2, hil]
                omega
              · have hrb : query_result_item_bytes (d.record_array.elems idx).id
                    (d.record_array.elems idx).attributes
                    ((walk_ancestors_build_path d idx 256 (256 * 256)).2.length + 1)
                    ((walk_ancestors_build_path d idx 256 (256 * 256)).2 ++ [0])
                    = record_item_bytes d idx := rfl
                rw [hrb, ← hil, bytes_of_write_bytes, hb3, items_bytes_snoc, List.append_assoc]
            · right
              rw [if_neg hfit]
              exact ⟨_, rfl⟩
          · left
            rw [if_neg h5]
            exact ⟨_, rfl, Nat.le_refl _, query_counters_ok_found params d b0 _ _ _ h⟩
        · left
          rw [if_neg h4]
          exact ⟨_, rfl, Nat.le_refl _, query_counters_ok_found params d b0 _ _ _ h⟩
      · left
        rw [if_neg h3]
        exact ⟨_, rfl, Nat.le_succ _, h⟩
    · left
      rw [if_neg h2]
      exact ⟨_, rfl, Nat.le_succ _, h⟩
  · left
    rw [if_neg h1]
    exact ⟨_, rfl, Nat.le_succ _, h⟩

theorem run_query_loop_counters (params : quickfind_params) (d : db) (b0 : buffer) :
    ∀ rounds st res b, st.found_count ≤ params.stop_count →
      query_counters_ok params d b0 st.found_count st.return_count st.result_buffer →
      run_query_loop params d rounds st = some (res, b) → res.error = QUICKFIND_OK →
      res.found_count ≤ params.stop_count ∧
      query_counters_ok params d b0 res.found_count res.return_count b := by
  intro rounds
  induction rounds with
  | zero =>
    intro st res b hle hok hrun _
    unfold run_query_loop at hrun
    split_ifs at hrun
    simp only [Option.some.injEq, Prod.mk.injEq] at hrun
    obtain ⟨e1, e2⟩ := hrun
    subst e1 e2
    exact ⟨hle, hok⟩
  | succ rounds ih =>
    intro st res b hle hok hrun herr
    unfold run_query_loop at hrun
    split_ifs at hrun with hlt
    · unfold run_query_body at hrun
      cases hsel : run_query_select params d st with
      | none =>
        rw [hsel] at hrun
        simp only [Option.some.injEq, Prod.mk.injEq] at hrun
        obtain ⟨e1, e2⟩ := hrun
        subst e1 e2
        exact ⟨hle, hok⟩
      | some t =>
        obtain ⟨m, cs, idx⟩ := t
        rw [hsel] at hrun
        dsimp only at hrun
        rcases run_query_found_counters params d st cs idx b0 hok with
          ⟨st1, hst1, hf, hok1⟩ | ⟨b1, hb1⟩
        · rw [hst1] at hrun
          exact ih st1 res b (by omega) hok1 hrun herr
        · rw [hb1] at hrun
          simp only [Option.some.injEq, Prod.mk.injEq] at hrun
          obtain ⟨e1, _⟩ := hrun
          subst e1
          cases herr
    · simp only [Option.some.injEq, Prod.mk.injEq] at hrun
      obtain ⟨e1, e2⟩ := hrun
      subst e1 e2
      exact ⟨hle, hok⟩

/-- C39.  For every index, every parameter set and every output buffer, a
result of `run_query` with error OK has `found_count ≤ stop_count`,
`return_count ≤ params.return_count`, and `return_count ≤ found_count -
skip_count` when `found_count > skip_count` and `return_count = 0` otherwise;
the output buffer is then the one passed in with exactly `return_count` items
appended, each the item of a record whose path was built. -/
theorem C39_result_counters (rounds : Nat) (params : quickfind_params) (result_buffer : buffer)
    (d : db) (res : query_result) (b : buffer)
    (hrun : run_query rounds params result_buffer d = some (res, b))
    (herr : res.error = QUICKFIND_OK) :
    res.found_count ≤ params.stop_count ∧ res.return_count ≤ params.return_count ∧
    ((params.skip_count < res.found_count ∧
        res.return_count ≤ res.found_count - params.skip_count) ∨
      (¬ params.skip_count < res.found_count ∧ res.return_count = 0)) ∧
    ∃ ks : List Nat, ks.length = res.return_count ∧ (∀ k ∈ ks, path_builds d k = true) ∧
      b.capacity = result_buffer.capacity ∧
      b.size = result_buffer.size + (items_bytes d ks).length ∧
      bytes_of b.data b.size
        = bytes_of result_buffer.data result_buffer.size ++ items_bytes d ks := by
  have hinit : query_counters_ok params d result_buffer
      (run_query_init result_buffer).found_count (run_query_init result_buffer).return_count
      (run_query_init result_buffer).result_buffer :=
    ⟨Nat.zero_le _, Or.inr ⟨Nat.not_lt_zero _, rfl⟩, [], rfl, fun _ hk => (by cases hk), rfl,
      rfl, by simp [items_bytes, run_query_init]⟩
  obtain ⟨h1, h2, h3, h4⟩ := run_query_loop_counters params d result_buffer rounds
    (run_query_init result_buffer) res b (Nat.zero_le _) hinit hrun herr
  exact ⟨h1, h2, h3, h4⟩

theorem C39_result_counters_witness :
    ∃ res b, run_query 4 (params_of [97] 0 1 1 5) response_buffer two_names_db = some (res, b) ∧
      res.error = QUICKFIND_OK ∧
      res.found_count ≤ (params_of [97] 0 1 1 5).stop_count ∧
      res.return_count ≤ (params_of [97] 0 1 1 5).return_count ∧
      (((params_of [97] 0 1 1 5).skip_count < res.found_count ∧
          res.return_count ≤ res.found_count - (params_of [97] 0 1 1 5).skip_count) ∨
        (¬ (params_of [97] 0 1 1 5).skip_count < res.found_count ∧ res.return_count = 0)) ∧
      ∃ ks : List Nat, ks.length = res.return_count ∧
        (∀ k ∈ ks, path_builds two_names_db k = true) ∧
        b.capacity = response_buffer.capacity ∧
        b.size = response_buffer.size + (items_bytes two_names_db ks).length ∧
        bytes_of b.data b.size
          = bytes_of response_buffer.data response_buffer.size ++ items_bytes two_names_db ks := by
  have hs : (run_query 4 (params_of [97] 0 1 1 5) response_buffer two_names_db).map
      (fun p => p.1.error) = some QUICKFIND_OK := by decide
  obtain ⟨p, hp, herr⟩ := Option.map_eq_some'.mp hs
  exact ⟨p.1, p.2, hp, herr,
    C39_result_counters 4 (params_of [97] 0 1 1 5) response_buffer two_names_db p.1 p.2 hp herr⟩

/-! ## The scan for a needle refines the byte-by-byte search -/

theorem needle_at_case_sensitive (mem needle : Nat → Nat) (k q : Nat) :
    needle_at QUICKFIND_FLAG_CASE_SENSITIVE mem needle k q = needle_occurs mem needle k q := by
  rfl

theorem memmem_bytewise_spec (mem : Nat → Nat) (s : Nat) (needle : Nat → Nat) (k : Nat) :
    ∀ len p zc,
      (∃ q, p ≤ q ∧ q < p + len ∧ needle_occurs mem needle k (s + q) = true ∧
        (∀ q', p ≤ q' → q' < q → needle_occurs mem needle k (s + q') = false) ∧
        memmem_bytewise mem s needle k len p zc
          = (some (s + q), zc + count_where (fun j => decide (mem (s + p + j) = 0)) (q - p))) ∨
      ((∀ q', p ≤ q' → q' < p + len → needle_occurs mem needle k (s + q') = false) ∧
        memmem_bytewise mem s needle k len p zc
          = (none, zc + count_where (fun j => decide (mem (s + p + j) = 0)) len)) := by
  intro len
  induction len with
  | zero =>
    intro p zc
    right
    exact ⟨fun q' h1 h2 => by omega, by simp [memmem_bytewise, count_where]⟩
  | succ len ih =>
    intro p zc
    rw [memmem_bytewise]
    by_cases h : needle_occurs mem needle k (s + p) = true
    · left
      rw [if_pos h]
      exact ⟨p, Nat.le_refl _, by omega, h, fun q' h1 h2 => by omega,
        by simp [count_where]⟩
    · rw [if_neg h]
      have hfalse : needle_occurs mem needle k (s + p) = false := by
        cases hb : needle_occurs mem needle k (s + p) with
        | true => exact absurd hb h
        | false => rfl
      have hshift : ∀ m, count_where (fun j => decide (mem (s + p + j) = 0)) (m + 1)
          = (if mem (s + p) = 0 then 1 else 0)
            + count_where (fun j => decide (mem (s + (p + 1) + j) = 0)) m := by
        intro m
        rw [Nat.add_comm m 1, count_where_add]
        simp only [count_where, Nat.zero_add, Nat.add_zero, decide_eq_true_eq]
        congr 1
        apply count_where_congr
        intro i _
        congr 3
        omega
      rcases ih (p + 1) (zc + (if mem (s + p) = 0 then 1 else 0)) with
        ⟨q, a1, a2, a3, a4, a5⟩ | ⟨b1, b2⟩
      · left
        refine ⟨q, by omega, by omega, a3, ?_, ?_⟩
        · intro q' h1 h2
          by_cases hq : q' = p
          · rw [hq]; exact hfalse
          · exact a4 q' (by omega) h2
        · rw [a5, show q - p = (q - (p + 1)) + 1 by omega, hshift, Nat.add_assoc]
      · right
        refine ⟨?_, ?_⟩
        · intro q' h1 h2
          by_cases hq : q' = p
          · rw [hq]; exact hfalse
          · exact b1 q' (by omega) (by omega)
        · rw [b2, hshift, Nat.add_assoc]

/-- C31.  For a needle of `2 ≤ k < 2^64` bytes, `simd_memmem_count_zeroes`
returns what the byte-by-byte search over the `32 * ceil(n / 32)` positions of
the scanned blocks returns: the smallest position `p` at which the `k` needle
bytes stand, with `zero_count` the number of NUL bytes in `s[0, p)`, and null
when the needle stands at none of the positions, whatever candidates with
matching first and last byte come before the match. -/
theorem C31_memmem_refines_bytewise (mem : Nat → Nat) (s n : Nat) (needle : Nat → Nat) (k : Nat)
    (hk : 2 ≤ k) (hk2 : k < 2 ^ 64) (hb : ∀ j, j < k → needle j < 256) :
    simd_memmem_count_zeroes mem s n needle k
      = memmem_bytewise mem s needle k (32 * ((n + 31) / 32)) 0 0 ∧
    ((∃ p, p < 32 * ((n + 31) / 32) ∧ needle_occurs mem needle k (s + p) = true ∧
        (∀ p', p' < p → needle_occurs mem needle k (s + p') = false) ∧
        simd_memmem_count_zeroes mem s n needle k
          = (some (s + p), count_where (fun j => decide (mem (s + j) = 0)) p)) ∨
      ((∀ p', p' < 32 * ((n + 31) / 32) → needle_occurs mem needle k (s + p') = false) ∧
        simd_memmem_count_zeroes mem s n needle k
          = (none, count_where (fun j => decide (mem (s + j) = 0)) (32 * ((n + 31) / 32))))) := by
  have hloop := simd_memmem_count_zeroes_loop_spec mem s needle k (by omega) ((n + 31) / 32) 0 0
  simp only [memmem_hit_eq QUICKFIND_FLAG_CASE_SENSITIVE mem needle k (by decide) hk hk2 hb,
    needle_at_case_sensitive, Nat.add_zero, Nat.zero_add] at hloop
  have hnaive := memmem_bytewise_spec mem s needle k (32 * ((n + 31) / 32)) 0 0
  simp only [Nat.add_zero, Nat.zero_add, Nat.sub_zero] at hnaive
  unfold simd_memmem_count_zeroes
  rcases hloop with ⟨q, a1, a2, a3, a4, a5⟩ | ⟨b1, b2⟩
  · obtain ⟨p, rfl⟩ : ∃ p, q = s + p := ⟨q - s, by omega⟩
    have hmin : ∀ p', p' < p → needle_occurs mem needle k (s + p') = false :=
      fun p' hp' => a4 (s + p') (by omega) (by omega)
    rw [show s + p - s = p by omega] at a5
    refine ⟨?_, Or.inl ⟨p, by omega, a3, hmin, a5⟩⟩
    rcases hnaive with ⟨q1, _, c2, c3, c4, c5⟩ | ⟨d1, _⟩
    · have hq : q1 = p := by
        rcases Nat.lt_trichotomy q1 p with hlt | heq | hgt
        · rw [hmin q1 hlt] at c3; cases c3
        · exact heq
        · rw [c4 p (Nat.zero_le _) hgt] at a3; cases a3
      rw [a5, c5, hq]
    · rw [d1 p (Nat.zero_le _) (by omega)] at a3
      cases a3
  · have hnone : ∀ p', p' < 32 * ((n + 31) / 32) → needle_occurs mem needle k (s + p') = false :=
      fun p' hp' => b1 (s + p') (by omega) (by omega)
    refine ⟨?_, Or.inr ⟨hnone, b2⟩⟩
    rcases hnaive with ⟨q1, _, c2, c3, _, _⟩ | ⟨_, d2⟩
    · rw [hnone q1 c2] at c3
      cases c3
    · rw [b2, d2]

theorem C31_memmem_refines_bytewise_witness :
    (2 ≤ 3 ∧ 3 < 2 ^ 64 ∧ ∀ j, j < 3 → mem_of [97, 98, 97] j < 256) ∧
    (simd_memmem_count_zeroes candidate_memory 0 6 (mem_of [97, 98, 97]) 3
        = memmem_bytewise candidate_memory 0 (mem_of [97, 98, 97]) 3 (32 * ((6 + 31) / 32)) 0 0 ∧
      ((∃ p, p < 32 * ((6 + 31) / 32) ∧
          needle_occurs candidate_memory (mem_of [97, 98, 97]) 3 (0 + p) = true ∧
          (∀ p', p' < p → needle_occurs candidate_memory (mem_of [97, 98, 97]) 3 (0 + p') = false) ∧
          simd_memmem_count_zeroes candidate_memory 0 6 (mem_of [97, 98, 97]) 3
            = (some (0 + p), count_where (fun j => decide (candidate_memory (0 + j) = 0)) p)) ∨
        ((∀ p', p' < 32 * ((6 + 31) / 32) →
            needle_occurs candidate_memory (mem_of [97, 98, 97]) 3 (0 + p') = false) ∧
          simd_memmem_count_zeroes candidate_memory 0 6 (mem_of [97, 98, 97]) 3
            = (none, count_where (fun j => decide (candidate_memory (0 + j) = 0))
                (32 * ((6 + 31) / 32)))))) ∧
    simd_memmem_count_zeroes candidate_memory 0 6 (mem_of [97, 98, 97]) 3 = (some 3, 1) :=
  ⟨⟨by decide, by decide, by decide⟩,
    C31_memmem_refines_bytewise candidate_memory 0 6 (mem_of [97, 98, 97]) 3
      (by decide) (by decide) (by decide),
    by decide⟩

/-! ## NTFS: fixup, record numbers, data runs -/

theorem u16_at_eq (m : Nat → Nat) (off : Nat) : u16_at m off = m off + 256 * m (off + 1) := by
  simp [u16_at, bytes_of, le_value, List.range_succ]

theorem le_bytes_two (v : Nat) : le_bytes 2 v = [v % 256, v / 256 % 256] := by
  simp [le_bytes, List.range_succ]

theorem write_bytes_two (m : Nat → Nat) (p a b i : Nat) :
    write_bytes m p [a, b] i = if i = p then a else if i = p + 1 then b else m i := by
  unfold write_bytes
  by_cases h1 : i = p
  · subst h1
    simp
  · by_cases h2 : i = p + 1
    · subst h2
      simp
    · rw [if_neg h1, if_neg h2, if_neg]
      simp only [List.length_cons, List.length_nil]
      omega

/-- One round of the loop of `ntfs_fixup_record` on a sub-block that ends in the
check word. -/
theorem ntfs_fixup_record_loop_replace (offset rounds i j : Nat) (record : Nat → Nat)
    (hi : i ≤ NTFS_FILE_RECORD_SIZE)
    (h : u16_at record (i - 2) = u16_at record offset) :
    ntfs_fixup_record_loop offset (rounds + 1) i j record
      = ntfs_fixup_record_loop offset rounds (i + SEQUENCE_NUMBER_STRIDE) (j + 1)
          (write_bytes record (i - 2) (le_bytes 2 (u16_at record (offset + 2 * j)))) := by
  rw [ntfs_fixup_record_loop, if_pos hi]
  dsimp only
  rw [if_pos h]

theorem u16_at_congr (m m1 : Nat → Nat) (p q : Nat) (h0 : m1 q = m p)
    (h1 : m1 (q + 1) = m (p + 1)) : u16_at m1 q = u16_at m p := by
  rw [u16_at_eq, u16_at_eq, h0, h1]

theorem write_bytes_lt (m : Nat → Nat) (p : Nat) (bs : List Nat) (hm : ∀ i, m i < 256)
    (hb : ∀ b ∈ bs, b < 256) : ∀ i, write_bytes m p bs i < 256 := by
  intro i
  unfold write_bytes
  split_ifs with h
  · rw [List.getD_eq_getElem?_getD, List.getElem?_eq_getElem (by omega)]
    exact hb _ (List.getElem_mem _)
  · exact hm i

/-- C33.  For a record of bytes whose update sequence array (its entries 0, 1
and 2, at the offset the header gives) does not overlap the last two bytes of
either 512-byte sub-block and whose two sub-blocks both end in the check word,
entry 0 of the array, `ntfs_fixup_record` replaces the last two bytes of the
first sub-block by entry 1 and those of the second by entry 2, and changes no
other byte. -/
theorem C33_fixup_replaces (record : Nat → Nat) (hbytes : ∀ i, record i < 256)
    (hdisj : ∀ t, t < 6 → u16_at record 4 + t ≠ 510 ∧ u16_at record 4 + t ≠ 511 ∧
      u16_at record 4 + t ≠ 1022 ∧ u16_at record 4 + t ≠ 1023)
    (h1 : u16_at record 510 = u16_at record (u16_at record 4))
    (h2 : u16_at record 1022 = u16_at record (u16_at record 4)) :
    ntfs_fixup_record record 510 = record (u16_at record 4 + 2) ∧
    ntfs_fixup_record record 511 = record (u16_at record 4 + 3) ∧
    ntfs_fixup_record record 1022 = record (u16_at record 4 + 4) ∧
    ntfs_fixup_record record 1023 = record (u16_at record 4 + 5) ∧
    ∀ i, i ≠ 510 → i ≠ 511 → i ≠ 1022 → i ≠ 1023 → ntfs_fixup_record record i = record i := by
  generalize husa : u16_at record 4 = usa at hdisj h1 h2
  have d0 := hdisj 0 (by omega)
  have d1 := hdisj 1 (by omega)
  have d2 := hdisj 2 (by omega)
  have d3 := hdisj 3 (by omega)
  have d4 := hdisj 4 (by omega)
  have d5 := hdisj 5 (by omega)
  have hle : ∀ p, le_bytes 2 (u16_at record p) = [record p, record (p + 1)] := by
    intro p
    have b1 := hbytes p
    have b2 := hbytes (p + 1)
    rw [le_bytes_two, u16_at_eq]
    congr 1
    · omega
    · congr 1
      omega
  have hrec1 : ∀ i, write_bytes record 510 (le_bytes 2 (u16_at record (usa + 2 * 1))) i
      = if i = 510 then record (usa + 2) else if i = 511 then record (usa + 3) else record i := by
    intro i
    rw [hle, write_bytes_two]
  generalize hr1 : write_bytes record 510 (le_bytes 2 (u16_at record (usa + 2 * 1))) = record1
    at hrec1
  have hfix : ntfs_fixup_record record
      = write_bytes record1 1022 (le_bytes 2 (u16_at record1 (usa + 2 * 2))) := by
    unfold ntfs_fixup_record
    rw [husa]
    rw [ntfs_fixup_record_loop_replace usa 2 SEQUENCE_NUMBER_STRIDE 1 record (by decide) h1]
    rw [show SEQUENCE_NUMBER_STRIDE - 2 = 510 from rfl, hr1]
    rw [ntfs_fixup_record_loop_replace usa 1 (SEQUENCE_NUMBER_STRIDE + SEQUENCE_NUMBER_STRIDE) 2
      record1 (by decide) (by
        show u16_at record1 1022 = u16_at record1 usa
        rw [u16_at_congr record record1 1022 1022
            (by rw [hrec1, if_neg (by omega), if_neg (by omega)])
            (by rw [hrec1, if_neg (by omega), if_neg (by omega)]),
          u16_at_congr record record1 usa usa
            (by rw [hrec1, if_neg (by omega), if_neg (by omega)])
            (by rw [hrec1, if_neg (by omega), if_neg (by omega)])]
        exact h2)]
    rw [ntfs_fixup_record_loop, if_neg (by decide)]
    rfl
  have hentry : u16_at record1 (usa + 2 * 2) = u16_at record (usa + 4) :=
    u16_at_congr record record1 (usa + 4) (usa + 2 * 2)
      (by rw [hrec1, if_neg (by omega), if_neg (by omega)])
      (by rw [hrec1, if_neg (by omega), if_neg (by omega)])
  have hall : ∀ i, ntfs_fixup_record record i
      = if i = 1022 then record (usa + 4) else if i = 1023 then record (usa + 5)
        else if i = 510 then record (usa + 2) else if i = 511 then record (usa + 3)
        else record i := by
    intro i
    rw [hfix, hentry, hle, write_bytes_two, hrec1]
  refine ⟨?_, ?_, ?_, ?_, ?_⟩
  · rw [hall]; simp
  · rw [hall]; simp
  · rw [hall]; simp
  · rw [hall]; simp
  · intro i i1 i2 i3 i4
    rw [hall, if_neg i3, if_neg i4, if_neg i1, if_neg i2]

theorem C33_fixup_replaces_witness :
    ((∀ t, t < 6 → u16_at fixup_record 4 + t ≠ 510 ∧ u16_at fixup_record 4 + t ≠ 511 ∧
        u16_at fixup_record 4 + t ≠ 1022 ∧ u16_at fixup_record 4 + t ≠ 1023) ∧
      u16_at fixup_record 510 = u16_at fixup_record (u16_at fixup_record 4) ∧
      u16_at fixup_record 1022 = u16_at fixup_record (u16_at fixup_record 4)) ∧
    ntfs_fixup_record fixup_record 510 = fixup_record (u16_at fixup_record 4 + 2) ∧
    ntfs_fixup_record fixup_record 511 = fixup_record (u16_at fixup_record 4 + 3) ∧
    ntfs_fixup_record fixup_record 1022 = fixup_record (u16_at fixup_record 4 + 4) ∧
    ntfs_fixup_record fixup_record 1023 = fixup_record (u16_at fixup_record 4 + 5) ∧
    ∀ i, i ≠ 510 → i ≠ 511 → i ≠ 1022 → i ≠ 1023 →
      ntfs_fixup_record fixup_record i = fixup_record i :=
  ⟨⟨by decide, by decide, by decide⟩,
    C33_fixup_replaces fixup_record
      (write_bytes_lt _ _ _ (write_bytes_lt _ _ _ (write_bytes_lt _ _ _
        (write_bytes_lt _ _ _ (fun _ => by decide) (by decide)) (by decide)) (by decide))
        (by decide))
      (by decide) (by decide) (by decide)⟩

theorem records_before_mono (dataruns : Nat → ntfs_parsed_datarun) (i : Nat) :
    ∀ k, records_before dataruns i ≤ records_before dataruns (i + k) := by
  intro k
  induction k with
  | zero => exact Nat.le_refl _
  | succ k ih =>
    rw [← Nat.add_assoc, records_before]
    exact Nat.le_trans ih (Nat.le_add_right _ _)

theorem records_before_le (dataruns : Nat → ntfs_parsed_datarun) (i j : Nat) (h : i ≤ j) :
    records_before dataruns i ≤ records_before dataruns j := by
  have := records_before_mono dataruns i (j - i)
  rwa [show i + (j - i) = j by omega] at this

theorem ntfs_get_absolute_offset_of_record_number_loop_spec (find_number : Nat)
    (dataruns : Nat → ntfs_parsed_datarun) :
    ∀ rounds i, records_before dataruns (i + rounds) < 2 ^ 64 →
      (∀ k, i ≤ k → k < i + rounds → records_before dataruns k ≤ find_number →
        find_number < records_before dataruns (k + 1) →
        ntfs_get_absolute_offset_of_record_number_loop find_number dataruns rounds i
            (records_before dataruns i)
          = ((dataruns k).offset + (find_number - records_before dataruns k) * 1024) % 2 ^ 64) ∧
      (find_number < records_before dataruns i ∨
          records_before dataruns (i + rounds) ≤ find_number →
        ntfs_get_absolute_offset_of_record_number_loop find_number dataruns rounds i
            (records_before dataruns i) = 0) := by
  intro rounds
  induction rounds with
  | zero =>
    intro i _
    exact ⟨fun k h1 h2 => by omega, fun _ => rfl⟩
  | succ rounds ih =>
    intro i htotal
    have hnext : records_before dataruns (i + 1)
        = records_before dataruns i + (dataruns i).length / NTFS_FILE_RECORD_SIZE := rfl
    have hle := records_before_le dataruns (i + 1) (i + (rounds + 1)) (by omega)
    have hmod : (records_before dataruns i + (dataruns i).length / NTFS_FILE_RECORD_SIZE) % 2 ^ 64
        = records_before dataruns (i + 1) := by
      rw [← hnext]
      exact Nat.mod_eq_of_lt (by omega)
    have hidx : i + 1 + rounds = i + (rounds + 1) := by omega
    obtain ⟨ih1, ih2⟩ := ih (i + 1) (by rw [hidx]; exact htotal)
    rw [ntfs_get_absolute_offset_of_record_number_loop]
    dsimp only
    rw [hmod]
    refine ⟨?_, ?_⟩
    · intro k k1 k2 k3 k4
      by_cases hk : k = i
      · subst hk
        rw [if_pos ⟨k3, k4⟩]
        unfold NTFS_FILE_RECORD_SIZE
        rw [Nat.add_mod_mod]
      · have := records_before_le dataruns (i + 1) k (by omega)
        rw [if_neg (by omega)]
        exact ih1 k (by omega) (by omega) k3 k4
    · intro h
      rw [if_neg (by omega)]
      apply ih2
      rcases h with h | h
      · left; have := records_before_le dataruns i (i + 1) (by omega); omega
      · right
        rw [hidx]
        exact h

/-- C35.  For a run table whose runs hold fewer than 2^64 records in total
(`records_before dataruns datarun_count`, the sum of `length / 1024`):
for a record number `f` with `s_i ≤ f < s_i + runs[i].length / 1024`, where
`s_i` is the number of records held by the runs before run `i`,
`ntfs_get_absolute_offset_of_record_number` returns
`(runs[i].offset + (f - s_i) * 1024) mod 2^64`; for `f` at or beyond the total
it returns 0. -/
theorem C35_offset_of_record_number (find_number : Nat) (dataruns : Nat → ntfs_parsed_datarun)
    (datarun_count : Nat) (htotal : records_before dataruns datarun_count < 2 ^ 64) :
    (∀ i, i < datarun_count → records_before dataruns i ≤ find_number →
      find_number < records_before dataruns i + (dataruns i).length / 1024 →
      ntfs_get_absolute_offset_of_record_number find_number dataruns datarun_count
        = ((dataruns i).offset + (find_number - records_before dataruns i) * 1024) % 2 ^ 64) ∧
    (records_before dataruns datarun_count ≤ find_number →
      ntfs_get_absolute_offset_of_record_number find_number dataruns datarun_count = 0) := by
  obtain ⟨h1, h2⟩ := ntfs_get_absolute_offset_of_record_number_loop_spec find_number dataruns
    datarun_count 0 (by rw [Nat.zero_add]; exact htotal)
  unfold ntfs_get_absolute_offset_of_record_number
  refine ⟨fun i hi a b => h1 i (Nat.zero_le _) (by omega) a b, fun h => h2 (Or.inr ?_)⟩
  rw [Nat.zero_add]
  exact h

theorem C35_offset_of_record_number_witness :
    records_before two_runs 2 < 2 ^ 64 ∧
    ((∀ i, i < 2 → records_before two_runs i ≤ 3 →
        3 < records_before two_runs i + (two_runs i).length / 1024 →
        ntfs_get_absolute_offset_of_record_number 3 two_runs 2
          = ((two_runs i).offset + (3 - records_before two_runs i) * 1024) % 2 ^ 64) ∧
      (records_before two_runs 2 ≤ 3 →
        ntfs_get_absolute_offset_of_record_number 3 two_runs 2 = 0)) ∧
    ntfs_get_absolute_offset_of_record_number 3 two_runs 2 = 1048576 + 1024 :=
  ⟨by decide, C35_offset_of_record_number 3 two_runs 2 (by decide), by decide⟩

/-- C35, as stated.  For the table of one run of two records at offset
2^64 - 1 and the record number 1 the function returns 1023, the sum modulo
2^64, and not `runs[0].offset + (1 - 0) * 1024`. -/
theorem C35_fails_for_offset_near_2_64 :
    ntfs_get_absolute_offset_of_record_number 1
        (fun _ => { length := 2048, offset := 2 ^ 64 - 1 }) 1 = 1023 ∧
    records_before (fun _ => { length := 2048, offset := 2 ^ 64 - 1 }) 0 ≤ 1 ∧
    1 < records_before (fun _ => { length := 2048, offset := 2 ^ 64 - 1 }) 0 + 2048 / 1024 ∧
    (1023 : Nat) ≠ (2 ^ 64 - 1) + (1 - 0) * 1024 := by
  decide

theorem bytes_of_succ_front (f : Nat → Nat) (n : Nat) :
    bytes_of f (n + 1) = f 0 :: bytes_of (fun j => f (j + 1)) n := by
  unfold bytes_of
  rw [List.range_succ_eq_map, List.map_cons, List.map_map]
  rfl

theorem le_value_lt (bs : List Nat) (h : ∀ b ∈ bs, b < 256) : le_value bs < 256 ^ bs.length := by
  induction bs with
  | nil => simp [le_value]
  | cons b l ih =>
    have hb := h b (List.mem_cons_self _ _)
    have hl := ih (fun x hx => h x (List.mem_cons_of_mem _ hx))
    simp only [le_value, List.length_cons, pow_succ]
    omega

theorem pow_256_le (j : Nat) (h : j ≤ 8) : 256 ^ j ≤ 2 ^ 64 := by
  calc 256 ^ j ≤ 256 ^ 8 := Nat.pow_le_pow_right (by omega) h
    _ = 2 ^ 64 := by norm_num

/-- The loops of `ntfs_next_datarun` that add up the bytes of a field compute
its little-endian value. -/
theorem ntfs_next_datarun_field_spec (m : Nat → Nat) (data : Nat) (hb : ∀ i, m i < 256) :
    ∀ rounds j i value, j + rounds ≤ 8 → value < 256 ^ j →
      ntfs_next_datarun_field m data rounds j i value
        = (i + rounds,
           value + 256 ^ j * le_value (bytes_of (fun t => m (data + i + t)) rounds)) := by
  intro rounds
  induction rounds with
  | zero =>
    intro j i value _ _
    simp [ntfs_next_datarun_field, bytes_of, le_value]
  | succ rounds ih =>
    intro j i value hj hv
    have hbyte := hb (data + i)
    have hshift : m (data + i) <<< (j * 8 % 64) = m (data + i) * 256 ^ j := by
      rw [Nat.mod_eq_of_lt (by omega), Nat.shiftLeft_eq, Nat.mul_comm j 8, pow_mul]
      norm_num
    have hpow := pow_256_le (j + 1) (by omega)
    have hstep : m (data + i) * 256 ^ j + value < 256 ^ (j + 1) := by
      rw [pow_succ]
      nlinarith
    rw [ntfs_next_datarun_field, hshift, Nat.mod_eq_of_lt (by omega),
      Nat.mod_eq_of_lt (by omega), ih (j + 1) (i + 1) _ (by omega) (by omega),
      bytes_of_succ_front, le_value]
    refine Prod.ext (by simp; omega) ?_
    simp only [Nat.add_zero]
    have e : (fun t => m (data + (i + 1) + t)) = fun j => m (data + i + (j + 1)) := by
      funext t
      congr 1
      omega
    rw [e, pow_succ]
    ring

/-- The loop of `ntfs_next_datarun` that sets the bytes from `j` upwards. -/
theorem ntfs_next_datarun_extend_spec :
    ∀ rounds j value, value < 2 ^ (8 * j) →
      ntfs_next_datarun_extend rounds j value = value + 2 ^ (8 * j) * (256 ^ rounds - 1) := by
  intro rounds
  induction rounds with
  | zero => intro j value _; simp [ntfs_next_datarun_extend]
  | succ rounds ih =>
    intro j value hv
    have hor : value ||| (0xFF <<< (j * 8)) = 2 ^ (8 * j) * 255 + value := by
      rw [Nat.shiftLeft_eq, Nat.mul_comm j 8, Nat.mul_comm 255, Nat.or_comm]
      exact (Nat.mul_add_lt_is_or hv 255).symm
    have hlt : 2 ^ (8 * j) * 255 + value < 2 ^ (8 * (j + 1)) := by
      rw [show 8 * (j + 1) = 8 * j + 8 by ring, pow_add]
      norm_num
      omega
    rw [ntfs_next_datarun_extend, hor, ih (j + 1) _ hlt]
    have h1 : 1 ≤ 256 ^ rounds := Nat.one_le_pow _ _ (by omega)
    have h2 : 1 ≤ 256 ^ (rounds + 1) := Nat.one_le_pow _ _ (by omega)
    rw [show 8 * (j + 1) = 8 * j + 8 by ring, pow_add]
    zify [h1, h2]
    rw [pow_succ]
    ring

theorem and_two_pow_ne_zero (v k : Nat) (hv : v < 2 ^ (k + 1)) :
    v &&& 2 ^ k ≠ 0 ↔ 2 ^ k ≤ v := by
  have hbit : (v &&& 2 ^ k).testBit k = v.testBit k := by
    rw [Nat.testBit_and, Nat.testBit_two_pow_self, Bool.and_true]
  have hdiv : v.testBit k = decide (2 ^ k ≤ v) := by
    rw [Nat.testBit_to_div_mod]
    have hlt : v / 2 ^ k < 2 := by
      rw [Nat.div_lt_iff_lt_mul (Nat.two_pow_pos k)]
      rw [pow_succ] at hv
      omega
    by_cases hle : 2 ^ k ≤ v
    · have : 1 ≤ v / 2 ^ k := (Nat.le_div_iff_mul_le (Nat.two_pow_pos k)).mpr (by omega)
      simp only [hle, decide_True, decide_eq_true_eq]
      omega
    · have : v / 2 ^ k = 0 := Nat.div_eq_of_lt (by omega)
      simp [hle, this]
  constructor
  · intro hne
    by_contra hle
    have hz : v &&& 2 ^ k = 0 := by
      apply Nat.eq_of_testBit_eq
      intro i
      rw [Nat.testBit_and, Nat.zero_testBit]
      by_cases hi : i = k
      · subst hi
        rw [hdiv]
        simp [hle]
      · rw [Nat.testBit_two_pow_of_ne (fun e => hi e.symm), Bool.and_false]
    exact hne hz
  · intro hle hz
    rw [hz, Nat.zero_testBit, hdiv] at hbit
    simp [hle] at hbit

/-- `ntfs_next_datarun` on a run whose field sizes are at most 8: the run takes
`1 + L + O` bytes, `*length_in_clusters` is the unsigned value of the length
field and `*offset_in_clusters` the signed value of the offset field as a
`u64`. -/
theorem ntfs_next_datarun_spec (m : Nat → Nat) (p : Nat) (hb : ∀ i, m i < 256)
    (hL : m p % 16 ≤ 8) (hO : m p / 16 % 16 ≤ 8) :
    ntfs_next_datarun m p
      = (p + 1 + m p % 16 + m p / 16 % 16, datarun_length_value m p,
         (datarun_delta m p % 2 ^ 64).toNat) := by
  unfold ntfs_next_datarun datarun_length_value datarun_delta
  dsimp only
  generalize hLd : m p % 16 = L at hL
  generalize hOd : m p / 16 % 16 = O at hO
  have f1 := ntfs_next_datarun_field_spec m (p + 1) hb L 0 0 0 (by omega) (by norm_num)
  rw [f1]
  dsimp only
  have f2 := ntfs_next_datarun_field_spec m (p + 1) hb O 0 (0 + L) 0 (by omega) (by norm_num)
  rw [f2]
  dsimp only
  simp only [Nat.zero_add, pow_zero, Nat.one_mul, Nat.add_zero]
  generalize hv : le_value (bytes_of (fun t => m (p + 1 + L + t)) O) = v
  have hvlt : v < 256 ^ O := by
    rw [← hv]
    have := le_value_lt (bytes_of (fun t => m (p + 1 + L + t)) O) (by
      intro b hmem
      unfold bytes_of at hmem
      obtain ⟨t, _, rfl⟩ := List.mem_map.mp hmem
      exact hb _)
    rwa [bytes_of_length] at this
  have hpow : (256 : Nat) ^ O = 2 ^ (8 * O) := by
    rw [pow_mul]
    norm_num
  rw [hpow] at hvlt
  have hP : 2 ^ (8 * O) ≤ 2 ^ 64 := Nat.pow_le_pow_right (by omega) (by omega)
  refine Prod.ext (by simp; omega) (Prod.ext rfl ?_)
  dsimp only
  by_cases hO0 : O = 0
  · subst hO0
    simp only [Nat.mul_zero, pow_zero, Nat.lt_one_iff] at hvlt
    subst hvlt
    simp
  · have hmask : (0x80 <<< ((O * 8 + 56) % 64)) % 2 ^ 64 = 2 ^ (8 * O - 1) := by
      have e1 : (O * 8 + 56) % 64 = 8 * O - 8 := by omega
      rw [e1, Nat.shiftLeft_eq, show (0x80 : Nat) = 2 ^ 7 by norm_num, ← pow_add,
        show 7 + (8 * O - 8) = 8 * O - 1 by omega]
      exact Nat.mod_eq_of_lt (Nat.pow_lt_pow_right (by omega) (by omega))
    have hsign := and_two_pow_ne_zero v (8 * O - 1)
      (by rw [show 8 * O - 1 + 1 = 8 * O by omega]; exact hvlt)
    have hhalf : 2 * 2 ^ (8 * O - 1) = 2 ^ (8 * O) := by
      rw [← pow_succ', show 8 * O - 1 + 1 = 8 * O by omega]
    rw [hmask]
    have hext := ntfs_next_datarun_extend_spec (8 - O) O v hvlt
    have hfull : 2 ^ (8 * O) * 256 ^ (8 - O) = 2 ^ 64 := by
      rw [show (256 : Nat) = 2 ^ 8 by norm_num, ← pow_mul, ← pow_add,
        show 8 * O + 8 * (8 - O) = 64 by omega]
    have hone : 1 ≤ 256 ^ (8 - O) := Nat.one_le_pow _ _ (by omega)
    have hext2 : ntfs_next_datarun_extend (8 - O) O v = v + 2 ^ 64 - 2 ^ (8 * O) := by
      rw [hext, Nat.mul_sub, hfull, Nat.mul_one]
      omega
    have hPi : ((2 : Int) ^ (8 * O)) = (((2 : Nat) ^ (8 * O) : Nat) : Int) := by norm_cast
    rw [hPi]
    clear hmask hext hfull hone hpow hPi
    generalize (2 : Nat) ^ (8 * O) = P at *
    generalize (2 : Nat) ^ (8 * O - 1) = H at *
    by_cases hs : H ≤ v
    · rw [if_pos (hsign.mpr hs), hext2, if_pos (by omega)]
      omega
    · rw [if_neg (fun h => hs (hsign.mp h)), if_neg (by omega)]
      omega

/-- The loop of `ntfs_mft_iter_open` builds the table the format describes,
`cluster` being the sum of the deltas so far modulo 2^64. -/
theorem ntfs_mft_iter_open_dataruns_spec (m : Nat → Nat) (bytes_per_cluster : Nat)
    (hb : ∀ i, m i < 256) :
    ∀ room p (cluster : Int), datarun_fields_fit m room p = true →
      ntfs_mft_iter_open_dataruns m bytes_per_cluster room p (cluster % 2 ^ 64).toNat
        = datarun_table m bytes_per_cluster room p cluster := by
  intro room
  induction room with
  | zero => intro p cluster _; rfl
  | succ room ih =>
    intro p cluster hfit
    rw [ntfs_mft_iter_open_dataruns, datarun_table]
    by_cases h0 : m p = 0
    · rw [if_neg (by simp [h0]), if_pos h0]
    · rw [datarun_fields_fit, if_neg h0] at hfit
      simp only [Bool.and_eq_true, decide_eq_true_eq] at hfit
      obtain ⟨⟨hL, hO⟩, hrest⟩ := hfit
      rw [if_pos h0, if_neg h0, ntfs_next_datarun_spec m p hb hL hO]
      dsimp only
      have hsum : ((cluster % 2 ^ 64).toNat + (datarun_delta m p % 2 ^ 64).toNat) % 2 ^ 64
          = ((cluster + datarun_delta m p) % 2 ^ 64).toNat := by
        omega
      rw [hsum, ih _ _ hrest]

/-- C32.  For a data-run list of bytes in which the headers of the runs read
have a length-field size `L` (low nibble) and an offset-field size `O` (high
nibble) of at most 8, the run table built by the loop of `ntfs_mft_iter_open`
with `ntfs_next_datarun` is the table the format describes: run `i` has
`length` = (the unsigned little-endian value of its `L` length bytes times
`bytes_per_cluster`) mod 2^64 and `offset` = ((the sum of the deltas of runs
0..i, each the `O` offset bytes read as a signed little-endian number, taken
modulo 2^64) times `bytes_per_cluster`) mod 2^64; each run consumes
`1 + L + O` bytes, and the list ends at the first header byte equal to zero or
after 128 runs. -/
theorem C32_run_table (m : Nat → Nat) (bytes_per_cluster p : Nat) (hb : ∀ i, m i < 256)
    (hfit : datarun_fields_fit m 128 p = true) :
    ntfs_mft_iter_open_dataruns m bytes_per_cluster 128 p 0
      = datarun_table m bytes_per_cluster 128 p 0 ∧
    (ntfs_mft_iter_open_dataruns m bytes_per_cluster 128 p 0).length ≤ 128 ∧
    (m p ≠ 0 →
      ntfs_next_datarun m p
        = (p + 1 + m p % 16 + m p / 16 % 16, datarun_length_value m p,
           (datarun_delta m p % 2 ^ 64).toNat)) := by
  have h := ntfs_mft_iter_open_dataruns_spec m bytes_per_cluster hb 128 p 0 hfit
  have hlen : ∀ room q (c : Int), (datarun_table m bytes_per_cluster room q c).length ≤ room := by
    intro room
    induction room with
    | zero => intro q c; simp [datarun_table]
    | succ room ih =>
      intro q c
      rw [datarun_table]
      split_ifs
      · simp
      · simp only [List.length_cons]
        have := ih (q + 1 + m q % 16 + m q / 16 % 16) (c + datarun_delta m q)
        omega
  refine ⟨h, ?_, ?_⟩
  · have h' : ntfs_mft_iter_open_dataruns m bytes_per_cluster 128 p 0
        = datarun_table m bytes_per_cluster 128 p 0 := h
    rw [h']
    exact hlen 128 p 0
  · intro h0
    rw [datarun_fields_fit, if_neg h0] at hfit
    simp only [Bool.and_eq_true, decide_eq_true_eq] at hfit
    exact ntfs_next_datarun_spec m p hb hfit.1.1 hfit.1.2

theorem two_dataruns_bytes : ∀ i, two_dataruns i < 256 := by
  intro i
  unfold two_dataruns mem_of
  rw [List.getD_eq_getElem?_getD]
  by_cases h : i < 8
  · interval_cases i <;> decide
  · rw [List.getElem?_eq_none (by simp; omega)]
    decide

theorem C32_run_table_witness :
    datarun_fields_fit two_dataruns 128 0 = true ∧
    (ntfs_mft_iter_open_dataruns two_dataruns 4096 128 0 0
        = datarun_table two_dataruns 4096 128 0 0 ∧
      (ntfs_mft_iter_open_dataruns two_dataruns 4096 128 0 0).length ≤ 128 ∧
      (two_dataruns 0 ≠ 0 →
        ntfs_next_datarun two_dataruns 0
          = (0 + 1 + two_dataruns 0 % 16 + two_dataruns 0 / 16 % 16,
             datarun_length_value two_dataruns 0,
             (datarun_delta two_dataruns 0 % 2 ^ 64).toNat))) ∧
    ntfs_mft_iter_open_dataruns two_dataruns 4096 128 0 0
      = [{ length := 65536, offset := 1048576 }, { length := 32768, offset := 983040 }] :=
  ⟨by decide, C32_run_table two_dataruns 4096 0 two_dataruns_bytes (by decide), by decide⟩

/-- C32, as stated.  For the list 0x11 0x01 0xFF (one cluster, delta -1) and
4096 bytes per cluster the table has one run with `length` 4096 and `offset`
2^64 - 4096: the product of the sum of the deltas modulo 2^64, 2^64 - 1, and
4096 is itself taken modulo 2^64. -/
theorem C32_fails_for_negative_cluster :
    ntfs_mft_iter_open_dataruns (mem_of [0x11, 0x01, 0xFF, 0x00]) 4096 128 0 0
      = [{ length := 4096, offset := 2 ^ 64 - 4096 }] ∧
    datarun_fields_fit (mem_of [0x11, 0x01, 0xFF, 0x00]) 128 0 = true ∧
    datarun_delta (mem_of [0x11, 0x01, 0xFF, 0x00]) 0 = -1 ∧
    (((0 : Int) + -1) % 2 ^ 64).toNat = 2 ^ 64 - 1 ∧
    (2 ^ 64 - 4096 : Nat) ≠ (2 ^ 64 - 1) * 4096 := by
  decide

/-! ## NTFS: the attribute walk, the parser and the iterator -/

/-- C34.  In record 10, whose first attribute (of type 0x10, at offset 56, inside
the record) has `attribute_size` 0, every call of `ntfs_next_attribute` after
the first returns true and yields the attribute at offset 56 again, so the walk
of `ntfs_parse_mft_record` does not end: no number of rounds makes the parser
return. -/
theorem C34_walk_repeats_zero_size_attribute :
    (∀ n, attribute_walk_state (ntfs_fixup_record zero_size_record) (n + 1) = (true, some 56)) ∧
    u32_at zero_size_record 60 = 0 ∧ u32_at zero_size_record 56 = 0x10 ∧
    (∀ fuel iter volume parsed_record,
      ntfs_parse_mft_record fuel iter volume zero_size_record parsed_record = none) := by
  have f1 : ntfs_next_attribute (ntfs_fixup_record zero_size_record) none = (true, some 56) := by
    decide
  have f2 : ntfs_next_attribute (ntfs_fixup_record zero_size_record) (some 56)
      = (true, some 56) := by decide
  have f3 : u32_at (ntfs_fixup_record zero_size_record) 56 ≠ NTFS_ATTRIBUTE_TYPE_FILE_NAME := by
    decide
  have f4 : u32_at (ntfs_fixup_record zero_size_record) 56
      ≠ NTFS_ATTRIBUTE_TYPE_ATTRIBUTE_LIST := by decide
  have f5 : u32_at zero_size_record 0 = NTFS_MAGIC_NUMBER := by decide
  have f6 : u16_at zero_size_record 22 % 2 = 1 := by decide
  have hstate : ∀ n, attribute_walk_state (ntfs_fixup_record zero_size_record) (n + 1)
      = (true, some 56) := by
    intro n
    induction n with
    | zero => exact f1
    | succ n ih => rw [attribute_walk_state, ih]; exact f2
  have hwalk : ∀ fuel iter volume,
      ntfs_parse_walk iter volume (ntfs_fixup_record zero_size_record) fuel (some 56) = none := by
    intro fuel iter volume
    induction fuel with
    | zero => rfl
    | succ fuel ih =>
      rw [ntfs_parse_walk, f2]
      dsimp only
      rw [Option.getD_some, if_neg f3, if_neg f4]
      exact ih
  refine ⟨hstate, by decide, by decide, ?_⟩
  intro fuel iter volume parsed_record
  unfold ntfs_parse_mft_record
  rw [if_pos f5, if_pos f6]
  dsimp only
  cases fuel with
  | zero => rfl
  | succ fuel =>
    rw [ntfs_parse_walk, f1]
    dsimp only
    rw [Option.getD_some, if_neg f3, if_neg f4, hwalk]

/-- The walk of `ntfs_parse_mft_record` over a record without attribute list,
in terms of the attributes the walk yields. -/
theorem ntfs_parse_walk_spec (iter : ntfs_mft_iter) (volume : ntfs_volume) (record : Nat → Nat) :
    ∀ fuel attr attrs, attribute_walk record fuel attr = some attrs →
      (∀ a ∈ attrs, u32_at record a ≠ NTFS_ATTRIBUTE_TYPE_ATTRIBUTE_LIST) →
      ntfs_parse_walk iter volume record fuel attr
        = some (match attrs.find? (ends_name_search record) with
            | some a =>
              if record (a + 8) = 0 then Except.ok (some (record, a))
              else Except.error NTFS_ERROR_PARSE_FILE_NAME_ATTRIBUTE_NON_RESIDENT
            | none => Except.ok none) := by
  intro fuel
  induction fuel with
  | zero => intro attr attrs h; cases h
  | succ fuel ih =>
    intro attr attrs h hlist
    rw [attribute_walk] at h
    rw [ntfs_parse_walk]
    cases hnext : ntfs_next_attribute record attr with
    | mk flag next =>
      rw [hnext] at h
      cases flag with
      | false =>
        simp only [Option.some.injEq] at h
        subst h
        rfl
      | true =>
        dsimp only at h ⊢
        cases hrest : attribute_walk record fuel next with
        | none => rw [hrest] at h; cases h
        | some l =>
          rw [hrest] at h
          simp only [Option.map_some', Option.some.injEq] at h
          subst h
          have hih := ih next l hrest (fun a ha => hlist a (List.mem_cons_of_mem _ ha))
          have hnl := hlist (next.getD 0) (List.mem_cons_self _ _)
          rw [List.find?_cons]
          by_cases ht : u32_at record (next.getD 0) = NTFS_ATTRIBUTE_TYPE_FILE_NAME
          · rw [if_pos ht]
            by_cases hr : record (next.getD 0 + 8) = 0
            · rw [if_pos hr]
              by_cases hd : record (next.getD 0 + 89) ≠ NTFS_NAMESPACE_DOS
              · rw [if_pos hd]
                have : ends_name_search record (next.getD 0) = true := by
                  unfold ends_name_search
                  simp [ht, hd]
                rw [this]
                dsimp only
                rw [if_pos hr]
              · rw [if_neg hd]
                have : ends_name_search record (next.getD 0) = false := by
                  unfold ends_name_search
                  simp only [ne_eq, hr, not_true_eq_false, decide_False, hd, Bool.or_self,
                    Bool.and_false]
                rw [this]
                exact hih
            · rw [if_neg hr]
              have : ends_name_search record (next.getD 0) = true := by
                unfold ends_name_search
                simp [ht, hr]
              rw [this]
              dsimp only
              rw [if_neg hr]
          · rw [if_neg ht, if_neg hnl]
            have : ends_name_search record (next.getD 0) = false := by
              unfold ends_name_search
              simp [ht]
            rw [this]
            exact hih

/-- The result of `ntfs_parse_mft_record` for an in-use record with the FILE
magic whose attribute walk ends and meets no attribute list: the record as
`ntfs_fixup_record` leaves it, and what the walk makes of it. -/
theorem ntfs_parse_mft_record_walk (fuel : Nat) (iter : ntfs_mft_iter) (volume : ntfs_volume)
    (record : Nat → Nat) (parsed_record : ntfs_parsed_mft_record) (attrs : List Nat)
    (hmagic : u32_at record 0 = NTFS_MAGIC_NUMBER) (huse : u16_at record 22 % 2 = 1)
    (hwalk : attribute_walk (ntfs_fixup_record record) fuel none = some attrs)
    (hlist : ∀ a ∈ attrs,
      u32_at (ntfs_fixup_record record) a ≠ NTFS_ATTRIBUTE_TYPE_ATTRIBUTE_LIST) :
    ntfs_parse_mft_record fuel iter volume record parsed_record
      = some (ntfs_fixup_record record,
          parsed_from_walk (ntfs_fixup_record record) attrs parsed_record) := by
  unfold ntfs_parse_mft_record parsed_from_walk
  rw [if_pos hmagic, if_pos huse]
  dsimp only
  rw [ntfs_parse_walk_spec iter volume _ fuel none attrs hwalk hlist]
  cases attrs.find? (ends_name_search (ntfs_fixup_record record)) with
  | none => rfl
  | some a =>
    dsimp only
    by_cases hr : ntfs_fixup_record record (a + 8) = 0
    · rw [if_pos hr, if_pos hr]
    · rw [if_neg hr, if_neg hr]

/-- `ntfs_fixup_record` returns at the first sub-block whose last two bytes
equal neither the check word nor the entry of the sub-block: the record is left
as it is. -/
theorem ntfs_fixup_record_first_mismatch (record : Nat → Nat)
    (hcheck : u16_at record 510 ≠ u16_at record (u16_at record 4))
    (hentry : u16_at record (u16_at record 4 + 2) ≠ u16_at record 510) :
    ntfs_fixup_record record = record := by
  unfold ntfs_fixup_record
  simp only [ntfs_fixup_record_loop]
  rw [if_pos (by decide)]
  have h510 : SEQUENCE_NUMBER_STRIDE - 2 = 510 := rfl
  rw [h510, if_neg hcheck]
  rw [if_pos (by simpa using hentry)]

/-- The parse error `parsed_from_walk` leaves is the one it was given or one of
the two `$FILE_NAME` errors. -/
theorem parsed_from_walk_error (record : Nat → Nat) (attrs : List Nat)
    (parsed_record : ntfs_parsed_mft_record) :
    (parsed_from_walk record attrs parsed_record).parse_error = parsed_record.parse_error ∨
    (parsed_from_walk record attrs parsed_record).parse_error
      = NTFS_ERROR_PARSE_FILE_NAME_ATTRIBUTE_NON_RESIDENT ∨
    (parsed_from_walk record attrs parsed_record).parse_error
      = NTFS_ERROR_PASRE_FILE_NAME_ATTRIBUTE_MISSING := by
  unfold parsed_from_walk
  cases attrs.find? (ends_name_search record) with
  | none => exact Or.inr (Or.inr rfl)
  | some a =>
    dsimp only
    by_cases hr : record (a + 8) = 0
    · rw [if_pos hr]; exact Or.inl rfl
    · rw [if_neg hr]; exact Or.inr (Or.inl rfl)

/-- With a resident first name attribute `parsed_from_walk` keeps the parse
error it was given and takes the name of the attribute. -/
theorem parsed_from_walk_resident (record : Nat → Nat) (attrs : List Nat)
    (parsed_record : ntfs_parsed_mft_record) (a : Nat)
    (hfind : attrs.find? (ends_name_search record) = some a) (hres : record (a + 8) = 0) :
    (parsed_from_walk record attrs parsed_record).parse_error = parsed_record.parse_error ∧
    (parsed_from_walk record attrs parsed_record).name = ntfs_file_name record a ∧
    (parsed_from_walk record attrs parsed_record).id
      = u32_at record 44 + 2 ^ 48 * u16_at record 16 := by
  unfold parsed_from_walk
  rw [hfind]
  dsimp only
  rw [if_pos hres]
  exact ⟨rfl, rfl, rfl⟩

/-- C22.  For an in-use record with the FILE magic, let the walk over the
record as `ntfs_fixup_record` leaves it end within `fuel` calls and yield the
attributes `attrs`, none of them an attribute list.  Then
`ntfs_parse_mft_record` returns, and it goes by the first `$FILE_NAME`
attribute in walk order that is non-resident or resident with a namespace other
than DOS: if that attribute is resident, the result has
id = (header record_number, header sequence_number) and the name, the name
length and the parent reference of the attribute; if it is non-resident, the
result is the FILE_NAME-non-resident parse error; if there is none, the result
is the FILE_NAME-missing parse error. -/
theorem C22_first_file_name (fuel : Nat) (iter : ntfs_mft_iter) (volume : ntfs_volume)
    (record : Nat → Nat) (parsed_record : ntfs_parsed_mft_record) (attrs : List Nat)
    (hmagic : u32_at record 0 = NTFS_MAGIC_NUMBER) (huse : u16_at record 22 % 2 = 1)
    (hwalk : attribute_walk (ntfs_fixup_record record) fuel none = some attrs)
    (hlist : ∀ a ∈ attrs,
      u32_at (ntfs_fixup_record record) a ≠ NTFS_ATTRIBUTE_TYPE_ATTRIBUTE_LIST) :
    ntfs_parse_mft_record fuel iter volume record parsed_record
      = some (ntfs_fixup_record record,
          parsed_from_walk (ntfs_fixup_record record) attrs parsed_record) :=
  ntfs_parse_mft_record_walk fuel iter volume record parsed_record attrs hmagic huse hwalk hlist

theorem C22_first_file_name_witness :
    (u32_at plain_record 0 = NTFS_MAGIC_NUMBER ∧ u16_at plain_record 22 % 2 = 1 ∧
      attribute_walk (ntfs_fixup_record plain_record) 3 none = some [56] ∧
      ∀ a ∈ [56],
        u32_at (ntfs_fixup_record plain_record) a ≠ NTFS_ATTRIBUTE_TYPE_ATTRIBUTE_LIST) ∧
    ntfs_parse_mft_record 3 (one_run_iter 1) (two_record_volume plain_record plain_record)
        plain_record zero_parsed_record
      = some (ntfs_fixup_record plain_record,
          parsed_from_walk (ntfs_fixup_record plain_record) [56] zero_parsed_record) ∧
    parsed_from_walk (ntfs_fixup_record plain_record) [56] zero_parsed_record
      = { parse_error := NTFS_ERROR_NONE, id := 8 + 2 ^ 48, parent_id := 5 + 2 ^ 48,
          name := [98], name_len := 1, attributes := 0 } :=
  ⟨⟨by decide, by decide, by decide, by decide⟩,
    C22_first_file_name 3 (one_run_iter 1) (two_record_volume plain_record plain_record)
      plain_record zero_parsed_record [56] (by decide) (by decide) (by decide) (by decide),
    by decide⟩

set_option maxRecDepth 100000 in
/-- C22, as stated.  Record 9 is in use, has the FILE magic and no attribute
list; its walk yields the attributes at 56 and 72, and the one at 72 is a
resident `$FILE_NAME` attribute in the WIN32 namespace, the first and only one
of that kind.  The parser returns the FILE_NAME-non-resident parse error and no
name, because the attribute at 56 is a non-resident `$FILE_NAME` attribute. -/
theorem C22_fails_behind_non_resident_name :
    u32_at non_resident_first_record 0 = NTFS_MAGIC_NUMBER ∧
    u16_at non_resident_first_record 22 % 2 = 1 ∧
    attribute_walk (ntfs_fixup_record non_resident_first_record) 4 none = some [56, 72] ∧
    (u32_at (ntfs_fixup_record non_resident_first_record) 72 = NTFS_ATTRIBUTE_TYPE_FILE_NAME ∧
      ntfs_fixup_record non_resident_first_record (72 + 8) = 0 ∧
      ntfs_fixup_record non_resident_first_record (72 + 89) = 1) ∧
    (u32_at (ntfs_fixup_record non_resident_first_record) 56 = NTFS_ATTRIBUTE_TYPE_FILE_NAME ∧
      ntfs_fixup_record non_resident_first_record (56 + 8) = 1) ∧
    (ntfs_parse_mft_record 4 (one_run_iter 1)
        (two_record_volume non_resident_first_record non_resident_first_record)
        non_resident_first_record zero_parsed_record).map Prod.snd
      = some { parse_error := NTFS_ERROR_PARSE_FILE_NAME_ATTRIBUTE_NON_RESIDENT, id := 0,
               parent_id := 0, name := [], name_len := 0, attributes := 0 } := by
  decide

/-- C21, as stated, fails.  Record 7 is in use and has the FILE magic; the last
two bytes of its first sub-block, 0xAAAA, differ from the check word 0x0001 and
from entry 1 of the update sequence array.  `ntfs_fixup_record` returns without
a sign of it, `ntfs_parse_mft_record` reports no parse error and yields the name
"a", and the loop that builds the index from the volume holding record 7 and
record 8 inserts record 7. -/
theorem C21_fixup_mismatch_not_reported :
    u32_at mismatch_record 0 = NTFS_MAGIC_NUMBER ∧ u16_at mismatch_record 22 % 2 = 1 ∧
    u16_at mismatch_record 510 = 0xAAAA ∧
    u16_at mismatch_record (u16_at mismatch_record 4) = 1 ∧
    u16_at mismatch_record (u16_at mismatch_record 4 + 2) = 0x1111 ∧
    (ntfs_parse_mft_record 3 (one_run_iter 2) (two_record_volume mismatch_record plain_record)
        mismatch_record zero_parsed_record).map Prod.snd
      = some { parse_error := NTFS_ERROR_NONE, id := 7 + 2 ^ 48, parent_id := 5 + 2 ^ 48,
               name := [97], name_len := 1, attributes := 0 } ∧
    (server_build_index 3 heap_always (two_record_volume mismatch_record plain_record) 3
        (one_run_iter 2) db_create).map
        (fun p => (p.1, p.2.record_array.count, (p.2.record_array.elems 0).id,
          bytes_of p.2.name_buffer.elems p.2.name_buffer.count))
      = some ([{ parse_error := NTFS_ERROR_NONE, id := 7 + 2 ^ 48, parent_id := 5 + 2 ^ 48,
                 name := [97], name_len := 1, attributes := 0 }],
              1, 7 + 2 ^ 48, [97, 0]) := by
  decide

/-- C21 (amended).  For an in-use record with the FILE magic in which the last
two bytes of one of the two 512-byte sub-blocks differ from the check word,
`ntfs_parse_mft_record` reports no parse error for the mismatch:
`ntfs_fixup_record` returns nothing, and when it meets a sub-block whose last
two bytes equal neither the check word nor the entry of the sub-block it stops
and leaves the record as it is.  The record is then parsed like any other: when
its attribute walk ends within `fuel` calls and meets no attribute list,
`ntfs_parse_mft_record` returns what the walk gives, the parse error is the one
the caller passed in (NTFS_ERROR_NONE after the caller's zeroing) or one of the
two `$FILE_NAME` errors, and when the first `$FILE_NAME` attribute that is
non-resident or not in the DOS namespace is resident, the result carries no new
parse error, the id of the header and the name of that attribute. -/
theorem C21_fixup_mismatch_parsed (fuel : Nat) (iter : ntfs_mft_iter) (volume : ntfs_volume)
    (record : Nat → Nat) (parsed_record : ntfs_parsed_mft_record) (attrs : List Nat)
    (hmagic : u32_at record 0 = NTFS_MAGIC_NUMBER) (huse : u16_at record 22 % 2 = 1)
    (_hmismatch : u16_at record 510 ≠ u16_at record (u16_at record 4) ∨
      u16_at record 1022 ≠ u16_at record (u16_at record 4))
    (hwalk : attribute_walk (ntfs_fixup_record record) fuel none = some attrs)
    (hlist : ∀ a ∈ attrs,
      u32_at (ntfs_fixup_record record) a ≠ NTFS_ATTRIBUTE_TYPE_ATTRIBUTE_LIST) :
    (u16_at record 510 ≠ u16_at record (u16_at record 4) →
      u16_at record (u16_at record 4 + 2) ≠ u16_at record 510 →
      ntfs_fixup_record record = record) ∧
    ∃ parsed, ntfs_parse_mft_record fuel iter volume record parsed_record
        = some (ntfs_fixup_record record, parsed) ∧
      parsed = parsed_from_walk (ntfs_fixup_record record) attrs parsed_record ∧
      (parsed.parse_error = parsed_record.parse_error ∨
        parsed.parse_error = NTFS_ERROR_PARSE_FILE_NAME_ATTRIBUTE_NON_RESIDENT ∨
        parsed.parse_error = NTFS_ERROR_PASRE_FILE_NAME_ATTRIBUTE_MISSING) ∧
      (∀ a, attrs.find? (ends_name_search (ntfs_fixup_record record)) = some a →
        ntfs_fixup_record record (a + 8) = 0 →
        parsed.parse_error = parsed_record.parse_error ∧
        parsed.name = ntfs_file_name (ntfs_fixup_record record) a ∧
        parsed.id = u32_at (ntfs_fixup_record record) 44
          + 2 ^ 48 * u16_at (ntfs_fixup_record record) 16) := by
  refine ⟨ntfs_fixup_record_first_mismatch record, _,
    ntfs_parse_mft_record_walk fuel iter volume record parsed_record attrs hmagic huse hwalk
      hlist, rfl, parsed_from_walk_error _ _ _, fun a hfind hres => ?_⟩
  exact parsed_from_walk_resident _ attrs parsed_record a hfind hres

set_option maxRecDepth 100000 in
/-- The amended C21 at record 7, whose first sub-block ends in 0xAAAA: the
record is left as it is and parsed without a parse error, with the id (7, 1)
and the name "a". -/
theorem C21_fixup_mismatch_parsed_witness :
    (u32_at mismatch_record 0 = NTFS_MAGIC_NUMBER ∧ u16_at mismatch_record 22 % 2 = 1 ∧
      (u16_at mismatch_record 510 ≠ u16_at mismatch_record (u16_at mismatch_record 4) ∨
        u16_at mismatch_record 1022 ≠ u16_at mismatch_record (u16_at mismatch_record 4)) ∧
      attribute_walk (ntfs_fixup_record mismatch_record) 3 none = some [56] ∧
      (∀ a ∈ [56],
        u32_at (ntfs_fixup_record mismatch_record) a ≠ NTFS_ATTRIBUTE_TYPE_ATTRIBUTE_LIST) ∧
      u16_at mismatch_record (u16_at mismatch_record 4 + 2) ≠ u16_at mismatch_record 510 ∧
      [56].find? (ends_name_search (ntfs_fixup_record mismatch_record)) = some 56 ∧
      ntfs_fixup_record mismatch_record (56 + 8) = 0) ∧
    ((u16_at mismatch_record 510 ≠ u16_at mismatch_record (u16_at mismatch_record 4) →
      u16_at mismatch_record (u16_at mismatch_record 4 + 2) ≠ u16_at mismatch_record 510 →
      ntfs_fixup_record mismatch_record = mismatch_record) ∧
    ∃ parsed, ntfs_parse_mft_record 3 (one_run_iter 2)
          (two_record_volume mismatch_record plain_record) mismatch_record zero_parsed_record
        = some (ntfs_fixup_record mismatch_record, parsed) ∧
      parsed = parsed_from_walk (ntfs_fixup_record mismatch_record) [56] zero_parsed_record ∧
      (parsed.parse_error = zero_parsed_record.parse_error ∨
        parsed.parse_error = NTFS_ERROR_PARSE_FILE_NAME_ATTRIBUTE_NON_RESIDENT ∨
        parsed.parse_error = NTFS_ERROR_PASRE_FILE_NAME_ATTRIBUTE_MISSING) ∧
      (∀ a, [56].find? (ends_name_search (ntfs_fixup_record mismatch_record)) = some a →
        ntfs_fixup_record mismatch_record (a + 8) = 0 →
        parsed.parse_error = zero_parsed_record.parse_error ∧
        parsed.name = ntfs_file_name (ntfs_fixup_record mismatch_record) a ∧
        parsed.id = u32_at (ntfs_fixup_record mismatch_record) 44
          + 2 ^ 48 * u16_at (ntfs_fixup_record mismatch_record) 16)) ∧
    parsed_from_walk (ntfs_fixup_record mismatch_record) [56] zero_parsed_record
      = { parse_error := NTFS_ERROR_NONE, id := 7 + 2 ^ 48, parent_id := 5 + 2 ^ 48,
          name := [97], name_len := 1, attributes := 0 } :=
  ⟨⟨by decide, by decide, by decide, by decide, by decide, by decide, by decide, by decide⟩,
    C21_fixup_mismatch_parsed 3 (one_run_iter 2) (two_record_volume mismatch_record plain_record)
      mismatch_record zero_parsed_record [56] (by decide) (by decide) (by decide) (by decide)
      (by decide),
    by decide⟩

/-- C23.  The iterator over one run of two records, record 8 twice, both
parsed without error: the first call of `ntfs_mft_iter_advance` returns true
with the first record, the second call parses the second record and returns
false, so the loop `while (ntfs_mft_iter_advance(...))` receives one record of
the two and the index holds one record. -/
theorem C23_last_record_not_received :
    (one_run_iter 2).data_run_count = 1 ∧ ((one_run_iter 2).data_runs 0).length = 2 * 1024 ∧
    (ntfs_mft_iter_advance 3 (two_record_volume plain_record plain_record) (one_run_iter 2)).map
        (fun p => (p.1, p.2.1.current_datarun, p.2.1.current_offset_in_datarun, p.2.2))
      = some (true, 0, 1024,
          { parse_error := NTFS_ERROR_NONE, id := 8 + 2 ^ 48, parent_id := 5 + 2 ^ 48,
            name := [98], name_len := 1, attributes := 0 }) ∧
    ((ntfs_mft_iter_advance 3 (two_record_volume plain_record plain_record) (one_run_iter 2)).bind
        fun p => (ntfs_mft_iter_advance 3 (two_record_volume plain_record plain_record) p.2.1).map
          fun q => (q.1, q.2.1.current_datarun, q.2.1.current_offset_in_datarun, q.2.2))
      = some (false, 1, 0,
          { parse_error := NTFS_ERROR_NONE, id := 8 + 2 ^ 48, parent_id := 5 + 2 ^ 48,
            name := [98], name_len := 1, attributes := 0 }) ∧
    (server_build_index 3 heap_always (two_record_volume plain_record plain_record) 3
        (one_run_iter 2) db_create).map (fun p => (p.1.length, p.2.record_array.count))
      = some (1, 1) := by
  decide

/-- The call of `ntfs_mft_iter_advance` that parses the last record of the last
run returns false, if it returns at all. -/
theorem ntfs_mft_iter_advance_last (fuel : Nat) (volume : ntfs_volume) (iter : ntfs_mft_iter)
    (hrun : iter.current_datarun + 1 = iter.data_run_count) (hcount : iter.data_run_count < 2 ^ 32)
    (hlast : (iter.data_runs iter.current_datarun).length
      ≤ (iter.current_offset_in_datarun + NTFS_FILE_RECORD_SIZE) % 2 ^ 64)
    (r : Bool × ntfs_mft_iter × ntfs_parsed_mft_record)
    (h : ntfs_mft_iter_advance fuel volume iter = some r) : r.1 = false := by
  unfold ntfs_mft_iter_advance at h
  dsimp only at h
  by_cases h1 : iter.buffer_size = 0
  · rw [if_pos h1] at h
    cases h
  · rw [if_neg h1] at h
    generalize (if iter.current_offset_in_datarun % iter.buffer_size = 0 then
        ntfs_read_from_volume volume iter.buffer iter.buffer_size
          (((iter.data_runs iter.current_datarun).offset + iter.current_offset_in_datarun)
            % 2 ^ 64)
      else (true, iter.buffer)) = chunk at h
    by_cases hc : chunk.1 = false
    · rw [if_pos hc] at h
      simp only [Option.some.injEq] at h
      rw [← h]
    · rw [if_neg hc] at h
      split at h
      · cases h
      · rw [if_pos hlast] at h
        rw [if_pos (by rw [Nat.mod_eq_of_lt (by omega)]; exact hrun)] at h
        simp only [Option.some.injEq] at h
        rw [← h]

end quickfind
